import Mathlib

set_option autoImplicit false

/-!
# fn: bytecode compiler and virtual machine

A shallow embedding of the core of the `fn` language runtime:

* `include/base.hpp`, `include/values.hpp`, `include/bytes.hpp`: value encoding, opcodes;
* `src/vm.cpp`: bytecode module, call frames, the stack machine (`VM::step`, `VM::execute`);
* `src/compile2.cpp`: the single-pass compiler of s-expressions into bytecode.

Machine integers are natural numbers, reduced modulo `2^w` where the C++ arithmetic can wrap.
Pointers are indices into typed stores.  Behaviour that is undefined in C++ (null or wild
dereference) is an explicit outcome, and so is a thrown `FNError`, which carries the
state at the moment of the throw.
-/

namespace fn

/-! ## base.hpp -/

/-- Source location record `(filename, line, column)`. -/
structure SourceLoc where
  filename : String
  line : Int
  col : Int
  deriving DecidableEq, Repr

/-- The exception type of the runtime (`FNError` in vm.cpp, `fn_error` in base.hpp). -/
structure FNError where
  subsystem : String
  message : String
  origin : SourceLoc
  deriving DecidableEq, Repr

/-- Truncation to an unsigned 8-bit integer. -/
def u8 (n : Nat) : Nat := n % 256

/-- Truncation to an unsigned 16-bit integer. -/
def u16 (n : Nat) : Nat := n % 65536

/-- Truncation to an unsigned 32-bit integer. -/
def u32 (n : Nat) : Nat := n % 4294967296

/-- The value of `static_cast<i8>(b)` for a byte `b`, as a 32-bit unsigned addend:
bytes below 128 are themselves, bytes from 128 on stand for `b - 256`. -/
def i8_as_u32 (b : Nat) : Nat := if b < 128 then b else 4294967296 + b - 256

/-- The text of `to_string(ip)` for a 32-bit unsigned `ip`. -/
def to_string_u32 (ip : Nat) : String := toString ip

/-- The text of `to_string((i32)ip)`. -/
def to_string_i32 (ip : Nat) : String :=
  if ip < 2147483648 then toString ip else toString ((ip : Int) - 4294967296)

/-! ## values.hpp -/

def TAG_NUM : Nat := 0
def TAG_CONS : Nat := 1
def TAG_STRING : Nat := 2
def TAG_TABLE : Nat := 3
def TAG_FUNC : Nat := 4
def TAG_FOREIGN : Nat := 5
def TAG_NAMESPACE : Nat := 6
def TAG_EXT : Nat := 7
def TAG_NULL : Nat := 8
def TAG_TRUE : Nat := 9
def TAG_FALSE : Nat := 10
def TAG_EMPTY : Nat := 11
def TAG_SYM : Nat := 12

/-- The 64-bit tagged value: `union value` with its `raw` member. -/
structure Value where
  raw : Nat
  deriving DecidableEq, Repr

def V_NULL : Value := ⟨TAG_NULL⟩
def V_FALSE : Value := ⟨TAG_FALSE⟩
def V_TRUE : Value := ⟨TAG_TRUE⟩
def V_EMPTY : Value := ⟨TAG_EMPTY⟩

/-- The mask `~0xf` on 64 bits. -/
def PTR_MASK : Nat := 0xFFFFFFFFFFFFFFF0

def Value.tag (v : Value) : Nat := v.raw &&& 0xf
def Value.is_num (v : Value) : Bool := (v.raw &&& 0xf) == TAG_NUM
def Value.is_symbol (v : Value) : Bool := (v.raw &&& 0xf) == TAG_SYM
def Value.is_string (v : Value) : Bool := (v.raw &&& 0xf) == TAG_STRING
def Value.is_null (v : Value) : Bool := v.raw == TAG_NULL
def Value.is_function (v : Value) : Bool := (v.raw &&& 0xf) == TAG_FUNC
def Value.is_foreign (v : Value) : Bool := (v.raw &&& 0xf) == TAG_FOREIGN
def Value.get_pointer (v : Value) : Nat := v.raw &&& PTR_MASK
def Value.usym_id (v : Value) : Nat := u32 ((v.raw &&& PTR_MASK) >>> 4)

/-- The overload `as_value(f64 num)`; the double is given by its IEEE-754 bit pattern. -/
def as_value_num (num : Nat) : Value := ⟨(num &&& PTR_MASK) ||| TAG_NUM⟩

/-- The overload `as_value(bool b)`. -/
def as_value_bool (b : Bool) : Value := if b then V_TRUE else V_FALSE

/-- The function `as_sym_value(symbol_id sym)`: the shift is done on 32 bits. -/
def as_sym_value (sym : Nat) : Value := ⟨u32 (sym <<< 4) ||| TAG_SYM⟩

/-- The overloads of `as_value` for heap pointers: the pointer with the tag in its low bits. -/
def as_value_ptr (ptr : Nat) (tag : Nat) : Value := ⟨ptr ||| tag⟩

def v_same (a b : Value) : Bool := a.raw == b.raw

/-- Truthiness: everything but null and false is truthy. -/
def v_truthy (a : Value) : Bool := !(v_same a V_FALSE || v_same a V_NULL)

/-- Modelled from the spec: `isTruthy`, `isFunc`, `isForeign`, `isString`, `valueFunc`,
`valueForeign`, `valueString`, `makeFuncValue` and `makeForeignValue` are used by vm.cpp and
declared in a header that is not in src; they are the tag tests and pointer conversions of
values.hpp under their older names. -/
def isTruthy (v : Value) : Bool := v_truthy v

def isFunc (v : Value) : Bool := v.is_function
def isForeign (v : Value) : Bool := v.is_foreign
def isString (v : Value) : Bool := v.is_string
def makeFuncValue (ptr : Nat) : Value := as_value_ptr ptr TAG_FUNC
def makeForeignValue (ptr : Nat) : Value := as_value_ptr ptr TAG_FOREIGN

/-- A captured-variable descriptor of a function stub. -/
structure Upvalue where
  slot : Nat
  direct : Bool
  deriving DecidableEq, Repr

/-- The function stub as vm.cpp builds it in `Bytecode::addFunction`. -/
structure FuncStub where
  positional : Nat
  required : Nat
  varargs : Bool
  numUpvals : Nat
  upvals : List Upvalue
  addr : Nat
  deriving DecidableEq, Repr

/-- The loop of `FuncStub::getUpvalue`: the first index `i < numUpvals` with
`upvals[i] = (slot, direct)`, counting from `i`. -/
def FuncStub.findUpvalue (slot : Nat) (direct : Bool) : List Upvalue → Nat → Nat → Option Nat
  | [], _, _ => none
  | u :: rest, i, numUpvals =>
    if i < numUpvals then
      if u.slot = slot ∧ u.direct = direct then some i
      else FuncStub.findUpvalue slot direct rest (i + 1) numUpvals
    else none

/-- `FuncStub::getUpvalue`: the id of the upvalue and the stub afterwards. -/
def FuncStub.getUpvalue (s : FuncStub) (slot : Nat) (direct : Bool) : Nat × FuncStub :=
  match FuncStub.findUpvalue slot direct s.upvals 0 s.numUpvals with
  | some i => (i, s)
  | none => (s.numUpvals,
      { s with upvals := s.upvals ++ [⟨slot, direct⟩], numUpvals := u8 (s.numUpvals + 1) })

/-- A closure object: a pointer to its stub (the index of the stub in the bytecode's function
table) and its array of upvalue slot pointers (null pointers are `none`). -/
structure Function where
  stub : Nat
  upvals : List (Option Nat)
  deriving DecidableEq, Repr

/-- A foreign function object; `func` is the address of the host function. -/
structure ForeignFunc where
  minArgs : Nat
  varArgs : Bool
  func : Nat
  deriving DecidableEq, Repr

/-- Heap objects the core reads through a tagged pointer. -/
inductive Obj where
  | string (s : String)
  | func (f : Function)
  | foreign (f : ForeignFunc)
  deriving DecidableEq, Repr

/-- The object heap: object number `i` lives at the 32-byte aligned address `32 * (i + 1)`. -/
abbrev Heap := List Obj

/-- Dereference of an object pointer; `none` when no object lives at the address. -/
def Heap.lookup (h : Heap) (ptr : Nat) : Option Obj :=
  if ptr % 32 = 0 ∧ ptr ≠ 0 then h.get? (ptr / 32 - 1) else none

/-- Allocation (`new`): the heap afterwards and the address of the new object. -/
def Heap.alloc (h : Heap) (o : Obj) : Heap × Nat := (h ++ [o], 32 * (h.length + 1))

/-- Overwrite of the object at an address. -/
def Heap.store (h : Heap) (ptr : Nat) (o : Obj) : Heap := h.set (ptr / 32 - 1) o

/-- The conversion `valueString(v)` followed by dereference. -/
def valueString (h : Heap) (v : Value) : Option String :=
  match h.lookup v.get_pointer with
  | some (Obj.string s) => some s
  | _ => none

/-- The conversion `valueFunc(v)` followed by dereference. -/
def valueFunc (h : Heap) (v : Value) : Option Function :=
  match h.lookup v.get_pointer with
  | some (Obj.func f) => some f
  | _ => none

/-- The conversion `valueForeign(v)` followed by dereference. -/
def valueForeign (h : Heap) (v : Value) : Option ForeignFunc :=
  match h.lookup v.get_pointer with
  | some (Obj.foreign f) => some f
  | _ => none

/-- A symbol: id and name. -/
structure Symbol where
  id : Nat
  name : String
  deriving DecidableEq, Repr

/-- Modelled from the spec: the key-value container `Table<K,V>` of table.hpp, which is not in
src, as an association list; `insert` replaces the binding of an equal key. -/
def Table (K V : Type) : Type := List (K × V)

def Table.empty {K V : Type} : Table K V := ([] : List (K × V))

def Table.get {K V : Type} [DecidableEq K] (t : Table K V) (k : K) : Option V :=
  match t with
  | [] => none
  | (k1, v) :: rest => if k1 = k then some v else Table.get (K := K) (V := V) rest k

def Table.insert {K V : Type} [DecidableEq K] (t : Table K V) (k : K) (v : V) : Table K V :=
  match t with
  | [] => [(k, v)]
  | (k1, v1) :: rest =>
    if k1 = k then (k, v) :: rest else (k1, v1) :: Table.insert (K := K) (V := V) rest k v

/-- The symbol table of vm.cpp. -/
structure SymbolTable where
  byName : Table String Symbol
  byId : List Symbol

/-! ## bytes.hpp -/

def OP_NOP : Nat := 0x00
def OP_POP : Nat := 0x01
def OP_LOCAL : Nat := 0x02
def OP_SET_LOCAL : Nat := 0x03
def OP_COPY : Nat := 0x04
def OP_UPVALUE : Nat := 0x05
def OP_SET_UPVALUE : Nat := 0x06
def OP_CLOSURE : Nat := 0x07
def OP_CLOSE : Nat := 0x08
def OP_GLOBAL : Nat := 0x10
def OP_SET_GLOBAL : Nat := 0x11
def OP_CONST : Nat := 0x12
def OP_NULL : Nat := 0x13
def OP_FALSE : Nat := 0x14
def OP_TRUE : Nat := 0x15
def OP_OBJ_GET : Nat := 0x16
def OP_OBJ_SET : Nat := 0x17
def OP_MODULE : Nat := 0x18
def OP_IMPORT : Nat := 0x19
def OP_JUMP : Nat := 0x30
def OP_CJUMP : Nat := 0x31
def OP_CALL : Nat := 0x32
def OP_RETURN : Nat := 0x33
def OP_APPLY : Nat := 0x34

/-- The width of an instruction with its operands, in bytes. -/
def instr_width (instr : Nat) : Nat :=
  if instr = OP_NOP ∨ instr = OP_POP ∨ instr = OP_GLOBAL ∨ instr = OP_SET_GLOBAL
      ∨ instr = OP_NULL ∨ instr = OP_FALSE ∨ instr = OP_TRUE ∨ instr = OP_RETURN
      ∨ instr = OP_OBJ_GET ∨ instr = OP_OBJ_SET ∨ instr = OP_MODULE ∨ instr = OP_IMPORT then 1
  else if instr = OP_LOCAL ∨ instr = OP_SET_LOCAL ∨ instr = OP_COPY ∨ instr = OP_UPVALUE
      ∨ instr = OP_SET_UPVALUE ∨ instr = OP_CLOSE ∨ instr = OP_CALL ∨ instr = OP_APPLY then 2
  else if instr = OP_CONST ∨ instr = OP_JUMP ∨ instr = OP_CJUMP ∨ instr = OP_CLOSURE then 3
  else 1

/-! ## vm.cpp: the bytecode module -/

/-- One entry of the source map. -/
structure BytecodeLoc where
  maxAddr : Nat
  loc : SourceLoc
  deriving DecidableEq, Repr

/-- The result of a pointer-returning lookup: a null pointer, a valid reference, or a pointer
obtained by walking past the end of a list. -/
inductive Ptr (α : Type) where
  | null
  | ref (a : α)
  | invalid

/-- The bytecode module.  `data` is the byte buffer as a memory: the bytes at addresses
`size` and above are whatever the buffer holds there. -/
structure Bytecode where
  cap : Nat
  size : Nat
  data : Nat → Nat
  constants : List Value
  functions : List FuncStub
  symbols : SymbolTable
  locs : List BytecodeLoc

/-- The constructor `Bytecode::Bytecode()`; the fresh buffer is taken to hold zeroes. -/
def Bytecode.new : Bytecode :=
  { cap := 256, size := 0, data := fun _ => 0, constants := [], functions := [],
    symbols := ⟨Table.empty, []⟩, locs := [] }

/-- The loop `while (cap < newCap) cap *= 2` on 32 bits.  A capacity that is still too small
after 33 doublings has wrapped to zero and stays there, so the loop never ends: `none`. -/
def ensureCapacity_loop (newCap : Nat) : Nat → Nat → Option Nat
  | 0, _ => none
  | fuel + 1, cap =>
    if cap < newCap then ensureCapacity_loop newCap fuel (u32 (cap * 2)) else some cap

/-- `Bytecode::ensureCapacity`; `none` when the doubling loop does not terminate. -/
def Bytecode.ensureCapacity (b : Bytecode) (newCap : Nat) : Option Bytecode :=
  if newCap ≤ b.cap then some b
  else (ensureCapacity_loop newCap 34 b.cap).map (fun c => { b with cap := c })

def Bytecode.getSize (b : Bytecode) : Nat := b.size

/-- `Bytecode::setLoc`. -/
def Bytecode.setLoc (b : Bytecode) (l : SourceLoc) : Bytecode :=
  match b.locs.reverse with
  | [] => { b with locs := [⟨0, l⟩] }
  | prev :: before =>
    { b with locs := before.reverse ++ [{ prev with maxAddr := b.size }, ⟨0, l⟩] }

/-- The walk of `Bytecode::locationOf` along the source map. -/
def locationOf_walk (addr : Nat) : List BytecodeLoc → Ptr SourceLoc
  | [] => Ptr.invalid
  | l :: rest =>
    if l.maxAddr ≤ addr ∧ l.maxAddr ≠ 0 then locationOf_walk addr rest else Ptr.ref l.loc

/-- `Bytecode::locationOf`. -/
def Bytecode.locationOf (b : Bytecode) (addr : Nat) : Ptr SourceLoc :=
  match b.locs with
  | [] => Ptr.null
  | l :: rest => locationOf_walk addr (l :: rest)

/-- `Bytecode::writeByte`; `none` when `ensureCapacity` does not terminate. -/
def Bytecode.writeByte (b : Bytecode) (x : Nat) : Option Bytecode :=
  match b.ensureCapacity (u32 (b.size + 1)) with
  | none => none
  | some b1 =>
    some { b1 with data := fun a => if a = b1.size then u8 x else b1.data a,
                   size := u32 (b1.size + 1) }

/-- `Bytecode::writeShort`: little-endian. -/
def Bytecode.writeShort (b : Bytecode) (s : Nat) : Option Bytecode :=
  match b.writeByte (u8 (s &&& 0x00ff)) with
  | none => none
  | some b1 => b1.writeByte (u8 (s >>> 8))

/-- `Bytecode::readByte`: the buffer holds 8-bit bytes. -/
def Bytecode.readByte (b : Bytecode) (addr : Nat) : Nat := u8 (b.data addr)

def Bytecode.readShort (b : Bytecode) (addr : Nat) : Nat :=
  let bot := b.readByte addr
  let top := b.readByte (u32 (addr + 1))
  u16 ((top <<< 8) ||| bot)

/-- `Bytecode::patchShort`. -/
def Bytecode.patchShort (b : Bytecode) (addr : Nat) (s : Nat) : Bytecode :=
  let bot := u8 (s &&& 0x00ff)
  let top := u8 (s >>> 8)
  { b with data := fun a =>
      if a = u32 (addr + 1) then top else if a = addr then bot else b.data a }

/-- `Bytecode::addConstant`: the module afterwards and the 16-bit id returned. -/
def Bytecode.addConstant (b : Bytecode) (v : Value) : Bytecode × Nat :=
  ({ b with constants := b.constants ++ [v] }, u16 ((b.constants ++ [v]).length - 1))

/-- `Bytecode::getConstant`; `none` is an access past the end of the vector. -/
def Bytecode.getConstant (b : Bytecode) (id : Nat) : Option Value := b.constants.get? id

def Bytecode.numConstants (b : Bytecode) : Nat := u16 b.constants.length

/-- `Bytecode::addFunction`. -/
def Bytecode.addFunction (b : Bytecode) (arity : Nat) : Bytecode × Nat :=
  let stub : FuncStub :=
    { positional := arity, required := arity, varargs := false, numUpvals := 0, upvals := [],
      addr := b.getSize }
  ({ b with functions := b.functions ++ [stub] }, u16 (u16 (b.functions ++ [stub]).length + 65535))

/-- `Bytecode::getFunction`; `none` is an access past the end of the vector. -/
def Bytecode.getFunction (b : Bytecode) (id : Nat) : Option FuncStub := b.functions.get? id


/-! ## vm.cpp: call frames and the machine state -/

/-- Modelled from the spec: the capacity `STACK_SIZE` of the value stack is declared in vm.hpp,
which is not in src; the spec gives `2^14` as its default. -/
def STACK_SIZE : Nat := 16384

/-- A pointer to a value cell: a position of the value stack, or a heap cell made by
`new Value`. -/
inductive ValPtr where
  | stack (i : Nat)
  | cell (i : Nat)
  deriving DecidableEq, Repr

/-- The shared upvalue slot of vm.cpp: `open` and the pointer `val`. -/
structure UpvalueSlot where
  open_ : Bool
  val : ValPtr
  deriving DecidableEq, Repr

/-- An entry of a frame's list of open upvalues; `slot` is a pointer to an `UpvalueSlot`, an
index into the machine's store of slots. -/
structure OpenUpvalue where
  slot : Nat
  pos : Nat
  deriving DecidableEq, Repr

/-- A call frame.  `caller` is a pointer to a closure object (its heap address) or null. -/
structure CallFrame where
  prev : Option CallFrame
  retAddr : Nat
  bp : Nat
  caller : Option Nat
  numArgs : Nat
  sp : Nat
  openUpvals : List OpenUpvalue

/-- Modelled from the spec: the constructor `CallFrame(prev, retAddr, bp, caller, numArgs = 0)`
is declared in vm.hpp, which is not in src.  The callee sees its arguments as the first
positions of its own frame, so `sp` starts at `numArgs`; no upvalue is open. -/
def CallFrame.new (prev : Option CallFrame) (retAddr bp : Nat) (caller : Option Nat)
    (numArgs : Nat) : CallFrame :=
  { prev := prev, retAddr := retAddr, bp := bp, caller := caller, numArgs := numArgs,
    sp := numArgs, openUpvals := [] }

/-- `CallFrame::extendFrame`; `bp + sp - numArgs` is stored in a 16-bit stack address. -/
def CallFrame.extendFrame (f : CallFrame) (retAddr numArgs : Nat) (caller : Nat) : CallFrame :=
  CallFrame.new (some f) retAddr (u16 (f.bp + f.sp + 65536 - numArgs)) (some caller) numArgs

/-- The search of `CallFrame::openUpvalue` for an upvalue already open at `pos`. -/
def findOpenUpvalue (pos : Nat) : List OpenUpvalue → Option Nat
  | [] => none
  | u :: rest => if u.pos = pos then some u.slot else findOpenUpvalue pos rest

/-- `CallFrame::openUpvalue`: the frame and the store of slots afterwards, and the pointer
returned (null is `none`). -/
def CallFrame.openUpvalue (f : CallFrame) (slots : List UpvalueSlot) (pos : Nat) (ptr : ValPtr) :
    CallFrame × List UpvalueSlot × Option Nat :=
  if pos ≥ f.sp then (f, slots, none)
  else
    match findOpenUpvalue pos f.openUpvals with
    | some s => (f, slots, some s)
    | none =>
      ({ f with openUpvals := ⟨slots.length, pos⟩ :: f.openUpvals },
        slots ++ [⟨true, ptr⟩], some slots.length)

/-- Dereference of a value pointer. -/
def ValPtr.read (stack : Nat → Value) (cells : List Value) : ValPtr → Option Value
  | ValPtr.stack i => some (stack i)
  | ValPtr.cell i => cells.get? i

/-- The statements `u.slot->open = false; u.slot->val = new Value { .raw=u.slot->val->raw };`
on one slot; `none` when a pointer is not valid. -/
def closeSlot (stack : Nat → Value) (slots : List UpvalueSlot) (cells : List Value) (slot : Nat) :
    Option (List UpvalueSlot × List Value) :=
  match slots.get? slot with
  | none => none
  | some s =>
    match s.val.read stack cells with
    | none => none
    | some v => some (slots.set slot ⟨false, ValPtr.cell cells.length⟩, cells ++ [v])

/-- The `remove_if` of `CallFrame::close`: closes and drops the entries at positions `>= sp`,
in list order; returns the remaining list. -/
def closeFrom (stack : Nat → Value) (sp : Nat) :
    List OpenUpvalue → List UpvalueSlot → List Value →
      Option (List OpenUpvalue × List UpvalueSlot × List Value)
  | [], slots, cells => some ([], slots, cells)
  | u :: rest, slots, cells =>
    if u.pos ≥ sp then
      match closeSlot stack slots cells u.slot with
      | none => none
      | some (slots1, cells1) => closeFrom stack sp rest slots1 cells1
    else
      match closeFrom stack sp rest slots cells with
      | none => none
      | some (kept, slots1, cells1) => some (u :: kept, slots1, cells1)

/-- `CallFrame::close`. -/
def CallFrame.close (f : CallFrame) (stack : Nat → Value) (slots : List UpvalueSlot)
    (cells : List Value) (n : Nat) : Option (CallFrame × List UpvalueSlot × List Value) :=
  let sp := u16 (f.sp + 65536 - n)
  match closeFrom stack sp f.openUpvals slots cells with
  | none => none
  | some (kept, slots1, cells1) => some ({ f with sp := sp, openUpvals := kept }, slots1, cells1)

/-- The loop of `CallFrame::closeAll` over the open upvalues. -/
def closeEach (stack : Nat → Value) :
    List OpenUpvalue → List UpvalueSlot → List Value → Option (List UpvalueSlot × List Value)
  | [], slots, cells => some (slots, cells)
  | u :: rest, slots, cells =>
    match closeSlot stack slots cells u.slot with
    | none => none
    | some (slots1, cells1) => closeEach stack rest slots1 cells1

/-- `CallFrame::closeAll`. -/
def CallFrame.closeAll (f : CallFrame) (stack : Nat → Value) (slots : List UpvalueSlot)
    (cells : List Value) : Option (CallFrame × List UpvalueSlot × List Value) :=
  match closeEach stack f.openUpvals slots cells with
  | none => none
  | some (slots1, cells1) => some ({ f with sp := 0, openUpvals := [] }, slots1, cells1)

/-- The state of the virtual machine: the members of `VM`, and the stores its pointers point
into (objects, upvalue slots, value cells). -/
structure VM where
  code : Bytecode
  ip : Nat
  frame : CallFrame
  lp : Value
  globals : Table String Value
  stack : Nat → Value
  foreignFuncs : List Value
  heap : Heap
  slots : List UpvalueSlot
  cells : List Value

/-- The constructor `VM::VM()` around a bytecode module and a heap. -/
def VM.new (code : Bytecode) (heap : Heap) : VM :=
  { code := code, ip := 0, frame := CallFrame.new none 0 0 none 0, lp := V_NULL,
    globals := Table.empty, stack := fun _ => V_NULL, foreignFuncs := [], heap := heap,
    slots := [], cells := [] }

/-- The outcome of a piece of the machine: a result and the state afterwards, an `FNError`
thrown in the given state, or undefined behaviour. -/
inductive VMResult (α : Type) where
  | ok (a : α) (vm : VM)
  | error (e : FNError) (vm : VM)
  | undefined

/-- Sequencing of machine actions. -/
def VMResult.bind {α β : Type} (r : VMResult α) (f : α → VM → VMResult β) : VMResult β :=
  match r with
  | VMResult.ok a vm => f a vm
  | VMResult.error e vm => VMResult.error e vm
  | VMResult.undefined => VMResult.undefined

/-- The host functions: the code behind a foreign function pointer, called with the argument
count, the stack address of the first argument and the machine. -/
abbrev Host := Nat → Nat → Nat → VM → VMResult Value

/-- The expression `throw FNError(subsystem, message, *code.locationOf(ip))`. -/
def VM.throwError {α : Type} (vm : VM) (subsystem message : String) : VMResult α :=
  match vm.code.locationOf vm.ip with
  | Ptr.ref loc => VMResult.error ⟨subsystem, message, loc⟩ vm
  | Ptr.null => VMResult.undefined
  | Ptr.invalid => VMResult.undefined

def VM.getIp (vm : VM) : Nat := vm.ip

def VM.lastPop (vm : VM) : Value := vm.lp

def VM.addGlobal (vm : VM) (name : String) (v : Value) : VM :=
  { vm with globals := vm.globals.insert name v }

def VM.getGlobal (vm : VM) (name : String) : Value :=
  match vm.globals.get name with
  | none => V_NULL
  | some v => v

/-- The closure object the current frame is executing, with its stub. -/
def VM.callerStub (vm : VM) (caller : Nat) : Option (Function × FuncStub) :=
  match vm.heap.lookup caller with
  | some (Obj.func f) =>
    match vm.code.getFunction f.stub with
    | some stub => some (f, stub)
    | none => none
  | _ => none

/-- `VM::getUpvalue`: the slot pointer `frame->caller->upvals[id]`. -/
def VM.getUpvalue (vm : VM) (id : Nat) : VMResult (Option Nat) :=
  match vm.frame.caller with
  | none => vm.throwError "interpreter" "Attempt to access nonexisten upvalue"
  | some caller =>
    match vm.callerStub caller with
    | none => VMResult.undefined
    | some (f, stub) =>
      if stub.numUpvals ≤ id then
        vm.throwError "interpreter" "Attempt to access nonexisten upvalue"
      else
        match f.upvals.get? id with
        | none => VMResult.undefined
        | some p => VMResult.ok p vm

/-- `VM::addForeign`. -/
def VM.addForeign (vm : VM) (name : String) (func : Nat) (minArgs : Nat) (varArgs : Bool) : VM :=
  let (heap1, ptr) := vm.heap.alloc (Obj.foreign ⟨minArgs, varArgs, func⟩)
  let v := makeForeignValue ptr
  let vm1 := { vm with heap := heap1 }.addGlobal name v
  { vm1 with foreignFuncs := vm1.foreignFuncs ++ [v] }

def VM.getBytecode (vm : VM) : Bytecode := vm.code

/-- `VM::push`. -/
def VM.push (vm : VM) (v : Value) : VMResult Unit :=
  if vm.frame.sp + vm.frame.bp ≥ STACK_SIZE - 1 then
    vm.throwError "runtime" "Stack exhausted."
  else
    VMResult.ok ()
      { vm with
        stack := fun a => if a = vm.frame.bp + vm.frame.sp then v else vm.stack a,
        frame := { vm.frame with sp := u16 (vm.frame.sp + 1) } }

/-- `VM::pop`. -/
def VM.pop (vm : VM) : VMResult Value :=
  if vm.frame.sp = 0 then
    vm.throwError "runtime" ("Pop on empty call frame at address " ++ to_string_i32 vm.ip)
  else
    VMResult.ok (vm.stack (vm.frame.bp + (vm.frame.sp - 1)))
      { vm with frame := { vm.frame with sp := vm.frame.sp - 1 } }

/-- `VM::popTimes`. -/
def VM.popTimes (vm : VM) (n : Nat) : VMResult Value :=
  if vm.frame.sp < n then
    vm.throwError "runtime" ("Pop on empty call frame at address " ++ to_string_i32 vm.ip)
  else
    VMResult.ok (vm.stack (vm.frame.bp + (vm.frame.sp - n)))
      { vm with frame := { vm.frame with sp := vm.frame.sp - n } }

/-- `VM::peek`. -/
def VM.peek (vm : VM) (i : Nat) : VMResult Value :=
  if vm.frame.sp ≤ i then
    vm.throwError "runtime" ("Peek out of stack bounds at address " ++ to_string_i32 vm.ip)
  else
    VMResult.ok (vm.stack (vm.frame.bp + vm.frame.sp - i - 1)) vm

/-- `VM::local`. -/
def VM.local (vm : VM) (i : Nat) : VMResult Value :=
  let pos := u16 (i + vm.frame.bp)
  if vm.frame.sp ≤ i then
    vm.throwError "runtime" "Out of stack bounds on local."
  else
    VMResult.ok (vm.stack pos) vm

/-- `VM::setLocal`. -/
def VM.setLocal (vm : VM) (i : Nat) (v : Value) : VMResult Unit :=
  let pos := u16 (i + vm.frame.bp)
  if vm.frame.sp ≤ i then
    vm.throwError "runtime" "Out of stack bounds on set-local."
  else
    VMResult.ok () { vm with stack := fun a => if a = pos then v else vm.stack a }

/-! ## vm.cpp: `VM::step`

Each case of the `switch` is a function from the state to the outcome of the case; the result
`some addr` stands for `jump = true; addr = ...`, and `none` for no jump.  The local `skip` is
never set by any case and is left out. -/

/-- Case `OP_POP`. -/
def VM.step_POP (vm : VM) : VMResult (Option Nat) :=
  vm.pop.bind fun v vm1 => VMResult.ok none { vm1 with lp := v }

/-- Case `OP_COPY`. -/
def VM.step_COPY (vm : VM) : VMResult (Option Nat) :=
  (vm.peek (vm.code.readByte (u32 (vm.ip + 1)))).bind fun v1 vm1 =>
    (vm1.push v1).bind fun _ vm2 => VMResult.ok none { vm2 with ip := u32 (vm2.ip + 1) }

/-- Case `OP_LOCAL`. -/
def VM.step_LOCAL (vm : VM) : VMResult (Option Nat) :=
  (vm.local (vm.code.readByte (u32 (vm.ip + 1)))).bind fun v1 vm1 =>
    (vm1.push v1).bind fun _ vm2 => VMResult.ok none { vm2 with ip := u32 (vm2.ip + 1) }

/-- Case `OP_SET_LOCAL`. -/
def VM.step_SET_LOCAL (vm : VM) : VMResult (Option Nat) :=
  vm.pop.bind fun v1 vm1 =>
    (vm1.setLocal (vm1.code.readByte (u32 (vm1.ip + 1))) v1).bind fun _ vm2 =>
      VMResult.ok none { vm2 with ip := u32 (vm2.ip + 1) }

/-- The unchecked access `frame->caller->upvals[l]` followed by `u->val`: the slot's value
pointer. -/
def VM.upvalPtr (vm : VM) (l : Nat) : Option ValPtr :=
  match vm.frame.caller with
  | none => none
  | some caller =>
    match vm.heap.lookup caller with
    | some (Obj.func f) =>
      match f.upvals.get? l with
      | some (some slot) =>
        match vm.slots.get? slot with
        | some s => some s.val
        | none => none
      | _ => none
    | _ => none

/-- Case `OP_UPVALUE`. -/
def VM.step_UPVALUE (vm : VM) : VMResult (Option Nat) :=
  let l := vm.code.readByte (u32 (vm.ip + 1))
  match vm.upvalPtr l with
  | none => VMResult.undefined
  | some p =>
    match p.read vm.stack vm.cells with
    | none => VMResult.undefined
    | some v =>
      (vm.push v).bind fun _ vm1 => VMResult.ok none { vm1 with ip := u32 (vm1.ip + 1) }

/-- The assignment `*p = v` through a value pointer. -/
def VM.writeVal (vm : VM) (p : ValPtr) (v : Value) : Option VM :=
  match p with
  | ValPtr.stack i => some { vm with stack := fun a => if a = i then v else vm.stack a }
  | ValPtr.cell i => if i < vm.cells.length then some { vm with cells := vm.cells.set i v } else none

/-- Case `OP_SET_UPVALUE`. -/
def VM.step_SET_UPVALUE (vm : VM) : VMResult (Option Nat) :=
  let l := vm.code.readByte (u32 (vm.ip + 1))
  match vm.upvalPtr l with
  | none => VMResult.undefined
  | some p =>
    vm.pop.bind fun v vm1 =>
      match vm1.writeVal p v with
      | none => VMResult.undefined
      | some vm2 => VMResult.ok none { vm2 with ip := u32 (vm2.ip + 1) }

/-- The `for` loop of case `OP_CLOSURE` filling `func->upvals[i]` for the `k` indices from `i`
on; `func` is the address of the new closure object. -/
def VM.closureLoop (stub : FuncStub) (func : Nat) : Nat → Nat → VM → VMResult Unit
  | 0, _, vm => VMResult.ok () vm
  | k + 1, i, vm =>
    match stub.upvals.get? i with
    | none => VMResult.undefined
    | some u =>
      let r : VMResult (Option Nat) :=
        if u.direct then
          match vm.frame.openUpvalue vm.slots u.slot (ValPtr.stack (vm.frame.bp + u.slot)) with
          | (f1, slots1, p) => VMResult.ok p { vm with frame := f1, slots := slots1 }
        else vm.getUpvalue u.slot
      r.bind fun p vm1 =>
        match vm1.heap.lookup func with
        | some (Obj.func fo) =>
          VM.closureLoop stub func k (i + 1)
            { vm1 with heap := vm1.heap.store func (Obj.func { fo with upvals := fo.upvals.set i p }) }
        | _ => VMResult.undefined

/-- Case `OP_CLOSURE`. -/
def VM.step_CLOSURE (vm : VM) : VMResult (Option Nat) :=
  let id := vm.code.readShort (u32 (vm.ip + 1))
  match vm.code.getFunction id with
  | none => VMResult.undefined
  | some stub =>
    match vm.heap.alloc (Obj.func ⟨id, List.replicate stub.numUpvals none⟩) with
    | (heap1, func) =>
      (VM.closureLoop stub func stub.numUpvals 0 { vm with heap := heap1 }).bind fun _ vm1 =>
        (vm1.push (makeFuncValue func)).bind fun _ vm2 =>
          VMResult.ok none { vm2 with ip := u32 (vm2.ip + 2) }

/-- Case `OP_CLOSE`. -/
def VM.step_CLOSE (vm : VM) : VMResult (Option Nat) :=
  let numArgs := vm.code.readByte (u32 (vm.ip + 1))
  match vm.frame.close vm.stack vm.slots vm.cells numArgs with
  | none => VMResult.undefined
  | some (f1, slots1, cells1) =>
    VMResult.ok none { vm with frame := f1, slots := slots1, cells := cells1, ip := u32 (vm.ip + 1) }

/-- Case `OP_GLOBAL`. -/
def VM.step_GLOBAL (vm : VM) : VMResult (Option Nat) :=
  vm.pop.bind fun v1 vm1 =>
    if !isString v1 then
      vm1.throwError "runtime" "OP_GET_GLOBAL operand is not a string."
    else
      match valueString vm1.heap v1 with
      | none => VMResult.undefined
      | some name => (vm1.push (vm1.getGlobal name)).bind fun _ vm2 => VMResult.ok none vm2

/-- Case `OP_SET_GLOBAL`: the first value popped is used as the name. -/
def VM.step_SET_GLOBAL (vm : VM) : VMResult (Option Nat) :=
  vm.pop.bind fun v1 vm1 =>
    vm1.pop.bind fun v2 vm2 =>
      match valueString vm2.heap v1 with
      | none => VMResult.undefined
      | some name => VMResult.ok none (vm2.addGlobal name v2)

/-- Case `OP_CONST`. -/
def VM.step_CONST (vm : VM) : VMResult (Option Nat) :=
  let id := vm.code.readShort (u32 (vm.ip + 1))
  if id ≥ vm.code.numConstants then
    vm.throwError "runtime" "Attempt to access nonexistent constant."
  else
    match vm.code.getConstant id with
    | none => VMResult.undefined
    | some c =>
      (vm.push c).bind fun _ vm1 => VMResult.ok none { vm1 with ip := u32 (vm1.ip + 2) }

/-- Cases `OP_NULL`, `OP_FALSE`, `OP_TRUE`: push a singleton. -/
def VM.step_push (vm : VM) (v : Value) : VMResult (Option Nat) :=
  (vm.push v).bind fun _ vm1 => VMResult.ok none vm1

/-- The jump target `ip + 3 + static_cast<i8>(code.readByte(ip+1))`, a 32-bit address. -/
def VM.jumpTarget (vm : VM) : Nat :=
  u32 (vm.ip + 3 + i8_as_u32 (vm.code.readByte (u32 (vm.ip + 1))))

/-- Case `OP_JUMP`. -/
def VM.step_JUMP (vm : VM) : VMResult (Option Nat) :=
  VMResult.ok (some vm.jumpTarget) vm

/-- Case `OP_CJUMP`: jump on false. -/
def VM.step_CJUMP (vm : VM) : VMResult (Option Nat) :=
  vm.pop.bind fun v vm1 =>
    if !isTruthy v then VMResult.ok (some vm1.jumpTarget) vm1
    else VMResult.ok none { vm1 with ip := u32 (vm1.ip + 2) }

/-- Case `OP_CALL`. -/
def VM.step_CALL (host : Host) (vm : VM) : VMResult (Option Nat) :=
  let numArgs := vm.code.readByte (u32 (vm.ip + 1))
  (vm.peek numArgs).bind fun v1 vm1 =>
    if isFunc v1 then
      let func := v1.get_pointer
      match vm1.callerStub func with
      | none => VMResult.undefined
      | some (_, stub) =>
        if numArgs < stub.required then
          vm1.throwError "interpreter"
            ("Too few arguments in function call at ip=" ++ to_string_u32 vm1.ip)
        else if !stub.varargs && decide (numArgs > stub.positional) then
          vm1.throwError "interpreter"
            ("Too many arguments in function call at ip=" ++ to_string_u32 vm1.ip)
        else
          VMResult.ok (some stub.addr)
            { vm1 with frame := vm1.frame.extendFrame (u32 (vm1.ip + 2)) numArgs func }
    else if isForeign v1 then
      match valueForeign vm1.heap v1 with
      | none => VMResult.undefined
      | some f =>
        let r : VMResult Value :=
          if numArgs < f.minArgs then VMResult.ok V_NULL vm1
          else if !f.varArgs && decide (numArgs > f.minArgs) then VMResult.ok V_NULL vm1
          else host f.func numArgs (vm1.frame.bp + vm1.frame.sp - numArgs) vm1
        r.bind fun v2 vm2 =>
          (vm2.popTimes (numArgs + 1)).bind fun _ vm3 =>
            (vm3.push v2).bind fun _ vm4 => VMResult.ok none { vm4 with ip := u32 (vm4.ip + 1) }
    else
      vm1.throwError "interpreter"
        ("Attempt to call nonfunction at address " ++ to_string_i32 vm1.ip)

/-- Case `OP_RETURN`. -/
def VM.step_RETURN (vm : VM) : VMResult (Option Nat) :=
  match vm.frame.caller with
  | none =>
    vm.throwError "interpreter"
      ("Return instruction at top level. ip = " ++ to_string_i32 vm.ip)
  | some _ =>
    vm.pop.bind fun v1 vm1 =>
      let addr := vm1.frame.retAddr
      let numArgs := vm1.frame.numArgs
      match vm1.frame.closeAll vm1.stack vm1.slots vm1.cells with
      | none => VMResult.undefined
      | some (tmp, slots1, cells1) =>
        match tmp.prev with
        | none => VMResult.undefined
        | some parent =>
          ({ vm1 with frame := parent, slots := slots1, cells := cells1 }.popTimes
              (numArgs + 1)).bind fun _ vm2 =>
            (vm2.push v1).bind fun _ vm3 => VMResult.ok (some addr) vm3

/-- The `switch (instr)` of `VM::step`. -/
def VM.step_switch (host : Host) (vm : VM) (instr : Nat) : VMResult (Option Nat) :=
  if instr = OP_NOP then VMResult.ok none vm
  else if instr = OP_POP then vm.step_POP
  else if instr = OP_COPY then vm.step_COPY
  else if instr = OP_LOCAL then vm.step_LOCAL
  else if instr = OP_SET_LOCAL then vm.step_SET_LOCAL
  else if instr = OP_UPVALUE then vm.step_UPVALUE
  else if instr = OP_SET_UPVALUE then vm.step_SET_UPVALUE
  else if instr = OP_CLOSURE then vm.step_CLOSURE
  else if instr = OP_CLOSE then vm.step_CLOSE
  else if instr = OP_GLOBAL then vm.step_GLOBAL
  else if instr = OP_SET_GLOBAL then vm.step_SET_GLOBAL
  else if instr = OP_CONST then vm.step_CONST
  else if instr = OP_NULL then vm.step_push V_NULL
  else if instr = OP_FALSE then vm.step_push V_FALSE
  else if instr = OP_TRUE then vm.step_push V_TRUE
  else if instr = OP_JUMP then vm.step_JUMP
  else if instr = OP_CJUMP then vm.step_CJUMP
  else if instr = OP_CALL then vm.step_CALL host
  else if instr = OP_RETURN then vm.step_RETURN
  else
    vm.throwError "interpreter" ("Unrecognized opcode at address " ++ to_string_i32 vm.ip)

/-- `VM::step`: the switch, then `++ip`, then `ip = addr` when the case set `jump`. -/
def VM.step (host : Host) (vm : VM) : VMResult Unit :=
  (vm.step_switch host (vm.code.readByte vm.ip)).bind fun jump vm1 =>
    match jump with
    | some addr => VMResult.ok () { vm1 with ip := addr }
    | none => VMResult.ok () { vm1 with ip := u32 (vm1.ip + 1) }

/-- `VM::execute`: the loop `while (ip < code.getSize()) step();` run for at most `fuel`
steps; `none` when the loop has not ended by then. -/
def VM.execute (host : Host) : Nat → VM → Option (VMResult Unit)
  | 0, vm => if vm.ip < vm.code.getSize then none else some (VMResult.ok () vm)
  | fuel + 1, vm =>
    if vm.ip < vm.code.getSize then
      match vm.step host with
      | VMResult.ok _ vm1 => VM.execute host fuel vm1
      | VMResult.error e vm1 => some (VMResult.error e vm1)
      | VMResult.undefined => some VMResult.undefined
    else some (VMResult.ok () vm)

/-! ## compile2.cpp: the compiler -/

/-- Modelled from the spec: the parser's AST is declared in a header that is not in src.  An
atom is a number (here the bit pattern of its double), a string or a symbol id. -/
inductive ast_atom where
  | at_number (num : Nat)
  | at_string (str : String)
  | at_symbol (sym : Nat)
  deriving DecidableEq, Repr

/-- Modelled from the spec: an AST node is an atom or a list of nodes, each with a source
location; `ak_error` is any other kind, which `compile_subexpr` rejects. -/
inductive ast_node where
  | ak_atom (atom : ast_atom) (loc : SourceLoc)
  | ak_list (list : List ast_node) (loc : SourceLoc)
  | ak_error (loc : SourceLoc)

def ast_node.loc : ast_node → SourceLoc
  | ast_node.ak_atom _ loc => loc
  | ast_node.ak_list _ loc => loc
  | ast_node.ak_error loc => loc

/-- The method `ast_node::is_symbol`. -/
def ast_node.is_symbol : ast_node → Bool
  | ast_node.ak_atom (ast_atom.at_symbol _) _ => true
  | _ => false

/-- The access `node->datum.atom->datum.sym`; `none` when the node is not a symbol atom. -/
def ast_node.sym : ast_node → Option Nat
  | ast_node.ak_atom (ast_atom.at_symbol s) _ => some s
  | _ => none

/-- The symbol table of values.hpp; `operator[]` indexes `by_id`. -/
structure symbol_table where
  by_name : Table String Symbol
  by_id : List Symbol

def symbol_table.index (t : symbol_table) (id : Nat) : Option Symbol := t.by_id.get? id

/-- Modelled from the spec: `local_table` is declared in compile2.hpp, which is not in src.  A
scope holds its variables (symbol id to 8-bit stack slot), its parent scope, the stub of the
function it is the body of (an index into the function table, null when it is not a function
boundary) and the 8-bit compile-time stack pointer. -/
structure local_table where
  vars : Table Nat Nat
  parent : Option local_table
  cur_func : Option Nat
  sp : Nat

/-- The constructor `local_table::local_table(parent, func)`. -/
def local_table.new (parent : Option local_table) (func : Option Nat) : local_table :=
  { vars := Table.empty, parent := parent, cur_func := func,
    sp := match parent with
      | none => 0
      | some p => p.sp }

/-- Modelled from the spec: the compiler object is declared in compile2.hpp, which is not in
src: the bytecode module it writes to and the symbol table it reads; `heap` is the store where
the string objects of string constants are allocated. -/
structure compiler where
  dest : Bytecode
  symtab : symbol_table
  heap : Heap

/-- The outcome of a piece of the compiler: a result with the compiler and the scope
afterwards, a thrown error with the state at the throw, undefined behaviour, or a loop that
does not terminate. -/
inductive CResult (α : Type) where
  | ok (a : α) (c : compiler) (l : local_table)
  | error (e : FNError) (c : compiler) (l : local_table)
  | undefined
  | diverges

/-- Sequencing of compiler actions. -/
def CResult.bind {α β : Type} (r : CResult α) (f : α → compiler → local_table → CResult β) :
    CResult β :=
  match r with
  | CResult.ok a c l => f a c l
  | CResult.error e c l => CResult.error e c l
  | CResult.undefined => CResult.undefined
  | CResult.diverges => CResult.diverges

/-- The compilation of one list element: `compile_subexpr(locals, list[i])` with its node
already supplied. -/
abbrev Sub := compiler → local_table → CResult Unit

/-- Modelled from the spec: `compiler::error` is declared in compile2.hpp, which is not in
src; it throws an error of the compiler subsystem with the given source location. -/
def compiler.error {α : Type} (c : compiler) (l : local_table) (msg : String) (loc : SourceLoc) :
    CResult α :=
  CResult.error ⟨"compiler", msg, loc⟩ c l

/-- Modelled from the spec: `write_byte`, `write_short`, `patch_short` and `get_size` of the
bytecode interface that compile2.cpp targets are declared in a header that is not in src;
they are `Bytecode::writeByte`, `writeShort`, `patchShort` and `getSize` of vm.cpp. -/
def compiler.write_byte (c : compiler) (l : local_table) (b : Nat) : CResult Unit :=
  match c.dest.writeByte b with
  | none => CResult.diverges
  | some d => CResult.ok () { c with dest := d } l

def compiler.write_short (c : compiler) (l : local_table) (s : Nat) : CResult Unit :=
  match c.dest.writeShort (u16 s) with
  | none => CResult.diverges
  | some d => CResult.ok () { c with dest := d } l

def compiler.patch_short (c : compiler) (addr : Nat) (s : Nat) : compiler :=
  { c with dest := c.dest.patchShort addr (u16 s) }

def compiler.get_size (c : compiler) : Nat := c.dest.getSize

/-- Modelled from the spec: `num_const`, `str_const` and `sym_const` are declared in a header
that is not in src; each adds the value of the literal to the constant pool with
`Bytecode::addConstant` and returns its id. -/
def compiler.num_const (c : compiler) (num : Nat) : compiler × Nat :=
  match c.dest.addConstant (as_value_num num) with
  | (d, id) => ({ c with dest := d }, id)

def compiler.str_const (c : compiler) (str : String) : compiler × Nat :=
  match c.heap.alloc (Obj.string str) with
  | (h, ptr) =>
    match c.dest.addConstant (as_value_ptr ptr TAG_STRING) with
    | (d, id) => ({ c with dest := d, heap := h }, id)

def compiler.sym_const (c : compiler) (sym : Nat) : compiler × Nat :=
  match c.dest.addConstant (as_sym_value sym) with
  | (d, id) => ({ c with dest := d }, id)

/-- Modelled from the spec: `compiler::constant(id)` is declared in compile2.hpp, which is not
in src; it emits `OP_CONST` with the 16-bit id, as `compile_var` does by hand. -/
def compiler.constant (c : compiler) (l : local_table) (id : Nat) : CResult Unit :=
  (c.write_byte l OP_CONST).bind fun _ c1 l1 => c1.write_short l1 id

/-- The statement `++locals.sp` on 8 bits. -/
def local_table.inc_sp (l : local_table) : local_table := { l with sp := u8 (l.sp + 1) }

/-- The statement `--locals.sp` on 8 bits. -/
def local_table.dec_sp (l : local_table) : local_table := { l with sp := u8 (l.sp + 255) }

/-- The loop `while (call->cur_func == nullptr && call != nullptr) call = call->parent` of
`add_upvalue`, with `fuel` scopes left to visit: the scope it stops at, `none` when it
dereferences a null parent. -/
def add_upvalue_walk : Nat → local_table → Option local_table
  | 0, _ => none
  | fuel + 1, call =>
    match call.cur_func with
    | some _ => some call
    | none =>
      match call.parent with
      | none => none
      | some p => add_upvalue_walk fuel p

/-- The number of scopes on the parent chain of a scope. -/
def local_table.depth : Nat → local_table → Nat
  | 0, _ => 0
  | fuel + 1, l =>
    match l.parent with
    | none => 1
    | some p => local_table.depth fuel p + 1

/-- The call `stub->get_upvalue(slot, direct)` on the stub with index `fi` of the module. -/
def Bytecode.get_upvalue (b : Bytecode) (fi : Nat) (slot : Nat) (direct : Bool) :
    Option (Nat × Bytecode) :=
  match b.functions.get? fi with
  | none => none
  | some stub =>
    match stub.getUpvalue slot direct with
    | (id, stub1) => some (id, { b with functions := b.functions.set fi stub1 })

/-- `local_table::add_upvalue(levels, pos)`, by recursion on `levels`; `walk` bounds the
length of scope chains.  With `levels = 0` the C++ recursion continues with `levels - 1`
until it runs off the scope chain, which is undefined: `none`. -/
def local_table.add_upvalue (walk : Nat) (dest : Bytecode) (pos : Nat) :
    Nat → local_table → Option (Nat × Bytecode)
  | 0, _ => none
  | levels + 1, l =>
    match add_upvalue_walk walk l with
    | none => none
    | some call =>
      match call.cur_func with
      | none => none
      | some fi =>
        if levels + 1 = 1 then dest.get_upvalue fi pos true
        else
          match call.parent with
          | none => none
          | some p =>
            match local_table.add_upvalue walk dest pos levels p with
            | none => none
            | some (slot, dest1) => dest1.get_upvalue fi slot false

/-- The `while (true)` loop of `compiler::find_local`.  The body never reassigns `l`, so every
pass looks at the same scope: the loop ends in its first pass, with the lookup result and the
value of `levels`, or it never ends (`none`). -/
def find_local_loop (l : local_table) (name : Nat) : Option (Option Nat × Nat) :=
  match l.vars.get name with
  | some r => some (some r, 0)
  | none =>
    let levels := if l.cur_func.isSome then 1 else 0
    if l.parent.isNone then some (none, levels) else none

/-- `compiler::find_local`: the local address found, paired with `*is_upval`. -/
def compiler.find_local (c : compiler) (locals : local_table) (name : Nat) :
    CResult (Option (Nat × Bool)) :=
  match find_local_loop locals name with
  | none => CResult.diverges
  | some (res, levels) =>
    match res with
    | some r =>
      if levels > 0 then
        match local_table.add_upvalue 4294967296 c.dest r levels locals with
        | none => CResult.undefined
        | some (id, d) => CResult.ok (some (id, true)) { c with dest := d } locals
      else CResult.ok (some (r, false)) c locals
    | none => CResult.ok none c locals

/-- `compiler::compile_var`. -/
def compiler.compile_var (c : compiler) (locals : local_table) (sym : Nat) (_loc : SourceLoc) :
    CResult Unit :=
  (c.find_local locals sym).bind fun l c1 locals1 =>
    let r : CResult Unit :=
      match l with
      | some (addr, up) =>
        (c1.write_byte locals1 (if up then OP_UPVALUE else OP_LOCAL)).bind fun _ c2 l2 =>
          c2.write_byte l2 addr
      | none =>
        match c1.sym_const sym with
        | (c2, id) =>
          (c2.write_byte locals1 OP_CONST).bind fun _ c3 l3 =>
            (c3.write_short l3 id).bind fun _ c4 l4 => c4.write_byte l4 OP_GLOBAL
    r.bind fun _ c5 l5 => CResult.ok () c5 l5.inc_sp

/-- `compiler::compile_atom`. -/
def compiler.compile_atom (c : compiler) (locals : local_table) (atom : ast_atom)
    (loc : SourceLoc) : CResult Unit :=
  match atom with
  | ast_atom.at_number num =>
    match c.num_const num with
    | (c1, id) => (c1.constant locals id).bind fun _ c2 l2 => CResult.ok () c2 l2.inc_sp
  | ast_atom.at_string str =>
    match c.str_const str with
    | (c1, id) => (c1.constant locals id).bind fun _ c2 l2 => CResult.ok () c2 l2.inc_sp
  | ast_atom.at_symbol sym =>
    match c.symtab.index sym with
    | none => CResult.undefined
    | some s =>
      if s.name = "null" then c.write_byte locals OP_NULL
      else if s.name = "true" then c.write_byte locals OP_TRUE
      else if s.name = "false" then c.write_byte locals OP_FALSE
      else c.compile_var locals sym loc

/-- The loop of `compile_call`: compiles every element and counts in the 32-bit `num_args`. -/
def compile_call_loop : List Sub → compiler → local_table → Nat → CResult Nat
  | [], c, l, num_args => CResult.ok num_args c l
  | s :: rest, c, l, num_args =>
    (s c l).bind fun _ c1 l1 => compile_call_loop rest c1 l1 (u32 (num_args + 1))

/-- `compiler::compile_call`.  `subs` is `compile_subexpr` of each element of `list`. -/
def compiler.compile_call (subs : List Sub) (c : compiler) (locals : local_table)
    (list : List ast_node) : CResult Unit :=
  let base_sp := locals.sp
  (compile_call_loop subs c locals 4294967295).bind fun num_args c1 l1 =>
    let r : CResult Unit :=
      if num_args > 255 then
        match list.getLast? with
        | none => CResult.undefined
        | some x => c1.error l1 "Function call with more than 255 arguments." x.loc
      else CResult.ok () c1 l1
    r.bind fun _ c2 l2 =>
      (c2.write_byte l2 OP_CALL).bind fun _ c3 l3 =>
        (c3.write_byte l3 (u8 num_args)).bind fun _ c4 l4 =>
          CResult.ok () c4 { l4 with sp := u8 (base_sp + 1) }

/-- The loop of `compile_and` over the elements after the head; `patch_locs` is the
`forward_list` of addresses recorded with `push_front`. -/
def compile_and_loop : List Sub → compiler → local_table → List Nat → CResult (List Nat)
  | [], c, l, patch_locs => CResult.ok patch_locs c l
  | s :: rest, c, l, patch_locs =>
    (s c l).bind fun _ c1 l1 =>
      (c1.write_byte l1 OP_CJUMP).bind fun _ c2 l2 =>
        (c2.write_short l2 0).bind fun _ c3 l3 =>
          compile_and_loop rest c3 l3.dec_sp (c3.get_size :: patch_locs)

/-- The loop `for (auto u : patch_locs) dest->patch_short(u - 2, end_addr - u)`, on 32-bit
addresses. -/
def patch_jumps (end_addr : Nat) : List Nat → compiler → compiler
  | [], c => c
  | u :: rest, c =>
    patch_jumps end_addr rest
      (c.patch_short (u32 (u + 4294967294)) (u32 (end_addr + 4294967296 - u)))

/-- `compiler::compile_and`.  `subs` is `compile_subexpr` of each element of `list`. -/
def compiler.compile_and (subs : List Sub) (c : compiler) (locals : local_table)
    (_list : List ast_node) (_loc : SourceLoc) : CResult Unit :=
  (compile_and_loop (subs.drop 1) c locals []).bind fun patch_locs c1 l1 =>
    (c1.write_byte l1 OP_TRUE).bind fun _ c2 l2 =>
      (c2.write_byte l2 OP_JUMP).bind fun _ c3 l3 =>
        (c3.write_short l3 1).bind fun _ c4 l4 =>
          let end_addr := c4.get_size
          (compiler.write_byte (patch_jumps end_addr patch_locs c4) l4 OP_FALSE).bind
            fun _ c5 l5 => CResult.ok () c5 l5.inc_sp

/-- `compiler::compile_def`.  `subs` is `compile_subexpr` of each element of `list`. -/
def compiler.compile_def (subs : List Sub) (c : compiler) (locals : local_table)
    (list : List ast_node) (loc : SourceLoc) : CResult Unit :=
  if list.length ≠ 3 then c.error locals "Wrong number of arguments to def." loc
  else
    match list.get? 1, subs.get? 2 with
    | some name, some value =>
      if !name.is_symbol then c.error locals "First argument to def must be a symbol." loc
      else
        match name.sym with
        | none => CResult.undefined
        | some sym =>
          match c.sym_const sym with
          | (c1, id) =>
            (c1.constant locals id).bind fun _ c2 l2 =>
              (value c2 l2.inc_sp).bind fun _ c3 l3 =>
                (c3.write_byte l3 OP_SET_GLOBAL).bind fun _ c4 l4 => c4.write_byte l4 OP_NULL
    | _, _ => CResult.undefined

/-- The loop of `compile_do` over the elements before the last, and the last element. -/
def compile_do_loop : List Sub → compiler → local_table → CResult Unit
  | [], c, l => CResult.ok () c l
  | [s], c, l => s c l
  | s :: t :: rest, c, l =>
    (s c l).bind fun _ c1 l1 =>
      (c1.write_byte l1 OP_POP).bind fun _ c2 l2 => compile_do_loop (t :: rest) c2 l2.dec_sp

/-- `compiler::compile_do`.  `subs` is `compile_subexpr` of each element of `list`. -/
def compiler.compile_do (subs : List Sub) (c : compiler) (locals : local_table)
    (list : List ast_node) (_loc : SourceLoc) : CResult Unit :=
  if list.length = 1 then
    (c.write_byte locals OP_NULL).bind fun _ c1 l1 => CResult.ok () c1 l1.inc_sp
  else
    match subs.drop 1 with
    | [] => CResult.undefined
    | s :: rest => compile_do_loop (s :: rest) c locals

/-- `compiler::compile_if`.  `subs` is `compile_subexpr` of each element of `list`. -/
def compiler.compile_if (subs : List Sub) (c : compiler) (locals : local_table)
    (list : List ast_node) (loc : SourceLoc) : CResult Unit :=
  if list.length ≠ 4 then c.error locals "Wrong number of arguments to if." loc
  else
    match subs.get? 1, subs.get? 2, subs.get? 3 with
    | some cond, some thn, some els =>
      (cond c locals).bind fun _ c1 l1 =>
        (c1.write_byte l1 OP_CJUMP).bind fun _ c2 l2 =>
          (c2.write_short l2 0).bind fun _ c3 l3 =>
            let then_addr := c3.get_size
            (thn c3 l3.dec_sp).bind fun _ c4 l4 =>
              (c4.write_byte l4 OP_JUMP).bind fun _ c5 l5 =>
                (c5.write_short l5 0).bind fun _ c6 l6 =>
                  let else_addr := c6.get_size
                  (els c6 l6.dec_sp).bind fun _ c7 l7 =>
                    let end_addr := c7.get_size
                    let c8 := c7.patch_short (u32 (then_addr + 4294967294))
                      (u32 (else_addr + 4294967296 - then_addr))
                    let c9 := c8.patch_short (u32 (else_addr + 4294967294))
                      (u32 (end_addr + 4294967296 - else_addr))
                    CResult.ok () c9 l7
    | _, _, _ => CResult.undefined

/-- The loop of `compile_let` over the (name, value) pairs after the head; each element of
the list comes with its `compile_subexpr`. -/
def compile_let_loop : List (ast_node × Sub) → compiler → local_table → CResult Unit
  | [], c, l => CResult.ok () c l
  | [_], _, _ => CResult.undefined
  | (name, _) :: (_, value) :: rest, c, locals =>
    if !name.is_symbol then c.error locals "Names in let must be symbols." name.loc
    else
      match name.sym with
      | none => CResult.undefined
      | some sym =>
        let loc := locals.sp
        (c.write_byte locals.inc_sp OP_NULL).bind fun _ c1 l1 =>
          (value c1 { l1 with vars := l1.vars.insert sym loc }).bind fun _ c2 l2 =>
            (c2.write_byte l2 OP_SET_LOCAL).bind fun _ c3 l3 =>
              (c3.write_byte l3 loc).bind fun _ c4 l4 =>
                (c4.write_byte l4 OP_NULL).bind fun _ c5 l5 => compile_let_loop rest c5 l5

/-- `compiler::compile_let`.  `subs` is `compile_subexpr` of each element of `list`. -/
def compiler.compile_let (subs : List Sub) (c : compiler) (locals : local_table)
    (list : List ast_node) (loc : SourceLoc) : CResult Unit :=
  if list.length &&& 1 ≠ 1 then c.error locals "Wrong number of arguments to let." loc
  else compile_let_loop ((list.zip subs).drop 1) c locals

/-- The loop of `compile_or` over the elements after the head. -/
def compile_or_loop : List Sub → compiler → local_table → List Nat → CResult (List Nat)
  | [], c, l, patch_locs => CResult.ok patch_locs c l
  | s :: rest, c, l, patch_locs =>
    (s c l).bind fun _ c1 l1 =>
      (c1.write_byte l1 OP_CJUMP).bind fun _ c2 l2 =>
        (c2.write_short l2 3).bind fun _ c3 l3 =>
          (c3.write_byte l3.dec_sp OP_JUMP).bind fun _ c4 l4 =>
            (c4.write_short l4 0).bind fun _ c5 l5 =>
              compile_or_loop rest c5 l5 (c5.get_size :: patch_locs)

/-- `compiler::compile_or`.  `subs` is `compile_subexpr` of each element of `list`. -/
def compiler.compile_or (subs : List Sub) (c : compiler) (locals : local_table)
    (_list : List ast_node) (_loc : SourceLoc) : CResult Unit :=
  (compile_or_loop (subs.drop 1) c locals []).bind fun patch_locs c1 l1 =>
    (c1.write_byte l1 OP_FALSE).bind fun _ c2 l2 =>
      (c2.write_byte l2 OP_JUMP).bind fun _ c3 l3 =>
        (c3.write_short l3 1).bind fun _ c4 l4 =>
          let end_addr := c4.get_size
          (compiler.write_byte (patch_jumps end_addr patch_locs c4) l4 OP_TRUE).bind
            fun _ c5 l5 => CResult.ok () c5 l5.inc_sp

/-- `compiler::compile_list`.  `subs` is `compile_subexpr` of each element of `list`. -/
def compiler.compile_list (subs : List Sub) (c : compiler) (locals : local_table)
    (list : List ast_node) (loc : SourceLoc) : CResult Unit :=
  match list with
  | [] => c.error locals "Encountered empty list." loc
  | head :: _ =>
    match head with
    | ast_node.ak_atom (ast_atom.at_symbol sym) hloc =>
      match c.symtab.index sym with
      | none => CResult.undefined
      | some s =>
        if s.name = "and" then c.compile_and subs locals list hloc
        else if s.name = "def" then c.compile_def subs locals list hloc
        else if s.name = "do" then c.compile_do subs locals list hloc
        else if s.name = "if" then c.compile_if subs locals list hloc
        else if s.name = "let" then c.compile_let subs locals list hloc
        else if s.name = "or" then c.compile_or subs locals list hloc
        else c.compile_call subs locals list
    | _ => c.compile_call subs locals list

mutual
/-- `compiler::compile_subexpr`, with the node first. -/
def compile_subexpr : ast_node → Sub
  | ast_node.ak_atom atom loc => fun c locals => c.compile_atom locals atom loc
  | ast_node.ak_list list loc => fun c locals => c.compile_list (compile_each list) locals list loc
  | ast_node.ak_error loc => fun c locals => c.error locals "Parser error state." loc
/-- The compilations `compile_subexpr(locals, x)` of the elements `x` of a list, in order. -/
def compile_each : List ast_node → List Sub
  | [] => []
  | x :: xs => compile_subexpr x :: compile_each xs
end

/-- `compiler::compile_expr` on the expression `expr` that `parse_node` returned. -/
def compiler.compile_expr (c : compiler) (expr : ast_node) : CResult Unit :=
  (compile_subexpr expr c (local_table.new none none)).bind fun _ c1 l1 =>
    c1.write_byte l1 OP_POP

/-- `compiler::compile_to_eof` on the expressions that the scanner holds. -/
def compiler.compile_to_eof : compiler → List ast_node → CResult Unit
  | c, [] => CResult.ok () c (local_table.new none none)
  | c, expr :: rest =>
    match c.compile_expr expr with
    | CResult.ok _ c1 _ => compiler.compile_to_eof c1 rest
    | r => r

/-! ## Observations and example data -/

/-- The state an outcome ends in, when it is not an error. -/
def VMResult.state {α : Type} : VMResult α → Option VM
  | VMResult.ok _ vm => some vm
  | VMResult.error _ _ => none
  | VMResult.undefined => none

/-- The error an outcome throws, with the state at the throw. -/
def VMResult.thrown {α : Type} : VMResult α → Option (FNError × VM)
  | VMResult.ok _ _ => none
  | VMResult.error e vm => some (e, vm)
  | VMResult.undefined => none

/-- Whether an outcome is undefined behaviour. -/
def VMResult.isUndefined {α : Type} : VMResult α → Bool
  | VMResult.undefined => true
  | _ => false

/-- The bytecode module and heap of a successful compilation. -/
def CResult.output {α : Type} : CResult α → Option compiler
  | CResult.ok _ c _ => some c
  | _ => none

/-- Compile the top-level forms `exprs` with `compile_to_eof` and execute the module from a
fresh machine for at most `fuel` steps; `none` when compilation fails or the fuel runs out. -/
def compile_and_run (c : compiler) (host : Host) (exprs : List ast_node) (fuel : Nat) :
    Option (VMResult Unit) :=
  match c.compile_to_eof exprs with
  | CResult.ok _ c1 _ => (VM.new c1.dest c1.heap).execute host fuel
  | _ => none

/-- The final state of a run that ended without error. -/
def final_state (r : Option (VMResult Unit)) : Option VM :=
  match r with
  | some res => res.state
  | none => none

/-- A source location for examples. -/
def ex_loc : SourceLoc := ⟨"example.fn", 1, 1⟩

/-- A symbol table for examples: the special-form names, the singletons and some variables. -/
def ex_symtab : symbol_table :=
  ⟨Table.empty,
    [⟨0, "and"⟩, ⟨1, "or"⟩, ⟨2, "def"⟩, ⟨3, "do"⟩, ⟨4, "if"⟩, ⟨5, "let"⟩, ⟨6, "null"⟩,
     ⟨7, "true"⟩, ⟨8, "false"⟩, ⟨9, "x"⟩, ⟨10, "y"⟩, ⟨11, "f"⟩]⟩

/-- A symbol atom. -/
def ex_sym (id : Nat) : ast_node := ast_node.ak_atom (ast_atom.at_symbol id) ex_loc

/-- A number atom, from the bit pattern of the double. -/
def ex_num (bits : Nat) : ast_node := ast_node.ak_atom (ast_atom.at_number bits) ex_loc

/-- A list node. -/
def ex_list (xs : List ast_node) : ast_node := ast_node.ak_list xs ex_loc

def s_and : ast_node := ex_sym 0
def s_def : ast_node := ex_sym 2
def s_do : ast_node := ex_sym 3
def s_if : ast_node := ex_sym 4
def s_let : ast_node := ex_sym 5
def s_null : ast_node := ex_sym 6
def s_true : ast_node := ex_sym 7
def s_false : ast_node := ex_sym 8
def s_x : ast_node := ex_sym 9

/-- The doubles 1, 2, 3, 7, 10 and 20 as bit patterns. -/
def bits_1 : Nat := 0x3FF0000000000000
def bits_2 : Nat := 0x4000000000000000
def bits_3 : Nat := 0x4008000000000000
def bits_7 : Nat := 0x401C000000000000
def bits_10 : Nat := 0x4024000000000000
def bits_20 : Nat := 0x4034000000000000

/-- A compiler writing to a fresh bytecode module. -/
def ex_compiler : compiler := ⟨Bytecode.new, ex_symtab, []⟩

/-- A fresh module whose source map has one location. -/
def ex_compiler_loc : compiler := ⟨Bytecode.new.setLoc ex_loc, ex_symtab, []⟩

/-- A host without foreign functions. -/
def ex_host : Host := fun _ _ _ _ => VMResult.undefined

/-- A machine about to execute `OP_CALL 0` on a foreign function that needs one argument. -/
def ex_vm_foreign : VM :=
  { VM.new { (Bytecode.new.setLoc ex_loc) with
        data := fun a => if a = 0 then OP_CALL else 0, size := 2 }
      [Obj.foreign ⟨1, false, 0⟩] with
    stack := fun a => if a = 0 then makeForeignValue 32 else V_NULL,
    frame := { CallFrame.new none 0 0 none 0 with sp := 1 } }

/-- A stub of arity 1 at code address 10. -/
def ex_stub : FuncStub :=
  { positional := 1, required := 1, varargs := false, numUpvals := 0, upvals := [], addr := 10 }

/-- A machine about to execute `OP_CALL n` on a closure of `ex_stub` with `n` arguments on
the stack above it. -/
def ex_vm_closure (n : Nat) : VM :=
  { VM.new { (Bytecode.new.setLoc ex_loc) with
        data := fun a => if a = 0 then OP_CALL else if a = 1 then n else
          if a = 10 then OP_RETURN else 0,
        size := 11, functions := [ex_stub] }
      [Obj.func ⟨0, []⟩] with
    stack := fun a => if a = 0 then makeFuncValue 32 else as_value_num bits_7,
    frame := { CallFrame.new none 0 0 none 0 with sp := n + 1 } }

/-- The machine `ex_vm_closure 1` after its call: executing `OP_RETURN` at address 10 inside
the frame of the closure, with the argument as the top value. -/
def ex_vm_in_call : VM :=
  { ex_vm_closure 1 with
    frame := (ex_vm_closure 1).frame.extendFrame 2 1 32, ip := 10 }

/-- A machine about to execute `OP_RETURN` at top level. -/
def ex_vm_return_top : VM :=
  VM.new { (Bytecode.new.setLoc ex_loc) with
    data := fun a => if a = 0 then OP_RETURN else 0, size := 1 } []

/-! ## The side-effect-free forms and their meaning

The forms built from number literals, the symbols `null`, `true` and `false` and the special
forms `and`, `or`, `do` and `if`.  `pure_eval` gives, for such a form, the number of bytes
`compile_subexpr` emits for it, the value its code leaves on the stack and the value its last
executed `OP_POP` leaves in the last-pop register. -/

/-- What a side-effect-free form does: code length, value, and the last value popped by an
`OP_POP` (none when the code executes no `OP_POP`). -/
structure Effect where
  len : Nat
  val : Value
  lp : Option Value
  deriving DecidableEq, Repr

/-- The last-pop register after two pieces of code in sequence. -/
def seq_lp (first second : Option Value) : Option Value :=
  match second with
  | some x => some x
  | none => first

/-- The bytes the loop of `compile_and` emits: each element and its 3-byte `OP_CJUMP`. -/
def and_loop_len : List Effect → Nat
  | [] => 0
  | r :: rs => r.len + 3 + and_loop_len rs

/-- The run of the loop of `and`: whether every element was truthy, and the last pop; the
elements after the first falsy one are not run. -/
def and_run : List Effect → Bool × Option Value
  | [] => (true, none)
  | r :: rs =>
    if v_truthy r.val then ((and_run rs).1, seq_lp r.lp (and_run rs).2) else (false, r.lp)

/-- The effect of `(and e1 ... en)`. -/
def and_effect (rs : List Effect) : Effect :=
  { len := and_loop_len rs + 5,
    val := if (and_run rs).1 then V_TRUE else V_FALSE,
    lp := (and_run rs).2 }

/-- The bytes the loop of `compile_or` emits: each element, its `OP_CJUMP` and its
`OP_JUMP`. -/
def or_loop_len : List Effect → Nat
  | [] => 0
  | r :: rs => r.len + 6 + or_loop_len rs

/-- The run of the loop of `or`: whether some element was truthy, and the last pop; the
elements after the first truthy one are not run. -/
def or_run : List Effect → Bool × Option Value
  | [] => (false, none)
  | r :: rs =>
    if v_truthy r.val then (true, r.lp) else ((or_run rs).1, seq_lp r.lp (or_run rs).2)

/-- The effect of `(or e1 ... en)`. -/
def or_effect (rs : List Effect) : Effect :=
  { len := or_loop_len rs + 5,
    val := if (or_run rs).1 then V_TRUE else V_FALSE,
    lp := (or_run rs).2 }

/-- The effect of the body `e1 ... en` of a `do` with at least one element: every value but
the last is popped. -/
def do_effect : List Effect → Effect
  | [] => ⟨1, V_NULL, none⟩
  | [r] => r
  | r :: t :: rs =>
    { len := r.len + 1 + (do_effect (t :: rs)).len,
      val := (do_effect (t :: rs)).val,
      lp := seq_lp (some r.val) (do_effect (t :: rs)).lp }

/-- The effect of `(if c t e)`: only the chosen branch is run. -/
def if_effect (c t e : Effect) : Effect :=
  { len := c.len + 3 + t.len + 3 + e.len,
    val := if v_truthy c.val then t.val else e.val,
    lp := seq_lp c.lp (if v_truthy c.val then t.lp else e.lp) }

mutual
/-- The effect of a side-effect-free form; `none` for every other form. -/
def pure_eval (symtab : symbol_table) : ast_node → Option Effect
  | ast_node.ak_atom (ast_atom.at_number num) _ => some ⟨3, as_value_num num, none⟩
  | ast_node.ak_atom (ast_atom.at_string _) _ => none
  | ast_node.ak_atom (ast_atom.at_symbol sym) _ =>
    match symtab.index sym with
    | none => none
    | some s =>
      if s.name = "null" then some ⟨1, V_NULL, none⟩
      else if s.name = "true" then some ⟨1, V_TRUE, none⟩
      else if s.name = "false" then some ⟨1, V_FALSE, none⟩
      else none
  | ast_node.ak_error _ => none
  | ast_node.ak_list list _ =>
    match list with
    | ast_node.ak_atom (ast_atom.at_symbol sym) _ :: args =>
      match symtab.index sym, pure_eval_each symtab args with
      | some s, some rs =>
        if s.name = "and" then some (and_effect rs)
        else if s.name = "def" then none
        else if s.name = "do" then some (do_effect rs)
        else if s.name = "if" then
          match rs with
          | [c, t, e] => some (if_effect c t e)
          | _ => none
        else if s.name = "let" then none
        else if s.name = "or" then some (or_effect rs)
        else none
      | _, _ => none
    | _ => none
/-- The effects of the elements of a list of side-effect-free forms. -/
def pure_eval_each (symtab : symbol_table) : List ast_node → Option (List Effect)
  | [] => some []
  | x :: xs =>
    match pure_eval symtab x, pure_eval_each symtab xs with
    | some r, some rs => some (r :: rs)
    | _, _ => none
end

/-- What a step of compilation keeps: the symbol table, a nonzero capacity, the bytes already
written, and the constants already registered; and it registers no more constants than it
writes bytes. -/
def Pres (c c1 : compiler) : Prop :=
  c1.symtab = c.symtab ∧ 0 < c1.dest.cap ∧ c.dest.size ≤ c1.dest.size ∧
    (∀ a, a < c.dest.size → c1.dest.data a = c.dest.data a) ∧
    c.dest.constants <+: c1.dest.constants ∧
    c1.dest.constants.length + c.dest.size ≤ c.dest.constants.length + c1.dest.size

/-- The module `code` a machine runs holds the bytes of the module `d` on the addresses from
`a` up to `b`, and the constants of `d` under the same ids. -/
def Loaded (code d : Bytecode) (a b : Nat) : Prop :=
  (∀ x, a ≤ x → x < b → code.data x = d.data x) ∧
    d.constants <+: code.constants ∧ code.constants.length < 65536 ∧ b ≤ code.size

/-- The loop of `VM::execute` goes from `vm` to `vm1` in a number of steps, none of which
raises or leaves the code. -/
def Runs (host : Host) (vm vm1 : VM) : Prop :=
  ∃ n, ∀ fuel, vm.execute host (n + fuel) = vm1.execute host fuel

/-- The machine `vm1` is `vm` with `ip` moved to `ip1`, the frame's depth set to `sp1`, the
last-pop register updated by `lp`, and the stack unchanged below the old depth; nothing else
differs. -/
def Moved (vm vm1 : VM) (ip1 sp1 : Nat) (lp : Option Value) : Prop :=
  vm1.ip = ip1 ∧ vm1.code = vm.code ∧ vm1.frame = { vm.frame with sp := sp1 } ∧
    (∀ a, a < vm.frame.bp + vm.frame.sp → vm1.stack a = vm.stack a) ∧
    vm1.lp = (match lp with
      | some x => x
      | none => vm.lp) ∧
    vm1.globals = vm.globals ∧ vm1.heap = vm.heap ∧ vm1.slots = vm.slots ∧
    vm1.cells = vm.cells ∧ vm1.foreignFuncs = vm.foreignFuncs

/-- The contract of the compilation `s` of a form with effect `r`: from a module with room,
`s` succeeds and appends `r.len` bytes; and a machine that holds these bytes, has one free
stack cell and starts at their first byte reaches the byte after them with the value of the
form pushed on its frame. -/
def SubOK (symtab : symbol_table) (s : Sub) (r : Effect) : Prop :=
  ∀ c l, c.symtab = symtab → 0 < c.dest.cap → c.dest.size + r.len ≤ 2147483648 →
    ∃ c1 l1, s c l = CResult.ok () c1 l1 ∧ c1.dest.size = c.dest.size + r.len ∧ Pres c c1 ∧
      ∀ (host : Host) (vm : VM), Loaded vm.code c1.dest c.dest.size c1.dest.size →
        r.len ≤ 127 → vm.ip = c.dest.size → vm.frame.sp + vm.frame.bp < STACK_SIZE - 1 →
        ∃ vm1, Runs host vm vm1 ∧ Moved vm vm1 c1.dest.size (vm.frame.sp + 1) r.lp ∧
          vm1.stack (vm.frame.bp + vm.frame.sp) = r.val

/-- The contract `SubOK` for each compilation of a list, against a list of effects. -/
inductive SubsOK (symtab : symbol_table) : List Sub → List Effect → Prop where
  | nil : SubsOK symtab [] []
  | cons {s : Sub} {r : Effect} {ss : List Sub} {rs : List Effect} :
      SubOK symtab s r → SubsOK symtab ss rs → SubsOK symtab (s :: ss) (r :: rs)

/-- The machine after a push of `v` that ends with `ip = ip1`. -/
def VM.afterPush (vm : VM) (v : Value) (ip1 : Nat) : VM :=
  { vm with
    stack := fun a => if a = vm.frame.bp + vm.frame.sp then v else vm.stack a,
    frame := { vm.frame with sp := vm.frame.sp + 1 },
    ip := ip1 }

/-- The machine after a pop that ends with `ip = ip1`. -/
def VM.afterPop (vm : VM) (ip1 : Nat) : VM :=
  { vm with frame := { vm.frame with sp := vm.frame.sp - 1 }, ip := ip1 }

/-! ## Example programs -/

/-- `(if true 10 20)`, `(if false 10 20)` and `(if null 10 20)`. -/
def prog_if_true : ast_node := ex_list [s_if, s_true, ex_num bits_10, ex_num bits_20]
def prog_if_false : ast_node := ex_list [s_if, s_false, ex_num bits_10, ex_num bits_20]
def prog_if_null : ast_node := ex_list [s_if, s_null, ex_num bits_10, ex_num bits_20]

/-- `(def x 3)` and `(do x)`. -/
def prog_def_x_3 : ast_node := ex_list [s_def, s_x, ex_num bits_3]
def prog_do_x : ast_node := ex_list [s_do, s_x]

/-- `(let x 1)`. -/
def prog_let_x_1 : ast_node := ex_list [s_let, s_x, ex_num bits_1]

/-- `(and false true ... true)` with 31 times `true`: the first `OP_CJUMP` is 128 bytes before
the final `OP_FALSE`. -/
def prog_and_long : ast_node := ex_list (s_and :: s_false :: List.replicate 31 s_true)

/-- `(if false (and true ... true) 20)` with 30 times `true`: the code of the then-branch has
125 bytes, so the `OP_CJUMP` is 128 bytes before the code of the else-branch. -/
def prog_if_long : ast_node :=
  ex_list [s_if, s_false, ex_list (s_and :: List.replicate 30 s_true), ex_num bits_20]

/-- What a run is observed by: the last-pop register, the depth of the frame and `ip`. -/
def observe (r : Option (VMResult Unit)) : Option (Value × Nat × Nat) :=
  (final_state r).map (fun vm => (vm.lastPop, vm.frame.sp, vm.ip))

/-! ## Example machines for single instructions -/

/-- A fresh module with one source location that holds the given bytes from address 0. -/
def ex_code (bytes : List Nat) : Bytecode :=
  { (Bytecode.new.setLoc ex_loc) with
    data := fun a => bytes.getD a 0, size := bytes.length }

/-- A top-level machine on the given code and heap whose frame holds the given values. -/
def ex_vm (bytes : List Nat) (heap : Heap) (vals : List Value) : VM :=
  { VM.new (ex_code bytes) heap with
    stack := fun a => vals.getD a V_NULL,
    frame := { CallFrame.new none 0 0 none 0 with sp := vals.length } }

/-- `OP_CALL 0` with the number 7 on top of the stack. -/
def ex_vm_call_number : VM := ex_vm [OP_CALL, 0] [] [as_value_num bits_7]

/-- `OP_JUMP` with the 16-bit displacement 128 (bytes `0x80 0x00`) at address 0. -/
def ex_vm_jump_128 : VM := ex_vm [OP_JUMP, 128, 0] [] []

/-- `OP_CJUMP 5` with `false` on top of one other value. -/
def ex_vm_cjump_false : VM := ex_vm [OP_CJUMP, 5, 0] [] [V_TRUE, V_FALSE]

/-- `OP_CJUMP 5` with the number 7 on top of one other value. -/
def ex_vm_cjump_num : VM := ex_vm [OP_CJUMP, 5, 0] [] [V_TRUE, as_value_num bits_7]

/-- `OP_CJUMP 5` on an empty frame. -/
def ex_vm_cjump_empty : VM := ex_vm [OP_CJUMP, 5, 0] [] []

/-- A machine whose frame uses all cells of the stack but the last. -/
def ex_vm_almost_full : VM :=
  { ex_vm [OP_TRUE] [] [] with
    frame := { CallFrame.new none 0 0 none 0 with sp := STACK_SIZE - 1 } }

/-- `OP_SET_GLOBAL` with the string `"x"` (the name) below the string `"v"` (the value). -/
def ex_vm_set_global : VM :=
  ex_vm [OP_SET_GLOBAL] [Obj.string "x", Obj.string "v"]
    [as_value_ptr 32 TAG_STRING, as_value_ptr 64 TAG_STRING]

/-- `OP_GLOBAL` with the string `"x"` on top and no global bound. -/
def ex_vm_global_unbound : VM :=
  ex_vm [OP_GLOBAL] [Obj.string "x"] [as_value_ptr 32 TAG_STRING]

/-- `OP_GLOBAL` with the string `"x"` on top and the global `x` bound to 7. -/
def ex_vm_global_bound : VM :=
  (ex_vm [OP_GLOBAL] [Obj.string "x"] [as_value_ptr 32 TAG_STRING]).addGlobal "x"
    (as_value_num bits_7)

/-- `OP_UPVALUE 0` at top level. -/
def ex_vm_upvalue_top : VM := ex_vm [OP_UPVALUE, 0] [] []

/-- `OP_SET_UPVALUE 0` at top level with a value to store. -/
def ex_vm_set_upvalue_top : VM := ex_vm [OP_SET_UPVALUE, 0] [] [V_TRUE]

/-- `OP_CONST 3` on a module without constants. -/
def ex_vm_const_unknown : VM := ex_vm [OP_CONST, 3, 0] [] []

/-! ## Open upvalues of a frame -/

/-- Every entry of the open list `us` of a frame with base pointer `bp` is an open upvalue: its
slot is marked open and points at the stack position `bp + pos` of the entry; and no two
entries share a slot. -/
def OpenList (bp : Nat) (slots : List UpvalueSlot) (us : List OpenUpvalue) : Prop :=
  (∀ u, u ∈ us → slots.get? u.slot = some ⟨true, ValPtr.stack (bp + u.pos)⟩) ∧
    (us.map (fun u => u.slot)).Nodup

/-- The value seen through the upvalue slot `k`. -/
def VM.slotValue (vm : VM) (k : Nat) : Option Value :=
  match vm.slots.get? k with
  | none => none
  | some s => s.val.read vm.stack vm.cells

/-- A frame with two open upvalues, at positions 0 and 2, in a machine with three values. -/
def ex_frame_open : CallFrame :=
  { CallFrame.new none 0 0 none 0 with sp := 3, openUpvals := [⟨1, 2⟩, ⟨0, 0⟩] }

/-- The slots of the two open upvalues of `ex_frame_open`. -/
def ex_slots_open : List UpvalueSlot := [⟨true, ValPtr.stack 0⟩, ⟨true, ValPtr.stack 2⟩]

/-- A stack holding 1, 2 and 3 at positions 0, 1 and 2. -/
def ex_stack_123 : Nat → Value :=
  fun a => [as_value_num bits_1, as_value_num bits_2, as_value_num bits_3].getD a V_NULL

/-- The machine `ex_vm_in_call` with an upvalue open on the argument of the call (position 0
of the frame of the closure, stack position 1). -/
def ex_vm_in_call_open : VM :=
  { ex_vm_in_call with
    frame := { ex_vm_in_call.frame with openUpvals := [⟨0, 0⟩] },
    slots := [⟨true, ValPtr.stack 1⟩] }

/-- What the loop of `OP_CLOSURE` keeps of a machine state `vm` in the state `vm1` it leaves:
the frame's `sp`, `bp` and `caller`, the stack, the code, `ip` and the value cells; every
open upvalue found before is still found, on the same slot; the slots that existed are
untouched; and a well-formed open list, and one with pairwise distinct positions, stays so. -/
def LoopKept (vm vm1 : VM) : Prop :=
  vm1.frame.sp = vm.frame.sp ∧ vm1.frame.bp = vm.frame.bp ∧
  vm1.frame.caller = vm.frame.caller ∧ vm1.stack = vm.stack ∧ vm1.code = vm.code ∧
  vm1.ip = vm.ip ∧ vm1.cells = vm.cells ∧
  (∀ p k, findOpenUpvalue p vm.frame.openUpvals = some k →
    findOpenUpvalue p vm1.frame.openUpvals = some k) ∧
  (∀ s, s < vm.slots.length → vm1.slots.get? s = vm.slots.get? s) ∧
  (OpenList vm.frame.bp vm.slots vm.frame.openUpvals →
    OpenList vm1.frame.bp vm1.slots vm1.frame.openUpvals) ∧
  ((vm.frame.openUpvals.map (fun u => u.pos)).Nodup →
    (vm1.frame.openUpvals.map (fun u => u.pos)).Nodup)

/-- A stub with one upvalue, a direct capture of position 0 of the enclosing frame. -/
def ex_stub_capture : FuncStub :=
  { positional := 0, required := 0, varargs := false, numUpvals := 1, upvals := [⟨0, true⟩],
    addr := 10 }

/-- A top-level machine holding the number 7 at position 0, about to execute `OP_CLOSURE 0`
and then `OP_CLOSURE 1`, on two stubs that each capture position 0. -/
def ex_vm_two_closures : VM :=
  { ex_vm [OP_CLOSURE, 0, 0, OP_CLOSURE, 1, 0] [] [as_value_num bits_7] with
    code := { ex_code [OP_CLOSURE, 0, 0, OP_CLOSURE, 1, 0] with
      functions := [ex_stub_capture, ex_stub_capture] } }

/-- The state a step leaves (the state itself when the step does not succeed). -/
def VM.next (host : Host) (vm : VM) : VM :=
  match vm.step host with
  | VMResult.ok _ vm1 => vm1
  | _ => vm

/-- The recorded jump locations `P` of a loop of `compile_and` or `compile_or` that has written
`a` bytes: each is the address after a 2-byte placeholder, newest first, and the placeholders
do not overlap. -/
def PatchLocs (a : Nat) (P : List Nat) : Prop :=
  P.Pairwise (fun x y => y + 3 ≤ x) ∧ ∀ u, u ∈ P → 2 ≤ u ∧ u ≤ a

/-- A host function that returns the number 7 and leaves the machine as it is. -/
def ex_host_seven : Host := fun _ _ _ vm => VMResult.ok (as_value_num bits_7) vm

/-- A machine about to execute `OP_CALL 0` on a foreign function that takes no argument. -/
def ex_vm_foreign_nullary : VM :=
  { VM.new { (Bytecode.new.setLoc ex_loc) with
        data := fun a => if a = 0 then OP_CALL else 0, size := 2 }
      [Obj.foreign ⟨0, false, 0⟩] with
    stack := fun a => if a = 0 then makeForeignValue 32 else V_NULL,
    frame := { CallFrame.new none 0 0 none 0 with sp := 1 } }
/-- `SymbolTable::SymbolTable()`. -/
def SymbolTable.new : SymbolTable := ⟨Table.empty, []⟩

/-- `SymbolTable::intern`: the table afterwards and the symbol `byId[byId.size() - 1]` the
returned pointer refers to. -/
def SymbolTable.intern (t : SymbolTable) (str : String) : SymbolTable × Symbol :=
  let id := u32 t.byId.length
  let s : Symbol := { id := id, name := str }
  let byId1 := t.byId ++ [s]
  ({ byName := t.byName.insert str s, byId := byId1 }, byId1.getD (byId1.length - 1) s)

/-- `SymbolTable::isInternal`. -/
def SymbolTable.isInternal (t : SymbolTable) (str : String) : Bool :=
  (t.byName.get str).isSome

/-- Two source locations. -/
def ex_loc_a : SourceLoc := ⟨"a.fn", 1, 1⟩
def ex_loc_b : SourceLoc := ⟨"a.fn", 2, 1⟩

/-- A module whose buffer of `2^31` bytes is full. -/
def ex_code_full : Bytecode :=
  { Bytecode.new with cap := 2147483648, size := 2147483648 }
/-- The spec's wording for the operands of a call, "evaluate head then every argument
left-to-right": the compilations of the elements of the list, one after the other. -/
def spec_compile_in_order : List Sub → Sub
  | [] => fun c l => CResult.ok () c l
  | s :: rest => fun c l => (s c l).bind fun _ c1 l1 => spec_compile_in_order rest c1 l1

/-- The reserved special-form names that `compile_list` has no emitter for. -/
def reserved_unimplemented : List String :=
  ["defmacro", "defn", "dot", "dollar-fn", "import", "fn", "letfn", "quasiquote", "quote",
   "unquote", "unquote-splicing", "set!", "with"]

/-- A symbol table whose symbols 0 to 12 are the names of `reserved_unimplemented`. -/
def ex_symtab_reserved : symbol_table :=
  ⟨Table.empty, reserved_unimplemented.enum.map fun p => ⟨p.1, p.2⟩⟩

/-- A compiler with an empty module over `ex_symtab_reserved`. -/
def ex_compiler_reserved : compiler := ⟨Bytecode.new, ex_symtab_reserved, []⟩

/-- The form `(quote)`, over `ex_symtab_reserved`. -/
def prog_quote : ast_node := ex_list [ex_sym 8]

/-- The size of a module and its first `n` bytes. -/
def Bytecode.dump (b : Bytecode) (n : Nat) : Nat × List Nat := (b.size, (List.range n).map b.data)

/-- The form `(x)`: a call of the global `x` without arguments. -/
def prog_call_x : ast_node := ex_list [s_x]

/-- The form `(let x 1 y 2 (do x))`. -/
def prog_let_x_1_y_2_do_x : ast_node :=
  ex_list [s_let, s_x, ex_num bits_1, ex_sym 10, ex_num bits_2, ex_list [s_do, s_x]]

/-- The elements of `(def x 3)`. -/
def prog_def_x_3_list : List ast_node := [s_def, s_x, ex_num bits_3]

/-- Arithmetic on 64 bits. -/
def u64 (n : Nat) : Nat := n % 18446744073709551616

/-- The overload `as_value(symbol s)`: the id is shifted on 32 bits, as in `as_sym_value`. -/
def as_value_symbol (s : Symbol) : Value := ⟨u32 (s.id <<< 4) ||| TAG_SYM⟩

/-- `Bytecode::symbolID`: the module afterwards and the id returned. -/
def Bytecode.symbolID (b : Bytecode) (name : String) : Bytecode × Nat :=
  match b.symbols.intern name with
  | (t, s) => ({ b with symbols := t }, s.id)

/-- `Bytecode::symbol`: the module afterwards and the value returned; the id is shifted by 8
bits, on 64 bits. -/
def Bytecode.symbol (b : Bytecode) (name : String) : Bytecode × Value :=
  match b.symbols.intern name with
  | (t, s) => ({ b with symbols := t }, ⟨u64 (s.id <<< 8) ||| TAG_SYM⟩)

/-- The invariant of the spec on a frame: every open upvalue of the frame is at a position
below the frame's `sp`. -/
def OpenBelowSp (f : CallFrame) : Prop := ∀ u, u ∈ f.openUpvals → u.pos < f.sp

/-- A top-level machine holding the number 7 at position 0, about to execute `OP_CLOSURE 0` on
a stub that captures position 0, and then `OP_POP` twice. -/
def ex_vm_closure_pop : VM :=
  { ex_vm [OP_CLOSURE, 0, 0, OP_POP, OP_POP] [] [as_value_num bits_7] with
    code := { ex_code [OP_CLOSURE, 0, 0, OP_POP, OP_POP] with functions := [ex_stub_capture] } }

/-- A stub with one upvalue, a direct capture of position 1 of the enclosing frame. -/
def ex_stub_capture_one : FuncStub :=
  { positional := 0, required := 0, varargs := false, numUpvals := 1, upvals := [⟨1, true⟩],
    addr := 10 }

/-- A top-level machine holding the numbers 7 and 3, about to execute `OP_CLOSURE 0` on a stub
that captures position 1, then `OP_POP` and `OP_SET_LOCAL 0`. -/
def ex_vm_closure_set_local : VM :=
  { ex_vm [OP_CLOSURE, 0, 0, OP_POP, OP_SET_LOCAL, 0] []
      [as_value_num bits_7, as_value_num bits_3] with
    code := { ex_code [OP_CLOSURE, 0, 0, OP_POP, OP_SET_LOCAL, 0] with
      functions := [ex_stub_capture_one] } }

/-- The compile-time `sp` of the scope a compilation ends with. -/
def CResult.scope_sp {α : Type} : CResult α → Option Nat
  | CResult.ok _ _ l => some l.sp
  | _ => none

/-- The frame depth after executing, from a fresh machine and for at most `fuel` steps, the
module a compilation produced. -/
def depth_after_run {α : Type} (host : Host) (r : CResult α) (fuel : Nat) : Option Nat :=
  match r.output with
  | none => none
  | some c => (final_state ((VM.new c.dest c.heap).execute host fuel)).map fun vm => vm.frame.sp

/-- The `while (true)` loop of `compiler::find_local` for at most `fuel` passes, starting with
the given value of `levels`: every pass looks the name up in the same scope `l`, since the body
never reassigns `l`; `none` when the loop has not ended by then. -/
def find_local_passes (l : local_table) (name : Nat) : Nat → Nat → Option (Option Nat × Nat)
  | 0, _ => none
  | fuel + 1, levels =>
    match l.vars.get name with
    | some r => some (some r, levels)
    | none =>
      let levels1 := if l.cur_func.isSome then u32 (levels + 1) else levels
      if l.parent.isNone then some (none, levels1) else find_local_passes l name fuel levels1

/-- A scope without variables inside a top-level scope. -/
def ex_scope_child : local_table := local_table.new (some (local_table.new none none)) none

/-- A scope without variables inside a top-level scope that binds symbol 9 (`x`) to slot 0. -/
def ex_scope_child_of_x : local_table :=
  local_table.new (some { local_table.new none none with vars := Table.insert Table.empty 9 0 })
    none

/-- A top-level scope that binds symbol 9 (`x`) to slot 4. -/
def ex_scope_x : local_table :=
  { local_table.new none none with vars := Table.insert Table.empty 9 4 }

/-- A module that holds 65535 constants, each the null value. -/
def ex_code_65535 : Bytecode :=
  { Bytecode.new with constants := List.replicate 65535 V_NULL }

/-- A module that holds 65536 constants: the number 7, then 65535 times the null value. -/
def ex_code_65536 : Bytecode :=
  { Bytecode.new with constants := as_value_num bits_7 :: List.replicate 65535 V_NULL }

/-- A fresh machine on the code `OP_CONST 0` with the 65536 constants of `ex_code_65536`. -/
def ex_vm_const_65536 : VM :=
  VM.new { ex_code [OP_CONST, 0, 0] with constants := ex_code_65536.constants } []

/-- A stub whose 255 upvalues are the direct captures of the positions 0 to 254. -/
def ex_stub_255 : FuncStub :=
  { positional := 0, required := 0, varargs := false, numUpvals := 255,
    upvals := (List.range 255).map (fun i => ⟨i, true⟩), addr := 10 }

/-- The scope in which the value of the first pair of `(let x 1 y x)` is compiled: `x` is
bound to slot 0. -/
def ex_let_scope_1 : local_table :=
  { (local_table.new none none).inc_sp with
    vars := (local_table.new none none).inc_sp.vars.insert 9 (local_table.new none none).sp }

/-- The scope in which the value of the second pair of `(let x 1 y x)` is compiled: `y` is
bound to slot 2. -/
def ex_let_scope_2 : local_table :=
  { ex_let_scope_1.inc_sp.inc_sp with
    vars := ex_let_scope_1.inc_sp.inc_sp.vars.insert 10 ex_let_scope_1.inc_sp.sp }

/-! # Theorems -/

/-! ## Basic facts -/

theorem VMResult.bind_ok {α β : Type} (a : α) (vm : VM) (f : α → VM → VMResult β) :
    (VMResult.ok a vm).bind f = f a vm := rfl

theorem VMResult.bind_error {α β : Type} (e : FNError) (vm : VM) (f : α → VM → VMResult β) :
    (VMResult.error e vm : VMResult α).bind f = VMResult.error e vm := rfl

theorem VMResult.bind_undefined {α β : Type} (f : α → VM → VMResult β) :
    (VMResult.undefined : VMResult α).bind f = VMResult.undefined := rfl

theorem u32_of_lt {n : Nat} (h : n < 4294967296) : u32 n = n := Nat.mod_eq_of_lt h

theorem u16_of_lt {n : Nat} (h : n < 65536) : u16 n = n := Nat.mod_eq_of_lt h

theorem u8_of_lt {n : Nat} (h : n < 256) : u8 n = n := Nat.mod_eq_of_lt h

theorem u8_lt (n : Nat) : u8 n < 256 := Nat.mod_lt _ (by decide)

theorem u8_u8 (n : Nat) : u8 (u8 n) = u8 n := Nat.mod_mod _ _

theorem readByte_lt (b : Bytecode) (a : Nat) : b.readByte a < 256 := u8_lt _

theorem step_switch_CALL (host : Host) (vm : VM) :
    vm.step_switch host OP_CALL = vm.step_CALL host := by
  simp [VM.step_switch, OP_CALL, OP_NOP, OP_POP, OP_COPY, OP_LOCAL, OP_SET_LOCAL, OP_UPVALUE,
    OP_SET_UPVALUE, OP_CLOSURE, OP_CLOSE, OP_GLOBAL, OP_SET_GLOBAL, OP_CONST, OP_NULL, OP_FALSE,
    OP_TRUE, OP_JUMP, OP_CJUMP]

theorem step_switch_RETURN (host : Host) (vm : VM) :
    vm.step_switch host OP_RETURN = vm.step_RETURN := by
  simp [VM.step_switch, OP_CALL, OP_NOP, OP_POP, OP_COPY, OP_LOCAL, OP_SET_LOCAL, OP_UPVALUE,
    OP_SET_UPVALUE, OP_CLOSURE, OP_CLOSE, OP_GLOBAL, OP_SET_GLOBAL, OP_CONST, OP_NULL, OP_FALSE,
    OP_TRUE, OP_JUMP, OP_CJUMP, OP_RETURN]

/-- The closure branch of `OP_CALL`, spelled out: the outcome of the step when the value at
depth `n` is a closure with stub `stub`. -/
theorem step_CALL_closure (host : Host) (vm : VM) (n : Nat) (f : Function) (stub : FuncStub)
    (hop : vm.code.readByte vm.ip = OP_CALL)
    (hn : vm.code.readByte (u32 (vm.ip + 1)) = n)
    (hdepth : n < vm.frame.sp)
    (hfunc : isFunc (vm.stack (vm.frame.bp + vm.frame.sp - n - 1)) = true)
    (hobj : vm.heap.lookup (vm.stack (vm.frame.bp + vm.frame.sp - n - 1)).get_pointer
      = some (Obj.func f))
    (hstub : vm.code.getFunction f.stub = some stub) :
    vm.step host =
      if n < stub.required then
        (vm.throwError "interpreter"
          ("Too few arguments in function call at ip=" ++ to_string_u32 vm.ip) : VMResult Unit)
      else if stub.varargs = false ∧ n > stub.positional then
        vm.throwError "interpreter"
          ("Too many arguments in function call at ip=" ++ to_string_u32 vm.ip)
      else
        VMResult.ok ()
          { vm with
            frame := vm.frame.extendFrame (u32 (vm.ip + 2)) n
              (vm.stack (vm.frame.bp + vm.frame.sp - n - 1)).get_pointer,
            ip := stub.addr } := by
  have hpeek : vm.peek n
      = VMResult.ok (vm.stack (vm.frame.bp + vm.frame.sp - n - 1)) vm := by
    simp [VM.peek, Nat.not_le.mpr hdepth]
  simp only [VM.step, hop, step_switch_CALL, VM.step_CALL, hn, hpeek, VMResult.bind_ok, hfunc,
    if_true, VM.callerStub, hobj, hstub]
  by_cases h1 : n < stub.required
  · simp only [h1, if_true]
    unfold VM.throwError
    cases vm.code.locationOf vm.ip <;> rfl
  · simp only [h1, if_false]
    by_cases h2 : stub.varargs = false ∧ n > stub.positional
    · have h3 : (!stub.varargs && decide (n > stub.positional)) = true := by
        simp [h2.1, h2.2]
      simp only [h3, h2, if_true, and_self]
      unfold VM.throwError
      cases vm.code.locationOf vm.ip <;> rfl
    · have h3 : (!stub.varargs && decide (n > stub.positional)) = false := by
        rcases Bool.eq_false_or_eq_true stub.varargs with hv | hv
        · simp [hv]
        · simp [hv] at h2 ⊢
          omega
      simp only [h3, h2, if_false, VMResult.bind_ok, Bool.false_eq_true]

/-! ## C7, C9: `OP_CALL` on a closure -/

/-- C7: when `OP_CALL n` at address `ip` finds a closure at depth `n` and the arity check
passes, the step makes a new current frame whose `prev` is the old frame (unchanged), whose base
pointer is `bp + sp - n`, whose argument count is `n`, whose caller is the closure and whose
return address is `ip + 2`; `ip` becomes the stub's code address and the stack is unchanged. -/
theorem C7_call_closure_extends_frame (host : Host) (vm : VM) (n : Nat) (f : Function)
    (stub : FuncStub)
    (hop : vm.code.readByte vm.ip = OP_CALL)
    (hn : vm.code.readByte (u32 (vm.ip + 1)) = n)
    (hdepth : n < vm.frame.sp)
    (hfunc : isFunc (vm.stack (vm.frame.bp + vm.frame.sp - n - 1)) = true)
    (hobj : vm.heap.lookup (vm.stack (vm.frame.bp + vm.frame.sp - n - 1)).get_pointer
      = some (Obj.func f))
    (hstub : vm.code.getFunction f.stub = some stub)
    (hreq : stub.required ≤ n) (hpos : stub.varargs = true ∨ n ≤ stub.positional)
    (hfit : vm.frame.bp + vm.frame.sp ≤ STACK_SIZE) (hip : vm.ip + 2 < 4294967296) :
    ∃ vm1, vm.step host = VMResult.ok () vm1 ∧
      vm1.frame.prev = some vm.frame ∧
      vm1.frame.bp = vm.frame.bp + vm.frame.sp - n ∧
      vm1.frame.numArgs = n ∧
      vm1.frame.caller = some (vm.stack (vm.frame.bp + vm.frame.sp - n - 1)).get_pointer ∧
      vm1.frame.retAddr = vm.ip + 2 ∧
      vm1.ip = stub.addr ∧
      vm1.stack = vm.stack ∧ vm1.code = vm.code ∧ vm1.globals = vm.globals ∧ vm1.lp = vm.lp := by
  have h1 : ¬ n < stub.required := Nat.not_lt.mpr hreq
  have h2 : ¬ (stub.varargs = false ∧ n > stub.positional) := by
    rintro ⟨hv, hgt⟩
    rcases hpos with hp | hp
    · rw [hv] at hp; exact Bool.noConfusion hp
    · omega
  have hbp : u16 (vm.frame.bp + vm.frame.sp + 65536 - n) = vm.frame.bp + vm.frame.sp - n := by
    have hs : vm.frame.bp + vm.frame.sp ≤ 16384 := hfit
    unfold u16
    omega
  rw [step_CALL_closure host vm n f stub hop hn hdepth hfunc hobj hstub, if_neg h1, if_neg h2]
  refine ⟨_, rfl, ?_⟩
  simp [CallFrame.extendFrame, CallFrame.new, hbp, u32_of_lt hip]

/-- C7, witness: the call of a closure of arity 1 with one argument. -/
theorem C7_call_closure_extends_frame_witness :
    ∃ vm1, (ex_vm_closure 1).step ex_host = VMResult.ok () vm1 ∧
      vm1.frame.prev = some (ex_vm_closure 1).frame ∧
      vm1.frame.bp = (ex_vm_closure 1).frame.bp + (ex_vm_closure 1).frame.sp - 1 ∧
      vm1.frame.numArgs = 1 ∧
      vm1.frame.caller = some ((ex_vm_closure 1).stack
        ((ex_vm_closure 1).frame.bp + (ex_vm_closure 1).frame.sp - 1 - 1)).get_pointer ∧
      vm1.frame.retAddr = (ex_vm_closure 1).ip + 2 ∧
      vm1.ip = ex_stub.addr ∧
      vm1.stack = (ex_vm_closure 1).stack ∧ vm1.code = (ex_vm_closure 1).code ∧
      vm1.globals = (ex_vm_closure 1).globals ∧ vm1.lp = (ex_vm_closure 1).lp :=
  C7_call_closure_extends_frame ex_host (ex_vm_closure 1) 1 ⟨0, []⟩ ex_stub (by decide)
    (by decide) (by decide) (by decide) (by decide) (by decide) (by decide)
    (Or.inr (by decide)) (by decide) (by decide)

/-- C9: for `OP_CALL n` on a closure (with a source location for `ip` in the source map), the
step raises an error if and only if `n < stub.required`, or the stub is not variadic and
`n > stub.positional`; when it raises, the state at the throw is the state before the step: no
frame is created and the stack, the current frame and `ip` are unchanged. -/
theorem C9_call_closure_arity_error (host : Host) (vm : VM) (n : Nat) (f : Function)
    (stub : FuncStub) (loc : SourceLoc)
    (hop : vm.code.readByte vm.ip = OP_CALL)
    (hn : vm.code.readByte (u32 (vm.ip + 1)) = n)
    (hdepth : n < vm.frame.sp)
    (hfunc : isFunc (vm.stack (vm.frame.bp + vm.frame.sp - n - 1)) = true)
    (hobj : vm.heap.lookup (vm.stack (vm.frame.bp + vm.frame.sp - n - 1)).get_pointer
      = some (Obj.func f))
    (hstub : vm.code.getFunction f.stub = some stub)
    (hloc : vm.code.locationOf vm.ip = Ptr.ref loc) :
    ((∃ e vm1, vm.step host = VMResult.error e vm1) ↔
        (n < stub.required ∨ (stub.varargs = false ∧ n > stub.positional))) ∧
      (∀ e vm1, vm.step host = VMResult.error e vm1 →
        vm1 = vm ∧ e.subsystem = "interpreter" ∧ e.origin = loc) := by
  have hstep := step_CALL_closure host vm n f stub hop hn hdepth hfunc hobj hstub
  by_cases h1 : n < stub.required
  · rw [if_pos h1] at hstep
    simp only [VM.throwError, hloc] at hstep
    refine ⟨⟨fun _ => Or.inl h1, fun _ => ⟨_, _, hstep⟩⟩, ?_⟩
    intro e vm1 he
    rw [hstep] at he
    injection he with he1 he2
    subst he1 he2
    exact ⟨rfl, rfl, rfl⟩
  · rw [if_neg h1] at hstep
    by_cases h2 : stub.varargs = false ∧ n > stub.positional
    · rw [if_pos h2] at hstep
      simp only [VM.throwError, hloc] at hstep
      refine ⟨⟨fun _ => Or.inr h2, fun _ => ⟨_, _, hstep⟩⟩, ?_⟩
      intro e vm1 he
      rw [hstep] at he
      injection he with he1 he2
      subst he1 he2
      exact ⟨rfl, rfl, rfl⟩
    · rw [if_neg h2] at hstep
      refine ⟨⟨?_, ?_⟩, ?_⟩
      · rintro ⟨e, vm1, he⟩
        rw [hstep] at he
        exact VMResult.noConfusion he
      · rintro (h | h)
        · exact absurd h h1
        · exact absurd h h2
      · intro e vm1 he
        rw [hstep] at he
        exact VMResult.noConfusion he

/-- C9, witness: a closure of arity 1 called with no argument raises and changes nothing. -/
theorem C9_call_closure_arity_error_witness :
    ((∃ e vm1, (ex_vm_closure 0).step ex_host = VMResult.error e vm1) ↔
        (0 < ex_stub.required ∨ (ex_stub.varargs = false ∧ 0 > ex_stub.positional))) ∧
      (∀ e vm1, (ex_vm_closure 0).step ex_host = VMResult.error e vm1 →
        vm1 = ex_vm_closure 0 ∧ e.subsystem = "interpreter" ∧ e.origin = ex_loc) :=
  C9_call_closure_arity_error ex_host (ex_vm_closure 0) 0 ⟨0, []⟩ ex_stub ex_loc (by decide)
    (by decide) (by decide) (by decide) (by decide) (by decide) rfl

/-! ## C8: `OP_RETURN` -/

/-- C8: `OP_RETURN` in a frame without caller closure (top level) raises an error of the
interpreter subsystem (the source map having a location for `ip`) and the state at the throw is
the state before the step.  Otherwise, with `v` the top value of the returning frame, `n` its
argument count and `r` its return address, when the parent frame holds the `n + 1` values of
the call and the frame's open upvalues can be closed, the step makes the parent frame current
with its `sp` decreased by exactly `n`, leaves `v` on top of the parent's stack and sets `ip`
to `r`. -/
theorem C8_return (host : Host) (vm : VM) (hop : vm.code.readByte vm.ip = OP_RETURN) :
    (∀ loc, vm.frame.caller = none → vm.code.locationOf vm.ip = Ptr.ref loc →
        ∃ e, vm.step host = VMResult.error e vm ∧ e.subsystem = "interpreter") ∧
    (∀ callee parent slots1 cells1, vm.frame.caller = some callee → 0 < vm.frame.sp →
        vm.frame.prev = some parent →
        closeEach vm.stack vm.frame.openUpvals vm.slots vm.cells = some (slots1, cells1) →
        vm.frame.numArgs + 1 ≤ parent.sp →
        parent.bp + (parent.sp - (vm.frame.numArgs + 1)) < STACK_SIZE - 1 →
        ∃ vm1, vm.step host = VMResult.ok () vm1 ∧
          vm1.frame = { parent with sp := parent.sp - vm.frame.numArgs } ∧
          vm1.stack (parent.bp + (parent.sp - vm.frame.numArgs - 1))
            = vm.stack (vm.frame.bp + (vm.frame.sp - 1)) ∧
          (∀ a, a ≠ parent.bp + (parent.sp - vm.frame.numArgs - 1) → vm1.stack a = vm.stack a) ∧
          vm1.ip = vm.frame.retAddr) := by
  constructor
  · intro loc hc hloc
    refine ⟨⟨"interpreter", "Return instruction at top level. ip = " ++ to_string_i32 vm.ip, loc⟩,
      ?_, rfl⟩
    simp only [VM.step, hop, step_switch_RETURN, VM.step_RETURN, hc, VM.throwError, hloc,
      VMResult.bind_error]
  · intro callee parent slots1 cells1 hc hsp hprev hclose hargs hroom
    have hsp0 : vm.frame.sp ≠ 0 := Nat.pos_iff_ne_zero.mp hsp
    have hroom1 : ¬ (parent.sp - (vm.frame.numArgs + 1) + parent.bp ≥ STACK_SIZE - 1) := by
      omega
    have hlt : ¬ parent.sp < vm.frame.numArgs + 1 := by omega
    have hu : u16 (parent.sp - (vm.frame.numArgs + 1) + 1) = parent.sp - vm.frame.numArgs := by
      have h16 : STACK_SIZE = 16384 := rfl
      unfold u16
      omega
    have hidx : parent.bp + (parent.sp - (vm.frame.numArgs + 1))
        = parent.bp + (parent.sp - vm.frame.numArgs - 1) := by omega
    simp only [VM.step, hop, step_switch_RETURN, VM.step_RETURN, hc, VM.pop, hsp0, if_false,
      VMResult.bind_ok, CallFrame.closeAll, hclose, hprev, VM.popTimes, hlt, VM.push, hroom1, hu,
      hidx]
    refine ⟨_, rfl, rfl, ?_, ?_, rfl⟩
    · simp
    · intro a ha
      simp [ha]

/-- C8, witness: a return at top level, and the return from a call with one argument. -/
theorem C8_return_witness :
    (∃ e, ex_vm_return_top.step ex_host = VMResult.error e ex_vm_return_top ∧
        e.subsystem = "interpreter") ∧
    (∃ vm1, ex_vm_in_call.step ex_host = VMResult.ok () vm1 ∧
        vm1.frame = { (ex_vm_closure 1).frame with
          sp := (ex_vm_closure 1).frame.sp - ex_vm_in_call.frame.numArgs } ∧
        vm1.stack ((ex_vm_closure 1).frame.bp +
            ((ex_vm_closure 1).frame.sp - ex_vm_in_call.frame.numArgs - 1))
          = ex_vm_in_call.stack (ex_vm_in_call.frame.bp + (ex_vm_in_call.frame.sp - 1)) ∧
        (∀ a, a ≠ (ex_vm_closure 1).frame.bp +
            ((ex_vm_closure 1).frame.sp - ex_vm_in_call.frame.numArgs - 1) →
          vm1.stack a = ex_vm_in_call.stack a) ∧
        vm1.ip = ex_vm_in_call.frame.retAddr) :=
  ⟨(C8_return ex_host ex_vm_return_top (by decide)).1 ex_loc rfl rfl,
   (C8_return ex_host ex_vm_in_call (by decide)).2 32 (ex_vm_closure 1).frame [] [] rfl
     (by decide) rfl rfl (by decide) (by decide)⟩

/-! ## C10: `OP_CALL` on a foreign function -/

/-- C10 (defect): `OP_CALL 0` on a foreign function that requires one argument and is not
variadic does not raise: the step succeeds, pops the callee, pushes null as the result and
moves `ip` past the instruction. -/
theorem C10_foreign_arity_mismatch_pushes_null :
    (ex_vm_foreign.step ex_host).thrown.isNone = true ∧
      (ex_vm_foreign.step ex_host).state.map (fun vm => (vm.stack 0, vm.frame.sp, vm.ip))
        = some (V_NULL, 1, 2) := by
  decide

/-- The foreign branch of `OP_CALL` with correct arity: the host function is called with the
address of the first of the top `n` values; when it returns `v2` and leaves the frame in place,
the step pops `n + 1` values and pushes `v2`, so the depth decreases by exactly `n`. -/
theorem step_CALL_foreign_ok (host : Host) (vm vm2 : VM) (n : Nat) (f : ForeignFunc)
    (v2 : Value)
    (hop : vm.code.readByte vm.ip = OP_CALL)
    (hn : vm.code.readByte (u32 (vm.ip + 1)) = n)
    (hdepth : n < vm.frame.sp)
    (hnf : isFunc (vm.stack (vm.frame.bp + vm.frame.sp - n - 1)) = false)
    (hfor : isForeign (vm.stack (vm.frame.bp + vm.frame.sp - n - 1)) = true)
    (hobj : valueForeign vm.heap (vm.stack (vm.frame.bp + vm.frame.sp - n - 1)) = some f)
    (hmin : f.minArgs ≤ n) (hmax : f.varArgs = true ∨ n ≤ f.minArgs)
    (hcall : host f.func n (vm.frame.bp + vm.frame.sp - n) vm = VMResult.ok v2 vm2)
    (hframe : vm2.frame = vm.frame)
    (hfit : vm.frame.bp + vm.frame.sp < STACK_SIZE) :
    ∃ vm1, vm.step host = VMResult.ok () vm1 ∧
      vm1.frame.sp = vm.frame.sp - n ∧
      vm1.stack (vm.frame.bp + vm.frame.sp - n - 1) = v2 := by
  have hpeek : vm.peek n
      = VMResult.ok (vm.stack (vm.frame.bp + vm.frame.sp - n - 1)) vm := by
    simp [VM.peek, Nat.not_le.mpr hdepth]
  have h1 : ¬ n < f.minArgs := Nat.not_lt.mpr hmin
  have h3 : (!f.varArgs && decide (n > f.minArgs)) = false := by
    rcases hmax with hv | hv
    · simp [hv]
    · simp [Nat.not_lt.mpr hv]
  have hlt : ¬ vm.frame.sp < n + 1 := by omega
  have h16 : STACK_SIZE = 16384 := rfl
  have hroom : ¬ (vm.frame.sp - (n + 1) + vm.frame.bp ≥ STACK_SIZE - 1) := by
    omega
  have hu : u16 (vm.frame.sp - (n + 1) + 1) = vm.frame.sp - n := by
    unfold u16
    omega
  have hidx : vm.frame.bp + (vm.frame.sp - (n + 1)) = vm.frame.bp + vm.frame.sp - n - 1 := by
    omega
  simp only [VM.step, hop, step_switch_CALL, VM.step_CALL, hn, hpeek, VMResult.bind_ok, hnf,
    hfor, if_true, hobj, h1, if_false, h3, hcall, VM.popTimes, hframe, hlt, VM.push, hroom, hu,
    hidx, Bool.false_eq_true]
  refine ⟨_, rfl, rfl, ?_⟩
  simp

/-! ## Bytes, shorts and writes -/

theorem and_255 (n : Nat) : n &&& 255 = n % 256 := Nat.and_pow_two_sub_one_eq_mod n 8

/-- A 16-bit value is rebuilt from its two bytes. -/
theorem short_of_bytes (s : Nat) (h : s < 65536) :
    u16 ((u8 (u8 (s >>> 8)) <<< 8) ||| u8 (u8 (s &&& 255))) = s := by
  have h1 : u8 (u8 (s &&& 255)) = s % 256 := by
    rw [u8_u8, and_255]
    exact Nat.mod_mod _ _
  have h2 : u8 (u8 (s >>> 8)) = s / 256 := by
    rw [u8_u8, Nat.shiftRight_eq_div_pow]
    unfold u8
    apply Nat.mod_eq_of_lt
    have : s / 2 ^ 8 = s / 256 := rfl
    omega
  rw [h1, h2, Nat.shiftLeft_eq]
  have h3 : s / 256 * 2 ^ 8 ||| s % 256 = 2 ^ 8 * (s / 256) + s % 256 := by
    rw [Nat.mul_comm]
    exact (Nat.mul_add_lt_is_or (Nat.mod_lt _ (by decide)) _).symm
  rw [h3]
  unfold u16
  have : (2 : Nat) ^ 8 = 256 := rfl
  omega

/-- The doubling loop of `ensureCapacity` ends, with a nonzero capacity, when it has enough
rounds to reach the requested capacity without wrapping. -/
theorem ensureCapacity_loop_some (newCap : Nat) (hnew : newCap ≤ 2147483648) :
    ∀ (fuel cap : Nat), 0 < cap → newCap ≤ cap * 2 ^ fuel →
      ∃ cap1, ensureCapacity_loop newCap (fuel + 1) cap = some cap1 ∧ 0 < cap1 := by
  intro fuel
  induction fuel with
  | zero =>
    intro cap hcap hle
    refine ⟨cap, ?_, hcap⟩
    have : ¬ cap < newCap := by omega
    simp [ensureCapacity_loop, this]
  | succ k ih =>
    intro cap hcap hle
    by_cases hlt : cap < newCap
    · have hu : u32 (cap * 2) = cap * 2 := by
        unfold u32
        omega
      have hle2 : newCap ≤ cap * 2 * 2 ^ k := by
        have : cap * 2 ^ (k + 1) = cap * 2 * 2 ^ k := by
          rw [Nat.pow_succ]
          ring
        omega
      obtain ⟨cap1, h1, h2⟩ := ih (cap * 2) (by omega) hle2
      refine ⟨cap1, ?_, h2⟩
      rw [ensureCapacity_loop, if_pos hlt, hu]
      exact h1
    · refine ⟨cap, ?_, hcap⟩
      rw [ensureCapacity_loop, if_neg hlt]

/-- `writeByte` on a module with a nonzero capacity and at most `2^31 - 1` bytes. -/
theorem writeByte_ok (b : Bytecode) (x : Nat) (hcap : 0 < b.cap)
    (hsz : b.size + 1 ≤ 2147483648) :
    ∃ b1, b.writeByte x = some b1 ∧ b1.size = b.size + 1 ∧
      b1.data = (fun a => if a = b.size then u8 x else b.data a) ∧ 0 < b1.cap ∧
      b1.constants = b.constants := by
  have hu : u32 (b.size + 1) = b.size + 1 := by
    unfold u32
    omega
  unfold Bytecode.writeByte Bytecode.ensureCapacity
  rw [hu]
  by_cases hle : b.size + 1 ≤ b.cap
  · exact ⟨{ b with
        data := fun a => if a = b.size then u8 x else b.data a,
        size := u32 (b.size + 1) }, by simp only [hle, if_true], hu, rfl, hcap, rfl⟩
  · have hpow : b.size + 1 ≤ b.cap * 2 ^ 33 := by
      have h33 : (2 : Nat) ^ 33 = 8589934592 := by norm_num
      rw [h33]
      omega
    obtain ⟨cap1, h1, h2⟩ := ensureCapacity_loop_some (b.size + 1) hsz 33 b.cap hcap hpow
    exact ⟨{ b with
        cap := cap1,
        data := fun a => if a = b.size then u8 x else b.data a,
        size := u32 (b.size + 1) },
      by simp only [hle, if_false, h1, Option.map_some'], hu, rfl, h2, rfl⟩

/-- `writeShort` of a 16-bit value on a module with room: the low byte, then the high byte. -/
theorem writeShort_ok (b : Bytecode) (s : Nat) (hcap : 0 < b.cap)
    (hsz : b.size + 2 ≤ 2147483648) :
    ∃ b2, b.writeShort s = some b2 ∧ b2.size = b.size + 2 ∧
      b2.data = (fun a => if a = b.size + 1 then u8 (u8 (s >>> 8))
        else if a = b.size then u8 (u8 (s &&& 255)) else b.data a) ∧
      0 < b2.cap ∧ b2.constants = b.constants := by
  obtain ⟨b1, hw1, hs1, hd1, hc1, hk1⟩ := writeByte_ok b (u8 (s &&& 255)) hcap (by omega)
  obtain ⟨b2, hw2, hs2, hd2, hc2, hk2⟩ := writeByte_ok b1 (u8 (s >>> 8)) hc1 (by omega)
  refine ⟨b2, ?_, by omega, ?_, hc2, hk2.trans hk1⟩
  · unfold Bytecode.writeShort
    rw [show (0x00ff : Nat) = 255 from rfl, hw1]
    exact hw2
  · rw [hd2, hd1, hs1]

theorem Pres_refl (c : compiler) (hcap : 0 < c.dest.cap) : Pres c c :=
  ⟨rfl, hcap, Nat.le_refl _, fun _ _ => rfl, List.prefix_refl _, Nat.le_refl _⟩

theorem Pres_trans {c c1 c2 : compiler} (h1 : Pres c c1) (h2 : Pres c1 c2) : Pres c c2 := by
  obtain ⟨a1, b1, s1, d1, k1, n1⟩ := h1
  obtain ⟨a2, b2, s2, d2, k2, n2⟩ := h2
  refine ⟨a2.trans a1, b2, Nat.le_trans s1 s2, ?_, List.IsPrefix.trans k1 k2, by omega⟩
  intro a ha
  rw [d2 a (Nat.lt_of_lt_of_le ha s1), d1 a ha]

/-- `write_byte` appends one byte. -/
theorem write_byte_ok (c : compiler) (l : local_table) (x : Nat) (hcap : 0 < c.dest.cap)
    (hsz : c.dest.size + 1 ≤ 2147483648) :
    ∃ c1, c.write_byte l x = CResult.ok () c1 l ∧ c1.dest.size = c.dest.size + 1 ∧
      c1.dest.data c.dest.size = u8 x ∧ Pres c c1 ∧ c1.heap = c.heap ∧
      c1.dest.constants = c.dest.constants := by
  obtain ⟨b1, hw, hs, hd, hc, hk⟩ := writeByte_ok c.dest x hcap hsz
  refine ⟨{ c with dest := b1 }, ?_, hs, ?_, ?_, rfl, hk⟩
  · simp only [compiler.write_byte, hw]
  · simp [hd]
  · refine ⟨rfl, hc, by simp only [hs]; omega, ?_, by simp only [hk]; exact List.prefix_refl _,
      by simp only [hs, hk]; omega⟩
    intro a ha
    have : a ≠ c.dest.size := Nat.ne_of_lt ha
    simp [hd, this]

/-- `write_short` appends the two bytes of a short below 256: the value, then zero. -/
theorem write_short_ok (c : compiler) (l : local_table) (s : Nat) (hs : s < 256)
    (hcap : 0 < c.dest.cap) (hsz : c.dest.size + 2 ≤ 2147483648) :
    ∃ c1, c.write_short l s = CResult.ok () c1 l ∧ c1.dest.size = c.dest.size + 2 ∧
      c1.dest.data c.dest.size = s ∧ c1.dest.data (c.dest.size + 1) = 0 ∧ Pres c c1 ∧
      c1.heap = c.heap ∧ c1.dest.constants = c.dest.constants := by
  have hs16 : u16 s = s := u16_of_lt (by omega)
  have hlo : u8 (u8 (s &&& 255)) = s := by
    rw [u8_u8, and_255]
    unfold u8
    omega
  have hhi : u8 (u8 (s >>> 8)) = 0 := by
    rw [u8_u8, Nat.shiftRight_eq_div_pow]
    have : s / 2 ^ 8 = 0 := Nat.div_eq_of_lt (by simpa using hs)
    rw [this]
    rfl
  obtain ⟨b2, hw, hsz2, hd, hc, hk⟩ := writeShort_ok c.dest s hcap hsz
  refine ⟨{ c with dest := b2 }, ?_, hsz2, ?_, ?_, ?_, rfl, hk⟩
  · simp only [compiler.write_short, hs16, hw]
  · simp [hd, hlo]
  · simp [hd, hhi]
  · refine ⟨rfl, hc, by simp only [hsz2]; omega, ?_, by simp only [hk]; exact List.prefix_refl _,
      by simp only [hsz2, hk]; omega⟩
    intro a ha
    have h1 : a ≠ c.dest.size := Nat.ne_of_lt ha
    have h2 : a ≠ c.dest.size + 1 := by omega
    simp [hd, h1, h2]

/-! ## Single steps of the machine -/

theorem step_switch_NULL (host : Host) (vm : VM) :
    vm.step_switch host OP_NULL = vm.step_push V_NULL := by
  simp [VM.step_switch, OP_CALL, OP_NOP, OP_POP, OP_COPY, OP_LOCAL, OP_SET_LOCAL, OP_UPVALUE,
    OP_SET_UPVALUE, OP_CLOSURE, OP_CLOSE, OP_GLOBAL, OP_SET_GLOBAL, OP_CONST, OP_NULL, OP_FALSE,
    OP_TRUE, OP_JUMP, OP_CJUMP, OP_RETURN]

theorem step_switch_FALSE (host : Host) (vm : VM) :
    vm.step_switch host OP_FALSE = vm.step_push V_FALSE := by
  simp [VM.step_switch, OP_CALL, OP_NOP, OP_POP, OP_COPY, OP_LOCAL, OP_SET_LOCAL, OP_UPVALUE,
    OP_SET_UPVALUE, OP_CLOSURE, OP_CLOSE, OP_GLOBAL, OP_SET_GLOBAL, OP_CONST, OP_NULL, OP_FALSE,
    OP_TRUE, OP_JUMP, OP_CJUMP, OP_RETURN]

theorem step_switch_TRUE (host : Host) (vm : VM) :
    vm.step_switch host OP_TRUE = vm.step_push V_TRUE := by
  simp [VM.step_switch, OP_CALL, OP_NOP, OP_POP, OP_COPY, OP_LOCAL, OP_SET_LOCAL, OP_UPVALUE,
    OP_SET_UPVALUE, OP_CLOSURE, OP_CLOSE, OP_GLOBAL, OP_SET_GLOBAL, OP_CONST, OP_NULL, OP_FALSE,
    OP_TRUE, OP_JUMP, OP_CJUMP, OP_RETURN]

theorem step_switch_CONST (host : Host) (vm : VM) :
    vm.step_switch host OP_CONST = vm.step_CONST := by
  simp [VM.step_switch, OP_CALL, OP_NOP, OP_POP, OP_COPY, OP_LOCAL, OP_SET_LOCAL, OP_UPVALUE,
    OP_SET_UPVALUE, OP_CLOSURE, OP_CLOSE, OP_GLOBAL, OP_SET_GLOBAL, OP_CONST, OP_NULL, OP_FALSE,
    OP_TRUE, OP_JUMP, OP_CJUMP, OP_RETURN]

theorem step_switch_POP (host : Host) (vm : VM) :
    vm.step_switch host OP_POP = vm.step_POP := by
  simp [VM.step_switch, OP_CALL, OP_NOP, OP_POP, OP_COPY, OP_LOCAL, OP_SET_LOCAL, OP_UPVALUE,
    OP_SET_UPVALUE, OP_CLOSURE, OP_CLOSE, OP_GLOBAL, OP_SET_GLOBAL, OP_CONST, OP_NULL, OP_FALSE,
    OP_TRUE, OP_JUMP, OP_CJUMP, OP_RETURN]

theorem step_switch_JUMP (host : Host) (vm : VM) :
    vm.step_switch host OP_JUMP = vm.step_JUMP := by
  simp [VM.step_switch, OP_CALL, OP_NOP, OP_POP, OP_COPY, OP_LOCAL, OP_SET_LOCAL, OP_UPVALUE,
    OP_SET_UPVALUE, OP_CLOSURE, OP_CLOSE, OP_GLOBAL, OP_SET_GLOBAL, OP_CONST, OP_NULL, OP_FALSE,
    OP_TRUE, OP_JUMP, OP_CJUMP, OP_RETURN]

theorem step_switch_CJUMP (host : Host) (vm : VM) :
    vm.step_switch host OP_CJUMP = vm.step_CJUMP := by
  simp [VM.step_switch, OP_CALL, OP_NOP, OP_POP, OP_COPY, OP_LOCAL, OP_SET_LOCAL, OP_UPVALUE,
    OP_SET_UPVALUE, OP_CLOSURE, OP_CLOSE, OP_GLOBAL, OP_SET_GLOBAL, OP_CONST, OP_NULL, OP_FALSE,
    OP_TRUE, OP_JUMP, OP_CJUMP, OP_RETURN]

theorem push_ok (vm : VM) (v : Value) (hroom : vm.frame.sp + vm.frame.bp < STACK_SIZE - 1) :
    vm.push v = VMResult.ok () (vm.afterPush v vm.ip) := by
  have h16 : STACK_SIZE = 16384 := rfl
  have h1 : ¬ (vm.frame.sp + vm.frame.bp ≥ STACK_SIZE - 1) := by omega
  have h2 : u16 (vm.frame.sp + 1) = vm.frame.sp + 1 := by
    unfold u16
    omega
  simp only [VM.push, h1, if_false, h2, VM.afterPush]

theorem pop_ok (vm : VM) (hsp : 0 < vm.frame.sp) :
    vm.pop = VMResult.ok (vm.stack (vm.frame.bp + (vm.frame.sp - 1))) (vm.afterPop vm.ip) := by
  have h1 : vm.frame.sp ≠ 0 := Nat.pos_iff_ne_zero.mp hsp
  simp only [VM.pop, h1, if_false, VM.afterPop]

/-- A step on `OP_NULL`, `OP_FALSE` or `OP_TRUE` pushes the singleton. -/
theorem step_singleton (host : Host) (vm : VM) (op : Nat) (v : Value)
    (hsw : vm.step_switch host op = vm.step_push v)
    (hop : vm.code.readByte vm.ip = op)
    (hroom : vm.frame.sp + vm.frame.bp < STACK_SIZE - 1) (hip : vm.ip + 1 < 4294967296) :
    vm.step host = VMResult.ok () (vm.afterPush v (vm.ip + 1)) := by
  simp only [VM.step, hop, hsw, VM.step_push, push_ok vm v hroom, VMResult.bind_ok]
  simp only [VM.afterPush, u32_of_lt hip]

/-- A step on `OP_CONST id` with a registered id pushes the constant. -/
theorem step_CONST_ok (host : Host) (vm : VM) (id : Nat) (v : Value)
    (hop : vm.code.readByte vm.ip = OP_CONST)
    (hid : vm.code.readShort (u32 (vm.ip + 1)) = id)
    (hlen : vm.code.constants.length < 65536)
    (hget : vm.code.constants.get? id = some v)
    (hroom : vm.frame.sp + vm.frame.bp < STACK_SIZE - 1) (hip : vm.ip + 3 < 4294967296) :
    vm.step host = VMResult.ok () (vm.afterPush v (vm.ip + 3)) := by
  have hlt : id < vm.code.constants.length := by
    rcases Nat.lt_or_ge id vm.code.constants.length with h | h
    · exact h
    · rw [List.get?_eq_none.mpr h] at hget
      exact Option.noConfusion hget
  have h1 : ¬ (id ≥ vm.code.numConstants) := by
    unfold Bytecode.numConstants
    rw [u16_of_lt hlen]
    omega
  have h3 : u32 (u32 (vm.ip + 2) + 1) = vm.ip + 3 := by
    rw [u32_of_lt (by omega : vm.ip + 2 < 4294967296), u32_of_lt hip]
  simp only [VM.step, hop, step_switch_CONST, VM.step_CONST, hid, h1, if_false,
    Bytecode.getConstant, hget, push_ok vm v hroom, VMResult.bind_ok]
  simp only [VM.afterPush, h3]

/-- A step on `OP_POP` of a non-empty frame. -/
theorem step_POP_ok (host : Host) (vm : VM)
    (hop : vm.code.readByte vm.ip = OP_POP) (hsp : 0 < vm.frame.sp)
    (hip : vm.ip + 1 < 4294967296) :
    vm.step host = VMResult.ok ()
      { vm.afterPop (vm.ip + 1) with lp := vm.stack (vm.frame.bp + (vm.frame.sp - 1)) } := by
  simp only [VM.step, hop, step_switch_POP, VM.step_POP, pop_ok vm hsp, VMResult.bind_ok]
  simp only [VM.afterPop, u32_of_lt hip]

/-- A step on `OP_JUMP` whose first operand byte is below 128. -/
theorem step_JUMP_ok (host : Host) (vm : VM) (off : Nat)
    (hop : vm.code.readByte vm.ip = OP_JUMP)
    (hoff : vm.code.readByte (u32 (vm.ip + 1)) = off) (hlt : off < 128)
    (hip : vm.ip + 3 + off < 4294967296) :
    vm.step host = VMResult.ok () { vm with ip := vm.ip + 3 + off } := by
  simp only [VM.step, hop, step_switch_JUMP, VM.step_JUMP, VM.jumpTarget, hoff, i8_as_u32, hlt,
    if_true, u32_of_lt hip, VMResult.bind_ok]

/-- A step on `OP_CJUMP` with a truthy value on top: pop and fall through. -/
theorem step_CJUMP_truthy (host : Host) (vm : VM)
    (hop : vm.code.readByte vm.ip = OP_CJUMP) (hsp : 0 < vm.frame.sp)
    (hv : v_truthy (vm.stack (vm.frame.bp + (vm.frame.sp - 1))) = true)
    (hip : vm.ip + 3 < 4294967296) :
    vm.step host = VMResult.ok () (vm.afterPop (vm.ip + 3)) := by
  have h3 : u32 (u32 (vm.ip + 2) + 1) = vm.ip + 3 := by
    rw [u32_of_lt (by omega : vm.ip + 2 < 4294967296), u32_of_lt hip]
  simp only [VM.step, hop, step_switch_CJUMP, VM.step_CJUMP, pop_ok vm hsp, VMResult.bind_ok,
    isTruthy, hv, Bool.not_true, Bool.false_eq_true, if_false]
  simp only [VM.afterPop, h3]

/-- A step on `OP_CJUMP` with null or false on top: pop and jump by the operand byte. -/
theorem step_CJUMP_falsy (host : Host) (vm : VM) (off : Nat)
    (hop : vm.code.readByte vm.ip = OP_CJUMP) (hsp : 0 < vm.frame.sp)
    (hv : v_truthy (vm.stack (vm.frame.bp + (vm.frame.sp - 1))) = false)
    (hoff : vm.code.readByte (u32 (vm.ip + 1)) = off) (hlt : off < 128)
    (hip : vm.ip + 3 + off < 4294967296) :
    vm.step host = VMResult.ok () (vm.afterPop (vm.ip + 3 + off)) := by
  have hoff1 : (vm.afterPop vm.ip).code.readByte (u32 ((vm.afterPop vm.ip).ip + 1)) = off := hoff
  simp only [VM.step, hop, step_switch_CJUMP, VM.step_CJUMP, pop_ok vm hsp, VMResult.bind_ok,
    isTruthy, hv, Bool.not_false, if_true, VM.jumpTarget, hoff1, i8_as_u32, hlt]
  simp only [VM.afterPop, u32_of_lt hip]

/-! ## Runs of the machine -/

theorem execute_step (host : Host) (vm vm1 : VM) (fuel : Nat) (hip : vm.ip < vm.code.size)
    (hs : vm.step host = VMResult.ok () vm1) :
    vm.execute host (fuel + 1) = vm1.execute host fuel := by
  simp only [VM.execute, Bytecode.getSize, hip, if_true, hs]

theorem execute_done (host : Host) (vm : VM) (fuel : Nat) (hip : ¬ vm.ip < vm.code.size) :
    vm.execute host fuel = some (VMResult.ok () vm) := by
  cases fuel <;> simp only [VM.execute, Bytecode.getSize, hip, if_false]

theorem Runs_refl (host : Host) (vm : VM) : Runs host vm vm :=
  ⟨0, fun fuel => by rw [Nat.zero_add]⟩

theorem Runs_trans {host : Host} {vm vm1 vm2 : VM} (h1 : Runs host vm vm1)
    (h2 : Runs host vm1 vm2) : Runs host vm vm2 := by
  obtain ⟨n1, e1⟩ := h1
  obtain ⟨n2, e2⟩ := h2
  refine ⟨n1 + n2, fun fuel => ?_⟩
  rw [Nat.add_assoc, e1, e2]

theorem Runs.step {host : Host} {vm vm1 : VM} (hip : vm.ip < vm.code.size)
    (hs : vm.step host = VMResult.ok () vm1) : Runs host vm vm1 :=
  ⟨1, fun fuel => by rw [Nat.add_comm]; exact execute_step host vm vm1 fuel hip hs⟩

/-- A run that ends at or past the end of the code ends the loop of `execute`. -/
theorem Runs.execute_eq {host : Host} {vm vm1 : VM} (h : Runs host vm vm1)
    (hend : ¬ vm1.ip < vm1.code.size) :
    ∃ n, ∀ fuel, vm.execute host (n + fuel) = some (VMResult.ok () vm1) := by
  obtain ⟨n, e⟩ := h
  exact ⟨n, fun fuel => by rw [e, execute_done host vm1 fuel hend]⟩

/-! ## Moves of the machine -/

theorem Moved.afterPush (vm : VM) (v : Value) (ip1 : Nat) :
    Moved vm (vm.afterPush v ip1) ip1 (vm.frame.sp + 1) none ∧
      (vm.afterPush v ip1).stack (vm.frame.bp + vm.frame.sp) = v := by
  refine ⟨⟨rfl, rfl, rfl, ?_, rfl, rfl, rfl, rfl, rfl, rfl⟩, ?_⟩
  · intro a ha
    have : a ≠ vm.frame.bp + vm.frame.sp := Nat.ne_of_lt ha
    simp [VM.afterPush, this]
  · simp [VM.afterPush]

theorem Moved.afterPop (vm : VM) (ip1 : Nat) :
    Moved vm (vm.afterPop ip1) ip1 (vm.frame.sp - 1) none :=
  ⟨rfl, rfl, rfl, fun _ _ => rfl, rfl, rfl, rfl, rfl, rfl, rfl⟩

theorem frame_sp_eta (f : CallFrame) : f = { f with sp := f.sp } := by
  cases f
  rfl

theorem Moved.jump (vm : VM) (ip1 : Nat) :
    Moved vm { vm with ip := ip1 } ip1 vm.frame.sp none :=
  ⟨rfl, rfl, frame_sp_eta vm.frame, fun _ _ => rfl, rfl, rfl, rfl, rfl, rfl, rfl⟩

/-- Two moves in sequence, the first of which does not go below the starting depth. -/
theorem Moved_trans {vm vm1 vm2 : VM} {ip1 sp1 ip2 sp2 : Nat} {lp1 lp2 : Option Value}
    (h1 : Moved vm vm1 ip1 sp1 lp1) (h2 : Moved vm1 vm2 ip2 sp2 lp2)
    (hsp : vm.frame.sp ≤ sp1) : Moved vm vm2 ip2 sp2 (seq_lp lp1 lp2) := by
  obtain ⟨a1, b1, c1, d1, e1, f1, g1, i1, j1, k1⟩ := h1
  obtain ⟨a2, b2, c2, d2, e2, f2, g2, i2, j2, k2⟩ := h2
  refine ⟨a2, b2.trans b1, ?_, ?_, ?_, f2.trans f1, g2.trans g1, i2.trans i1, j2.trans j1,
    k2.trans k1⟩
  · rw [c2, c1]
  · intro a ha
    rw [c1] at d2
    rw [d2 a (by simp only []; omega), d1 a ha]
  · rw [e2]
    cases lp2 with
    | none => simpa [seq_lp] using e1
    | some x => simp [seq_lp]

theorem Moved.frame_bp {vm vm1 : VM} {ip1 sp1 : Nat} {lp : Option Value}
    (h : Moved vm vm1 ip1 sp1 lp) : vm1.frame.bp = vm.frame.bp ∧ vm1.frame.sp = sp1 := by
  obtain ⟨_, _, c1, _⟩ := h
  rw [c1]
  exact ⟨rfl, rfl⟩

/-! ## Reading the loaded code -/

theorem Loaded.byte {code d : Bytecode} {a b : Nat} (h : Loaded code d a b) (x : Nat)
    (h1 : a ≤ x) (h2 : x < b) : code.readByte x = u8 (d.data x) := by
  unfold Bytecode.readByte
  rw [h.1 x h1 h2]

theorem Loaded.mono {code d : Bytecode} {a b a1 b1 : Nat} (h : Loaded code d a b)
    (h1 : a ≤ a1) (h2 : b1 ≤ b) : Loaded code d a1 b1 :=
  ⟨fun x hx1 hx2 => h.1 x (Nat.le_trans h1 hx1) (Nat.lt_of_lt_of_le hx2 h2), h.2.1, h.2.2.1,
    Nat.le_trans h2 h.2.2.2⟩

/-- The code loaded from a later module holds the bytes of an earlier one on the addresses the
earlier one had written. -/
theorem Loaded.of_pres {code : Bytecode} {c1 c2 : compiler} {a b : Nat}
    (h : Loaded code c2.dest a b) (hp : Pres c1 c2) (hb : c1.dest.size ≤ b) :
    Loaded code c1.dest a c1.dest.size := by
  obtain ⟨_, _, _, hd, hk, _⟩ := hp
  refine ⟨fun x hx1 hx2 => ?_, List.IsPrefix.trans hk h.2.1, h.2.2.1,
    Nat.le_trans hb h.2.2.2⟩
  rw [h.1 x hx1 (Nat.lt_of_lt_of_le hx2 hb), hd x hx2]

theorem prefix_get {α : Type} {l1 l2 : List α} (h : l1 <+: l2) (i : Nat) (a : α)
    (hi : l1.get? i = some a) : l2.get? i = some a := by
  obtain ⟨t, rfl⟩ := h
  have hlt : i < l1.length := by
    rcases Nat.lt_or_ge i l1.length with h | h
    · exact h
    · rw [List.get?_eq_none.mpr h] at hi
      exact Option.noConfusion hi
  rw [List.get?_eq_getElem?] at hi ⊢
  rw [List.getElem?_append_left hlt]
  exact hi

/-- `write_short` appends the two bytes of a 16-bit value. -/
theorem write_short_gen (c : compiler) (l : local_table) (s : Nat)
    (hcap : 0 < c.dest.cap) (hsz : c.dest.size + 2 ≤ 2147483648) :
    ∃ c1, c.write_short l s = CResult.ok () c1 l ∧ c1.dest.size = c.dest.size + 2 ∧
      c1.dest.data c.dest.size = u8 (u8 (u16 s &&& 255)) ∧
      c1.dest.data (c.dest.size + 1) = u8 (u8 (u16 s >>> 8)) ∧ Pres c c1 ∧
      c1.heap = c.heap ∧ c1.dest.constants = c.dest.constants := by
  obtain ⟨b2, hw, hsz2, hd, hc, hk⟩ := writeShort_ok c.dest (u16 s) hcap hsz
  refine ⟨{ c with dest := b2 }, ?_, hsz2, ?_, ?_, ?_, rfl, hk⟩
  · simp only [compiler.write_short, hw]
  · simp [hd]
  · simp [hd]
  · refine ⟨rfl, hc, by simp only [hsz2]; omega, ?_, by simp only [hk]; exact List.prefix_refl _,
      by simp only [hsz2, hk]; omega⟩
    intro a ha
    have h1 : a ≠ c.dest.size := Nat.ne_of_lt ha
    have h2 : a ≠ c.dest.size + 1 := by omega
    simp [hd, h1, h2]

/-- Reading back a short from its two bytes. -/
theorem readShort_of_bytes (code : Bytecode) (a s : Nat) (hs : s < 65536)
    (ha : a + 1 < 4294967296)
    (h0 : code.data a = u8 (u8 (s &&& 255))) (h1 : code.data (a + 1) = u8 (u8 (s >>> 8))) :
    code.readShort a = s := by
  simp only [Bytecode.readShort, Bytecode.readByte, u32_of_lt ha, h0, h1, u8_u8]
  rw [← u8_u8 (s >>> 8), ← u8_u8 (s &&& 255)]
  exact short_of_bytes s hs

/-! ## Literal atoms -/

/-- The compilation of a number literal meets its contract: `OP_CONST id` with the id under
which the number was registered. -/
theorem SubOK_number (symtab : symbol_table) (num : Nat) (loc : SourceLoc) :
    SubOK symtab (compile_subexpr (ast_node.ak_atom (ast_atom.at_number num) loc))
      ⟨3, as_value_num num, none⟩ := by
  intro c l _ hcap hsz
  simp only [] at hsz
  have hsz0 : ({ c with dest := { c.dest with
      constants := c.dest.constants ++ [as_value_num num] } } : compiler).dest.size + 1
        ≤ 2147483648 := by
    show c.dest.size + 1 ≤ 2147483648
    omega
  obtain ⟨c1, hw1, hs1, hd1, hp1, _, hk1⟩ := write_byte_ok
    { c with dest := { c.dest with constants := c.dest.constants ++ [as_value_num num] } } l
    OP_CONST hcap hsz0
  have hs1 : c1.dest.size = c.dest.size + 1 := hs1
  have hd1 : c1.dest.data c.dest.size = u8 OP_CONST := hd1
  have hk1 : c1.dest.constants = c.dest.constants ++ [as_value_num num] := hk1
  obtain ⟨c2, hw2, hs2, hd2, hd3, hp2, _, hk2⟩ := write_short_gen c1 l
    (u16 ((c.dest.constants ++ [as_value_num num]).length - 1)) hp1.2.1 (by omega)
  have hsize : c2.dest.size = c.dest.size + 3 := by
    rw [hs2, hs1]
  have hp12 := Pres_trans hp1 hp2
  have hpres : Pres c c2 := by
    refine ⟨hp12.1, hp12.2.1, hp12.2.2.1, hp12.2.2.2.1,
      List.IsPrefix.trans (List.prefix_append _ _) hp12.2.2.2.2.1, ?_⟩
    rw [hk2, hk1, List.length_append, List.length_singleton]
    omega
  refine ⟨c2, l.inc_sp, ?_, hsize, hpres, ?_⟩
  · simp only [compile_subexpr, compiler.compile_atom, compiler.num_const, Bytecode.addConstant,
      compiler.constant, hw1, CResult.bind, hw2]
  · intro host vm hload _ hip hroom
    have hsz1 : c1.dest.size = c.dest.size + 1 := hs1
    have hconsts : c2.dest.constants = c.dest.constants ++ [as_value_num num] := by
      rw [hk2, hk1]
    have hlen : c.dest.constants.length < 65536 := by
      have := List.IsPrefix.length_le hload.2.1
      rw [hconsts, List.length_append] at this
      have := hload.2.2.1
      simp only [List.length_singleton] at *
      omega
    have hid : u16 (u16 ((c.dest.constants ++ [as_value_num num]).length - 1))
        = c.dest.constants.length := by
      simp only [List.length_append, List.length_singleton, Nat.add_sub_cancel]
      rw [u16_of_lt hlen, u16_of_lt hlen]
    have hop : vm.code.readByte vm.ip = OP_CONST := by
      rw [hip, hload.byte _ (Nat.le_refl _) (by omega), hp2.2.2.2.1 _ (by omega), hd1]
      rfl
    have hb0 : vm.code.data (vm.ip + 1)
        = u8 (u8 (c.dest.constants.length &&& 255)) := by
      rw [hip, hload.1 _ (by omega) (by omega), ← hsz1, hd2, hid]
    have hb1 : vm.code.data (vm.ip + 1 + 1)
        = u8 (u8 (c.dest.constants.length >>> 8)) := by
      rw [hip, hload.1 _ (by omega) (by omega), ← hsz1, hd3, hid]
    have hip32 : vm.ip + 3 < 4294967296 := by omega
    have hrs : vm.code.readShort (u32 (vm.ip + 1)) = c.dest.constants.length := by
      rw [u32_of_lt (by omega)]
      exact readShort_of_bytes vm.code (vm.ip + 1) _ hlen (by omega) hb0 hb1
    have hget : vm.code.constants.get? c.dest.constants.length = some (as_value_num num) := by
      apply prefix_get hload.2.1
      rw [hconsts, List.get?_eq_getElem?, List.getElem?_append_right (Nat.le_refl _)]
      simp
    have hstep := step_CONST_ok host vm _ _ hop hrs hload.2.2.1 hget hroom hip32
    refine ⟨_, Runs.step (by have := hload.2.2.2; omega) hstep, ?_, ?_⟩
    · have := (Moved.afterPush vm (as_value_num num) (vm.ip + 3)).1
      rw [hsize, ← hip]
      exact this
    · exact (Moved.afterPush vm (as_value_num num) (vm.ip + 3)).2

/-- The compilation of a one-byte push (`OP_NULL`, `OP_FALSE`, `OP_TRUE`) meets its
contract. -/
theorem SubOK_singleton (symtab : symbol_table) (s : Sub) (op : Nat) (v : Value)
    (hop8 : u8 op = op)
    (hs : ∀ c l, c.symtab = symtab → s c l = c.write_byte l op)
    (hsw : ∀ host vm, VM.step_switch host vm op = vm.step_push v) :
    SubOK symtab s ⟨1, v, none⟩ := by
  intro c l hsym hcap hsz
  simp only [] at hsz
  obtain ⟨c1, hw1, hs1, hd1, hp1, _, _⟩ := write_byte_ok c l op hcap hsz
  refine ⟨c1, l, ?_, hs1, hp1, ?_⟩
  · rw [hs c l hsym, hw1]
  · intro host vm hload _ hip hroom
    have hop : vm.code.readByte vm.ip = op := by
      rw [hip, hload.byte _ (Nat.le_refl _) (by omega), hd1, u8_u8, hop8]
    have hstep := step_singleton host vm op v (hsw host vm) hop hroom (by omega)
    refine ⟨_, Runs.step (by have := hload.2.2.2; omega) hstep, ?_, ?_⟩
    · have := (Moved.afterPush vm v (vm.ip + 1)).1
      rw [hs1, ← hip]
      exact this
    · exact (Moved.afterPush vm v (vm.ip + 1)).2

/-- The compilation of a symbol atom named `null`, `true` or `false` meets its contract. -/
theorem SubOK_symbol (symtab : symbol_table) (sym : Nat) (loc : SourceLoc) (r : Effect)
    (h : pure_eval symtab (ast_node.ak_atom (ast_atom.at_symbol sym) loc) = some r) :
    SubOK symtab (compile_subexpr (ast_node.ak_atom (ast_atom.at_symbol sym) loc)) r := by
  simp only [pure_eval] at h
  cases hidx : symtab.index sym with
  | none => simp [hidx] at h
  | some s =>
    simp only [hidx] at h
    by_cases h1 : s.name = "null"
    · rw [if_pos h1] at h
      injection h with h
      subst h
      refine SubOK_singleton symtab _ OP_NULL V_NULL rfl ?_ step_switch_NULL
      intro c l hsym
      simp only [compile_subexpr, compiler.compile_atom, hsym, hidx]
      rw [if_pos h1]
    · by_cases h2 : s.name = "true"
      · rw [if_neg h1, if_pos h2] at h
        injection h with h
        subst h
        refine SubOK_singleton symtab _ OP_TRUE V_TRUE rfl ?_ step_switch_TRUE
        intro c l hsym
        simp only [compile_subexpr, compiler.compile_atom, hsym, hidx]
        rw [if_neg h1, if_pos h2]
      · by_cases h3 : s.name = "false"
        · rw [if_neg h1, if_neg h2, if_pos h3] at h
          injection h with h
          subst h
          refine SubOK_singleton symtab _ OP_FALSE V_FALSE rfl ?_ step_switch_FALSE
          intro c l hsym
          simp only [compile_subexpr, compiler.compile_atom, hsym, hidx]
          rw [if_neg h1, if_neg h2, if_pos h3]
        · rw [if_neg h1, if_neg h2, if_neg h3] at h
          exact Option.noConfusion h

/-! ## Top-level forms -/

/-- A top-level form whose compilation meets the contract `SubOK`: `compile_expr` succeeds,
and executing the emitted code (the form's code, then `OP_POP`) brings the frame back to its
depth with the value of the form in the last-pop register. -/
theorem compile_expr_ok (symtab : symbol_table) (e : ast_node) (r : Effect)
    (hs : SubOK symtab (compile_subexpr e) r) (c : compiler) (hsym : c.symtab = symtab)
    (hcap : 0 < c.dest.cap) (hsz : c.dest.size + r.len + 1 ≤ 2147483648) :
    ∃ c1 l1, c.compile_expr e = CResult.ok () c1 l1 ∧ c1.dest.size = c.dest.size + r.len + 1 ∧
      Pres c c1 ∧
      ∀ (host : Host) (vm : VM), Loaded vm.code c1.dest c.dest.size c1.dest.size →
        r.len ≤ 127 → vm.ip = c.dest.size → vm.frame.sp + vm.frame.bp < STACK_SIZE - 1 →
        ∃ vm1, Runs host vm vm1 ∧ Moved vm vm1 c1.dest.size vm.frame.sp (some r.val) := by
  obtain ⟨c1, l1, hc1, hs1, hp1, hrun⟩ := hs c (local_table.new none none) hsym hcap (by omega)
  obtain ⟨c2, hw2, hs2, hd2, hp2, _, _⟩ := write_byte_ok c1 l1 OP_POP hp1.2.1 (by omega)
  refine ⟨c2, l1, ?_, by omega, Pres_trans hp1 hp2, ?_⟩
  · simp only [compiler.compile_expr, hc1, CResult.bind, hw2]
  · intro host vm hload hlen hip hroom
    have hload1 : Loaded vm.code c1.dest c.dest.size c1.dest.size :=
      hload.of_pres hp2 (by omega)
    obtain ⟨vm1, hr1, hm1, hv1⟩ := hrun host vm hload1 hlen hip hroom
    obtain ⟨hip1, hcode1, hframe1, _⟩ := id hm1
    have hsp1 : vm1.frame.sp = vm.frame.sp + 1 := by rw [hframe1]
    have hbp1 : vm1.frame.bp = vm.frame.bp := by rw [hframe1]
    have hop : vm1.code.readByte vm1.ip = OP_POP := by
      rw [hcode1, hip1, hload.byte _ (by omega) (by omega), hd2, u8_u8]
      rfl
    have hstep := step_POP_ok host vm1 hop (by omega) (by omega)
    have hip2 : vm1.ip < vm1.code.size := by
      have := hload.2.2.2
      rw [hcode1, hip1]
      omega
    refine ⟨_, Runs_trans hr1 (Runs.step hip2 hstep), ?_⟩
    have hm2 : Moved vm1
        { vm1.afterPop (vm1.ip + 1) with lp := vm1.stack (vm1.frame.bp + (vm1.frame.sp - 1)) }
        c2.dest.size vm.frame.sp (some r.val) := by
      refine ⟨?_, rfl, ?_, fun _ _ => rfl, ?_, rfl, rfl, rfl, rfl, rfl⟩
      · show vm1.ip + 1 = c2.dest.size
        omega
      · show ({ vm1.frame with sp := vm1.frame.sp - 1 } : CallFrame)
          = { vm1.frame with sp := vm.frame.sp }
        rw [hsp1]
        rfl
      · show vm1.stack (vm1.frame.bp + (vm1.frame.sp - 1)) = r.val
        rw [hbp1, hsp1]
        exact hv1
    have := Moved_trans hm1 hm2 (Nat.le_succ _)
    cases hlp : r.lp <;> simpa [seq_lp] using this

/-- The end of a top-level form at the end of the code ends `execute`: with enough fuel the
loop returns the state the run has reached. -/
theorem Runs.finish {host : Host} {vm vm1 : VM} (h : Runs host vm vm1)
    (hcode : vm1.code = vm.code) (hip : vm1.ip = vm.code.size) :
    ∃ n, ∀ fuel, vm.execute host (n + fuel) = some (VMResult.ok () vm1) := by
  apply h.execute_eq
  rw [hcode, hip]
  exact Nat.lt_irrefl _

/-- The bytes and the constant that `compile_subexpr` emits for a number literal. -/
theorem compile_number_facts (c : compiler) (l : local_table) (num : Nat) (loc : SourceLoc)
    (hcap : 0 < c.dest.cap) (hsz : c.dest.size + 3 ≤ 2147483648) :
    ∃ c2 l2, compile_subexpr (ast_node.ak_atom (ast_atom.at_number num) loc) c l
        = CResult.ok () c2 l2 ∧
      c2.dest.size = c.dest.size + 3 ∧ 0 < c2.dest.cap ∧
      c2.dest.data c.dest.size = OP_CONST ∧
      c2.dest.data (c.dest.size + 1) = u8 (u8 (u16 (u16 c.dest.constants.length) &&& 255)) ∧
      c2.dest.data (c.dest.size + 1 + 1) = u8 (u8 (u16 (u16 c.dest.constants.length) >>> 8)) ∧
      c2.dest.constants = c.dest.constants ++ [as_value_num num] := by
  have hsz0 : ({ c with dest := { c.dest with
      constants := c.dest.constants ++ [as_value_num num] } } : compiler).dest.size + 1
        ≤ 2147483648 := by
    show c.dest.size + 1 ≤ 2147483648
    omega
  obtain ⟨c1, hw1, hs1, hd1, hp1, _, hk1⟩ := write_byte_ok
    { c with dest := { c.dest with constants := c.dest.constants ++ [as_value_num num] } } l
    OP_CONST hcap hsz0
  have hs1 : c1.dest.size = c.dest.size + 1 := hs1
  have hd1 : c1.dest.data c.dest.size = u8 OP_CONST := hd1
  have hk1 : c1.dest.constants = c.dest.constants ++ [as_value_num num] := hk1
  obtain ⟨c2, hw2, hs2, hd2, hd3, hp2, _, hk2⟩ := write_short_gen c1 l
    (u16 ((c.dest.constants ++ [as_value_num num]).length - 1)) hp1.2.1 (by omega)
  have hlen : (c.dest.constants ++ [as_value_num num]).length - 1 = c.dest.constants.length := by
    simp
  rw [hlen] at hd2 hd3
  refine ⟨c2, l.inc_sp, ?_, by omega, hp2.2.1, ?_, ?_, ?_, hk2.trans hk1⟩
  · simp only [compile_subexpr, compiler.compile_atom, compiler.num_const, Bytecode.addConstant,
      compiler.constant, hw1, CResult.bind, hw2]
  · rw [hp2.2.2.2.1 _ (by omega), hd1]
    rfl
  · rw [← hs1]
    exact hd2
  · rw [← hs1]
    exact hd3

/-! ## C6: literal atoms -/

/-- C6: for every number literal, and for each of the symbols `null`, `true` and `false`,
`compile_expr` on the atom succeeds (on a module with room) and executing the emitted code
ends with exactly the value of the atom in the last-pop register and the frame as it was; for
a number the emitted `OP_CONST` has as operand the id under which the value
`as_value_num num` was registered in the constant pool. -/
theorem C6_literal_atom_last_pop (c : compiler) (host : Host)
    (hcap : 0 < c.dest.cap) (hsz : c.dest.size + 4 ≤ 2147483648)
    (hk : c.dest.constants.length < 65535) :
    (∀ num loc, ∃ c1 l1,
        c.compile_expr (ast_node.ak_atom (ast_atom.at_number num) loc) = CResult.ok () c1 l1 ∧
        c1.dest.readByte c.dest.size = OP_CONST ∧
        c1.dest.readShort (c.dest.size + 1) = c.dest.constants.length ∧
        c1.dest.getConstant c.dest.constants.length = some (as_value_num num) ∧
        ∀ vm : VM, vm.code = c1.dest → vm.ip = c.dest.size →
          vm.frame.sp + vm.frame.bp < STACK_SIZE - 1 →
          ∃ n vm1, (∀ fuel, vm.execute host (n + fuel) = some (VMResult.ok () vm1)) ∧
            vm1.lp = as_value_num num ∧ vm1.frame = vm.frame) ∧
    (∀ sym s loc v, c.symtab.index sym = some s →
        ((s.name = "null" ∧ v = V_NULL) ∨ (s.name = "true" ∧ v = V_TRUE) ∨
          (s.name = "false" ∧ v = V_FALSE)) →
        ∃ c1 l1,
          c.compile_expr (ast_node.ak_atom (ast_atom.at_symbol sym) loc) = CResult.ok () c1 l1 ∧
          ∀ vm : VM, vm.code = c1.dest → vm.ip = c.dest.size →
            vm.frame.sp + vm.frame.bp < STACK_SIZE - 1 →
            ∃ n vm1, (∀ fuel, vm.execute host (n + fuel) = some (VMResult.ok () vm1)) ∧
              vm1.lp = v ∧ vm1.frame = vm.frame) := by
  constructor
  · intro num loc
    obtain ⟨c2, l2, hc2, hs2, hcap2, hd0, hd1, hd2, hk2⟩ :=
      compile_number_facts c (local_table.new none none) num loc hcap (by omega)
    obtain ⟨c3, hw3, hs3, _, hp3, _, hk3⟩ := write_byte_ok c2 l2 OP_POP hcap2 (by omega)
    have hce : c.compile_expr (ast_node.ak_atom (ast_atom.at_number num) loc)
        = CResult.ok () c3 l2 := by
      simp only [compiler.compile_expr, hc2, CResult.bind, hw3]
    obtain ⟨c1, l1, hc1, hs1, _, hrun⟩ := compile_expr_ok c.symtab _ _
      (SubOK_number c.symtab num loc) c rfl hcap (by simpa using hsz)
    rw [hce] at hc1
    injection hc1 with _ hc hl
    subst hc
    have hconsts : c3.dest.constants = c.dest.constants ++ [as_value_num num] := hk3.trans hk2
    have hu16 : u16 c.dest.constants.length = c.dest.constants.length :=
      u16_of_lt (by omega)
    have hu : u16 (u16 c.dest.constants.length) = c.dest.constants.length := by
      rw [hu16, hu16]
    rw [hu] at hd1 hd2
    have hdat : ∀ a, a < c2.dest.size → c3.dest.data a = c2.dest.data a := hp3.2.2.2.1
    refine ⟨c3, l2, hce, ?_, ?_, ?_, ?_⟩
    · unfold Bytecode.readByte
      rw [hdat _ (by omega), hd0]
      rfl
    · apply readShort_of_bytes _ _ _ (by omega) (by omega)
      · rw [hdat _ (by omega), hd1]
      · rw [hdat _ (by omega), hd2]
    · unfold Bytecode.getConstant
      rw [hconsts, List.get?_eq_getElem?, List.getElem?_append_right (Nat.le_refl _)]
      simp
    · intro vm hcode hip hroom
      have hload : Loaded vm.code c3.dest c.dest.size c3.dest.size := by
        rw [hcode]
        refine ⟨fun _ _ _ => rfl, List.prefix_refl _, ?_, Nat.le_refl _⟩
        rw [hconsts, List.length_append, List.length_singleton]
        omega
      obtain ⟨vm1, hr, hm⟩ := hrun host vm hload
        (show (3 : Nat) ≤ 127 by decide) hip hroom
      obtain ⟨n, hn⟩ := hr.finish hm.2.1 (by rw [hm.1, hcode])
      refine ⟨n, vm1, hn, hm.2.2.2.2.1, ?_⟩
      rw [hm.2.2.1]
      exact (frame_sp_eta vm.frame).symm
  · intro sym s loc v hidx hname
    have hpe : pure_eval c.symtab (ast_node.ak_atom (ast_atom.at_symbol sym) loc)
        = some ⟨1, v, none⟩ := by
      simp only [pure_eval, hidx]
      rcases hname with ⟨h1, rfl⟩ | ⟨h1, rfl⟩ | ⟨h1, rfl⟩
      · rw [if_pos h1]
      · rw [h1]
        rfl
      · rw [h1]
        rfl
    obtain ⟨c1, l1, hc1, hs1, hp1, hrun⟩ := compile_expr_ok c.symtab _ _
      (SubOK_symbol c.symtab sym loc _ hpe) c rfl hcap (by simpa using by omega)
    have hk1 : c1.dest.constants = c.dest.constants := by
      have hop : ∃ op, compile_subexpr (ast_node.ak_atom (ast_atom.at_symbol sym) loc) c
          (local_table.new none none) = c.write_byte (local_table.new none none) op := by
        simp only [compile_subexpr, compiler.compile_atom, hidx]
        rcases hname with ⟨h1, _⟩ | ⟨h1, _⟩ | ⟨h1, _⟩
        · exact ⟨OP_NULL, by rw [if_pos h1]⟩
        · exact ⟨OP_TRUE, by rw [h1]; rfl⟩
        · exact ⟨OP_FALSE, by rw [h1]; rfl⟩
      obtain ⟨op, hop⟩ := hop
      obtain ⟨c2, hw2, hs2, _, hp2, _, hk2⟩ := write_byte_ok c (local_table.new none none) op
        hcap (by omega)
      obtain ⟨c3, hw3, _, _, _, _, hk3⟩ := write_byte_ok c2 (local_table.new none none) OP_POP
        hp2.2.1 (by omega)
      have hce : c.compile_expr (ast_node.ak_atom (ast_atom.at_symbol sym) loc)
          = CResult.ok () c3 (local_table.new none none) := by
        simp only [compiler.compile_expr, hop, hw2, CResult.bind, hw3]
      rw [hce] at hc1
      injection hc1 with _ hc _
      subst hc
      exact hk3.trans hk2
    refine ⟨c1, l1, hc1, ?_⟩
    intro vm hcode hip hroom
    have hload : Loaded vm.code c1.dest c.dest.size c1.dest.size := by
      rw [hcode]
      refine ⟨fun _ _ _ => rfl, List.prefix_refl _, ?_, Nat.le_refl _⟩
      rw [hk1]
      omega
    obtain ⟨vm1, hr, hm⟩ := hrun host vm hload (show (1 : Nat) ≤ 127 by decide) hip hroom
    obtain ⟨n, hn⟩ := hr.finish hm.2.1 (by rw [hm.1, hcode])
    refine ⟨n, vm1, hn, hm.2.2.2.2.1, ?_⟩
    rw [hm.2.2.1]
    exact (frame_sp_eta vm.frame).symm

/-- C6, witness: on a fresh module, the number 3 and the symbol `true`. -/
theorem C6_literal_atom_last_pop_witness :
    (∃ c1 l1,
        ex_compiler.compile_expr (ast_node.ak_atom (ast_atom.at_number bits_3) ex_loc)
          = CResult.ok () c1 l1 ∧
        c1.dest.readByte ex_compiler.dest.size = OP_CONST ∧
        c1.dest.readShort (ex_compiler.dest.size + 1) = ex_compiler.dest.constants.length ∧
        c1.dest.getConstant ex_compiler.dest.constants.length = some (as_value_num bits_3) ∧
        ∀ vm : VM, vm.code = c1.dest → vm.ip = ex_compiler.dest.size →
          vm.frame.sp + vm.frame.bp < STACK_SIZE - 1 →
          ∃ n vm1, (∀ fuel, vm.execute ex_host (n + fuel) = some (VMResult.ok () vm1)) ∧
            vm1.lp = as_value_num bits_3 ∧ vm1.frame = vm.frame) ∧
    (∃ c1 l1,
        ex_compiler.compile_expr (ast_node.ak_atom (ast_atom.at_symbol 7) ex_loc)
          = CResult.ok () c1 l1 ∧
        ∀ vm : VM, vm.code = c1.dest → vm.ip = ex_compiler.dest.size →
          vm.frame.sp + vm.frame.bp < STACK_SIZE - 1 →
          ∃ n vm1, (∀ fuel, vm.execute ex_host (n + fuel) = some (VMResult.ok () vm1)) ∧
            vm1.lp = V_TRUE ∧ vm1.frame = vm.frame) :=
  ⟨(C6_literal_atom_last_pop ex_compiler ex_host (by decide) (by decide) (by decide)).1
      bits_3 ex_loc,
   (C6_literal_atom_last_pop ex_compiler ex_host (by decide) (by decide) (by decide)).2
      7 ⟨7, "true"⟩ ex_loc V_TRUE rfl (Or.inr (Or.inl ⟨rfl, rfl⟩))⟩

/-! ## C11: `OP_CALL` on a value that is not callable -/

/-- C11: for every `n` and every state in which the value at depth `n` of the current frame is
neither a closure nor a foreign function, `OP_CALL n` raises an error of the subsystem
"interpreter" whose source location is the source-map location of `ip`; the state at the throw
is the state before the step (stack, frame chain and `ip` unchanged). -/
theorem C11_call_noncallable_raises (host : Host) (vm : VM) (n : Nat) (loc : SourceLoc)
    (hop : vm.code.readByte vm.ip = OP_CALL)
    (hn : vm.code.readByte (u32 (vm.ip + 1)) = n)
    (hdepth : n < vm.frame.sp)
    (hnf : isFunc (vm.stack (vm.frame.bp + vm.frame.sp - n - 1)) = false)
    (hnfor : isForeign (vm.stack (vm.frame.bp + vm.frame.sp - n - 1)) = false)
    (hloc : vm.code.locationOf vm.ip = Ptr.ref loc) :
    vm.step host = VMResult.error
      ⟨"interpreter", "Attempt to call nonfunction at address " ++ to_string_i32 vm.ip, loc⟩
      vm := by
  have hpeek : vm.peek n
      = VMResult.ok (vm.stack (vm.frame.bp + vm.frame.sp - n - 1)) vm := by
    simp [VM.peek, Nat.not_le.mpr hdepth]
  simp only [VM.step, hop, step_switch_CALL, VM.step_CALL, hn, hpeek, VMResult.bind_ok, hnf,
    hnfor, Bool.false_eq_true, if_false, VM.throwError, hloc, VMResult.bind_error]

/-- C11, witness: calling the number 7 with no argument. -/
theorem C11_call_noncallable_raises_witness :
    ex_vm_call_number.step ex_host = VMResult.error
      ⟨"interpreter",
        "Attempt to call nonfunction at address " ++ to_string_i32 ex_vm_call_number.ip, ex_loc⟩
      ex_vm_call_number :=
  C11_call_noncallable_raises ex_host ex_vm_call_number 0 ex_loc (by decide) (by decide)
    (by decide) (by decide) (by decide) rfl

/-! ## C15, C16: jumps -/

/-- C15 (defect): `OP_JUMP` at address 0 with the 16-bit displacement 128 (operand bytes
`0x80 0x00`) sets `ip` to `3 - 128` modulo `2^32`, not to `3 + 128`: only the first operand
byte is read, as a signed byte. -/
theorem C15_jump_reads_one_signed_byte :
    (ex_vm_jump_128.step ex_host).state.map VM.getIp = some 4294967171 ∧
      ex_vm_jump_128.code.readShort 1 = 128 := by
  decide

/-- The jump of `OP_JUMP` for displacements below 128: `ip` becomes `ip + 3 + s` and nothing
else changes. -/
theorem step_JUMP_small (host : Host) (vm : VM) (s : Nat)
    (hop : vm.code.readByte vm.ip = OP_JUMP)
    (hs : vm.code.readShort (u32 (vm.ip + 1)) = s) (hlt : s < 128)
    (hhi : vm.code.readByte (u32 (u32 (vm.ip + 1) + 1)) = 0)
    (hip : vm.ip + 3 + s < 4294967296) :
    vm.step host = VMResult.ok () { vm with ip := vm.ip + 3 + s } := by
  have hlo : vm.code.readByte (u32 (vm.ip + 1)) = s := by
    simp only [Bytecode.readShort, hhi] at hs
    have h8 := readByte_lt vm.code (u32 (vm.ip + 1))
    rw [← hs]
    simp only [Nat.zero_shiftLeft, Nat.zero_or]
    exact (u16_of_lt (by omega)).symm
  exact step_JUMP_ok host vm s hop hlo hlt hip

theorem cjump_empty_raises (host : Host) (vm : VM) (loc : SourceLoc)
    (hop : vm.code.readByte vm.ip = OP_CJUMP) (hsp : vm.frame.sp = 0)
    (hloc : vm.code.locationOf vm.ip = Ptr.ref loc) :
    vm.step host = VMResult.error
      ⟨"runtime", "Pop on empty call frame at address " ++ to_string_i32 vm.ip, loc⟩ vm := by
  simp only [VM.step, hop, step_switch_CJUMP, VM.step_CJUMP, VM.pop, hsp, if_true,
    VM.throwError, hloc, VMResult.bind_error]

/-- C16: `OP_CJUMP` at `ip` on a non-empty frame pops exactly one value whichever branch is
taken: when the popped value is null or false, `ip` becomes the target that `OP_JUMP` with the
same operand at the same address jumps to; for every other value `ip` becomes `ip + 3`.  On an
empty frame the step raises and the state at the throw is the state before. -/
theorem C16_cjump (host : Host) (vm : VM) (hop : vm.code.readByte vm.ip = OP_CJUMP)
    (hip : vm.ip + 3 < 4294967296) :
    (0 < vm.frame.sp → v_truthy (vm.stack (vm.frame.bp + (vm.frame.sp - 1))) = false →
        vm.step host = VMResult.ok () (vm.afterPop vm.jumpTarget) ∧
        ∀ vmj : VM, vmj.code.readByte vmj.ip = OP_JUMP → vmj.ip = vm.ip →
          vmj.code.readByte (u32 (vmj.ip + 1)) = vm.code.readByte (u32 (vm.ip + 1)) →
          vmj.step host = VMResult.ok () { vmj with ip := vm.jumpTarget }) ∧
    (0 < vm.frame.sp → v_truthy (vm.stack (vm.frame.bp + (vm.frame.sp - 1))) = true →
        vm.step host = VMResult.ok () (vm.afterPop (vm.ip + 3))) ∧
    (∀ loc, vm.frame.sp = 0 → vm.code.locationOf vm.ip = Ptr.ref loc →
        ∃ e, vm.step host = VMResult.error e vm) := by
  refine ⟨?_, ?_, ?_⟩
  · intro hsp hv
    constructor
    · have hjt : (vm.afterPop vm.ip).jumpTarget = vm.jumpTarget := rfl
      simp only [VM.step, hop, step_switch_CJUMP, VM.step_CJUMP, pop_ok vm hsp,
        VMResult.bind_ok, isTruthy, hv, Bool.not_false, if_true, hjt]
      rfl
    · intro vmj hopj hipj hbyte
      have hjt : vmj.jumpTarget = vm.jumpTarget := by
        unfold VM.jumpTarget
        rw [hbyte, hipj]
      simp only [VM.step, hopj, step_switch_JUMP, VM.step_JUMP, VMResult.bind_ok, hjt]
  · intro hsp hv
    exact step_CJUMP_truthy host vm hop hsp hv hip
  · intro loc hsp hloc
    exact ⟨_, cjump_empty_raises host vm loc hop hsp hloc⟩

/-- C16, witness: `OP_CJUMP 5` on `false`, on the number 7 and on an empty frame. -/
theorem C16_cjump_witness :
    (ex_vm_cjump_false.step ex_host
        = VMResult.ok () (ex_vm_cjump_false.afterPop ex_vm_cjump_false.jumpTarget) ∧
      ex_vm_cjump_false.jumpTarget = 8) ∧
    ex_vm_cjump_num.step ex_host
        = VMResult.ok () (ex_vm_cjump_num.afterPop (ex_vm_cjump_num.ip + 3)) ∧
    (∃ e, ex_vm_cjump_empty.step ex_host = VMResult.error e ex_vm_cjump_empty) :=
  ⟨⟨((C16_cjump ex_host ex_vm_cjump_false (by decide) (by decide)).1 (by decide)
      (by decide)).1, by decide⟩,
   (C16_cjump ex_host ex_vm_cjump_num (by decide) (by decide)).2.1 (by decide) (by decide),
   (C16_cjump ex_host ex_vm_cjump_empty (by decide) (by decide)).2.2 ex_loc rfl rfl⟩

/-! ## C17: `VM::push` -/

/-- C17, counterexample: with `bp + sp = STACK_SIZE - 1` the push would not exceed the
capacity (`bp + sp < STACK_SIZE`), yet `push` raises. -/
theorem C17_push_raises_below_capacity :
    ¬ ((ex_vm_almost_full.push V_TRUE).thrown.isSome = true ↔
      ex_vm_almost_full.frame.bp + ex_vm_almost_full.frame.sp ≥ STACK_SIZE) := by
  decide

/-- C17, amended: `push(v)` raises a runtime error (the source map having a location for `ip`)
if and only if `bp + sp >= STACK_SIZE - 1`; otherwise it stores `v` at `stack[bp + sp]`,
increases `sp` by one and changes no other stack cell and nothing else.  When it raises, the
state at the throw is the state before: stack, `sp` and `bp` are unchanged. -/
theorem C17_push_amended (vm : VM) (v : Value) (loc : SourceLoc)
    (hloc : vm.code.locationOf vm.ip = Ptr.ref loc) :
    ((∃ e vm1, vm.push v = VMResult.error e vm1) ↔ vm.frame.bp + vm.frame.sp ≥ STACK_SIZE - 1) ∧
    (vm.frame.bp + vm.frame.sp < STACK_SIZE - 1 →
      ∃ vm1, vm.push v = VMResult.ok () vm1 ∧ vm1.stack (vm.frame.bp + vm.frame.sp) = v ∧
        vm1.frame = { vm.frame with sp := vm.frame.sp + 1 } ∧
        (∀ a, a ≠ vm.frame.bp + vm.frame.sp → vm1.stack a = vm.stack a) ∧
        vm1.ip = vm.ip ∧ vm1.code = vm.code ∧ vm1.lp = vm.lp ∧ vm1.globals = vm.globals) ∧
    (∀ e vm1, vm.push v = VMResult.error e vm1 →
      vm1 = vm ∧ e.subsystem = "runtime" ∧ e.origin = loc) := by
  by_cases h : vm.frame.sp + vm.frame.bp ≥ STACK_SIZE - 1
  · have hp : vm.push v = VMResult.error ⟨"runtime", "Stack exhausted.", loc⟩ vm := by
      simp only [VM.push, h, if_true, VM.throwError, hloc]
    refine ⟨⟨fun _ => by omega, fun _ => ⟨_, _, hp⟩⟩, fun h2 => by omega, ?_⟩
    intro e vm1 he
    rw [hp] at he
    injection he with he1 he2
    subst he1 he2
    exact ⟨rfl, rfl, rfl⟩
  · have hroom : vm.frame.sp + vm.frame.bp < STACK_SIZE - 1 := by omega
    have hp := push_ok vm v hroom
    refine ⟨⟨?_, fun h2 => by omega⟩, ?_, ?_⟩
    · rintro ⟨e, vm1, he⟩
      rw [hp] at he
      exact VMResult.noConfusion he
    · intro _
      refine ⟨_, hp, ?_, rfl, ?_, rfl, rfl, rfl, rfl⟩
      · simp [VM.afterPush]
      · intro a ha
        simp [VM.afterPush, ha]
    · intro e vm1 he
      rw [hp] at he
      exact VMResult.noConfusion he

/-- C17, witness: the machine with one free cell less than the capacity raises. -/
theorem C17_push_amended_witness :
    ((∃ e vm1, ex_vm_almost_full.push V_TRUE = VMResult.error e vm1) ↔
      ex_vm_almost_full.frame.bp + ex_vm_almost_full.frame.sp ≥ STACK_SIZE - 1) ∧
    (ex_vm_almost_full.frame.bp + ex_vm_almost_full.frame.sp < STACK_SIZE - 1 →
      ∃ vm1, ex_vm_almost_full.push V_TRUE = VMResult.ok () vm1 ∧
        vm1.stack (ex_vm_almost_full.frame.bp + ex_vm_almost_full.frame.sp) = V_TRUE ∧
        vm1.frame = { ex_vm_almost_full.frame with sp := ex_vm_almost_full.frame.sp + 1 } ∧
        (∀ a, a ≠ ex_vm_almost_full.frame.bp + ex_vm_almost_full.frame.sp →
          vm1.stack a = ex_vm_almost_full.stack a) ∧
        vm1.ip = ex_vm_almost_full.ip ∧ vm1.code = ex_vm_almost_full.code ∧
        vm1.lp = ex_vm_almost_full.lp ∧ vm1.globals = ex_vm_almost_full.globals) ∧
    (∀ e vm1, ex_vm_almost_full.push V_TRUE = VMResult.error e vm1 →
      vm1 = ex_vm_almost_full ∧ e.subsystem = "runtime" ∧ e.origin = ex_loc) :=
  C17_push_amended ex_vm_almost_full V_TRUE ex_loc rfl

/-! ## C18, C19: globals -/

/-- C18 (defect): `OP_SET_GLOBAL` on the stack `"x"` (name) below `"v"` (value) pops both,
leaving the frame empty, and binds the global named `v` to the string value `"x"`; no global
named `x` is bound. -/
theorem C18_set_global_swaps_and_pops_both :
    (ex_vm_set_global.step ex_host).state.map
        (fun vm => (vm.frame.sp, vm.globals.get "x", vm.globals.get "v"))
      = some (0, none, some (as_value_ptr 32 TAG_STRING)) ∧
    valueString ex_vm_set_global.heap (ex_vm_set_global.stack 0) = some "x" ∧
    valueString ex_vm_set_global.heap (ex_vm_set_global.stack 1) = some "v" := by
  decide

/-- C19 (defect): `OP_GLOBAL` on the name `"x"` with no global bound raises nothing: it pops
the name and pushes null. -/
theorem C19_global_unbound_pushes_null :
    (ex_vm_global_unbound.step ex_host).thrown.isNone = true ∧
      (ex_vm_global_unbound.step ex_host).state.map (fun vm => (vm.frame.sp, vm.stack 0))
        = some (1, V_NULL) ∧
      ex_vm_global_unbound.globals.get "x" = none := by
  decide

theorem step_switch_GLOBAL (host : Host) (vm : VM) :
    vm.step_switch host OP_GLOBAL = vm.step_GLOBAL := by
  simp [VM.step_switch, OP_CALL, OP_NOP, OP_POP, OP_COPY, OP_LOCAL, OP_SET_LOCAL, OP_UPVALUE,
    OP_SET_UPVALUE, OP_CLOSURE, OP_CLOSE, OP_GLOBAL, OP_SET_GLOBAL, OP_CONST, OP_NULL, OP_FALSE,
    OP_TRUE, OP_JUMP, OP_CJUMP, OP_RETURN]

/-- `OP_GLOBAL` on a string name that is bound: the name is popped and the bound value is
pushed in its place, so the depth is unchanged. -/
theorem step_GLOBAL_bound (host : Host) (vm : VM) (name : String) (v : Value)
    (hop : vm.code.readByte vm.ip = OP_GLOBAL) (hsp : 0 < vm.frame.sp)
    (hstr : isString (vm.stack (vm.frame.bp + (vm.frame.sp - 1))) = true)
    (hname : valueString vm.heap (vm.stack (vm.frame.bp + (vm.frame.sp - 1))) = some name)
    (hget : vm.globals.get name = some v)
    (hfit : vm.frame.bp + vm.frame.sp < STACK_SIZE) (hip : vm.ip + 1 < 4294967296) :
    ∃ vm1, vm.step host = VMResult.ok () vm1 ∧ vm1.frame = vm.frame ∧
      vm1.stack (vm.frame.bp + (vm.frame.sp - 1)) = v ∧ vm1.ip = vm.ip + 1 := by
  have h16 : STACK_SIZE = 16384 := rfl
  have hroom : (vm.afterPop vm.ip).frame.sp + (vm.afterPop vm.ip).frame.bp < STACK_SIZE - 1 := by
    show vm.frame.sp - 1 + vm.frame.bp < STACK_SIZE - 1
    omega
  have hname1 : valueString (vm.afterPop vm.ip).heap
      (vm.stack (vm.frame.bp + (vm.frame.sp - 1))) = some name := hname
  have hget1 : (vm.afterPop vm.ip).getGlobal name = v := by
    show (match vm.globals.get name with
      | none => V_NULL
      | some v => v) = v
    rw [hget]
  simp only [VM.step, hop, step_switch_GLOBAL, VM.step_GLOBAL, pop_ok vm hsp, VMResult.bind_ok,
    hstr, Bool.not_true, Bool.false_eq_true, if_false, hname1, hget1,
    push_ok (vm.afterPop vm.ip) v hroom]
  refine ⟨_, rfl, ?_, ?_, u32_of_lt hip⟩
  · show ({ ({ vm.frame with sp := vm.frame.sp - 1 } : CallFrame) with
        sp := vm.frame.sp - 1 + 1 } : CallFrame) = vm.frame
    rw [Nat.sub_add_cancel hsp]
    exact (frame_sp_eta vm.frame).symm
  · simp [VM.afterPush, VM.afterPop]

/-! ## C20: unknown upvalue and constant ids -/

/-- C20 (defect): at top level, where the frame has no executing closure, `OP_UPVALUE 0` and
`OP_SET_UPVALUE 0` do not raise: they dereference the null closure pointer, which is undefined
behaviour. -/
theorem C20_upvalue_top_level_unchecked :
    (ex_vm_upvalue_top.step ex_host).isUndefined = true ∧
      (ex_vm_set_upvalue_top.step ex_host).isUndefined = true ∧
      ex_vm_upvalue_top.frame.caller = none ∧
      (ex_vm_upvalue_top.getUpvalue 0).thrown.isSome = true := by
  decide

/-- `OP_CONST` with an id that is not below the number of constants raises, and the state at
the throw is the state before: stack and `ip` are unchanged. -/
theorem step_CONST_unknown (host : Host) (vm : VM) (loc : SourceLoc)
    (hop : vm.code.readByte vm.ip = OP_CONST)
    (hid : vm.code.readShort (u32 (vm.ip + 1)) ≥ vm.code.numConstants)
    (hloc : vm.code.locationOf vm.ip = Ptr.ref loc) :
    vm.step host = VMResult.error
      ⟨"runtime", "Attempt to access nonexistent constant.", loc⟩ vm := by
  simp only [VM.step, hop, step_switch_CONST, VM.step_CONST, hid, if_true, VM.throwError, hloc,
    VMResult.bind_error]

/-! ## C14: `CallFrame::close` -/

theorem closeSlot_open (stack : Nat → Value) (slots : List UpvalueSlot) (cells : List Value)
    (k p : Nat) (h : slots.get? k = some ⟨true, ValPtr.stack p⟩) :
    closeSlot stack slots cells k
      = some (slots.set k ⟨false, ValPtr.cell cells.length⟩, cells ++ [stack p]) := by
  simp only [closeSlot, h, ValPtr.read]

theorem get?_set_self {α : Type} (l : List α) (k : Nat) (a : α) (h : k < l.length) :
    (l.set k a).get? k = some a := by
  rw [List.get?_eq_getElem?, List.getElem?_set_self h]

theorem get?_set_other {α : Type} (l : List α) (k j : Nat) (a : α) (h : k ≠ j) :
    (l.set k a).get? j = l.get? j := by
  rw [List.get?_eq_getElem?, List.get?_eq_getElem?, List.getElem?_set_ne h]

theorem lt_of_get?_some {α : Type} {l : List α} {k : Nat} {a : α} (h : l.get? k = some a) :
    k < l.length := by
  rcases Nat.lt_or_ge k l.length with h1 | h1
  · exact h1
  · rw [List.get?_eq_none.mpr h1] at h
    exact Option.noConfusion h

/-- The `remove_if` of `close` on a list of open upvalues: the entries at positions below `sp`
are kept, with their slots untouched; each entry at a position from `sp` on is dropped and its
slot is closed on a fresh cell that holds the value of its stack position. -/
theorem closeFrom_spec (stack : Nat → Value) (bp sp : Nat) :
    ∀ (us : List OpenUpvalue) (slots : List UpvalueSlot) (cells : List Value),
      OpenList bp slots us →
      ∃ slots1 cells1,
        closeFrom stack sp us slots cells
          = some (us.filter (fun u => decide (u.pos < sp)), slots1, cells1) ∧
        cells <+: cells1 ∧
        (∀ k, (∀ u, u ∈ us → u.pos ≥ sp → u.slot ≠ k) → slots1.get? k = slots.get? k) ∧
        (∀ u, u ∈ us → u.pos ≥ sp → ∃ i, cells.length ≤ i ∧
          slots1.get? u.slot = some ⟨false, ValPtr.cell i⟩ ∧
          cells1.get? i = some (stack (bp + u.pos))) := by
  intro us
  induction us with
  | nil =>
    intro slots cells _
    exact ⟨slots, cells, rfl, List.prefix_refl _, fun _ _ => rfl,
      fun u hu => absurd hu (List.not_mem_nil u)⟩
  | cons u rest ih =>
    intro slots cells hol
    obtain ⟨hopen, hnd⟩ := hol
    have hnd2 : u.slot ∉ rest.map (fun u => u.slot) ∧ (rest.map (fun u => u.slot)).Nodup := by
      simpa using hnd
    have hu := hopen u (List.mem_cons_self _ _)
    by_cases hpos : u.pos ≥ sp
    · have hcs := closeSlot_open stack slots cells u.slot (bp + u.pos) hu
      have hol1 : OpenList bp (slots.set u.slot ⟨false, ValPtr.cell cells.length⟩) rest := by
        refine ⟨fun w hw => ?_, hnd2.2⟩
        have hne : u.slot ≠ w.slot := by
          intro heq
          exact hnd2.1 (List.mem_map.mpr ⟨w, hw, heq.symm⟩)
        rw [get?_set_other _ _ _ _ hne]
        exact hopen w (List.mem_cons_of_mem _ hw)
      obtain ⟨slots1, cells1, hcf, hpre, hkeep, hclosed⟩ :=
        ih (slots.set u.slot ⟨false, ValPtr.cell cells.length⟩) (cells ++ [stack (bp + u.pos)])
          hol1
      refine ⟨slots1, cells1, ?_, ?_, ?_, ?_⟩
      · have hf : ¬ u.pos < sp := by omega
        simp only [closeFrom, hpos, if_true, hcs, hcf, List.filter_cons, hf, decide_False,
          Bool.false_eq_true, if_false]
      · exact List.IsPrefix.trans (List.prefix_append _ _) hpre
      · intro k hk
        have hne : u.slot ≠ k := hk u (List.mem_cons_self _ _) hpos
        rw [hkeep k (fun w hw hwp => hk w (List.mem_cons_of_mem _ hw) hwp),
          get?_set_other _ _ _ _ hne]
      · intro w hw hwp
        rcases List.mem_cons.mp hw with rfl | hw
        · refine ⟨cells.length, Nat.le_refl _, ?_, ?_⟩
          · rw [hkeep w.slot (fun x hx _ heq =>
              hnd2.1 (List.mem_map.mpr ⟨x, hx, heq⟩))]
            exact get?_set_self _ _ _ (lt_of_get?_some hu)
          · apply prefix_get hpre
            rw [List.get?_eq_getElem?, List.getElem?_append_right (Nat.le_refl _)]
            simp
        · obtain ⟨i, hi, hs, hc⟩ := hclosed w hw hwp
          refine ⟨i, ?_, hs, hc⟩
          rw [List.length_append, List.length_singleton] at hi
          omega
    · have hol1 : OpenList bp slots rest :=
        ⟨fun w hw => hopen w (List.mem_cons_of_mem _ hw), hnd2.2⟩
      obtain ⟨slots1, cells1, hcf, hpre, hkeep, hclosed⟩ := ih slots cells hol1
      refine ⟨slots1, cells1, ?_, hpre, ?_, ?_⟩
      · have hf : u.pos < sp := by omega
        simp only [closeFrom, hpos, if_false, hcf, List.filter_cons, hf, decide_True, if_true]
      · intro k hk
        exact hkeep k (fun w hw hwp => hk w (List.mem_cons_of_mem _ hw) hwp)
      · intro w hw hwp
        rcases List.mem_cons.mp hw with rfl | hw
        · exact absurd hwp hpos
        · exact hclosed w hw hwp

/-- C14: for every frame whose open list is well formed and every `n <= sp`, `close(n)` sets
`sp` to `sp - n`; every upvalue open at a position `>= sp - n` is closed (`open = false`) on a
fresh cell holding the value its stack position held, and is removed from the open list; every
upvalue open at a position `< sp - n` stays in the list, still open and still pointing at the
same stack position. -/
theorem C14_close (f : CallFrame) (stack : Nat → Value) (slots : List UpvalueSlot)
    (cells : List Value) (n : Nat) (hn : n ≤ f.sp) (hsp : f.sp < 65536)
    (hol : OpenList f.bp slots f.openUpvals) :
    ∃ f1 slots1 cells1, f.close stack slots cells n = some (f1, slots1, cells1) ∧
      f1.sp = f.sp - n ∧ f1.bp = f.bp ∧
      f1.openUpvals = f.openUpvals.filter (fun u => decide (u.pos < f.sp - n)) ∧
      (∀ u, u ∈ f.openUpvals → u.pos ≥ f.sp - n →
        u ∉ f1.openUpvals ∧
        ∃ i, cells.length ≤ i ∧ slots1.get? u.slot = some ⟨false, ValPtr.cell i⟩ ∧
          cells1.get? i = some (stack (f.bp + u.pos))) ∧
      (∀ u, u ∈ f.openUpvals → u.pos < f.sp - n →
        u ∈ f1.openUpvals ∧
        slots1.get? u.slot = some ⟨true, ValPtr.stack (f.bp + u.pos)⟩) := by
  have hu : u16 (f.sp + 65536 - n) = f.sp - n := by
    unfold u16
    omega
  obtain ⟨slots1, cells1, hcf, _, hkeep, hclosed⟩ :=
    closeFrom_spec stack f.bp (f.sp - n) f.openUpvals slots cells hol
  refine ⟨{ f with
      sp := f.sp - n,
      openUpvals := f.openUpvals.filter (fun u => decide (u.pos < f.sp - n)) },
    slots1, cells1, ?_, rfl, rfl, rfl, ?_, ?_⟩
  · simp only [CallFrame.close, hu, hcf]
  · intro u hu hpos
    refine ⟨?_, hclosed u hu hpos⟩
    intro hmem
    have := (List.mem_filter.mp hmem).2
    simp only [decide_eq_true_eq] at this
    omega
  · intro u hu hpos
    refine ⟨List.mem_filter.mpr ⟨hu, by simpa using hpos⟩, ?_⟩
    rw [hkeep u.slot ?_]
    · exact hol.1 u hu
    · intro w hw hwp heq
      have hinj : w = u ∨ w ≠ u := Classical.em _
      rcases hinj with rfl | hne
      · omega
      · have hnd := hol.2
        have : w.slot ≠ u.slot := by
          intro _
          have := List.inj_on_of_nodup_map hnd hw hu heq
          exact hne this
        exact this heq

/-- C14, witness: closing one cell of a frame of depth 3 with upvalues open at positions 0
and 2. -/
theorem C14_close_witness :
    ∃ f1 slots1 cells1,
      ex_frame_open.close ex_stack_123 ex_slots_open [] 1 = some (f1, slots1, cells1) ∧
      f1.sp = ex_frame_open.sp - 1 ∧ f1.bp = ex_frame_open.bp ∧
      f1.openUpvals
        = ex_frame_open.openUpvals.filter (fun u => decide (u.pos < ex_frame_open.sp - 1)) ∧
      (∀ u, u ∈ ex_frame_open.openUpvals → u.pos ≥ ex_frame_open.sp - 1 →
        u ∉ f1.openUpvals ∧
        ∃ i, ([] : List Value).length ≤ i ∧
          slots1.get? u.slot = some ⟨false, ValPtr.cell i⟩ ∧
          cells1.get? i = some (ex_stack_123 (ex_frame_open.bp + u.pos))) ∧
      (∀ u, u ∈ ex_frame_open.openUpvals → u.pos < ex_frame_open.sp - 1 →
        u ∈ f1.openUpvals ∧
        slots1.get? u.slot = some ⟨true, ValPtr.stack (ex_frame_open.bp + u.pos)⟩) :=
  C14_close ex_frame_open ex_stack_123 ex_slots_open [] 1 (by decide) (by decide)
    ⟨by decide, by decide⟩

/-! ## C13: `OP_RETURN` closes the upvalues of the frame -/

theorem closeEach_eq_closeFrom (stack : Nat → Value) :
    ∀ (us : List OpenUpvalue) (slots : List UpvalueSlot) (cells : List Value),
      closeEach stack us slots cells
        = (closeFrom stack 0 us slots cells).map (fun r => (r.2.1, r.2.2)) := by
  intro us
  induction us with
  | nil => intro slots cells; rfl
  | cons u rest ih =>
    intro slots cells
    simp only [closeEach, closeFrom, Nat.zero_le, ge_iff_le, if_true]
    cases closeSlot stack slots cells u.slot with
    | none => rfl
    | some r => exact ih r.1 r.2

/-- The loop of `closeAll`: every entry's slot is closed on a fresh cell that holds the value
of its stack position. -/
theorem closeEach_spec (stack : Nat → Value) (bp : Nat) (us : List OpenUpvalue)
    (slots : List UpvalueSlot) (cells : List Value) (hol : OpenList bp slots us) :
    ∃ slots1 cells1, closeEach stack us slots cells = some (slots1, cells1) ∧
      (∀ u, u ∈ us → ∃ i, cells.length ≤ i ∧
        slots1.get? u.slot = some ⟨false, ValPtr.cell i⟩ ∧
        cells1.get? i = some (stack (bp + u.pos))) := by
  obtain ⟨slots1, cells1, hcf, _, _, hclosed⟩ := closeFrom_spec stack bp 0 us slots cells hol
  refine ⟨slots1, cells1, ?_, fun u hu => hclosed u hu (Nat.zero_le _)⟩
  rw [closeEach_eq_closeFrom, hcf]
  rfl

theorem step_switch_UPVALUE (host : Host) (vm : VM) :
    vm.step_switch host OP_UPVALUE = vm.step_UPVALUE := by
  simp [VM.step_switch, OP_CALL, OP_NOP, OP_POP, OP_COPY, OP_LOCAL, OP_SET_LOCAL, OP_UPVALUE,
    OP_SET_UPVALUE, OP_CLOSURE, OP_CLOSE, OP_GLOBAL, OP_SET_GLOBAL, OP_CONST, OP_NULL, OP_FALSE,
    OP_TRUE, OP_JUMP, OP_CJUMP, OP_RETURN]

theorem step_switch_SET_UPVALUE (host : Host) (vm : VM) :
    vm.step_switch host OP_SET_UPVALUE = vm.step_SET_UPVALUE := by
  simp [VM.step_switch, OP_CALL, OP_NOP, OP_POP, OP_COPY, OP_LOCAL, OP_SET_LOCAL, OP_UPVALUE,
    OP_SET_UPVALUE, OP_CLOSURE, OP_CLOSE, OP_GLOBAL, OP_SET_GLOBAL, OP_CONST, OP_NULL, OP_FALSE,
    OP_TRUE, OP_JUMP, OP_CJUMP, OP_RETURN]

/-- `OP_UPVALUE j` in a closure whose `upvals[j]` is the slot `k`: the value seen through the
slot is pushed. -/
theorem step_UPVALUE_slot (host : Host) (vm : VM) (j c k : Nat) (fo : Function) (v : Value)
    (hop : vm.code.readByte vm.ip = OP_UPVALUE)
    (hj : vm.code.readByte (u32 (vm.ip + 1)) = j)
    (hcaller : vm.frame.caller = some c)
    (hobj : vm.heap.lookup c = some (Obj.func fo))
    (hup : fo.upvals.get? j = some (some k))
    (hval : vm.slotValue k = some v)
    (hroom : vm.frame.sp + vm.frame.bp < STACK_SIZE - 1) (hip : vm.ip + 2 < 4294967296) :
    vm.step host = VMResult.ok () (vm.afterPush v (vm.ip + 2)) := by
  cases hs : vm.slots.get? k with
  | none =>
    rw [VM.slotValue, hs] at hval
    exact Option.noConfusion hval
  | some s =>
    rw [VM.slotValue, hs] at hval
    simp only [] at hval
    have hptr : vm.upvalPtr j = some s.val := by
      simp only [VM.upvalPtr, hcaller, hobj, hup, hs]
    have h2 : u32 (u32 (vm.ip + 1) + 1) = vm.ip + 2 := by
      rw [u32_of_lt (by omega : vm.ip + 1 < 4294967296), u32_of_lt hip]
    simp only [VM.step, hop, step_switch_UPVALUE, VM.step_UPVALUE, hj, hptr, hval,
      push_ok vm v hroom, VMResult.bind_ok]
    simp only [VM.afterPush, h2]

/-- C13: when a frame with a well-formed open list returns via `OP_RETURN`, every upvalue slot
that was open in the frame becomes closed (`open = false`) on a cell that holds the value the
captured stack position held at the moment of the return; the frame that `closeAll` leaves has
an empty open list; and in any later state with these slots and cells, whatever its stack
holds, `OP_UPVALUE` through a closure holding such a slot pushes that value. -/
theorem C13_return_closes_upvalues (host : Host) (vm : VM) (callee : Nat) (parent : CallFrame)
    (hop : vm.code.readByte vm.ip = OP_RETURN)
    (hc : vm.frame.caller = some callee) (hsp : 0 < vm.frame.sp)
    (hprev : vm.frame.prev = some parent)
    (hol : OpenList vm.frame.bp vm.slots vm.frame.openUpvals)
    (hargs : vm.frame.numArgs + 1 ≤ parent.sp)
    (hroom : parent.bp + (parent.sp - (vm.frame.numArgs + 1)) < STACK_SIZE - 1) :
    ∃ vm1, vm.step host = VMResult.ok () vm1 ∧
      (∃ tmp, ({ vm.frame with sp := vm.frame.sp - 1 } : CallFrame).closeAll vm.stack vm.slots
          vm.cells = some (tmp, vm1.slots, vm1.cells) ∧ tmp.openUpvals = []) ∧
      ∀ u, u ∈ vm.frame.openUpvals →
        ∃ i, vm1.slots.get? u.slot = some ⟨false, ValPtr.cell i⟩ ∧
          vm1.cells.get? i = some (vm.stack (vm.frame.bp + u.pos)) ∧
          ∀ (vm2 : VM) (j c : Nat) (fo : Function),
            vm2.slots.get? u.slot = vm1.slots.get? u.slot →
            vm2.cells.get? i = vm1.cells.get? i →
            vm2.code.readByte vm2.ip = OP_UPVALUE →
            vm2.code.readByte (u32 (vm2.ip + 1)) = j →
            vm2.frame.caller = some c → vm2.heap.lookup c = some (Obj.func fo) →
            fo.upvals.get? j = some (some u.slot) →
            vm2.frame.sp + vm2.frame.bp < STACK_SIZE - 1 → vm2.ip + 2 < 4294967296 →
            vm2.step host = VMResult.ok ()
              (vm2.afterPush (vm.stack (vm.frame.bp + u.pos)) (vm2.ip + 2)) := by
  obtain ⟨slots1, cells1, hclose, hclosed⟩ :=
    closeEach_spec vm.stack vm.frame.bp vm.frame.openUpvals vm.slots vm.cells hol
  have hsp0 : vm.frame.sp ≠ 0 := Nat.pos_iff_ne_zero.mp hsp
  have hroom1 : ¬ (parent.sp - (vm.frame.numArgs + 1) + parent.bp ≥ STACK_SIZE - 1) := by
    omega
  have hlt : ¬ parent.sp < vm.frame.numArgs + 1 := by omega
  have hstep : vm.step host = VMResult.ok ()
      { vm with
        frame := { parent with sp := u16 (parent.sp - (vm.frame.numArgs + 1) + 1) },
        stack := fun a => if a = parent.bp + (parent.sp - (vm.frame.numArgs + 1))
          then vm.stack (vm.frame.bp + (vm.frame.sp - 1)) else vm.stack a,
        slots := slots1, cells := cells1, ip := vm.frame.retAddr } := by
    simp only [VM.step, hop, step_switch_RETURN, VM.step_RETURN, hc, VM.pop, hsp0, if_false,
      VMResult.bind_ok, CallFrame.closeAll, hclose, hprev, VM.popTimes, hlt, VM.push, hroom1]
  refine ⟨_, hstep,
    ⟨{ ({ vm.frame with sp := vm.frame.sp - 1 } : CallFrame) with sp := 0, openUpvals := [] },
      by simp only [CallFrame.closeAll, hclose], rfl⟩, ?_⟩
  intro u hu
  obtain ⟨i, _, hs, hcell⟩ := hclosed u hu
  refine ⟨i, hs, hcell, ?_⟩
  intro vm2 j c fo hs2 hc2 hop2 hj2 hcaller2 hobj2 hup2 hroom2 hip2
  apply step_UPVALUE_slot host vm2 j c u.slot fo _ hop2 hj2 hcaller2 hobj2 hup2 _ hroom2 hip2
  have hs2' : vm2.slots.get? u.slot = some ⟨false, ValPtr.cell i⟩ := hs2.trans hs
  have hc2' : vm2.cells.get? i = some (vm.stack (vm.frame.bp + u.pos)) := hc2.trans hcell
  simp only [VM.slotValue, hs2', ValPtr.read, hc2']

/-- C13, witness: the return from a call whose argument is captured by an open upvalue. -/
theorem C13_return_closes_upvalues_witness :
    ∃ vm1, ex_vm_in_call_open.step ex_host = VMResult.ok () vm1 ∧
      (∃ tmp, ({ ex_vm_in_call_open.frame with
            sp := ex_vm_in_call_open.frame.sp - 1 } : CallFrame).closeAll
          ex_vm_in_call_open.stack ex_vm_in_call_open.slots ex_vm_in_call_open.cells
            = some (tmp, vm1.slots, vm1.cells) ∧ tmp.openUpvals = []) ∧
      ∀ u, u ∈ ex_vm_in_call_open.frame.openUpvals →
        ∃ i, vm1.slots.get? u.slot = some ⟨false, ValPtr.cell i⟩ ∧
          vm1.cells.get? i
            = some (ex_vm_in_call_open.stack (ex_vm_in_call_open.frame.bp + u.pos)) ∧
          ∀ (vm2 : VM) (j c : Nat) (fo : Function),
            vm2.slots.get? u.slot = vm1.slots.get? u.slot →
            vm2.cells.get? i = vm1.cells.get? i →
            vm2.code.readByte vm2.ip = OP_UPVALUE →
            vm2.code.readByte (u32 (vm2.ip + 1)) = j →
            vm2.frame.caller = some c → vm2.heap.lookup c = some (Obj.func fo) →
            fo.upvals.get? j = some (some u.slot) →
            vm2.frame.sp + vm2.frame.bp < STACK_SIZE - 1 → vm2.ip + 2 < 4294967296 →
            vm2.step ex_host = VMResult.ok ()
              (vm2.afterPush
                (ex_vm_in_call_open.stack (ex_vm_in_call_open.frame.bp + u.pos))
                (vm2.ip + 2)) :=
  C13_return_closes_upvalues ex_host ex_vm_in_call_open 32 (ex_vm_closure 1).frame (by decide)
    rfl (by decide) rfl ⟨by decide, by decide⟩ (by decide) (by decide)

/-! ## C12: closures created in one frame share the slot of a captured position -/

theorem findOpenUpvalue_none_not_mem (pos : Nat) :
    ∀ us : List OpenUpvalue, findOpenUpvalue pos us = none → pos ∉ us.map (fun u => u.pos) := by
  intro us
  induction us with
  | nil => intro _ h; exact absurd h (List.not_mem_nil _)
  | cons u rest ih =>
    intro h hmem
    simp only [findOpenUpvalue] at h
    by_cases hp : u.pos = pos
    · rw [if_pos hp] at h
      exact Option.noConfusion h
    · rw [if_neg hp] at h
      simp only [List.map_cons, List.mem_cons] at hmem
      rcases hmem with hm | hm
      · exact hp hm.symm
      · exact ih h hm

/-- `openUpvalue` on a position that already has an open upvalue returns its slot and changes
nothing. -/
theorem openUpvalue_found (f : CallFrame) (slots : List UpvalueSlot) (pos k : Nat)
    (ptr : ValPtr) (hpos : pos < f.sp) (hfind : findOpenUpvalue pos f.openUpvals = some k) :
    f.openUpvalue slots pos ptr = (f, slots, some k) := by
  have h : ¬ pos ≥ f.sp := by omega
  simp only [CallFrame.openUpvalue, h, if_false, hfind]

/-- What `openUpvalue` returns for a position below `sp`: a slot that the open list of the
frame afterwards finds at this position; entries found before are still found; `sp` and `bp`
are unchanged; and the positions of the open list stay pairwise distinct. -/
theorem openUpvalue_spec (f : CallFrame) (slots : List UpvalueSlot) (pos : Nat) (ptr : ValPtr)
    (hpos : pos < f.sp) :
    ∃ k, (f.openUpvalue slots pos ptr).2.2 = some k ∧
      findOpenUpvalue pos (f.openUpvalue slots pos ptr).1.openUpvals = some k ∧
      (f.openUpvalue slots pos ptr).1.sp = f.sp ∧
      (f.openUpvalue slots pos ptr).1.bp = f.bp ∧
      (∀ p k1, findOpenUpvalue p f.openUpvals = some k1 →
        findOpenUpvalue p (f.openUpvalue slots pos ptr).1.openUpvals = some k1) ∧
      ((f.openUpvals.map (fun u => u.pos)).Nodup →
        ((f.openUpvalue slots pos ptr).1.openUpvals.map (fun u => u.pos)).Nodup) := by
  have h : ¬ pos ≥ f.sp := by omega
  cases hfind : findOpenUpvalue pos f.openUpvals with
  | some k =>
    rw [openUpvalue_found f slots pos k ptr hpos hfind]
    exact ⟨k, rfl, hfind, rfl, rfl, fun _ _ hp => hp, fun hn => hn⟩
  | none =>
    have he : f.openUpvalue slots pos ptr
        = ({ f with openUpvals := ⟨slots.length, pos⟩ :: f.openUpvals },
            slots ++ [⟨true, ptr⟩], some slots.length) := by
      simp only [CallFrame.openUpvalue, h, if_false, hfind]
    rw [he]
    refine ⟨slots.length, rfl, ?_, rfl, rfl, ?_, ?_⟩
    · simp [findOpenUpvalue]
    · intro p k1 hp
      simp only [findOpenUpvalue]
      by_cases hpp : pos = p
      · subst hpp
        rw [hfind] at hp
        exact Option.noConfusion hp
      · rw [if_neg hpp]
        exact hp
    · intro hn
      simp only [List.map_cons, List.nodup_cons]
      exact ⟨findOpenUpvalue_none_not_mem pos f.openUpvals hfind, hn⟩

/-- C12, first part on `openUpvalue` itself: it is idempotent on the stack position: a second
call for the same position on the frame it left (whatever pointer is passed, and with `sp`
not lowered) returns the same slot and changes neither the frame nor the slots. -/
theorem openUpvalue_idempotent (f : CallFrame) (slots : List UpvalueSlot) (pos : Nat)
    (ptr ptr2 : ValPtr) (hpos : pos < f.sp) :
    (f.openUpvalue slots pos ptr).1.openUpvalue (f.openUpvalue slots pos ptr).2.1 pos ptr2
      = ((f.openUpvalue slots pos ptr).1, (f.openUpvalue slots pos ptr).2.1,
          (f.openUpvalue slots pos ptr).2.2) := by
  obtain ⟨k, hk, hfind, hsp, _, _, _⟩ := openUpvalue_spec f slots pos ptr hpos
  rw [hk]
  exact openUpvalue_found _ _ pos k ptr2 (by omega) hfind

theorem findOpenUpvalue_mem (pos k : Nat) :
    ∀ us : List OpenUpvalue, findOpenUpvalue pos us = some k →
      ∃ u, u ∈ us ∧ u.pos = pos ∧ u.slot = k := by
  intro us
  induction us with
  | nil => intro h; exact Option.noConfusion h
  | cons u rest ih =>
    intro h
    simp only [findOpenUpvalue] at h
    by_cases hp : u.pos = pos
    · rw [if_pos hp] at h
      exact ⟨u, List.mem_cons_self _ _, hp, Option.some.inj h⟩
    · rw [if_neg hp] at h
      obtain ⟨w, hw, h1, h2⟩ := ih h
      exact ⟨w, List.mem_cons_of_mem _ hw, h1, h2⟩

theorem get?_append_left {α : Type} (l : List α) (a : α) (s : Nat) (h : s < l.length) :
    (l ++ [a]).get? s = l.get? s := by
  rw [List.get?_eq_getElem?, List.get?_eq_getElem?, List.getElem?_append_left h]

theorem get?_append_length {α : Type} (l : List α) (a : α) :
    (l ++ [a]).get? l.length = some a := by
  rw [List.get?_eq_getElem?]
  simp

/-- The stores around `openUpvalue`: slots that existed are untouched, and a well-formed open
list stays well formed when the pointer passed is the stack position of the upvalue. -/
theorem openUpvalue_openList (f : CallFrame) (slots : List UpvalueSlot) (pos : Nat) :
    (∀ s, s < slots.length →
      (f.openUpvalue slots pos (ValPtr.stack (f.bp + pos))).2.1.get? s = slots.get? s) ∧
    (OpenList f.bp slots f.openUpvals →
      OpenList f.bp (f.openUpvalue slots pos (ValPtr.stack (f.bp + pos))).2.1
        (f.openUpvalue slots pos (ValPtr.stack (f.bp + pos))).1.openUpvals) := by
  by_cases h : pos ≥ f.sp
  · have he : f.openUpvalue slots pos (ValPtr.stack (f.bp + pos)) = (f, slots, none) := by
      simp only [CallFrame.openUpvalue, h, if_true]
    rw [he]
    exact ⟨fun _ _ => rfl, fun hol => hol⟩
  · cases hfind : findOpenUpvalue pos f.openUpvals with
    | some k =>
      rw [openUpvalue_found f slots pos k _ (by omega) hfind]
      exact ⟨fun _ _ => rfl, fun hol => hol⟩
    | none =>
      have he : f.openUpvalue slots pos (ValPtr.stack (f.bp + pos))
          = ({ f with openUpvals := ⟨slots.length, pos⟩ :: f.openUpvals },
              slots ++ [⟨true, ValPtr.stack (f.bp + pos)⟩], some slots.length) := by
        simp only [CallFrame.openUpvalue, h, if_false, hfind]
      rw [he]
      refine ⟨fun s hs => get?_append_left _ _ s hs, ?_⟩
      intro hol
      obtain ⟨hopen, hnd⟩ := hol
      constructor
      · intro u hu
        rcases List.mem_cons.mp hu with hu1 | hu1
        · rw [hu1]
          exact get?_append_length _ _
        · have h1 := hopen u hu1
          rw [get?_append_left _ _ _ (lt_of_get?_some h1)]
          exact h1
      · simp only [List.map_cons, List.nodup_cons]
        refine ⟨?_, hnd⟩
        intro hmem
        obtain ⟨u, hu, hus⟩ := List.mem_map.mp hmem
        have h1 := lt_of_get?_some (hopen u hu)
        omega

theorem LoopKept_refl (vm : VM) : LoopKept vm vm :=
  ⟨rfl, rfl, rfl, rfl, rfl, rfl, rfl, fun _ _ h => h, fun _ _ => rfl, fun h => h, fun h => h⟩

theorem LoopKept_trans {a b c : VM} (h1 : LoopKept a b) (h2 : LoopKept b c) : LoopKept a c := by
  obtain ⟨a1, a2, a3, a4, a5, a6, a7, a8, a9, a10, a11⟩ := h1
  obtain ⟨b1, b2, b3, b4, b5, b6, b7, b8, b9, b10, b11⟩ := h2
  refine ⟨b1.trans a1, b2.trans a2, b3.trans a3, b4.trans a4, b5.trans a5, b6.trans a6,
    b7.trans a7, fun p k h => b8 p k (a8 p k h), ?_, fun h => b10 (a10 h), fun h => b11 (a11 h)⟩
  intro s hs
  have hs1 : s < b.slots.length := by
    cases hq : a.slots.get? s with
    | none => exact absurd hq (by
        rw [List.get?_eq_none]
        omega)
    | some x => exact lt_of_get?_some ((a9 s hs).trans hq)
  exact (b9 s hs1).trans (a9 s hs)

theorem Heap.lookup_store_self (h : Heap) (func : Nat) (o o0 : Obj)
    (hl : h.lookup func = some o0) : (h.store func o).lookup func = some o := by
  unfold Heap.lookup at hl ⊢
  by_cases hc : func % 32 = 0 ∧ func ≠ 0
  · rw [if_pos hc] at hl ⊢
    exact get?_set_self h _ o (lt_of_get?_some hl)
  · rw [if_neg hc] at hl
    exact Option.noConfusion hl

theorem Heap.lookup_store_other (h : Heap) (func p : Nat) (o : Obj) (hne : p ≠ func)
    (hal : func % 32 = 0 ∧ func ≠ 0) : (h.store func o).lookup p = h.lookup p := by
  unfold Heap.lookup
  by_cases hc : p % 32 = 0 ∧ p ≠ 0
  · rw [if_pos hc, if_pos hc]
    apply get?_set_other
    omega
  · rw [if_neg hc, if_neg hc]

theorem Heap.lookup_aligned (h : Heap) (func : Nat) (o : Obj) (hl : h.lookup func = some o) :
    func % 32 = 0 ∧ func ≠ 0 := by
  unfold Heap.lookup at hl
  by_cases hc : func % 32 = 0 ∧ func ≠ 0
  · exact hc
  · rw [if_neg hc] at hl
    exact Option.noConfusion hl

theorem getUpvalue_ok (vm vm1 : VM) (id : Nat) (p : Option Nat)
    (h : vm.getUpvalue id = VMResult.ok p vm1) : vm1 = vm := by
  unfold VM.getUpvalue at h
  cases hc : vm.frame.caller with
  | none =>
    rw [hc] at h
    simp only [VM.throwError] at h
    cases hl : vm.code.locationOf vm.ip <;> rw [hl] at h <;> exact VMResult.noConfusion h
  | some caller =>
    rw [hc] at h
    simp only at h
    cases hs : vm.callerStub caller with
    | none =>
      rw [hs] at h
      exact VMResult.noConfusion h
    | some fs =>
      rw [hs] at h
      simp only at h
      by_cases hn : fs.2.numUpvals ≤ id
      · rw [if_pos hn] at h
        simp only [VM.throwError] at h
        cases hl : vm.code.locationOf vm.ip <;> rw [hl] at h <;> exact VMResult.noConfusion h
      · rw [if_neg hn] at h
        cases hg : fs.1.upvals.get? id with
        | none =>
          rw [hg] at h
          exact VMResult.noConfusion h
        | some q =>
          rw [hg] at h
          simp only at h
          injection h with _ h2
          exact h2.symm

/-- What `openUpvalue` keeps, for any position: `sp`, `bp` and `caller` of the frame, the
entries its open list finds, and the distinctness of the positions of the open list. -/
theorem openUpvalue_kept (f : CallFrame) (slots : List UpvalueSlot) (pos : Nat) (ptr : ValPtr) :
    (f.openUpvalue slots pos ptr).1.sp = f.sp ∧
    (f.openUpvalue slots pos ptr).1.bp = f.bp ∧
    (f.openUpvalue slots pos ptr).1.caller = f.caller ∧
    (∀ p k1, findOpenUpvalue p f.openUpvals = some k1 →
      findOpenUpvalue p (f.openUpvalue slots pos ptr).1.openUpvals = some k1) ∧
    ((f.openUpvals.map (fun u => u.pos)).Nodup →
      ((f.openUpvalue slots pos ptr).1.openUpvals.map (fun u => u.pos)).Nodup) := by
  by_cases h : pos ≥ f.sp
  · have he : f.openUpvalue slots pos ptr = (f, slots, none) := by
      simp only [CallFrame.openUpvalue, h, if_true]
    rw [he]
    exact ⟨rfl, rfl, rfl, fun _ _ hp => hp, fun hn => hn⟩
  · obtain ⟨_, _, _, hsp, hbp, hpers, hnd⟩ := openUpvalue_spec f slots pos ptr (by omega)
    refine ⟨hsp, hbp, ?_, hpers, hnd⟩
    cases hfind : findOpenUpvalue pos f.openUpvals with
    | some k => simp only [CallFrame.openUpvalue, h, if_false, hfind]
    | none => simp only [CallFrame.openUpvalue, h, if_false, hfind]

/-- The loop of `OP_CLOSURE` from index `i` for `k` indices, when it succeeds: it keeps the
frame and the stores as `LoopKept` says, changes no object but the new closure, leaves the
entries of the closure below `i` alone, and fills each entry whose descriptor is a direct
capture of a position below `sp` with the slot the frame's open list then finds at that
position. -/
theorem closureLoop_spec (stub : FuncStub) (func : Nat) :
    ∀ (k i : Nat) (vm vm1 : VM) (fo0 : Function),
      VM.closureLoop stub func k i vm = VMResult.ok () vm1 →
      vm.heap.lookup func = some (Obj.func fo0) →
      i + k ≤ fo0.upvals.length →
      LoopKept vm vm1 ∧
      (∀ p, p ≠ func → vm1.heap.lookup p = vm.heap.lookup p) ∧
      vm1.heap.length = vm.heap.length ∧
      ∃ fo1, vm1.heap.lookup func = some (Obj.func fo1) ∧ fo1.stub = fo0.stub ∧
        fo1.upvals.length = fo0.upvals.length ∧
        (∀ j, j < i → fo1.upvals.get? j = fo0.upvals.get? j) ∧
        (∀ j slot, i ≤ j → j < i + k → stub.upvals.get? j = some ⟨slot, true⟩ →
          slot < vm.frame.sp →
          ∃ s, fo1.upvals.get? j = some (some s) ∧
            findOpenUpvalue slot vm1.frame.openUpvals = some s) := by
  intro k
  induction k with
  | zero =>
    intro i vm vm1 fo0 h hl _
    simp only [VM.closureLoop] at h
    injection h with _ h2
    subst h2
    exact ⟨LoopKept_refl _, fun _ _ => rfl, rfl, fo0, hl, rfl, rfl, fun _ _ => rfl,
      fun j slot h1 h2 => absurd h2 (by omega)⟩
  | succ k ih =>
    intro i vm vm1 fo0 h hl hlen
    have hal := Heap.lookup_aligned _ _ _ hl
    have cont : ∀ (p : Option Nat) (vmA : VM), LoopKept vm vmA → vmA.heap = vm.heap →
        (∀ slot, stub.upvals.get? i = some ⟨slot, true⟩ → slot < vm.frame.sp →
          ∃ s, p = some s ∧ findOpenUpvalue slot vmA.frame.openUpvals = some s) →
        VM.closureLoop stub func k (i + 1)
          { vmA with heap := (vmA.heap.store func
              (Obj.func { fo0 with upvals := fo0.upvals.set i p })) } = VMResult.ok () vm1 →
        LoopKept vm vm1 ∧
        (∀ p, p ≠ func → vm1.heap.lookup p = vm.heap.lookup p) ∧
        vm1.heap.length = vm.heap.length ∧
        ∃ fo1, vm1.heap.lookup func = some (Obj.func fo1) ∧ fo1.stub = fo0.stub ∧
          fo1.upvals.length = fo0.upvals.length ∧
          (∀ j, j < i → fo1.upvals.get? j = fo0.upvals.get? j) ∧
          (∀ j slot, i ≤ j → j < i + (k + 1) → stub.upvals.get? j = some ⟨slot, true⟩ →
            slot < vm.frame.sp →
            ∃ s, fo1.upvals.get? j = some (some s) ∧
              findOpenUpvalue slot vm1.frame.openUpvals = some s) := by
      intro p vmA hk hheap hp hrec
      have hlA : vmA.heap.lookup func = some (Obj.func fo0) := by rw [hheap]; exact hl
      have hlB : (vmA.heap.store func (Obj.func { fo0 with upvals := fo0.upvals.set i p })).lookup
          func = some (Obj.func { fo0 with upvals := fo0.upvals.set i p }) :=
        Heap.lookup_store_self _ _ _ _ hlA
      have hlenB : i + 1 + k ≤ (fo0.upvals.set i p).length := by
        rw [List.length_set]
        omega
      obtain ⟨hkB, hothers, hheaplen, fo1, hfo1, hstub1, hlen1, hbelow, hfilled⟩ :=
        ih (i + 1) _ vm1 { fo0 with upvals := fo0.upvals.set i p } hrec hlB hlenB
      have hAB : LoopKept vmA { vmA with heap := (vmA.heap.store func
          (Obj.func { fo0 with upvals := fo0.upvals.set i p })) } :=
        ⟨rfl, rfl, rfl, rfl, rfl, rfl, rfl, fun _ _ h => h, fun _ _ => rfl, fun h => h,
          fun h => h⟩
      have hA1 : LoopKept vmA vm1 := LoopKept_trans hAB hkB
      refine ⟨LoopKept_trans hk hA1, ?_, ?_, fo1, hfo1, hstub1, ?_, ?_, ?_⟩
      · intro q hq
        rw [hothers q hq]
        show (vmA.heap.store func _).lookup q = _
        rw [Heap.lookup_store_other _ _ _ _ hq hal, hheap]
      · rw [hheaplen, ← hheap]
        exact List.length_set _ _ _
      · rw [hlen1]
        exact List.length_set _ _ _
      · intro j hj
        rw [hbelow j (by omega)]
        exact get?_set_other _ _ _ _ (by omega)
      · intro j slot h1 h2 hdesc hslot
        by_cases hji : j = i
        · subst hji
          obtain ⟨s, hs, hfind⟩ := hp slot hdesc hslot
          refine ⟨s, ?_, hA1.2.2.2.2.2.2.2.1 slot s hfind⟩
          rw [hbelow j (by omega), ← hs]
          exact get?_set_self _ _ _ (by omega)
        · have hspB : slot < vmA.frame.sp := by
            rw [hk.1]
            exact hslot
          exact hfilled j slot (by omega) (by omega) hdesc hspB
    simp only [VM.closureLoop] at h
    cases hu : stub.upvals.get? i with
    | none =>
      rw [hu] at h
      exact VMResult.noConfusion h
    | some u =>
      rw [hu] at h
      simp only at h
      cases hd : u.direct with
      | true =>
        rw [hd] at h
        simp only [if_true, VMResult.bind_ok] at h
        rw [hl] at h
        simp only at h
        obtain ⟨k1, k2, k3, k4, k5⟩ := openUpvalue_kept vm.frame vm.slots u.slot
          (ValPtr.stack (vm.frame.bp + u.slot))
        obtain ⟨o1, o2⟩ := openUpvalue_openList vm.frame vm.slots u.slot
        refine cont
          (vm.frame.openUpvalue vm.slots u.slot (ValPtr.stack (vm.frame.bp + u.slot))).2.2
          { vm with
            frame := (vm.frame.openUpvalue vm.slots u.slot
              (ValPtr.stack (vm.frame.bp + u.slot))).1,
            slots := (vm.frame.openUpvalue vm.slots u.slot
              (ValPtr.stack (vm.frame.bp + u.slot))).2.1 }
          ⟨k1, k2, k3, rfl, rfl, rfl, rfl, k4, o1, ?_, k5⟩ rfl ?_ h
        · intro hol
          show OpenList (vm.frame.openUpvalue vm.slots u.slot
            (ValPtr.stack (vm.frame.bp + u.slot))).1.bp _ _
          rw [k2]
          exact o2 hol
        · intro slot hdesc hslot
          rw [hdesc] at hu
          have hus : u.slot = slot := by rw [← Option.some.inj hu]
          rw [hus]
          obtain ⟨s, hs1, hs2, _⟩ := openUpvalue_spec vm.frame vm.slots slot
            (ValPtr.stack (vm.frame.bp + slot)) hslot
          exact ⟨s, hs1, hs2⟩
      | false =>
        rw [hd] at h
        simp only [Bool.false_eq_true, if_false] at h
        cases hr : vm.getUpvalue u.slot with
        | undefined =>
          rw [hr] at h
          exact VMResult.noConfusion h
        | error e vm2 =>
          rw [hr] at h
          exact VMResult.noConfusion h
        | ok p vmA =>
          rw [hr, VMResult.bind_ok] at h
          have hvm := getUpvalue_ok _ _ _ _ hr
          subst hvm
          rw [hl] at h
          simp only at h
          refine cont p vmA (LoopKept_refl _) rfl ?_ h
          intro slot hdesc _
          rw [hdesc] at hu
          have := Option.some.inj hu
          rw [← this] at hd
          exact Bool.noConfusion hd

theorem step_switch_CLOSURE (host : Host) (vm : VM) :
    vm.step_switch host OP_CLOSURE = vm.step_CLOSURE := by
  simp [VM.step_switch, OP_CALL, OP_NOP, OP_POP, OP_COPY, OP_LOCAL, OP_SET_LOCAL, OP_UPVALUE,
    OP_SET_UPVALUE, OP_CLOSURE, OP_CLOSE, OP_GLOBAL, OP_SET_GLOBAL, OP_CONST, OP_NULL, OP_FALSE,
    OP_TRUE, OP_JUMP, OP_CJUMP, OP_RETURN]

theorem Heap.lookup_alloc_new (h : Heap) (o : Obj) :
    (h ++ [o]).lookup (32 * (h.length + 1)) = some o := by
  have hc : 32 * (h.length + 1) % 32 = 0 ∧ 32 * (h.length + 1) ≠ 0 := by omega
  have hi : 32 * (h.length + 1) / 32 - 1 = h.length := by omega
  unfold Heap.lookup
  rw [if_pos hc, hi]
  exact get?_append_length h o

theorem Heap.lookup_alloc_other (h : Heap) (o : Obj) (p : Nat) (hne : p ≠ 32 * (h.length + 1)) :
    (h ++ [o]).lookup p = h.lookup p := by
  unfold Heap.lookup
  by_cases hc : p % 32 = 0 ∧ p ≠ 0
  · rw [if_pos hc, if_pos hc]
    rcases Nat.lt_or_ge (p / 32 - 1) h.length with hlt | hge
    · exact get?_append_left h o _ hlt
    · have h1 : (h ++ [o]).length ≤ p / 32 - 1 := by
        rw [List.length_append, List.length_singleton]
        omega
      rw [List.get?_eq_none.mpr h1, List.get?_eq_none.mpr hge]
  · rw [if_neg hc, if_neg hc]

/-- A successful step on `OP_CLOSURE`: the loop leaves a state `vmL` that keeps the frame and
the stores as `LoopKept` says, the closure object is the new object at the next heap address,
no other object changes, each entry with a direct descriptor for a position below `sp` holds
the slot the open list finds at that position, and the closure value is pushed. -/
theorem step_CLOSURE_spec (host : Host) (vm vm1 : VM) (stub : FuncStub)
    (hop : vm.code.readByte vm.ip = OP_CLOSURE)
    (hstub : vm.code.getFunction (vm.code.readShort (u32 (vm.ip + 1))) = some stub)
    (hstep : vm.step host = VMResult.ok () vm1) :
    ∃ vmL fo1, LoopKept vm vmL ∧
      vm1 = vmL.afterPush (makeFuncValue (32 * (vm.heap.length + 1)))
        (u32 (u32 (vm.ip + 2) + 1)) ∧
      vmL.frame.sp + vmL.frame.bp < STACK_SIZE - 1 ∧
      (∀ p, p ≠ 32 * (vm.heap.length + 1) → vmL.heap.lookup p = vm.heap.lookup p) ∧
      vmL.heap.length = vm.heap.length + 1 ∧
      vmL.heap.lookup (32 * (vm.heap.length + 1)) = some (Obj.func fo1) ∧
      fo1.stub = vm.code.readShort (u32 (vm.ip + 1)) ∧
      fo1.upvals.length = stub.numUpvals ∧
      (∀ j slot, j < stub.numUpvals → stub.upvals.get? j = some ⟨slot, true⟩ →
        slot < vm.frame.sp →
        ∃ s, fo1.upvals.get? j = some (some s) ∧
          findOpenUpvalue slot vmL.frame.openUpvals = some s) := by
  simp only [VM.step, hop, step_switch_CLOSURE, VM.step_CLOSURE, hstub, Heap.alloc] at hstep
  cases hloop : VM.closureLoop stub (32 * (vm.heap.length + 1)) stub.numUpvals 0
      { vm with heap := (vm.heap ++
        [Obj.func ⟨vm.code.readShort (u32 (vm.ip + 1)), List.replicate stub.numUpvals none⟩]) }
    with
  | undefined =>
    rw [hloop] at hstep
    exact VMResult.noConfusion hstep
  | error e vm2 =>
    rw [hloop] at hstep
    exact VMResult.noConfusion hstep
  | ok x vmL =>
    rw [hloop, VMResult.bind_ok] at hstep
    obtain ⟨hk, hothers, hheaplen, fo1, hfo1, hstub1, hlen1, _, hfilled⟩ :=
      closureLoop_spec stub _ stub.numUpvals 0 _ vmL
        ⟨vm.code.readShort (u32 (vm.ip + 1)), List.replicate stub.numUpvals none⟩ hloop
        (Heap.lookup_alloc_new _ _) (by simp)
    have hkeep : LoopKept vm vmL := hk
    by_cases hroom : vmL.frame.sp + vmL.frame.bp < STACK_SIZE - 1
    · rw [push_ok vmL _ hroom] at hstep
      simp only [VMResult.bind_ok] at hstep
      injection hstep with _ hvm
      refine ⟨vmL, fo1, hkeep, ?_, hroom, ?_, ?_, hfo1, hstub1, ?_, ?_⟩
      · rw [← hvm]
        have hip : vmL.ip = vm.ip := hkeep.2.2.2.2.2.1
        simp only [VM.afterPush, hip]
      · intro p hp
        rw [hothers p hp]
        exact Heap.lookup_alloc_other _ _ p hp
      · rw [hheaplen]
        simp
      · rw [hlen1]
        exact List.length_replicate _ _
      · intro j slot hj hdesc hslot
        exact hfilled j slot (Nat.zero_le _) (by omega) hdesc hslot
    · have hge : vmL.frame.sp + vmL.frame.bp ≥ STACK_SIZE - 1 := by omega
      simp only [VM.push, hge, if_true, VM.throwError] at hstep
      cases hl : vmL.code.locationOf vmL.ip <;> rw [hl] at hstep <;>
        exact VMResult.noConfusion hstep

/-- `OP_SET_UPVALUE j` in a closure whose `upvals[j]` is the slot `k`, with a value on the
stack: the value is popped and is then the value seen through the slot; slots and objects are
untouched. -/
theorem step_SET_UPVALUE_slot (host : Host) (vm : VM) (j c k : Nat) (fo : Function)
    (s : UpvalueSlot)
    (hop : vm.code.readByte vm.ip = OP_SET_UPVALUE)
    (hj : vm.code.readByte (u32 (vm.ip + 1)) = j)
    (hcaller : vm.frame.caller = some c)
    (hobj : vm.heap.lookup c = some (Obj.func fo))
    (hup : fo.upvals.get? j = some (some k))
    (hs : vm.slots.get? k = some s)
    (hvalid : ∀ i, s.val = ValPtr.cell i → i < vm.cells.length)
    (hsp : 0 < vm.frame.sp) :
    ∃ vm1, vm.step host = VMResult.ok () vm1 ∧
      vm1.slotValue k = some (vm.stack (vm.frame.bp + (vm.frame.sp - 1))) ∧
      vm1.slots = vm.slots ∧ vm1.heap = vm.heap ∧ vm1.frame.sp = vm.frame.sp - 1 ∧
      vm1.ip = u32 (u32 (vm.ip + 1) + 1) := by
  have hptr : vm.upvalPtr j = some s.val := by
    simp only [VM.upvalPtr, hcaller, hobj, hup, hs]
  cases hv : s.val with
  | stack p =>
    rw [hv] at hptr
    refine ⟨{ vm with
        frame := { vm.frame with sp := vm.frame.sp - 1 },
        stack := fun a => if a = p then vm.stack (vm.frame.bp + (vm.frame.sp - 1))
          else vm.stack a,
        ip := u32 (u32 (vm.ip + 1) + 1) }, ?_, ?_, rfl, rfl, rfl, rfl⟩
    · simp only [VM.step, hop, step_switch_SET_UPVALUE, VM.step_SET_UPVALUE, hj, hptr,
        pop_ok vm hsp, VMResult.bind_ok, VM.writeVal]
      rfl
    · simp only [VM.slotValue, hs, hv, ValPtr.read, if_true]
  | cell i =>
    rw [hv] at hptr
    have hi : i < vm.cells.length := hvalid i hv
    have hi1 : i < (vm.afterPop vm.ip).cells.length := hi
    refine ⟨{ vm with
        frame := { vm.frame with sp := vm.frame.sp - 1 },
        cells := vm.cells.set i (vm.stack (vm.frame.bp + (vm.frame.sp - 1))),
        ip := u32 (u32 (vm.ip + 1) + 1) }, ?_, ?_, rfl, rfl, rfl, rfl⟩
    · simp only [VM.step, hop, step_switch_SET_UPVALUE, VM.step_SET_UPVALUE, hj, hptr,
        pop_ok vm hsp, VMResult.bind_ok, VM.writeVal, hi1, if_true]
      rfl
    · simp only [VM.slotValue, hs, hv, ValPtr.read]
      exact get?_set_self _ _ _ hi

/-- C12: two closures created by consecutive successful `OP_CLOSURE` steps in the same frame,
each with a direct upvalue descriptor for the same position `pos` below `sp` (at index `j1`
of the first stub and `j2` of the second), receive the same upvalue slot `k`: the two closure
objects, pushed one above the other, hold `k` at these indices; `k` is the slot the frame's open
list finds at `pos`, open on the stack position `bp + pos`; the positions of the open list stay
pairwise distinct and a further `openUpvalue` for `pos` returns `k` and changes nothing.  Hence
in any state a value stored by `OP_SET_UPVALUE` through a closure holding `k` is the value
`OP_UPVALUE` pushes through any closure holding `k`, as long as the value seen through the
slot is not changed in between; and when the loop of `close` or `closeAll` closes the slot,
it moves it to a cell holding the value seen through the slot before, which every later
state with this slot and cell still sees. -/
theorem C12_closures_share_upvalue_slot (host : Host) (vm vm1 vm2 : VM)
    (stub1 stub2 : FuncStub) (j1 j2 pos : Nat)
    (hop1 : vm.code.readByte vm.ip = OP_CLOSURE)
    (hstub1 : vm.code.getFunction (vm.code.readShort (u32 (vm.ip + 1))) = some stub1)
    (hstep1 : vm.step host = VMResult.ok () vm1)
    (hop2 : vm1.code.readByte vm1.ip = OP_CLOSURE)
    (hstub2 : vm1.code.getFunction (vm1.code.readShort (u32 (vm1.ip + 1))) = some stub2)
    (hstep2 : vm1.step host = VMResult.ok () vm2)
    (hj1 : j1 < stub1.numUpvals) (hd1 : stub1.upvals.get? j1 = some ⟨pos, true⟩)
    (hj2 : j2 < stub2.numUpvals) (hd2 : stub2.upvals.get? j2 = some ⟨pos, true⟩)
    (hpos : pos < vm.frame.sp)
    (hol : OpenList vm.frame.bp vm.slots vm.frame.openUpvals)
    (hnd : (vm.frame.openUpvals.map (fun u => u.pos)).Nodup) :
    ∃ k fo1 fo2,
      vm2.stack (vm.frame.bp + vm.frame.sp) = makeFuncValue (32 * (vm.heap.length + 1)) ∧
      vm2.stack (vm.frame.bp + vm.frame.sp + 1) = makeFuncValue (32 * (vm.heap.length + 2)) ∧
      vm2.heap.lookup (32 * (vm.heap.length + 1)) = some (Obj.func fo1) ∧
      vm2.heap.lookup (32 * (vm.heap.length + 2)) = some (Obj.func fo2) ∧
      fo1.upvals.get? j1 = some (some k) ∧ fo2.upvals.get? j2 = some (some k) ∧
      findOpenUpvalue pos vm2.frame.openUpvals = some k ∧
      vm2.slots.get? k = some ⟨true, ValPtr.stack (vm.frame.bp + pos)⟩ ∧
      (vm2.frame.openUpvals.map (fun u => u.pos)).Nodup ∧
      (∀ ptr, vm2.frame.openUpvalue vm2.slots pos ptr = (vm2.frame, vm2.slots, some k)) ∧
      (∀ (vm3 : VM) (ja ca : Nat) (foa : Function) (s : UpvalueSlot),
        vm3.code.readByte vm3.ip = OP_SET_UPVALUE →
        vm3.code.readByte (u32 (vm3.ip + 1)) = ja →
        vm3.frame.caller = some ca → vm3.heap.lookup ca = some (Obj.func foa) →
        foa.upvals.get? ja = some (some k) →
        vm3.slots.get? k = some s → (∀ i, s.val = ValPtr.cell i → i < vm3.cells.length) →
        0 < vm3.frame.sp →
        ∃ vm4, vm3.step host = VMResult.ok () vm4 ∧
          vm4.slotValue k = some (vm3.stack (vm3.frame.bp + (vm3.frame.sp - 1))) ∧
          ∀ (vm5 : VM) (jb cb : Nat) (fob : Function),
            vm5.slotValue k = vm4.slotValue k →
            vm5.code.readByte vm5.ip = OP_UPVALUE →
            vm5.code.readByte (u32 (vm5.ip + 1)) = jb →
            vm5.frame.caller = some cb → vm5.heap.lookup cb = some (Obj.func fob) →
            fob.upvals.get? jb = some (some k) →
            vm5.frame.sp + vm5.frame.bp < STACK_SIZE - 1 → vm5.ip + 2 < 4294967296 →
            vm5.step host = VMResult.ok ()
              (vm5.afterPush (vm3.stack (vm3.frame.bp + (vm3.frame.sp - 1))) (vm5.ip + 2))) ∧
      (∀ (vm6 : VM) (sp : Nat) (u : OpenUpvalue),
        OpenList vm6.frame.bp vm6.slots vm6.frame.openUpvals →
        u ∈ vm6.frame.openUpvals → u.slot = k → sp ≤ u.pos →
        ∃ kept slots1 cells1 i,
          closeFrom vm6.stack sp vm6.frame.openUpvals vm6.slots vm6.cells
            = some (kept, slots1, cells1) ∧
          slots1.get? k = some ⟨false, ValPtr.cell i⟩ ∧
          cells1.get? i = vm6.slotValue k ∧
          vm6.slotValue k = some (vm6.stack (vm6.frame.bp + u.pos)) ∧
          ∀ (vm7 : VM), vm7.slots.get? k = slots1.get? k →
            vm7.cells.get? i = cells1.get? i → vm7.slotValue k = vm6.slotValue k) := by
  obtain ⟨vmL1, foA, hk1, hvm1, hroom1, hoth1, hlen1, hfoA, _, _, hfill1⟩ :=
    step_CLOSURE_spec host vm vm1 stub1 hop1 hstub1 hstep1
  obtain ⟨vmL2, foB, hk2, hvm2, hroom2, hoth2, hlen2, hfoB, _, _, hfill2⟩ :=
    step_CLOSURE_spec host vm1 vm2 stub2 hop2 hstub2 hstep2
  obtain ⟨a1, a2, a3, a4, a5, a6, a7, a8, a9, a10, a11⟩ := hk1
  obtain ⟨b1, b2, b3, b4, b5, b6, b7, b8, b9, b10, b11⟩ := hk2
  obtain ⟨k, hkA, hfindA⟩ := hfill1 j1 pos hj1 hd1 hpos
  -- the state after the first step
  have h1sp : vm1.frame.sp = vm.frame.sp + 1 := by rw [hvm1]; simp only [VM.afterPush, a1]
  have h1bp : vm1.frame.bp = vm.frame.bp := by rw [hvm1]; simp only [VM.afterPush, a2]
  have h1open : vm1.frame.openUpvals = vmL1.frame.openUpvals := by rw [hvm1]; rfl
  have h1slots : vm1.slots = vmL1.slots := by rw [hvm1]; rfl
  have h1heap : vm1.heap = vmL1.heap := by rw [hvm1]; rfl
  have h1stack : vm1.stack (vm.frame.bp + vm.frame.sp)
      = makeFuncValue (32 * (vm.heap.length + 1)) := by
    rw [hvm1]
    simp only [VM.afterPush, a1, a2, if_true]
  have h1len : vm1.heap.length = vm.heap.length + 1 := by rw [h1heap, hlen1]
  -- the state after the second step
  have h2sp : vm2.frame.sp = vm.frame.sp + 2 := by
    rw [hvm2]; simp only [VM.afterPush, b1, h1sp]
  have h2bp : vm2.frame.bp = vm.frame.bp := by rw [hvm2]; simp only [VM.afterPush, b2, h1bp]
  have h2open : vm2.frame.openUpvals = vmL2.frame.openUpvals := by rw [hvm2]; rfl
  have h2slots : vm2.slots = vmL2.slots := by rw [hvm2]; rfl
  have h2heap : vm2.heap = vmL2.heap := by rw [hvm2]; rfl
  have hf2 : 32 * (vm1.heap.length + 1) = 32 * (vm.heap.length + 2) := by rw [h1len]
  have hfindA1 : findOpenUpvalue pos vm1.frame.openUpvals = some k := by
    rw [h1open]; exact hfindA
  have hfind2 : findOpenUpvalue pos vm2.frame.openUpvals = some k := by
    rw [h2open]; exact b8 pos k hfindA1
  obtain ⟨k2, hkB, hfindB⟩ := hfill2 j2 pos hj2 hd2 (by omega)
  have hkk : k2 = k := by
    have := hfindB.symm.trans (b8 pos k hfindA1)
    exact Option.some.inj this
  rw [hkk] at hkB
  have hol1 : OpenList vm1.frame.bp vm1.slots vm1.frame.openUpvals := by
    rw [h1open, h1slots, hvm1]
    exact a10 hol
  have hol2 : OpenList vm2.frame.bp vm2.slots vm2.frame.openUpvals := by
    rw [h2open, h2slots, hvm2]
    exact b10 hol1
  have hnd1 : (vm1.frame.openUpvals.map (fun u => u.pos)).Nodup := by
    rw [h1open]; exact a11 hnd
  have hnd2 : (vm2.frame.openUpvals.map (fun u => u.pos)).Nodup := by
    rw [h2open]; exact b11 hnd1
  refine ⟨k, foA, foB, ?_, ?_, ?_, ?_, hkA, hkB, hfind2, ?_, hnd2, ?_, ?_, ?_⟩
  · rw [hvm2]
    have hne : ¬ (vm.frame.bp + vm.frame.sp = vmL2.frame.bp + vmL2.frame.sp) := by
      rw [b1, b2, h1sp, h1bp]
      omega
    simp only [VM.afterPush, hne, if_false, b4]
    exact h1stack
  · rw [hvm2]
    have he : vm.frame.bp + vm.frame.sp + 1 = vmL2.frame.bp + vmL2.frame.sp := by
      rw [b1, b2, h1sp, h1bp]
      omega
    simp only [VM.afterPush, he, if_true, h1len]
  · rw [h2heap, hoth2 _ (by rw [h1len]; omega), h1heap]
    exact hfoA
  · rw [h2heap, ← hf2]
    exact hfoB
  · obtain ⟨u, hu, hup, hus⟩ := findOpenUpvalue_mem pos k _ hfind2
    have := hol2.1 u hu
    rw [hus, hup, h2bp] at this
    exact this
  · intro ptr
    exact openUpvalue_found vm2.frame vm2.slots pos k ptr (by omega) hfind2
  · intro vm3 ja ca foa s hop3 hja hca hfoa hupa hs hvalid hsp3
    obtain ⟨vm4, hstep4, hval4, _⟩ :=
      step_SET_UPVALUE_slot host vm3 ja ca k foa s hop3 hja hca hfoa hupa hs hvalid hsp3
    refine ⟨vm4, hstep4, hval4, ?_⟩
    intro vm5 jb cb fob hval5 hop5 hjb hcb hfob hupb hroom5 hip5
    exact step_UPVALUE_slot host vm5 jb cb k fob _ hop5 hjb hcb hfob hupb
      (hval5.trans hval4) hroom5 hip5
  · intro vm6 sp u hol6 hu hus hsp6
    obtain ⟨slots1, cells1, hcf, _, _, hclosed⟩ :=
      closeFrom_spec vm6.stack vm6.frame.bp sp vm6.frame.openUpvals vm6.slots vm6.cells hol6
    obtain ⟨i, _, hs1, hc1⟩ := hclosed u hu hsp6
    rw [hus] at hs1
    have hval6 : vm6.slotValue k = some (vm6.stack (vm6.frame.bp + u.pos)) := by
      have := hol6.1 u hu
      rw [hus] at this
      simp only [VM.slotValue, this, ValPtr.read]
    refine ⟨_, slots1, cells1, i, hcf, hs1, hc1.trans hval6.symm, hval6, ?_⟩
    intro vm7 hs7 hc7
    rw [hval6]
    have hs7a : vm7.slots.get? k = some ⟨false, ValPtr.cell i⟩ := hs7.trans hs1
    have hc7a : vm7.cells.get? i = some (vm6.stack (vm6.frame.bp + u.pos)) := hc7.trans hc1
    simp only [VM.slotValue, hs7a, ValPtr.read, hc7a]

/-- C12, witness: the two `OP_CLOSURE` steps of `ex_vm_two_closures`, whose stubs both capture
position 0. -/
theorem C12_closures_share_upvalue_slot_witness :
    ∃ k fo1 fo2,
      ((ex_vm_two_closures.next ex_host).next ex_host).stack
          (ex_vm_two_closures.frame.bp + ex_vm_two_closures.frame.sp)
        = makeFuncValue (32 * (ex_vm_two_closures.heap.length + 1)) ∧
      ((ex_vm_two_closures.next ex_host).next ex_host).stack
          (ex_vm_two_closures.frame.bp + ex_vm_two_closures.frame.sp + 1)
        = makeFuncValue (32 * (ex_vm_two_closures.heap.length + 2)) ∧
      ((ex_vm_two_closures.next ex_host).next ex_host).heap.lookup
          (32 * (ex_vm_two_closures.heap.length + 1)) = some (Obj.func fo1) ∧
      ((ex_vm_two_closures.next ex_host).next ex_host).heap.lookup
          (32 * (ex_vm_two_closures.heap.length + 2)) = some (Obj.func fo2) ∧
      fo1.upvals.get? 0 = some (some k) ∧ fo2.upvals.get? 0 = some (some k) ∧
      findOpenUpvalue 0 ((ex_vm_two_closures.next ex_host).next ex_host).frame.openUpvals
        = some k ∧
      ((ex_vm_two_closures.next ex_host).next ex_host).slots.get? k
        = some ⟨true, ValPtr.stack (ex_vm_two_closures.frame.bp + 0)⟩ ∧
      (((ex_vm_two_closures.next ex_host).next ex_host).frame.openUpvals.map
        (fun u => u.pos)).Nodup ∧
      (∀ ptr, ((ex_vm_two_closures.next ex_host).next ex_host).frame.openUpvalue
          ((ex_vm_two_closures.next ex_host).next ex_host).slots 0 ptr
        = (((ex_vm_two_closures.next ex_host).next ex_host).frame,
            ((ex_vm_two_closures.next ex_host).next ex_host).slots, some k)) ∧
      (∀ (vm3 : VM) (ja ca : Nat) (foa : Function) (s : UpvalueSlot),
        vm3.code.readByte vm3.ip = OP_SET_UPVALUE →
        vm3.code.readByte (u32 (vm3.ip + 1)) = ja →
        vm3.frame.caller = some ca → vm3.heap.lookup ca = some (Obj.func foa) →
        foa.upvals.get? ja = some (some k) →
        vm3.slots.get? k = some s → (∀ i, s.val = ValPtr.cell i → i < vm3.cells.length) →
        0 < vm3.frame.sp →
        ∃ vm4, vm3.step ex_host = VMResult.ok () vm4 ∧
          vm4.slotValue k = some (vm3.stack (vm3.frame.bp + (vm3.frame.sp - 1))) ∧
          ∀ (vm5 : VM) (jb cb : Nat) (fob : Function),
            vm5.slotValue k = vm4.slotValue k →
            vm5.code.readByte vm5.ip = OP_UPVALUE →
            vm5.code.readByte (u32 (vm5.ip + 1)) = jb →
            vm5.frame.caller = some cb → vm5.heap.lookup cb = some (Obj.func fob) →
            fob.upvals.get? jb = some (some k) →
            vm5.frame.sp + vm5.frame.bp < STACK_SIZE - 1 → vm5.ip + 2 < 4294967296 →
            vm5.step ex_host = VMResult.ok ()
              (vm5.afterPush (vm3.stack (vm3.frame.bp + (vm3.frame.sp - 1))) (vm5.ip + 2))) ∧
      (∀ (vm6 : VM) (sp : Nat) (u : OpenUpvalue),
        OpenList vm6.frame.bp vm6.slots vm6.frame.openUpvals →
        u ∈ vm6.frame.openUpvals → u.slot = k → sp ≤ u.pos →
        ∃ kept slots1 cells1 i,
          closeFrom vm6.stack sp vm6.frame.openUpvals vm6.slots vm6.cells
            = some (kept, slots1, cells1) ∧
          slots1.get? k = some ⟨false, ValPtr.cell i⟩ ∧
          cells1.get? i = vm6.slotValue k ∧
          vm6.slotValue k = some (vm6.stack (vm6.frame.bp + u.pos)) ∧
          ∀ (vm7 : VM), vm7.slots.get? k = slots1.get? k →
            vm7.cells.get? i = cells1.get? i → vm7.slotValue k = vm6.slotValue k) :=
  C12_closures_share_upvalue_slot ex_host ex_vm_two_closures
    (ex_vm_two_closures.next ex_host) ((ex_vm_two_closures.next ex_host).next ex_host)
    ex_stub_capture ex_stub_capture 0 0 0 (by decide) rfl rfl (by decide) rfl rfl
    (by decide) rfl (by decide) rfl (by decide) ⟨by decide, by decide⟩ (by decide)

/-! ## Backpatching -/

theorem CResult_bind_ok {α β : Type} (a : α) (c : compiler) (l : local_table)
    (f : α → compiler → local_table → CResult β) : (CResult.ok a c l).bind f = f a c l := rfl

/-- The call `patch_short(u - 2, e - u)` for a placeholder that ends at `u`, not after `e`:
only the two bytes of the placeholder change, and the first of them becomes `e - u` when that
is below 256. -/
theorem patch_short_spec (c : compiler) (u e : Nat) (hu : 2 ≤ u) (hue : u ≤ e)
    (he : e ≤ 2147483648) :
    (c.patch_short (u32 (u + 4294967294)) (u32 (e + 4294967296 - u))).symtab = c.symtab ∧
    (c.patch_short (u32 (u + 4294967294)) (u32 (e + 4294967296 - u))).dest.size
      = c.dest.size ∧
    (c.patch_short (u32 (u + 4294967294)) (u32 (e + 4294967296 - u))).dest.cap = c.dest.cap ∧
    (c.patch_short (u32 (u + 4294967294)) (u32 (e + 4294967296 - u))).dest.constants
      = c.dest.constants ∧
    (∀ x, x ≠ u - 2 → x ≠ u - 1 →
      (c.patch_short (u32 (u + 4294967294)) (u32 (e + 4294967296 - u))).dest.data x
        = c.dest.data x) ∧
    (∀ d, u + d = e → d < 256 →
      (c.patch_short (u32 (u + 4294967294)) (u32 (e + 4294967296 - u))).dest.data (u - 2)
        = d) := by
  have h1 : u32 (u + 4294967294) = u - 2 := by
    unfold u32
    omega
  have h2 : u32 (e + 4294967296 - u) = e - u := by
    unfold u32
    omega
  have h3 : u32 (u - 2 + 1) = u - 1 := by
    unfold u32
    omega
  rw [h1, h2]
  refine ⟨rfl, rfl, rfl, rfl, ?_, ?_⟩
  · intro x hx1 hx2
    simp only [compiler.patch_short, Bytecode.patchShort, h3, hx1, hx2, if_false]
  · intro d hd hlt
    have hne : u - 2 ≠ u - 1 := by omega
    have hed : e - u = d := by omega
    have h16 : u16 d = d := u16_of_lt (by omega)
    rw [hed]
    simp only [compiler.patch_short, Bytecode.patchShort, h3, hne, if_false, if_true, h16]
    rw [show (0x00ff : Nat) = 255 from rfl, and_255]
    unfold u8
    omega

theorem PatchLocs_mono {a b : Nat} {P : List Nat} (h : PatchLocs a P) (hab : a ≤ b) :
    PatchLocs b P :=
  ⟨h.1, fun u hu => ⟨(h.2 u hu).1, Nat.le_trans (h.2 u hu).2 hab⟩⟩

theorem PatchLocs_nil (a : Nat) : PatchLocs a [] :=
  ⟨List.Pairwise.nil, fun _ hu => absurd hu (List.not_mem_nil _)⟩

/-- A location recorded after at least three more bytes extends the recorded locations. -/
theorem PatchLocs_cons {a b : Nat} {P : List Nat} (h : PatchLocs a P) (hab : a + 3 ≤ b) :
    PatchLocs b (b :: P) := by
  refine ⟨List.Pairwise.cons ?_ h.1, ?_⟩
  · intro u hu
    have := (h.2 u hu).2
    omega
  · intro u hu
    rcases List.mem_cons.mp hu with h1 | h1
    · omega
    · have := h.2 u h1
      omega

/-- The loop of `patch_jumps` over recorded locations: every placeholder receives the
distance from its end to `end_addr`, and no other byte changes. -/
theorem patch_jumps_spec (end_addr : Nat) (hend : end_addr ≤ 2147483648) :
    ∀ (P : List Nat) (c : compiler), PatchLocs end_addr P →
      (patch_jumps end_addr P c).symtab = c.symtab ∧
      (patch_jumps end_addr P c).dest.size = c.dest.size ∧
      (patch_jumps end_addr P c).dest.cap = c.dest.cap ∧
      (patch_jumps end_addr P c).dest.constants = c.dest.constants ∧
      (∀ x, (∀ u, u ∈ P → x ≠ u - 2 ∧ x ≠ u - 1) →
        (patch_jumps end_addr P c).dest.data x = c.dest.data x) ∧
      (∀ u, u ∈ P → end_addr - u < 256 →
        (patch_jumps end_addr P c).dest.data (u - 2) = end_addr - u) := by
  intro P
  induction P with
  | nil =>
    intro c _
    exact ⟨rfl, rfl, rfl, rfl, fun _ _ => rfl, fun u hu => absurd hu (List.not_mem_nil _)⟩
  | cons u rest ih =>
    intro c hP
    have hub := hP.2 u (List.mem_cons_self _ _)
    have hrest : PatchLocs end_addr rest :=
      ⟨(List.pairwise_cons.mp hP.1).2, fun w hw => hP.2 w (List.mem_cons_of_mem _ hw)⟩
    have hsp : ∀ w, w ∈ rest → w + 3 ≤ u := (List.pairwise_cons.mp hP.1).1
    obtain ⟨p1, p2, p3, p4, p5, p6⟩ := patch_short_spec c u end_addr hub.1 hub.2 hend
    obtain ⟨q1, q2, q3, q4, q5, q6⟩ :=
      ih (c.patch_short (u32 (u + 4294967294)) (u32 (end_addr + 4294967296 - u))) hrest
    simp only [patch_jumps]
    refine ⟨q1.trans p1, q2.trans p2, q3.trans p3, q4.trans p4, ?_, ?_⟩
    · intro x hx
      rw [q5 x (fun w hw => hx w (List.mem_cons_of_mem _ hw))]
      exact p5 x (hx u (List.mem_cons_self _ _)).1 (hx u (List.mem_cons_self _ _)).2
    · intro w hw hlt
      rcases List.mem_cons.mp hw with h1 | h1
      · subst h1
        rw [q5 (w - 2) (fun v hv => by have := hsp v hv; have := (hrest.2 v hv).1; omega)]
        exact p6 _ (by omega) hlt
      · exact q6 w h1 hlt

/-- The call `patch_short(u - 2, e - u)` and the compiler it leaves. -/
theorem patch_short_ex (c : compiler) (u e : Nat) (hu : 2 ≤ u) (hue : u ≤ e)
    (he : e ≤ 2147483648) :
    ∃ c1, c.patch_short (u32 (u + 4294967294)) (u32 (e + 4294967296 - u)) = c1 ∧
      c1.symtab = c.symtab ∧ c1.dest.size = c.dest.size ∧ c1.dest.cap = c.dest.cap ∧
      c1.dest.constants = c.dest.constants ∧
      (∀ x, x ≠ u - 2 → x ≠ u - 1 → c1.dest.data x = c.dest.data x) ∧
      (∀ d, u + d = e → d < 256 → c1.dest.data (u - 2) = d) :=
  ⟨_, rfl, patch_short_spec c u e hu hue he⟩

/-! ## Building blocks of runs -/

/-- The code of a region of a module, read through a later module that agrees with it on the
region. -/
theorem Loaded.region {code d d1 : Bytecode} {a b a1 b1 : Nat} (h : Loaded code d a b)
    (h1 : a ≤ a1) (h2 : b1 ≤ b) (hdata : ∀ x, a1 ≤ x → x < b1 → d.data x = d1.data x)
    (hk : d1.constants <+: d.constants) : Loaded code d1 a1 b1 :=
  ⟨fun x hx1 hx2 => (h.1 x (Nat.le_trans h1 hx1) (Nat.lt_of_lt_of_le hx2 h2)).trans
      (hdata x hx1 hx2),
    List.IsPrefix.trans hk h.2.1, h.2.2.1, Nat.le_trans h2 h.2.2.2⟩

theorem seq_lp_none (x : Option Value) : seq_lp x none = x := rfl

theorem seq_lp_assoc (x y z : Option Value) :
    seq_lp (seq_lp x y) z = seq_lp x (seq_lp y z) := by
  cases z <;> rfl

/-- Two runs in sequence. -/
theorem run_seq {host : Host} {vm vm1 vm2 : VM} {ip1 sp1 ip2 sp2 : Nat}
    {lp1 lp2 : Option Value}
    (h1 : Runs host vm vm1 ∧ Moved vm vm1 ip1 sp1 lp1)
    (h2 : Runs host vm1 vm2 ∧ Moved vm1 vm2 ip2 sp2 lp2) (hsp : vm.frame.sp ≤ sp1) :
    Runs host vm vm2 ∧ Moved vm vm2 ip2 sp2 (seq_lp lp1 lp2) :=
  ⟨Runs_trans h1.1 h2.1, Moved_trans h1.2 h2.2 hsp⟩

/-- A run of one step that pushes a singleton. -/
theorem run_push (host : Host) (vm : VM) (op : Nat) (v : Value)
    (hsw : vm.step_switch host op = vm.step_push v)
    (hop : vm.code.readByte vm.ip = op)
    (hroom : vm.frame.sp + vm.frame.bp < STACK_SIZE - 1) (hin : vm.ip < vm.code.size)
    (hip : vm.ip + 1 < 4294967296) :
    ∃ vm1, (Runs host vm vm1 ∧ Moved vm vm1 (vm.ip + 1) (vm.frame.sp + 1) none) ∧
      vm1.stack (vm.frame.bp + vm.frame.sp) = v :=
  ⟨_, ⟨Runs.step hin (step_singleton host vm op v hsw hop hroom hip),
    (Moved.afterPush vm v (vm.ip + 1)).1⟩, (Moved.afterPush vm v (vm.ip + 1)).2⟩

/-- A run of one `OP_JUMP` with an operand byte below 128. -/
theorem run_jump (host : Host) (vm : VM) (off : Nat)
    (hop : vm.code.readByte vm.ip = OP_JUMP)
    (hoff : vm.code.readByte (u32 (vm.ip + 1)) = off) (hlt : off < 128)
    (hin : vm.ip < vm.code.size) (hip : vm.ip + 3 + off < 4294967296) :
    ∃ vm1, Runs host vm vm1 ∧ Moved vm vm1 (vm.ip + 3 + off) vm.frame.sp none :=
  ⟨_, Runs.step hin (step_JUMP_ok host vm off hop hoff hlt hip), Moved.jump vm _⟩

/-- A run of one `OP_CJUMP` on a truthy value. -/
theorem run_cjump_truthy (host : Host) (vm : VM)
    (hop : vm.code.readByte vm.ip = OP_CJUMP) (hsp : 0 < vm.frame.sp)
    (hv : v_truthy (vm.stack (vm.frame.bp + (vm.frame.sp - 1))) = true)
    (hin : vm.ip < vm.code.size) (hip : vm.ip + 3 < 4294967296) :
    ∃ vm1, Runs host vm vm1 ∧ Moved vm vm1 (vm.ip + 3) (vm.frame.sp - 1) none :=
  ⟨_, Runs.step hin (step_CJUMP_truthy host vm hop hsp hv hip), Moved.afterPop vm _⟩

/-- A run of one `OP_CJUMP` on null or false, with an operand byte below 128. -/
theorem run_cjump_falsy (host : Host) (vm : VM) (off : Nat)
    (hop : vm.code.readByte vm.ip = OP_CJUMP) (hsp : 0 < vm.frame.sp)
    (hv : v_truthy (vm.stack (vm.frame.bp + (vm.frame.sp - 1))) = false)
    (hoff : vm.code.readByte (u32 (vm.ip + 1)) = off) (hlt : off < 128)
    (hin : vm.ip < vm.code.size) (hip : vm.ip + 3 + off < 4294967296) :
    ∃ vm1, Runs host vm vm1 ∧ Moved vm vm1 (vm.ip + 3 + off) (vm.frame.sp - 1) none :=
  ⟨_, Runs.step hin (step_CJUMP_falsy host vm off hop hsp hv hoff hlt hip), Moved.afterPop vm _⟩

/-- A run of one `OP_POP`. -/
theorem run_pop (host : Host) (vm : VM)
    (hop : vm.code.readByte vm.ip = OP_POP) (hsp : 0 < vm.frame.sp)
    (hin : vm.ip < vm.code.size) (hip : vm.ip + 1 < 4294967296) :
    ∃ vm1, Runs host vm vm1 ∧ Moved vm vm1 (vm.ip + 1) (vm.frame.sp - 1)
      (some (vm.stack (vm.frame.bp + (vm.frame.sp - 1)))) :=
  ⟨_, Runs.step hin (step_POP_ok host vm hop hsp hip),
    ⟨rfl, rfl, rfl, fun _ _ => rfl, rfl, rfl, rfl, rfl, rfl, rfl⟩⟩

/-- What a move tells about the machine it ends in. -/
theorem Moved.facts {vm vm1 : VM} {ip1 sp1 : Nat} {lp : Option Value}
    (h : Moved vm vm1 ip1 sp1 lp) :
    vm1.ip = ip1 ∧ vm1.code = vm.code ∧ vm1.frame.sp = sp1 ∧ vm1.frame.bp = vm.frame.bp ∧
      ∀ a, a < vm.frame.bp + vm.frame.sp → vm1.stack a = vm.stack a :=
  ⟨h.1, h.2.1, h.frame_bp.2, h.frame_bp.1, h.2.2.2.1⟩

/-! ## Runs of the code of `and` and `or` -/

/-- The run of the code after the loop of `and` or `or` at `A`: a one-byte push of `v`, then
`OP_JUMP 1` over the final byte. -/
theorem tail_exec (host : Host) (vm : VM) (op : Nat) (v : Value) (A : Nat)
    (hsw : ∀ vm0 : VM, vm0.step_switch host op = vm0.step_push v)
    (hsize : A + 5 ≤ vm.code.size) (hA : A + 5 ≤ 2147483648)
    (hip : vm.ip = A) (hroom : vm.frame.sp + vm.frame.bp < STACK_SIZE - 1)
    (h0 : vm.code.readByte A = op) (h1 : vm.code.readByte (A + 1) = OP_JUMP)
    (h2 : vm.code.readByte (A + 2) = 1) :
    ∃ vm1, Runs host vm vm1 ∧ Moved vm vm1 (A + 5) (vm.frame.sp + 1) none ∧
      vm1.stack (vm.frame.bp + vm.frame.sp) = v := by
  obtain ⟨vmA, hrA, hvA⟩ := run_push host vm op v (hsw vm) (by rw [hip]; exact h0)
    hroom (by omega) (by omega)
  obtain ⟨iA, cA, sA, bA, kA⟩ := hrA.2.facts
  have hb1 : vmA.code.readByte vmA.ip = OP_JUMP := by rw [cA, iA, hip]; exact h1
  have hb2 : vmA.code.readByte (u32 (vmA.ip + 1)) = 1 := by
    rw [cA, iA, hip, u32_of_lt (by omega)]
    exact h2
  obtain ⟨vmB, hrB⟩ := run_jump host vmA 1 hb1 hb2 (by decide)
    (by rw [cA, iA]; omega) (by rw [iA]; omega)
  have hAB := run_seq hrA hrB (Nat.le_succ _)
  obtain ⟨_, _, _, _, kB⟩ := hrB.2.facts
  refine ⟨vmB, hAB.1, ?_, ?_⟩
  · have := hAB.2
    rw [iA, sA, hip] at this
    exact this
  · rw [kB _ (by rw [bA, sA]; omega), hvA]

/-- The run of one element of an `and` at `A` and of the code after it: the element, its
`OP_CJUMP` with the distance to the final `OP_FALSE` at `N - 1`, and the rest of the code from
`U` on. -/
theorem and_exec_cons (host : Host) (vm : VM) (r : Effect) (rs : List Effect) (A U N : Nat)
    (hU : U = A + r.len + 3) (hUN : U < N) (hlen : N - 1 - U < 128)
    (hsize : N ≤ vm.code.size) (hN : N ≤ 2147483648)
    (hip : vm.ip = A) (hroom : vm.frame.sp + vm.frame.bp < STACK_SIZE - 1)
    (hcj : vm.code.readByte (A + r.len) = OP_CJUMP)
    (hcjo : vm.code.readByte (A + r.len + 1) = N - 1 - U)
    (hend : vm.code.readByte (N - 1) = OP_FALSE)
    (hr : ∀ vm0 : VM, vm0.code = vm.code → vm0.ip = A →
      vm0.frame.sp + vm0.frame.bp < STACK_SIZE - 1 →
      ∃ vm1, Runs host vm0 vm1 ∧ Moved vm0 vm1 (A + r.len) (vm0.frame.sp + 1) r.lp ∧
        vm1.stack (vm0.frame.bp + vm0.frame.sp) = r.val)
    (hrest : ∀ vm0 : VM, vm0.code = vm.code → vm0.ip = U →
      vm0.frame.sp + vm0.frame.bp < STACK_SIZE - 1 →
      ∃ vm1, Runs host vm0 vm1 ∧ Moved vm0 vm1 N (vm0.frame.sp + 1) (and_run rs).2 ∧
        vm1.stack (vm0.frame.bp + vm0.frame.sp)
          = (if (and_run rs).1 then V_TRUE else V_FALSE)) :
    ∃ vm1, Runs host vm vm1 ∧ Moved vm vm1 N (vm.frame.sp + 1) (and_run (r :: rs)).2 ∧
      vm1.stack (vm.frame.bp + vm.frame.sp)
        = (if (and_run (r :: rs)).1 then V_TRUE else V_FALSE) := by
  obtain ⟨vmA, hrA, hmA, hvA⟩ := hr vm rfl hip hroom
  obtain ⟨iA, cA, sA, bA, kA⟩ := hmA.facts
  have hopA : vmA.code.readByte vmA.ip = OP_CJUMP := by rw [cA, iA]; exact hcj
  have htop : vmA.stack (vmA.frame.bp + (vmA.frame.sp - 1)) = r.val := by
    rw [bA, sA]
    exact hvA
  have hinA : vmA.ip < vmA.code.size := by rw [cA, iA]; omega
  cases htr : v_truthy r.val with
  | true =>
    obtain ⟨vmB, hrB⟩ := run_cjump_truthy host vmA hopA (by omega) (by rw [htop]; exact htr)
      hinA (by rw [iA]; omega)
    have hAB := run_seq ⟨hrA, hmA⟩ hrB (Nat.le_succ _)
    obtain ⟨iB, cB, sB, bB, kB⟩ := hAB.2.facts
    obtain ⟨vm1, hr1, hm1, hv1⟩ := hrest vmB cB (by rw [iB, iA]; omega)
      (by rw [sB, bB, sA]; omega)
    have hB1 := run_seq hAB ⟨hr1, hm1⟩ (by rw [sA]; omega)
    refine ⟨vm1, hB1.1, ?_, ?_⟩
    · have := hB1.2
      rw [sB, sA, seq_lp_none] at this
      simp only [and_run, htr, if_true]
      exact this
    · rw [bB, sB, sA] at hv1
      simp only [and_run, htr, if_true]
      exact hv1
  | false =>
    have hoff : vmA.code.readByte (u32 (vmA.ip + 1)) = N - 1 - U := by
      rw [cA, iA, u32_of_lt (by omega)]
      exact hcjo
    obtain ⟨vmB, hrB⟩ := run_cjump_falsy host vmA _ hopA (by omega)
      (by rw [htop]; exact htr) hoff hlen hinA (by rw [iA]; omega)
    have hAB := run_seq ⟨hrA, hmA⟩ hrB (Nat.le_succ _)
    obtain ⟨iB, cB, sB, bB, kB⟩ := hAB.2.facts
    have hipB : vmB.ip = N - 1 := by rw [iB, iA]; omega
    have hopB : vmB.code.readByte vmB.ip = OP_FALSE := by rw [cB, hipB]; exact hend
    obtain ⟨vm1, hr1, hv1⟩ := run_push host vmB OP_FALSE V_FALSE
      (step_switch_FALSE host vmB) hopB (by rw [sB, bB, sA]; omega)
      (by rw [cB, hipB]; omega) (by rw [hipB]; omega)
    have hB1 := run_seq hAB hr1 (by rw [sA]; omega)
    refine ⟨vm1, hB1.1, ?_, ?_⟩
    · have := hB1.2
      rw [hipB, sB, sA, seq_lp_none, seq_lp_none] at this
      simp only [and_run, htr, Bool.false_eq_true, if_false]
      have he : N - 1 + 1 = N := by omega
      rw [he] at this
      exact this
    · rw [bB, sB, sA] at hv1
      simp only [and_run, htr, Bool.false_eq_true, if_false]
      exact hv1

/-- The run of one element of an `or` at `A` and of the code after it: the element, its
`OP_CJUMP 3` over the `OP_JUMP` with the distance to the final `OP_TRUE` at `N - 1`, and the
rest of the code from `U` on. -/
theorem or_exec_cons (host : Host) (vm : VM) (r : Effect) (rs : List Effect) (A U N : Nat)
    (hU : U = A + r.len + 6) (hUN : U < N) (hlen : N - 1 - U < 128)
    (hsize : N ≤ vm.code.size) (hN : N ≤ 2147483648)
    (hip : vm.ip = A) (hroom : vm.frame.sp + vm.frame.bp < STACK_SIZE - 1)
    (hcj : vm.code.readByte (A + r.len) = OP_CJUMP)
    (hcjo : vm.code.readByte (A + r.len + 1) = 3)
    (hj : vm.code.readByte (A + r.len + 3) = OP_JUMP)
    (hjo : vm.code.readByte (A + r.len + 4) = N - 1 - U)
    (hend : vm.code.readByte (N - 1) = OP_TRUE)
    (hr : ∀ vm0 : VM, vm0.code = vm.code → vm0.ip = A →
      vm0.frame.sp + vm0.frame.bp < STACK_SIZE - 1 →
      ∃ vm1, Runs host vm0 vm1 ∧ Moved vm0 vm1 (A + r.len) (vm0.frame.sp + 1) r.lp ∧
        vm1.stack (vm0.frame.bp + vm0.frame.sp) = r.val)
    (hrest : ∀ vm0 : VM, vm0.code = vm.code → vm0.ip = U →
      vm0.frame.sp + vm0.frame.bp < STACK_SIZE - 1 →
      ∃ vm1, Runs host vm0 vm1 ∧ Moved vm0 vm1 N (vm0.frame.sp + 1) (or_run rs).2 ∧
        vm1.stack (vm0.frame.bp + vm0.frame.sp)
          = (if (or_run rs).1 then V_TRUE else V_FALSE)) :
    ∃ vm1, Runs host vm vm1 ∧ Moved vm vm1 N (vm.frame.sp + 1) (or_run (r :: rs)).2 ∧
      vm1.stack (vm.frame.bp + vm.frame.sp)
        = (if (or_run (r :: rs)).1 then V_TRUE else V_FALSE) := by
  obtain ⟨vmA, hrA, hmA, hvA⟩ := hr vm rfl hip hroom
  obtain ⟨iA, cA, sA, bA, kA⟩ := hmA.facts
  have hopA : vmA.code.readByte vmA.ip = OP_CJUMP := by rw [cA, iA]; exact hcj
  have htop : vmA.stack (vmA.frame.bp + (vmA.frame.sp - 1)) = r.val := by
    rw [bA, sA]
    exact hvA
  have hinA : vmA.ip < vmA.code.size := by rw [cA, iA]; omega
  cases htr : v_truthy r.val with
  | true =>
    obtain ⟨vmB, hrB⟩ := run_cjump_truthy host vmA hopA (by omega) (by rw [htop]; exact htr)
      hinA (by rw [iA]; omega)
    have hAB := run_seq ⟨hrA, hmA⟩ hrB (Nat.le_succ _)
    obtain ⟨iB, cB, sB, bB, kB⟩ := hAB.2.facts
    have hipB : vmB.ip = A + r.len + 3 := by rw [iB, iA]
    have hopB : vmB.code.readByte vmB.ip = OP_JUMP := by rw [cB, hipB]; exact hj
    have hoffB : vmB.code.readByte (u32 (vmB.ip + 1)) = N - 1 - U := by
      rw [cB, hipB, u32_of_lt (by omega)]
      exact hjo
    obtain ⟨vmC, hrC⟩ := run_jump host vmB _ hopB hoffB hlen
      (by rw [cB, hipB]; omega) (by rw [hipB]; omega)
    have hAC := run_seq hAB hrC (by rw [sA]; omega)
    obtain ⟨iC, cC, sC, bC, kC⟩ := hAC.2.facts
    have hipC : vmC.ip = N - 1 := by rw [iC, hipB]; omega
    have hopC : vmC.code.readByte vmC.ip = OP_TRUE := by rw [cC, hipC]; exact hend
    obtain ⟨vm1, hr1, hv1⟩ := run_push host vmC OP_TRUE V_TRUE
      (step_switch_TRUE host vmC) hopC (by rw [sC, bC, sB, sA]; omega)
      (by rw [cC, hipC]; omega) (by rw [hipC]; omega)
    have hC1 := run_seq hAC hr1 (by rw [sB, sA]; omega)
    refine ⟨vm1, hC1.1, ?_, ?_⟩
    · have := hC1.2
      rw [hipC, sC, sB, sA, seq_lp_none, seq_lp_none, seq_lp_none] at this
      simp only [or_run, htr, if_true]
      have he : N - 1 + 1 = N := by omega
      rw [he] at this
      exact this
    · rw [bC, sC, sB, sA] at hv1
      simp only [or_run, htr, if_true]
      exact hv1
  | false =>
    have hoff : vmA.code.readByte (u32 (vmA.ip + 1)) = 3 := by
      rw [cA, iA, u32_of_lt (by omega)]
      exact hcjo
    obtain ⟨vmB, hrB⟩ := run_cjump_falsy host vmA 3 hopA (by omega)
      (by rw [htop]; exact htr) hoff (by decide) hinA (by rw [iA]; omega)
    have hAB := run_seq ⟨hrA, hmA⟩ hrB (Nat.le_succ _)
    obtain ⟨iB, cB, sB, bB, kB⟩ := hAB.2.facts
    obtain ⟨vm1, hr1, hm1, hv1⟩ := hrest vmB cB (by rw [iB, iA]; omega)
      (by rw [sB, bB, sA]; omega)
    have hB1 := run_seq hAB ⟨hr1, hm1⟩ (by rw [sA]; omega)
    refine ⟨vm1, hB1.1, ?_, ?_⟩
    · have := hB1.2
      rw [sB, sA, seq_lp_none] at this
      simp only [or_run, htr, Bool.false_eq_true, if_false]
      exact this
    · rw [bB, sB, sA] at hv1
      simp only [or_run, htr, Bool.false_eq_true, if_false]
      exact hv1

/-! ## The forms `and` and `or` -/

/-- The code that `compile_and` and `compile_or` emit after their loops: a one-byte push
`op1`, `OP_JUMP 1`, the backpatching of the recorded locations `P`, and the final byte
`op2`. -/
theorem tail_compile (c : compiler) (l : local_table) (P : List Nat) (op1 op2 : Nat)
    (hcap : 0 < c.dest.cap) (hsz : c.dest.size + 5 ≤ 2147483648)
    (hP : PatchLocs c.dest.size P) (h1 : u8 op1 = op1) (h2 : u8 op2 = op2) :
    ∃ c5,
      ((c.write_byte l op1).bind fun _ c2 l2 =>
        (c2.write_byte l2 OP_JUMP).bind fun _ c3 l3 =>
          (c3.write_short l3 1).bind fun _ c4 l4 =>
            (compiler.write_byte (patch_jumps c4.get_size P c4) l4 op2).bind
              fun _ c5 l5 => CResult.ok () c5 l5.inc_sp) = CResult.ok () c5 l.inc_sp ∧
      c5.dest.size = c.dest.size + 5 ∧
      c5.symtab = c.symtab ∧ 0 < c5.dest.cap ∧ c.dest.constants <+: c5.dest.constants ∧
      c5.dest.constants.length + c.dest.size ≤ c.dest.constants.length + c5.dest.size ∧
      (∀ x, x < c.dest.size → (∀ u, u ∈ P → x ≠ u - 2 ∧ x ≠ u - 1) →
        c5.dest.data x = c.dest.data x) ∧
      (∀ u, u ∈ P → c.dest.size + 4 - u < 256 → c5.dest.data (u - 2) = c.dest.size + 4 - u) ∧
      c5.dest.data c.dest.size = op1 ∧ c5.dest.data (c.dest.size + 1) = OP_JUMP ∧
      c5.dest.data (c.dest.size + 2) = 1 ∧ c5.dest.data (c.dest.size + 4) = op2 := by
  obtain ⟨c1, hw1, hs1, hd1, hp1, _, hk1⟩ := write_byte_ok c l op1 hcap (by omega)
  obtain ⟨c2, hw2, hs2, hd2, hp2, _, hk2⟩ := write_byte_ok c1 l OP_JUMP hp1.2.1 (by omega)
  obtain ⟨c3, hw3, hs3, hd3, _, hp3, _, hk3⟩ :=
    write_short_ok c2 l 1 (by decide) hp2.2.1 (by omega)
  have hend : c3.get_size = c.dest.size + 4 := by
    show c3.dest.size = c.dest.size + 4
    omega
  have hPL : PatchLocs (c.dest.size + 4) P := PatchLocs_mono hP (by omega)
  obtain ⟨q1, q2, q3, q4, q5, q6⟩ := patch_jumps_spec (c.dest.size + 4) (by omega) P c3 hPL
  obtain ⟨c5, hw5, hs5, hd5, hp5, _, hk5⟩ :=
    write_byte_ok (patch_jumps (c.dest.size + 4) P c3) l op2
      (by rw [q3]; exact hp3.2.1) (by rw [q2]; omega)
  have hp03 : Pres c c3 := Pres_trans hp1 (Pres_trans hp2 hp3)
  have hsize5 : c5.dest.size = c.dest.size + 5 := by rw [hs5, q2]; omega
  have hholes : ∀ x, c.dest.size ≤ x → ∀ u, u ∈ P → x ≠ u - 2 ∧ x ≠ u - 1 := by
    intro x hx u hu
    have := hP.2 u hu
    omega
  have hdat : ∀ x, x < c.dest.size + 4 → (∀ u, u ∈ P → x ≠ u - 2 ∧ x ≠ u - 1) →
      c5.dest.data x = c3.dest.data x := by
    intro x hx hh
    rw [hp5.2.2.2.1 x (by rw [q2]; omega), q5 x hh]
  refine ⟨c5, ?_, hsize5, ?_, hp5.2.1, ?_, ?_, ?_, ?_, ?_, ?_, ?_, ?_⟩
  · simp only [CResult_bind_ok, hw1, hw2, hw3, hend, hw5]
  · rw [hp5.1, q1, hp03.1]
  · rw [hk5, q4]
    exact hp03.2.2.2.2.1
  · rw [hk5, q4, hsize5]
    have := hp03.2.2.2.2.2
    omega
  · intro x hx hh
    rw [hdat x (by omega) hh]
    exact hp03.2.2.2.1 x hx
  · intro u hu hlt
    have hub := hP.2 u hu
    rw [hp5.2.2.2.1 (u - 2) (by rw [q2]; omega)]
    exact q6 u hu hlt
  · rw [hdat _ (by omega) (hholes _ (Nat.le_refl _)), hp3.2.2.2.1 _ (by omega),
      hp2.2.2.2.1 _ (by omega), hd1, h1]
  · rw [hdat _ (by omega) (hholes _ (by omega)), hp3.2.2.2.1 _ (by omega), ← hs1, hd2]
    rfl
  · rw [hdat _ (by omega) (hholes _ (by omega))]
    have : c.dest.size + 2 = c2.dest.size := by omega
    rw [this, hd3]
  · have : c.dest.size + 4 = (patch_jumps (c.dest.size + 4) P c3).dest.size := by
      rw [q2]
      omega
    rw [this, hd5, h2]

/-- The contract of `compile_and` from some element on: the loop over the remaining elements
`ss`, with the jump locations `P` recorded so far, followed by the code after the loop.  The
emitted code leaves true when every remaining element is truthy and false otherwise, running
no element after the first falsy one; every recorded placeholder receives the distance to the
final `OP_FALSE`. -/
theorem and_tail_ok (symtab : symbol_table) {ss : List Sub} {rs : List Effect}
    (h : SubsOK symtab ss rs) :
    ∀ (c : compiler) (l : local_table) (P : List Nat), c.symtab = symtab → 0 < c.dest.cap →
      c.dest.size + and_loop_len rs + 5 ≤ 2147483648 → PatchLocs c.dest.size P →
      ∃ c1 l1,
        (compile_and_loop ss c l P).bind (fun patch_locs c1 l1 =>
          (c1.write_byte l1 OP_TRUE).bind fun _ c2 l2 =>
            (c2.write_byte l2 OP_JUMP).bind fun _ c3 l3 =>
              (c3.write_short l3 1).bind fun _ c4 l4 =>
                (compiler.write_byte (patch_jumps c4.get_size patch_locs c4) l4 OP_FALSE).bind
                  fun _ c5 l5 => CResult.ok () c5 l5.inc_sp) = CResult.ok () c1 l1 ∧
        c1.dest.size = c.dest.size + and_loop_len rs + 5 ∧
        c1.symtab = c.symtab ∧ 0 < c1.dest.cap ∧ c.dest.constants <+: c1.dest.constants ∧
        c1.dest.constants.length + c.dest.size ≤ c.dest.constants.length + c1.dest.size ∧
        (∀ x, x < c.dest.size → (∀ u, u ∈ P → x ≠ u - 2 ∧ x ≠ u - 1) →
          c1.dest.data x = c.dest.data x) ∧
        (∀ u, u ∈ P → c1.dest.size - 1 - u < 256 →
          c1.dest.data (u - 2) = c1.dest.size - 1 - u) ∧
        c1.dest.data (c1.dest.size - 1) = OP_FALSE ∧
        ∀ (host : Host) (vm : VM), Loaded vm.code c1.dest c.dest.size c1.dest.size →
          and_loop_len rs + 5 ≤ 127 → vm.ip = c.dest.size →
          vm.frame.sp + vm.frame.bp < STACK_SIZE - 1 →
          ∃ vm1, Runs host vm vm1 ∧
            Moved vm vm1 c1.dest.size (vm.frame.sp + 1) (and_run rs).2 ∧
            vm1.stack (vm.frame.bp + vm.frame.sp)
              = (if (and_run rs).1 then V_TRUE else V_FALSE) := by
  induction h with
  | nil =>
    intro c l P hsym hcap hsz hP
    simp only [and_loop_len, Nat.add_zero] at hsz
    obtain ⟨c5, he5, hs5, hsym5, hcap5, hk5, hn5, hkept, hpatched, hd0, hd1, hd2, hd4⟩ :=
      tail_compile c l P OP_TRUE OP_FALSE hcap hsz hP rfl rfl
    refine ⟨c5, l.inc_sp, ?_, ?_, hsym5, hcap5, hk5, hn5, hkept, ?_, ?_, ?_⟩
    · simp only [compile_and_loop, CResult_bind_ok]
      exact he5
    · simp only [and_loop_len, Nat.add_zero]
      exact hs5
    · intro u hu hlt
      have e : c5.dest.size - 1 - u = c.dest.size + 4 - u := by omega
      rw [e] at hlt ⊢
      exact hpatched u hu hlt
    · have e : c5.dest.size - 1 = c.dest.size + 4 := by omega
      rw [e]
      exact hd4
    · intro host vm hload _ hip hroom
      rw [hs5] at hload ⊢
      have hcs := hload.2.2.2
      have hb : ∀ x, c.dest.size ≤ x → x < c.dest.size + 5 →
          vm.code.readByte x = u8 (c5.dest.data x) := fun x h1 h2 => hload.byte x h1 h2
      exact tail_exec host vm OP_TRUE V_TRUE c.dest.size (fun vm0 => step_switch_TRUE host vm0)
        hcs hsz hip hroom (by rw [hb _ (Nat.le_refl _) (by omega), hd0]; rfl)
        (by rw [hb _ (by omega) (by omega), hd1]; rfl)
        (by rw [hb _ (by omega) (by omega), hd2]; rfl)
  | cons hs hrest ih =>
    rename_i s r ss rs
    intro c l P hsym hcap hsz hP
    simp only [and_loop_len] at hsz
    obtain ⟨cs, ls, hcs, hss, hps, hruns⟩ := hs c l hsym hcap (by omega)
    obtain ⟨c2, hw2, hs2, hd2, hp2, _, hk2⟩ := write_byte_ok cs ls OP_CJUMP hps.2.1 (by omega)
    obtain ⟨c3, hw3, hs3, _, _, hp3, _, hk3⟩ :=
      write_short_ok c2 ls 0 (by decide) hp2.2.1 (by omega)
    have hsize3 : c3.dest.size = c.dest.size + r.len + 3 := by omega
    have hgs : c3.get_size = c3.dest.size := rfl
    have hps3 : Pres cs c3 := Pres_trans hp2 hp3
    have hp03 : Pres c c3 := Pres_trans hps hps3
    have hPL : PatchLocs c3.dest.size (c3.dest.size :: P) := PatchLocs_cons hP (by omega)
    obtain ⟨c1, l1, he1, hsz1, hsym1, hcap1, hk1, hn1, hkept, hpatched, hfalse, hrun1⟩ :=
      ih c3 ls.dec_sp (c3.dest.size :: P) (hp03.1.trans hsym) hp03.2.1 (by omega) hPL
    have hsize1 : c1.dest.size = c.dest.size + (r.len + 3 + and_loop_len rs) + 5 := by omega
    have hkept3 : ∀ x, c.dest.size ≤ x → x < c.dest.size + r.len + 1 →
        c1.dest.data x = c3.dest.data x := by
      intro x hx1 hx2
      apply hkept x (by omega)
      intro u hu
      rcases List.mem_cons.mp hu with h1 | h1
      · omega
      · have := hP.2 u h1
        omega
    refine ⟨c1, l1, ?_, ?_, hsym1.trans hp03.1, hcap1,
      List.IsPrefix.trans hp03.2.2.2.2.1 hk1, by have := hp03.2.2.2.2.2; omega, ?_, ?_,
      hfalse, ?_⟩
    · simp only [compile_and_loop, CResult_bind_ok, hcs, hw2, hw3, hgs]
      exact he1
    · simp only [and_loop_len]
      exact hsize1
    · intro x hx hh
      rw [hkept x (by omega)]
      · exact hp03.2.2.2.1 x hx
      · intro u hu
        rcases List.mem_cons.mp hu with h1 | h1
        · omega
        · exact hh u h1
    · intro u hu hlt
      exact hpatched u (List.mem_cons_of_mem _ hu) hlt
    · intro host vm hload hlen hip hroom
      simp only [and_loop_len] at hlen
      have hcsz := hload.2.2.2
      have hb : ∀ x, c.dest.size ≤ x → x < c1.dest.size →
          vm.code.readByte x = u8 (c1.dest.data x) := fun x h1 h2 => hload.byte x h1 h2
      apply and_exec_cons host vm r rs c.dest.size c3.dest.size c1.dest.size hsize3 (by omega)
        (by omega) hcsz (by omega) hip hroom
      · rw [hb _ (by omega) (by omega), hkept3 _ (by omega) (by omega),
          hp3.2.2.2.1 _ (by omega), ← hss, hd2]
        rfl
      · have haddr : c.dest.size + r.len + 1 = c3.dest.size - 2 := by omega
        rw [hb _ (by omega) (by omega), haddr,
          hpatched _ (List.mem_cons_self _ _) (by omega)]
        exact u8_of_lt (by omega)
      · rw [hb _ (by omega) (by omega), hfalse]
        rfl
      · intro vm0 hcode hip0 hroom0
        have hl0 : Loaded vm0.code cs.dest c.dest.size cs.dest.size := by
          rw [hcode]
          refine hload.region (Nat.le_refl _) (by omega) ?_
            (List.IsPrefix.trans hps3.2.2.2.2.1 hk1)
          intro x hx1 hx2
          rw [hkept3 x hx1 (by omega)]
          exact hps3.2.2.2.1 x hx2
        have := hruns host vm0 hl0 (by omega) hip0 hroom0
        rw [hss] at this
        exact this
      · intro vm0 hcode hip0 hroom0
        have hl0 : Loaded vm0.code c1.dest c3.dest.size c1.dest.size := by
          rw [hcode]
          exact hload.mono (by omega) (Nat.le_refl _)
        exact hrun1 host vm0 hl0 (by omega) hip0 hroom0

/-- The contract of `compile_or` from some element on: the loop over the remaining elements
`ss`, with the jump locations `P` recorded so far, followed by the code after the loop.  The
emitted code leaves true when some remaining element is truthy and false otherwise, running
no element after the first truthy one; every recorded placeholder receives the distance to the
final `OP_TRUE`. -/
theorem or_tail_ok (symtab : symbol_table) {ss : List Sub} {rs : List Effect}
    (h : SubsOK symtab ss rs) :
    ∀ (c : compiler) (l : local_table) (P : List Nat), c.symtab = symtab → 0 < c.dest.cap →
      c.dest.size + or_loop_len rs + 5 ≤ 2147483648 → PatchLocs c.dest.size P →
      ∃ c1 l1,
        (compile_or_loop ss c l P).bind (fun patch_locs c1 l1 =>
          (c1.write_byte l1 OP_FALSE).bind fun _ c2 l2 =>
            (c2.write_byte l2 OP_JUMP).bind fun _ c3 l3 =>
              (c3.write_short l3 1).bind fun _ c4 l4 =>
                (compiler.write_byte (patch_jumps c4.get_size patch_locs c4) l4 OP_TRUE).bind
                  fun _ c5 l5 => CResult.ok () c5 l5.inc_sp) = CResult.ok () c1 l1 ∧
        c1.dest.size = c.dest.size + or_loop_len rs + 5 ∧
        c1.symtab = c.symtab ∧ 0 < c1.dest.cap ∧ c.dest.constants <+: c1.dest.constants ∧
        c1.dest.constants.length + c.dest.size ≤ c.dest.constants.length + c1.dest.size ∧
        (∀ x, x < c.dest.size → (∀ u, u ∈ P → x ≠ u - 2 ∧ x ≠ u - 1) →
          c1.dest.data x = c.dest.data x) ∧
        (∀ u, u ∈ P → c1.dest.size - 1 - u < 256 →
          c1.dest.data (u - 2) = c1.dest.size - 1 - u) ∧
        c1.dest.data (c1.dest.size - 1) = OP_TRUE ∧
        ∀ (host : Host) (vm : VM), Loaded vm.code c1.dest c.dest.size c1.dest.size →
          or_loop_len rs + 5 ≤ 127 → vm.ip = c.dest.size →
          vm.frame.sp + vm.frame.bp < STACK_SIZE - 1 →
          ∃ vm1, Runs host vm vm1 ∧
            Moved vm vm1 c1.dest.size (vm.frame.sp + 1) (or_run rs).2 ∧
            vm1.stack (vm.frame.bp + vm.frame.sp)
              = (if (or_run rs).1 then V_TRUE else V_FALSE) := by
  induction h with
  | nil =>
    intro c l P hsym hcap hsz hP
    simp only [or_loop_len, Nat.add_zero] at hsz
    obtain ⟨c5, he5, hs5, hsym5, hcap5, hk5, hn5, hkept, hpatched, hd0, hd1, hd2, hd4⟩ :=
      tail_compile c l P OP_FALSE OP_TRUE hcap hsz hP rfl rfl
    refine ⟨c5, l.inc_sp, ?_, ?_, hsym5, hcap5, hk5, hn5, hkept, ?_, ?_, ?_⟩
    · simp only [compile_or_loop, CResult_bind_ok]
      exact he5
    · simp only [or_loop_len, Nat.add_zero]
      exact hs5
    · intro u hu hlt
      have e : c5.dest.size - 1 - u = c.dest.size + 4 - u := by omega
      rw [e] at hlt ⊢
      exact hpatched u hu hlt
    · have e : c5.dest.size - 1 = c.dest.size + 4 := by omega
      rw [e]
      exact hd4
    · intro host vm hload _ hip hroom
      rw [hs5] at hload ⊢
      have hcs := hload.2.2.2
      have hb : ∀ x, c.dest.size ≤ x → x < c.dest.size + 5 →
          vm.code.readByte x = u8 (c5.dest.data x) := fun x h1 h2 => hload.byte x h1 h2
      exact tail_exec host vm OP_FALSE V_FALSE c.dest.size
        (fun vm0 => step_switch_FALSE host vm0)
        hcs hsz hip hroom (by rw [hb _ (Nat.le_refl _) (by omega), hd0]; rfl)
        (by rw [hb _ (by omega) (by omega), hd1]; rfl)
        (by rw [hb _ (by omega) (by omega), hd2]; rfl)
  | cons hs hrest ih =>
    rename_i s r ss rs
    intro c l P hsym hcap hsz hP
    simp only [or_loop_len] at hsz
    obtain ⟨cs, ls, hcs, hss, hps, hruns⟩ := hs c l hsym hcap (by omega)
    obtain ⟨c2, hw2, hs2, hd2, hp2, _, hk2⟩ := write_byte_ok cs ls OP_CJUMP hps.2.1 (by omega)
    obtain ⟨c3, hw3, hs3, hd3, _, hp3, _, hk3⟩ :=
      write_short_ok c2 ls 3 (by decide) hp2.2.1 (by omega)
    obtain ⟨c4, hw4, hs4, hd4, hp4, _, hk4⟩ :=
      write_byte_ok c3 ls.dec_sp OP_JUMP hp3.2.1 (by omega)
    obtain ⟨c5, hw5, hs5, _, _, hp5, _, hk5⟩ :=
      write_short_ok c4 ls.dec_sp 0 (by decide) hp4.2.1 (by omega)
    have hsize5 : c5.dest.size = c.dest.size + r.len + 6 := by omega
    have hgs : c5.get_size = c5.dest.size := rfl
    have hp35 : Pres c3 c5 := Pres_trans hp4 hp5
    have hp25 : Pres c2 c5 := Pres_trans hp3 hp35
    have hps5 : Pres cs c5 := Pres_trans hp2 hp25
    have hp05 : Pres c c5 := Pres_trans hps hps5
    have hPL : PatchLocs c5.dest.size (c5.dest.size :: P) := PatchLocs_cons hP (by omega)
    obtain ⟨c1, l1, he1, hsz1, hsym1, hcap1, hk1, hn1, hkept, hpatched, htrue, hrun1⟩ :=
      ih c5 ls.dec_sp (c5.dest.size :: P) (hp05.1.trans hsym) hp05.2.1 (by omega) hPL
    have hsize1 : c1.dest.size = c.dest.size + (r.len + 6 + or_loop_len rs) + 5 := by omega
    have hkept5 : ∀ x, c.dest.size ≤ x → x < c.dest.size + r.len + 4 →
        c1.dest.data x = c5.dest.data x := by
      intro x hx1 hx2
      apply hkept x (by omega)
      intro u hu
      rcases List.mem_cons.mp hu with h1 | h1
      · omega
      · have := hP.2 u h1
        omega
    refine ⟨c1, l1, ?_, ?_, hsym1.trans hp05.1, hcap1,
      List.IsPrefix.trans hp05.2.2.2.2.1 hk1, by have := hp05.2.2.2.2.2; omega, ?_, ?_,
      htrue, ?_⟩
    · simp only [compile_or_loop, CResult_bind_ok, hcs, hw2, hw3, hw4, hw5, hgs]
      exact he1
    · simp only [or_loop_len]
      exact hsize1
    · intro x hx hh
      rw [hkept x (by omega)]
      · exact hp05.2.2.2.1 x hx
      · intro u hu
        rcases List.mem_cons.mp hu with h1 | h1
        · omega
        · exact hh u h1
    · intro u hu hlt
      exact hpatched u (List.mem_cons_of_mem _ hu) hlt
    · intro host vm hload hlen hip hroom
      simp only [or_loop_len] at hlen
      have hcsz := hload.2.2.2
      have hb : ∀ x, c.dest.size ≤ x → x < c1.dest.size →
          vm.code.readByte x = u8 (c1.dest.data x) := fun x h1 h2 => hload.byte x h1 h2
      apply or_exec_cons host vm r rs c.dest.size c5.dest.size c1.dest.size hsize5 (by omega)
        (by omega) hcsz (by omega) hip hroom
      · rw [hb _ (by omega) (by omega), hkept5 _ (by omega) (by omega),
          hp25.2.2.2.1 _ (by omega), ← hss, hd2]
        rfl
      · have haddr : c.dest.size + r.len + 1 = c2.dest.size := by omega
        rw [hb _ (by omega) (by omega), hkept5 _ (by omega) (by omega),
          hp35.2.2.2.1 _ (by omega), haddr, hd3]
        rfl
      · have haddr : c.dest.size + r.len + 3 = c3.dest.size := by omega
        rw [hb _ (by omega) (by omega), hkept5 _ (by omega) (by omega),
          hp5.2.2.2.1 _ (by omega), haddr, hd4]
        rfl
      · have haddr : c.dest.size + r.len + 4 = c5.dest.size - 2 := by omega
        rw [hb _ (by omega) (by omega), haddr,
          hpatched _ (List.mem_cons_self _ _) (by omega)]
        exact u8_of_lt (by omega)
      · rw [hb _ (by omega) (by omega), htrue]
        rfl
      · intro vm0 hcode hip0 hroom0
        have hl0 : Loaded vm0.code cs.dest c.dest.size cs.dest.size := by
          rw [hcode]
          refine hload.region (Nat.le_refl _) (by omega) ?_
            (List.IsPrefix.trans hps5.2.2.2.2.1 hk1)
          intro x hx1 hx2
          rw [hkept5 x hx1 (by omega)]
          exact hps5.2.2.2.1 x hx2
        have := hruns host vm0 hl0 (by omega) hip0 hroom0
        rw [hss] at this
        exact this
      · intro vm0 hcode hip0 hroom0
        have hl0 : Loaded vm0.code c1.dest c5.dest.size c1.dest.size := by
          rw [hcode]
          exact hload.mono (by omega) (Nat.le_refl _)
        exact hrun1 host vm0 hl0 (by omega) hip0 hroom0

/-! ## The form `do` -/

/-- The loop of `compile_do` on a non-empty list of elements meets the contract of the body
of a `do`: every value but the last is popped. -/
theorem do_loop_ok (symtab : symbol_table) {ss : List Sub} {rs : List Effect}
    (h : SubsOK symtab ss rs) :
    ∀ (s : Sub) (r : Effect), SubOK symtab s r →
      SubOK symtab (compile_do_loop (s :: ss)) (do_effect (r :: rs)) := by
  induction h with
  | nil =>
    intro s r hs c l hsym hcap hsz
    exact hs c l hsym hcap hsz
  | cons ht hrest ih =>
    rename_i t rt ss rs
    intro s r hs c l hsym hcap hsz
    have htail := ih t rt ht
    have hlen : (do_effect (r :: rt :: rs)).len = r.len + 1 + (do_effect (rt :: rs)).len := rfl
    have hval : (do_effect (r :: rt :: rs)).val = (do_effect (rt :: rs)).val := rfl
    have hlp : (do_effect (r :: rt :: rs)).lp
        = seq_lp (some r.val) (do_effect (rt :: rs)).lp := rfl
    rw [hlen] at hsz
    obtain ⟨cs, ls, hcs, hss, hps, hruns⟩ := hs c l hsym hcap (by omega)
    obtain ⟨c2, hw2, hs2, hd2, hp2, _, _⟩ := write_byte_ok cs ls OP_POP hps.2.1 (by omega)
    obtain ⟨c1, l1, hc1, hs1, hp1, hrun1⟩ :=
      htail c2 ls.dec_sp ((Pres_trans hps hp2).1.trans hsym) hp2.2.1 (by omega)
    refine ⟨c1, l1, ?_, ?_, Pres_trans hps (Pres_trans hp2 hp1), ?_⟩
    · simp only [compile_do_loop, CResult_bind_ok, hcs, hw2]
      exact hc1
    · rw [hlen]
      omega
    · intro host vm hload hl hip hroom
      rw [hlen] at hl
      rw [hval, hlp]
      have hcsz := hload.2.2.2
      have hloads : Loaded vm.code cs.dest c.dest.size cs.dest.size :=
        hload.of_pres (Pres_trans hp2 hp1) (by omega)
      obtain ⟨vmA, hrA, hmA, hvA⟩ := hruns host vm hloads (by omega) hip hroom
      obtain ⟨iA, cA, sA, bA, kA⟩ := hmA.facts
      have hopA : vmA.code.readByte vmA.ip = OP_POP := by
        rw [cA, iA, hload.byte _ (by omega) (by omega), hp1.2.2.2.1 _ (by omega), hd2]
        rfl
      obtain ⟨vmB, hrB⟩ := run_pop host vmA hopA (by omega) (by rw [cA, iA]; omega)
        (by rw [iA]; omega)
      have hAB := run_seq ⟨hrA, hmA⟩ hrB (Nat.le_succ _)
      obtain ⟨iB, cB, sB, bB, kB⟩ := hAB.2.facts
      have hloadB : Loaded vmB.code c1.dest c2.dest.size c1.dest.size := by
        rw [cB]
        exact hload.mono (by omega) (Nat.le_refl _)
      obtain ⟨vm1, hr1, hm1, hv1⟩ := hrun1 host vmB hloadB (by omega)
        (by rw [iB, iA]; omega) (by rw [sB, bB, sA]; omega)
      have hB1 := run_seq hAB ⟨hr1, hm1⟩ (by rw [sA]; omega)
      refine ⟨vm1, hB1.1, ?_, ?_⟩
      · have := hB1.2
        rw [sB, sA, bA] at this
        have htop : vmA.stack (vm.frame.bp + (vm.frame.sp + 1 - 1)) = r.val := hvA
        have hsp1 : vm.frame.sp + 1 - 1 + 1 = vm.frame.sp + 1 := by omega
        rw [htop, hsp1] at this
        have hseq : seq_lp (seq_lp r.lp (some r.val)) (do_effect (rt :: rs)).lp
            = seq_lp (some r.val) (do_effect (rt :: rs)).lp := by
          cases (do_effect (rt :: rs)).lp <;> rfl
        rw [hseq] at this
        exact this
      · rw [bB, sB, sA] at hv1
        exact hv1

/-! ## The form `if` -/

/-- The run of the code of an `if`: the condition at `A`, its `OP_CJUMP` with the distance to
the else-branch at `E`, the then-branch at `T`, its `OP_JUMP` with the distance to the end
`N`, and the else-branch. -/
theorem if_exec (host : Host) (vm : VM) (rc rt re : Effect) (A T E N : Nat)
    (hT : T = A + rc.len + 3) (hE : E = T + rt.len + 3) (hN : N = E + re.len)
    (hsize : N ≤ vm.code.size) (hN32 : N ≤ 2147483648)
    (hlen : rc.len + 3 + rt.len + 3 + re.len ≤ 127)
    (hip : vm.ip = A) (hroom : vm.frame.sp + vm.frame.bp < STACK_SIZE - 1)
    (hcj : vm.code.readByte (A + rc.len) = OP_CJUMP)
    (hcjo : vm.code.readByte (A + rc.len + 1) = rt.len + 3)
    (hj : vm.code.readByte (T + rt.len) = OP_JUMP)
    (hjo : vm.code.readByte (T + rt.len + 1) = re.len)
    (hrc : ∀ vm0 : VM, vm0.code = vm.code → vm0.ip = A →
      vm0.frame.sp + vm0.frame.bp < STACK_SIZE - 1 →
      ∃ vm1, Runs host vm0 vm1 ∧ Moved vm0 vm1 (A + rc.len) (vm0.frame.sp + 1) rc.lp ∧
        vm1.stack (vm0.frame.bp + vm0.frame.sp) = rc.val)
    (hrt : ∀ vm0 : VM, vm0.code = vm.code → vm0.ip = T →
      vm0.frame.sp + vm0.frame.bp < STACK_SIZE - 1 →
      ∃ vm1, Runs host vm0 vm1 ∧ Moved vm0 vm1 (T + rt.len) (vm0.frame.sp + 1) rt.lp ∧
        vm1.stack (vm0.frame.bp + vm0.frame.sp) = rt.val)
    (hre : ∀ vm0 : VM, vm0.code = vm.code → vm0.ip = E →
      vm0.frame.sp + vm0.frame.bp < STACK_SIZE - 1 →
      ∃ vm1, Runs host vm0 vm1 ∧ Moved vm0 vm1 (E + re.len) (vm0.frame.sp + 1) re.lp ∧
        vm1.stack (vm0.frame.bp + vm0.frame.sp) = re.val) :
    ∃ vm1, Runs host vm vm1 ∧ Moved vm vm1 N (vm.frame.sp + 1) (if_effect rc rt re).lp ∧
      vm1.stack (vm.frame.bp + vm.frame.sp) = (if_effect rc rt re).val := by
  obtain ⟨vmA, hrA, hmA, hvA⟩ := hrc vm rfl hip hroom
  obtain ⟨iA, cA, sA, bA, kA⟩ := hmA.facts
  have hopA : vmA.code.readByte vmA.ip = OP_CJUMP := by rw [cA, iA]; exact hcj
  have htop : vmA.stack (vmA.frame.bp + (vmA.frame.sp - 1)) = rc.val := by
    rw [bA, sA]
    exact hvA
  have hinA : vmA.ip < vmA.code.size := by rw [cA, iA]; omega
  cases htr : v_truthy rc.val with
  | true =>
    obtain ⟨vmB, hrB⟩ := run_cjump_truthy host vmA hopA (by omega) (by rw [htop]; exact htr)
      hinA (by rw [iA]; omega)
    have hAB := run_seq ⟨hrA, hmA⟩ hrB (Nat.le_succ _)
    obtain ⟨iB, cB, sB, bB, kB⟩ := hAB.2.facts
    obtain ⟨vmC, hrC, hmC, hvC⟩ := hrt vmB cB (by rw [iB, iA]; omega)
      (by rw [sB, bB, sA]; omega)
    have hAC := run_seq hAB ⟨hrC, hmC⟩ (by rw [sA]; omega)
    obtain ⟨iC, cC, sC, bC, kC⟩ := hAC.2.facts
    have hopC : vmC.code.readByte vmC.ip = OP_JUMP := by rw [cC, iC]; exact hj
    have hoffC : vmC.code.readByte (u32 (vmC.ip + 1)) = re.len := by
      rw [cC, iC, u32_of_lt (by omega)]
      exact hjo
    obtain ⟨vm1, hr1⟩ := run_jump host vmC re.len hopC hoffC (by omega)
      (by rw [cC, iC]; omega) (by rw [iC]; omega)
    have hC1 := run_seq hAC hr1 (by rw [sB, sA]; omega)
    obtain ⟨_, _, _, _, k1⟩ := hr1.2.facts
    refine ⟨vm1, hC1.1, ?_, ?_⟩
    · have := hC1.2
      have hsp : vmC.frame.sp = vm.frame.sp + 1 := by rw [sC, sB, sA]; omega
      rw [iC, hsp, seq_lp_none, seq_lp_none] at this
      have hlpE : (if_effect rc rt re).lp = seq_lp rc.lp rt.lp := by
        simp only [if_effect, htr, if_true]
      have hipE : T + rt.len + 3 + re.len = N := by omega
      rw [hlpE, ← hipE]
      exact this
    · have hvalE : (if_effect rc rt re).val = rt.val := by
        simp only [if_effect, htr, if_true]
      rw [hvalE, k1 _ (by rw [bC, sC, sB, sA]; omega)]
      rw [bB, sB, sA] at hvC
      exact hvC
  | false =>
    have hoffA : vmA.code.readByte (u32 (vmA.ip + 1)) = rt.len + 3 := by
      rw [cA, iA, u32_of_lt (by omega)]
      exact hcjo
    obtain ⟨vmB, hrB⟩ := run_cjump_falsy host vmA (rt.len + 3) hopA (by omega)
      (by rw [htop]; exact htr) hoffA (by omega) hinA (by rw [iA]; omega)
    have hAB := run_seq ⟨hrA, hmA⟩ hrB (Nat.le_succ _)
    obtain ⟨iB, cB, sB, bB, kB⟩ := hAB.2.facts
    obtain ⟨vm1, hr1, hm1, hv1⟩ := hre vmB cB (by rw [iB, iA]; omega)
      (by rw [sB, bB, sA]; omega)
    have hB1 := run_seq hAB ⟨hr1, hm1⟩ (by rw [sA]; omega)
    refine ⟨vm1, hB1.1, ?_, ?_⟩
    · have := hB1.2
      rw [sB, sA, seq_lp_none] at this
      have hlpE : (if_effect rc rt re).lp = seq_lp rc.lp re.lp := by
        simp only [if_effect, htr, Bool.false_eq_true, if_false]
      rw [hlpE, hN]
      exact this
    · have hvalE : (if_effect rc rt re).val = re.val := by
        simp only [if_effect, htr, Bool.false_eq_true, if_false]
      rw [hvalE]
      rw [bB, sB, sA] at hv1
      exact hv1

/-- What `compile_if` emits on a list of four elements whose condition and branches meet their
contracts: the code of the condition, `OP_CJUMP` with the distance to the else-branch, the
code of the then-branch, `OP_JUMP` with the distance to the end, and the code of the
else-branch; each of the three pieces of code runs as its contract says. -/
theorem if_compile (symtab : symbol_table) (subs : List Sub) (list : List ast_node)
    (loc : SourceLoc) (sc st se : Sub) (rc rt re : Effect) (hlen : list.length = 4)
    (h1 : subs.get? 1 = some sc) (h2 : subs.get? 2 = some st) (h3 : subs.get? 3 = some se)
    (hc : SubOK symtab sc rc) (ht : SubOK symtab st rt) (he : SubOK symtab se re)
    (c : compiler) (l : local_table) (hsym : c.symtab = symtab) (hcap : 0 < c.dest.cap)
    (hsz : c.dest.size + (rc.len + 3 + rt.len + 3 + re.len) ≤ 2147483648) :
    ∃ c1 l1 c9 l9, sc c l = CResult.ok () c1 l1 ∧ c1.dest.size = c.dest.size + rc.len ∧
      c.compile_if subs l list loc = CResult.ok () c9 l9 ∧
      c9.dest.size = c.dest.size + (rc.len + 3 + rt.len + 3 + re.len) ∧ Pres c c9 ∧
      (∀ x, c.dest.size ≤ x → x < c1.dest.size → c9.dest.data x = c1.dest.data x) ∧
      c1.dest.constants <+: c9.dest.constants ∧
      c9.dest.data (c.dest.size + rc.len) = OP_CJUMP ∧
      (rt.len + 3 < 256 → c9.dest.data (c.dest.size + rc.len + 1) = rt.len + 3) ∧
      c9.dest.data (c.dest.size + rc.len + 3 + rt.len) = OP_JUMP ∧
      (re.len < 256 → c9.dest.data (c.dest.size + rc.len + 3 + rt.len + 1) = re.len) ∧
      ∀ (host : Host) (code : Bytecode), Loaded code c9.dest c.dest.size c9.dest.size →
        (rc.len ≤ 127 → ∀ vm0 : VM, vm0.code = code → vm0.ip = c.dest.size →
          vm0.frame.sp + vm0.frame.bp < STACK_SIZE - 1 →
          ∃ vm1, Runs host vm0 vm1 ∧
            Moved vm0 vm1 (c.dest.size + rc.len) (vm0.frame.sp + 1) rc.lp ∧
            vm1.stack (vm0.frame.bp + vm0.frame.sp) = rc.val) ∧
        (rt.len ≤ 127 → ∀ vm0 : VM, vm0.code = code → vm0.ip = c.dest.size + rc.len + 3 →
          vm0.frame.sp + vm0.frame.bp < STACK_SIZE - 1 →
          ∃ vm1, Runs host vm0 vm1 ∧
            Moved vm0 vm1 (c.dest.size + rc.len + 3 + rt.len) (vm0.frame.sp + 1) rt.lp ∧
            vm1.stack (vm0.frame.bp + vm0.frame.sp) = rt.val) ∧
        (re.len ≤ 127 → ∀ vm0 : VM, vm0.code = code →
          vm0.ip = c.dest.size + rc.len + 3 + rt.len + 3 →
          vm0.frame.sp + vm0.frame.bp < STACK_SIZE - 1 →
          ∃ vm1, Runs host vm0 vm1 ∧
            Moved vm0 vm1 (c.dest.size + rc.len + 3 + rt.len + 3 + re.len)
              (vm0.frame.sp + 1) re.lp ∧
            vm1.stack (vm0.frame.bp + vm0.frame.sp) = re.val) := by
  obtain ⟨c1, l1, hc1, hs1, hp1, hrunc⟩ := hc c l hsym hcap (by omega)
  obtain ⟨c2, hw2, hs2, hd2, hp2, _, _⟩ := write_byte_ok c1 l1 OP_CJUMP hp1.2.1 (by omega)
  obtain ⟨c3, hw3, hs3, _, _, hp3, _, _⟩ :=
    write_short_ok c2 l1 0 (by decide) hp2.2.1 (by omega)
  have hp03 : Pres c c3 := Pres_trans hp1 (Pres_trans hp2 hp3)
  obtain ⟨c4, l4, hc4, hs4, hp4, hrunt⟩ :=
    ht c3 l1.dec_sp (hp03.1.trans hsym) hp3.2.1 (by omega)
  obtain ⟨c5, hw5, hs5, hd5, hp5, _, _⟩ := write_byte_ok c4 l4 OP_JUMP hp4.2.1 (by omega)
  obtain ⟨c6, hw6, hs6, _, _, hp6, _, _⟩ :=
    write_short_ok c5 l4 0 (by decide) hp5.2.1 (by omega)
  have hp36 : Pres c3 c6 := Pres_trans hp4 (Pres_trans hp5 hp6)
  have hp06 : Pres c c6 := Pres_trans hp03 hp36
  obtain ⟨c7, l7, hc7, hs7, hp7, hrune⟩ :=
    he c6 l4.dec_sp (hp06.1.trans hsym) hp6.2.1 (by omega)
  have hp07 : Pres c c7 := Pres_trans hp06 hp7
  have hp17 : Pres c1 c7 := Pres_trans hp2 (Pres_trans hp3 (Pres_trans hp36 hp7))
  have hp27 : Pres c2 c7 := Pres_trans hp3 (Pres_trans hp36 hp7)
  have hp47 : Pres c4 c7 := Pres_trans hp5 (Pres_trans hp6 hp7)
  have hp57 : Pres c5 c7 := Pres_trans hp6 hp7
  -- the sizes
  have hz3 : c3.dest.size = c.dest.size + rc.len + 3 := by omega
  have hz4 : c4.dest.size = c.dest.size + rc.len + 3 + rt.len := by omega
  have hz6 : c6.dest.size = c.dest.size + rc.len + 3 + rt.len + 3 := by omega
  have hz7 : c7.dest.size = c.dest.size + rc.len + 3 + rt.len + 3 + re.len := by omega
  obtain ⟨c8, hc8, p1, p2, p3, p4, p5, p6⟩ :=
    patch_short_ex c7 c3.dest.size c6.dest.size (by omega) (by omega) (by omega)
  obtain ⟨c9, hc9, q1, q2, q3, q4, q5, q6⟩ :=
    patch_short_ex c8 c6.dest.size c7.dest.size (by omega) (by omega) (by omega)
  have hres : c.compile_if subs l list loc = CResult.ok () c9 l7 := by
    have hne : ¬ list.length ≠ 4 := fun h => h hlen
    simp only [compiler.compile_if, hne, if_false, h1, h2, h3, CResult_bind_ok, hc1, hw2, hw3,
      hc4, hw5, hw6, hc7, compiler.get_size, Bytecode.getSize, hc8, hc9]
  have hdat : ∀ x, x ≠ c3.dest.size - 2 → x ≠ c3.dest.size - 1 → x ≠ c6.dest.size - 2 →
      x ≠ c6.dest.size - 1 → c9.dest.data x = c7.dest.data x := by
    intro x hx1 hx2 hx3 hx4
    rw [q5 x hx3 hx4, p5 x hx1 hx2]
  have hconst : c7.dest.constants <+: c9.dest.constants := by
    rw [q4, p4]
  have hsize9 : c9.dest.size = c7.dest.size := q2.trans p2
  have hpres : Pres c c9 := by
    refine ⟨?_, ?_, ?_, ?_, ?_, ?_⟩
    · rw [q1, p1]
      exact hp07.1
    · rw [q3, p3]
      exact hp07.2.1
    · rw [hsize9]
      exact hp07.2.2.1
    · intro x hx
      rw [hdat x (by omega) (by omega) (by omega) (by omega)]
      exact hp07.2.2.2.1 x hx
    · exact List.IsPrefix.trans hp07.2.2.2.2.1 hconst
    · rw [q4, p4, hsize9]
      exact hp07.2.2.2.2.2
  refine ⟨c1, l1, c9, l7, hc1, hs1, hres, by omega, hpres, ?_,
    List.IsPrefix.trans hp17.2.2.2.2.1 hconst, ?_, ?_, ?_, ?_, ?_⟩
  · intro x hx1 hx2
    rw [hdat x (by omega) (by omega) (by omega) (by omega)]
    exact hp17.2.2.2.1 x hx2
  · rw [hdat _ (by omega) (by omega) (by omega) (by omega), hp27.2.2.2.1 _ (by omega), ← hs1,
      hd2]
    rfl
  · intro hlt
    have haddr : c.dest.size + rc.len + 1 = c3.dest.size - 2 := by omega
    rw [haddr, q5 _ (by omega) (by omega)]
    exact p6 (rt.len + 3) (by omega) hlt
  · rw [hdat _ (by omega) (by omega) (by omega) (by omega), hp57.2.2.2.1 _ (by omega), ← hz4,
      hd5]
    rfl
  · intro hlt
    have haddr : c.dest.size + rc.len + 3 + rt.len + 1 = c6.dest.size - 2 := by omega
    rw [haddr]
    exact q6 re.len (by omega) hlt
  · intro host code hload
    rw [hsize9] at hload
    refine ⟨?_, ?_, ?_⟩
    · intro hl vm0 hcode hip0 hroom0
      have hl0 : Loaded vm0.code c1.dest c.dest.size c1.dest.size := by
        rw [hcode]
        refine hload.region (Nat.le_refl _) (by omega) ?_
          (List.IsPrefix.trans hp17.2.2.2.2.1 hconst)
        intro x hx1 hx2
        rw [hdat x (by omega) (by omega) (by omega) (by omega)]
        exact hp17.2.2.2.1 x hx2
      have := hrunc host vm0 hl0 hl hip0 hroom0
      rw [hs1] at this
      exact this
    · intro hl vm0 hcode hip0 hroom0
      have hl0 : Loaded vm0.code c4.dest c3.dest.size c4.dest.size := by
        rw [hcode]
        refine hload.region (by omega) (by omega) ?_
          (List.IsPrefix.trans hp47.2.2.2.2.1 hconst)
        intro x hx1 hx2
        rw [hdat x (by omega) (by omega) (by omega) (by omega)]
        exact hp47.2.2.2.1 x hx2
      have := hrunt host vm0 hl0 hl (by omega) hroom0
      rw [hz4] at this
      exact this
    · intro hl vm0 hcode hip0 hroom0
      have hl0 : Loaded vm0.code c7.dest c6.dest.size c7.dest.size := by
        rw [hcode]
        refine hload.region (by omega) (by omega) ?_ hconst
        intro x hx1 hx2
        exact hdat x (by omega) (by omega) (by omega) (by omega)
      have := hrune host vm0 hl0 hl (by omega) hroom0
      rw [hz7] at this
      exact this

/-- The contract of `compile_if` on a list of four elements whose condition and branches meet
their contracts: the code runs the condition and then exactly one branch. -/
theorem if_ok (symtab : symbol_table) (subs : List Sub) (list : List ast_node)
    (loc : SourceLoc) (sc st se : Sub) (rc rt re : Effect) (hlen : list.length = 4)
    (h1 : subs.get? 1 = some sc) (h2 : subs.get? 2 = some st) (h3 : subs.get? 3 = some se)
    (hc : SubOK symtab sc rc) (ht : SubOK symtab st rt) (he : SubOK symtab se re) :
    SubOK symtab (fun c l => c.compile_if subs l list loc) (if_effect rc rt re) := by
  intro c l hsym hcap hsz
  have hlenE : (if_effect rc rt re).len = rc.len + 3 + rt.len + 3 + re.len := rfl
  rw [hlenE] at hsz
  obtain ⟨c1, l1, c9, l9, _, _, hres, hs9, hp9, _, _, hb1, hb2, hb3, hb4, hruns⟩ :=
    if_compile symtab subs list loc sc st se rc rt re hlen h1 h2 h3 hc ht he c l hsym hcap hsz
  refine ⟨c9, l9, hres, hs9, hp9, ?_⟩
  intro host vm hload hl hip hroom
  rw [hlenE] at hl
  obtain ⟨hr1, hr2, hr3⟩ := hruns host vm.code hload
  have hcsz := hload.2.2.2
  have hb : ∀ x, c.dest.size ≤ x → x < c9.dest.size →
      vm.code.readByte x = u8 (c9.dest.data x) := fun x h1 h2 => hload.byte x h1 h2
  rw [hs9]
  rw [hs9] at hcsz hb
  exact if_exec host vm rc rt re c.dest.size (c.dest.size + rc.len + 3)
    (c.dest.size + rc.len + 3 + rt.len + 3)
    (c.dest.size + (rc.len + 3 + rt.len + 3 + re.len)) rfl rfl (by omega) hcsz hsz hl hip hroom
    (by rw [hb _ (by omega) (by omega), hb1]; rfl)
    (by rw [hb _ (by omega) (by omega), hb2 (by omega)]; exact u8_of_lt (by omega))
    (by rw [hb _ (by omega) (by omega), hb3]; rfl)
    (by rw [hb _ (by omega) (by omega), hb4 (by omega)]; exact u8_of_lt (by omega))
    (hr1 (by omega)) (hr2 (by omega)) (hr3 (by omega))

/-! ## The special forms as sub-expressions -/

/-- `compile_and` on a list whose elements after the head meet their contracts. -/
theorem and_ok (symtab : symbol_table) (s0 : Sub) {ss : List Sub} {rs : List Effect}
    (h : SubsOK symtab ss rs) (list : List ast_node) (loc : SourceLoc) :
    SubOK symtab (fun c l => c.compile_and (s0 :: ss) l list loc) (and_effect rs) := by
  intro c l hsym hcap hsz
  have hlenE : (and_effect rs).len = and_loop_len rs + 5 := rfl
  rw [hlenE] at hsz
  obtain ⟨c1, l1, he1, hsz1, hsym1, hcap1, hk1, hn1, hkept, _, _, hrun1⟩ :=
    and_tail_ok symtab h c l [] hsym hcap (by omega) (PatchLocs_nil _)
  refine ⟨c1, l1, he1, by rw [hsz1, hlenE]; omega, ⟨hsym1, hcap1, by omega, ?_, hk1, hn1⟩,
    ?_⟩
  · intro x hx
    exact hkept x hx (fun u hu => absurd hu (List.not_mem_nil _))
  · intro host vm hload hl hip hroom
    exact hrun1 host vm hload (by rw [hlenE] at hl; exact hl) hip hroom

/-- `compile_or` on a list whose elements after the head meet their contracts. -/
theorem or_ok (symtab : symbol_table) (s0 : Sub) {ss : List Sub} {rs : List Effect}
    (h : SubsOK symtab ss rs) (list : List ast_node) (loc : SourceLoc) :
    SubOK symtab (fun c l => c.compile_or (s0 :: ss) l list loc) (or_effect rs) := by
  intro c l hsym hcap hsz
  have hlenE : (or_effect rs).len = or_loop_len rs + 5 := rfl
  rw [hlenE] at hsz
  obtain ⟨c1, l1, he1, hsz1, hsym1, hcap1, hk1, hn1, hkept, _, _, hrun1⟩ :=
    or_tail_ok symtab h c l [] hsym hcap (by omega) (PatchLocs_nil _)
  refine ⟨c1, l1, he1, by rw [hsz1, hlenE]; omega, ⟨hsym1, hcap1, by omega, ?_, hk1, hn1⟩,
    ?_⟩
  · intro x hx
    exact hkept x hx (fun u hu => absurd hu (List.not_mem_nil _))
  · intro host vm hload hl hip hroom
    exact hrun1 host vm hload (by rw [hlenE] at hl; exact hl) hip hroom

theorem SubsOK_length {symtab : symbol_table} {ss : List Sub} {rs : List Effect}
    (h : SubsOK symtab ss rs) : ss.length = rs.length := by
  induction h with
  | nil => rfl
  | cons _ _ ih => simp only [List.length_cons, ih]

theorem compile_each_length : ∀ es : List ast_node, (compile_each es).length = es.length
  | [] => by simp only [compile_each, List.length_nil]
  | x :: xs => by simp only [compile_each, List.length_cons, compile_each_length xs]

/-- `compile_do` on a list whose elements after the head meet their contracts. -/
theorem do_ok (symtab : symbol_table) (s0 : Sub) {ss : List Sub} {rs : List Effect}
    (h : SubsOK symtab ss rs) (list : List ast_node) (loc : SourceLoc)
    (hlist : list.length = ss.length + 1) :
    SubOK symtab (fun c l => c.compile_do (s0 :: ss) l list loc) (do_effect rs) := by
  cases h with
  | nil =>
    intro c l hsym hcap hsz
    have hsz1 : c.dest.size + 1 ≤ 2147483648 := hsz
    obtain ⟨c1, hw1, hs1, hd1, hp1, _, _⟩ := write_byte_ok c l OP_NULL hcap hsz1
    have hl1 : list.length = 1 := hlist
    refine ⟨c1, l.inc_sp, ?_, hs1, hp1, ?_⟩
    · simp only [compiler.compile_do, hl1, if_true, hw1, CResult_bind_ok]
    · intro host vm hload _ hip hroom
      have hop : vm.code.readByte vm.ip = OP_NULL := by
        rw [hip, hload.byte _ (Nat.le_refl _) (by omega), hd1]
        rfl
      have hcs := hload.2.2.2
      obtain ⟨vm1, hr1, hv1⟩ := run_push host vm OP_NULL V_NULL (step_switch_NULL host vm) hop
        hroom (by omega) (by omega)
      refine ⟨vm1, hr1.1, ?_, hv1⟩
      have := hr1.2
      rw [hip, ← hs1] at this
      exact this
  | cons hs hrest =>
    rename_i s r ss rs
    intro c l hsym hcap hsz
    have hne : ¬ list.length = 1 := by
      rw [hlist]
      simp
    have hres : c.compile_do (s0 :: s :: ss) l list loc = compile_do_loop (s :: ss) c l := by
      simp only [compiler.compile_do, hne, if_false, List.drop_succ_cons, List.drop_zero]
    obtain ⟨c1, l1, he1, hrest1⟩ := do_loop_ok symtab hrest s r hs c l hsym hcap hsz
    exact ⟨c1, l1, hres.trans he1, hrest1⟩

/-! ## Every side-effect-free form meets its contract -/

theorem SubsOK_three {symtab : symbol_table} {ss : List Sub} {a b c : Effect}
    (h : SubsOK symtab ss [a, b, c]) :
    ∃ sa sb sc, ss = [sa, sb, sc] ∧ SubOK symtab sa a ∧ SubOK symtab sb b ∧
      SubOK symtab sc c := by
  cases h with
  | cons ha h1 =>
    cases h1 with
    | cons hb h2 =>
      cases h2 with
      | cons hc h3 =>
        cases h3
        exact ⟨_, _, _, rfl, ha, hb, hc⟩

/-- The compilation of a list headed by one of the symbols `and`, `do`, `if`, `or`, whose
other elements meet their contracts, meets the contract of the form. -/
theorem SubOK_form (symtab : symbol_table) (sym : Nat) (hloc loc : SourceLoc)
    (args : List ast_node) (s : Symbol) (rs : List Effect) (r : Effect)
    (hidx : symtab.index sym = some s)
    (hr : (if s.name = "and" then some (and_effect rs)
        else if s.name = "def" then none
        else if s.name = "do" then some (do_effect rs)
        else if s.name = "if" then
          match rs with
          | [c, t, e] => some (if_effect c t e)
          | _ => none
        else if s.name = "let" then none
        else if s.name = "or" then some (or_effect rs)
        else none) = some r)
    (hsubs : SubsOK symtab (compile_each args) rs) :
    SubOK symtab
      (compile_subexpr
        (ast_node.ak_list (ast_node.ak_atom (ast_atom.at_symbol sym) hloc :: args) loc)) r := by
  have hunf : ∀ (c : compiler) (l : local_table), c.symtab = symtab →
      compile_subexpr
        (ast_node.ak_list (ast_node.ak_atom (ast_atom.at_symbol sym) hloc :: args) loc) c l
      = (if s.name = "and" then
          c.compile_and (compile_subexpr (ast_node.ak_atom (ast_atom.at_symbol sym) hloc)
            :: compile_each args) l
            (ast_node.ak_atom (ast_atom.at_symbol sym) hloc :: args) hloc
        else if s.name = "def" then
          c.compile_def (compile_subexpr (ast_node.ak_atom (ast_atom.at_symbol sym) hloc)
            :: compile_each args) l
            (ast_node.ak_atom (ast_atom.at_symbol sym) hloc :: args) hloc
        else if s.name = "do" then
          c.compile_do (compile_subexpr (ast_node.ak_atom (ast_atom.at_symbol sym) hloc)
            :: compile_each args) l
            (ast_node.ak_atom (ast_atom.at_symbol sym) hloc :: args) hloc
        else if s.name = "if" then
          c.compile_if (compile_subexpr (ast_node.ak_atom (ast_atom.at_symbol sym) hloc)
            :: compile_each args) l
            (ast_node.ak_atom (ast_atom.at_symbol sym) hloc :: args) hloc
        else if s.name = "let" then
          c.compile_let (compile_subexpr (ast_node.ak_atom (ast_atom.at_symbol sym) hloc)
            :: compile_each args) l
            (ast_node.ak_atom (ast_atom.at_symbol sym) hloc :: args) hloc
        else if s.name = "or" then
          c.compile_or (compile_subexpr (ast_node.ak_atom (ast_atom.at_symbol sym) hloc)
            :: compile_each args) l
            (ast_node.ak_atom (ast_atom.at_symbol sym) hloc :: args) hloc
        else
          c.compile_call (compile_subexpr (ast_node.ak_atom (ast_atom.at_symbol sym) hloc)
            :: compile_each args) l
            (ast_node.ak_atom (ast_atom.at_symbol sym) hloc :: args)) := by
    intro c l hsym
    simp only [compile_subexpr, compile_each, compiler.compile_list, hsym, hidx]
  by_cases h1 : s.name = "and"
  · rw [if_pos h1] at hr
    rw [← Option.some.inj hr]
    intro c l hsym hcap hsz
    have := and_ok symtab (compile_subexpr (ast_node.ak_atom (ast_atom.at_symbol sym) hloc))
      hsubs (ast_node.ak_atom (ast_atom.at_symbol sym) hloc :: args) hloc c l hsym hcap hsz
    rw [hunf c l hsym, if_pos h1]
    exact this
  · rw [if_neg h1] at hr
    by_cases h2 : s.name = "def"
    · rw [if_pos h2] at hr
      exact Option.noConfusion hr
    · rw [if_neg h2] at hr
      by_cases h3 : s.name = "do"
      · rw [if_pos h3] at hr
        rw [← Option.some.inj hr]
        intro c l hsym hcap hsz
        have := do_ok symtab (compile_subexpr (ast_node.ak_atom (ast_atom.at_symbol sym) hloc))
          hsubs (ast_node.ak_atom (ast_atom.at_symbol sym) hloc :: args) hloc
          (by rw [List.length_cons, compile_each_length]) c l hsym hcap hsz
        rw [hunf c l hsym, if_neg h1, if_neg h2, if_pos h3]
        exact this
      · rw [if_neg h3] at hr
        by_cases h4 : s.name = "if"
        · rw [if_pos h4] at hr
          match rs, hsubs, hr with
          | [rc, rt, re], hsubs, hr =>
            obtain ⟨sa, sb, sc, hss, ha, hb, hc⟩ := SubsOK_three hsubs
            rw [← Option.some.inj hr]
            intro c l hsym hcap hsz
            have hlen : (ast_node.ak_atom (ast_atom.at_symbol sym) hloc :: args).length = 4 := by
              rw [List.length_cons, ← compile_each_length, hss]
              rfl
            have := if_ok symtab
              (compile_subexpr (ast_node.ak_atom (ast_atom.at_symbol sym) hloc)
                :: compile_each args)
              (ast_node.ak_atom (ast_atom.at_symbol sym) hloc :: args) hloc sa sb sc rc rt re
              hlen (by rw [hss]; rfl) (by rw [hss]; rfl) (by rw [hss]; rfl) ha hb hc
              c l hsym hcap hsz
            rw [hunf c l hsym, if_neg h1, if_neg h2, if_neg h3, if_pos h4]
            exact this
          | [], _, hr => exact Option.noConfusion hr
          | [_], _, hr => exact Option.noConfusion hr
          | [_, _], _, hr => exact Option.noConfusion hr
          | _ :: _ :: _ :: _ :: _, _, hr => exact Option.noConfusion hr
        · rw [if_neg h4] at hr
          by_cases h5 : s.name = "let"
          · rw [if_pos h5] at hr
            exact Option.noConfusion hr
          · rw [if_neg h5] at hr
            by_cases h6 : s.name = "or"
            · rw [if_pos h6] at hr
              rw [← Option.some.inj hr]
              intro c l hsym hcap hsz
              have := or_ok symtab
                (compile_subexpr (ast_node.ak_atom (ast_atom.at_symbol sym) hloc))
                hsubs (ast_node.ak_atom (ast_atom.at_symbol sym) hloc :: args) hloc
                c l hsym hcap hsz
              rw [hunf c l hsym, if_neg h1, if_neg h2, if_neg h3, if_neg h4, if_neg h5,
                if_pos h6]
              exact this
            · rw [if_neg h6] at hr
              exact Option.noConfusion hr

mutual
/-- Every side-effect-free form meets the contract of its effect: `compile_subexpr` emits
`len` bytes, and running them pushes `val` and leaves `lp` in the last-pop register. -/
theorem pure_ok (symtab : symbol_table) :
    ∀ (e : ast_node) (r : Effect), pure_eval symtab e = some r →
      SubOK symtab (compile_subexpr e) r
  | ast_node.ak_atom (ast_atom.at_number num) loc, r, h => by
    simp only [pure_eval] at h
    rw [← Option.some.inj h]
    exact SubOK_number symtab num loc
  | ast_node.ak_atom (ast_atom.at_string _) _, r, h => by
    simp only [pure_eval] at h
    exact Option.noConfusion h
  | ast_node.ak_atom (ast_atom.at_symbol sym) loc, r, h => SubOK_symbol symtab sym loc r h
  | ast_node.ak_error _, r, h => by
    simp only [pure_eval] at h
    exact Option.noConfusion h
  | ast_node.ak_list [] _, r, h => by
    simp only [pure_eval] at h
    exact Option.noConfusion h
  | ast_node.ak_list (ast_node.ak_atom (ast_atom.at_number _) _ :: _) _, r, h => by
    simp only [pure_eval] at h
    exact Option.noConfusion h
  | ast_node.ak_list (ast_node.ak_atom (ast_atom.at_string _) _ :: _) _, r, h => by
    simp only [pure_eval] at h
    exact Option.noConfusion h
  | ast_node.ak_list (ast_node.ak_list _ _ :: _) _, r, h => by
    simp only [pure_eval] at h
    exact Option.noConfusion h
  | ast_node.ak_list (ast_node.ak_error _ :: _) _, r, h => by
    simp only [pure_eval] at h
    exact Option.noConfusion h
  | ast_node.ak_list (ast_node.ak_atom (ast_atom.at_symbol sym) hloc :: args) loc, r, h => by
    simp only [pure_eval] at h
    cases hidx : symtab.index sym with
    | none =>
      rw [hidx] at h
      exact Option.noConfusion h
    | some s =>
      cases hrs : pure_eval_each symtab args with
      | none =>
        rw [hidx, hrs] at h
        exact Option.noConfusion h
      | some rs =>
        rw [hidx, hrs] at h
        dsimp only at h
        exact SubOK_form symtab sym hloc loc args s rs r hidx h
          (pure_each_ok symtab args rs hrs)
/-- Every list of side-effect-free forms meets the contracts of its effects. -/
theorem pure_each_ok (symtab : symbol_table) :
    ∀ (es : List ast_node) (rs : List Effect), pure_eval_each symtab es = some rs →
      SubsOK symtab (compile_each es) rs
  | [], rs, h => by
    simp only [pure_eval_each] at h
    rw [← Option.some.inj h]
    simp only [compile_each]
    exact SubsOK.nil
  | x :: xs, rs, h => by
    simp only [pure_eval_each] at h
    cases hx : pure_eval symtab x with
    | none =>
      rw [hx] at h
      exact Option.noConfusion h
    | some r =>
      cases hxs : pure_eval_each symtab xs with
      | none =>
        rw [hx, hxs] at h
        exact Option.noConfusion h
      | some rs1 =>
        rw [hx, hxs] at h
        rw [← Option.some.inj h]
        simp only [compile_each]
        exact SubsOK.cons (pure_ok symtab x r hx) (pure_each_ok symtab xs rs1 hxs)
end

/-! ## Top-level forms of the side-effect-free fragment -/

/-- More fuel does not change the outcome of a run that has ended. -/
theorem execute_mono (host : Host) :
    ∀ (n : Nat) (vm : VM) (res : VMResult Unit), vm.execute host n = some res →
      ∀ k, vm.execute host (n + k) = some res := by
  intro n
  induction n with
  | zero =>
    intro vm res h k
    by_cases hip : vm.ip < vm.code.getSize
    · simp only [VM.execute, hip, if_true] at h
      exact Option.noConfusion h
    · simp only [VM.execute, hip, if_false] at h
      rw [Nat.zero_add]
      cases k <;> simp only [VM.execute, hip, if_false] <;> exact h
  | succ n ih =>
    intro vm res h k
    have e : n + 1 + k = (n + k) + 1 := by omega
    rw [e]
    by_cases hip : vm.ip < vm.code.getSize
    · simp only [VM.execute, hip, if_true] at h ⊢
      cases hs : vm.step host with
      | ok u vm1 =>
        rw [hs] at h
        simp only at h ⊢
        exact ih vm1 res h k
      | error e1 vm1 =>
        rw [hs] at h
        exact h
      | undefined =>
        rw [hs] at h
        exact h
    · simp only [VM.execute, hip, if_false] at h ⊢
      exact h

/-- A top-level form of the side-effect-free fragment whose code has at most 127 bytes:
`compile_expr` succeeds, and the emitted code, run from its first byte by a machine with one
free stack cell, ends at its last byte with the frame as it was, the value of the form in the
last-pop register and the stack below the frame's depth unchanged. -/
theorem pure_form_top (c : compiler) (e : ast_node) (r : Effect)
    (hpe : pure_eval c.symtab e = some r) (hcap : 0 < c.dest.cap)
    (hsz : c.dest.size + r.len + 1 ≤ 2147483648) :
    ∃ c1 l1, c.compile_expr e = CResult.ok () c1 l1 ∧
      c1.dest.size = c.dest.size + r.len + 1 ∧ Pres c c1 ∧
      ∀ (host : Host) (vm : VM), vm.code = c1.dest → c1.dest.constants.length < 65536 →
        r.len ≤ 127 → vm.ip = c.dest.size → vm.frame.sp + vm.frame.bp < STACK_SIZE - 1 →
        ∃ n vm1, (∀ fuel, vm.execute host (n + fuel) = some (VMResult.ok () vm1)) ∧
          Moved vm vm1 c1.dest.size vm.frame.sp (some r.val) := by
  obtain ⟨c1, l1, hc1, hs1, hp1, hrun⟩ :=
    compile_expr_ok c.symtab e r (pure_ok c.symtab e r hpe) c rfl hcap hsz
  refine ⟨c1, l1, hc1, hs1, hp1, ?_⟩
  intro host vm hcode hk hlen hip hroom
  have hload : Loaded vm.code c1.dest c.dest.size c1.dest.size := by
    rw [hcode]
    exact ⟨fun _ _ _ => rfl, List.prefix_refl _, hk, Nat.le_refl _⟩
  obtain ⟨vm1, hr, hm⟩ := hrun host vm hload hlen hip hroom
  obtain ⟨n, hn⟩ := hr.finish hm.2.1 (by rw [hm.1, hcode])
  exact ⟨n, vm1, hn, hm⟩

/-- Two runs of the same program with different fuel that both end have the same outcome. -/
theorem compile_and_run_unique (c : compiler) (host : Host) (exprs : List ast_node)
    (n m : Nat) (r1 r2 : VMResult Unit) (h1 : compile_and_run c host exprs n = some r1)
    (h2 : compile_and_run c host exprs m = some r2) : r1 = r2 := by
  unfold compile_and_run at h1 h2
  cases hc : c.compile_to_eof exprs with
  | ok u c1 l1 =>
    rw [hc] at h1 h2
    simp only at h1 h2
    have e1 := execute_mono host n _ r1 h1 m
    have e2 := execute_mono host m _ r2 h2 n
    rw [Nat.add_comm] at e2
    rw [e1] at e2
    exact Option.some.inj e2
  | error e c1 l1 =>
    rw [hc] at h1
    exact Option.noConfusion h1
  | undefined =>
    rw [hc] at h1
    exact Option.noConfusion h1
  | diverges =>
    rw [hc] at h1
    exact Option.noConfusion h1

/-- A run that is observed to end with one last-pop value is never observed to end with
another. -/
theorem observe_unique (c : compiler) (host : Host) (exprs : List ast_node)
    (n m : Nat) (o1 o2 : Value × Nat × Nat)
    (h1 : observe (compile_and_run c host exprs n) = some o1)
    (h2 : observe (compile_and_run c host exprs m) = some o2) : o1 = o2 := by
  cases hr1 : compile_and_run c host exprs n with
  | none =>
    rw [hr1] at h1
    exact Option.noConfusion h1
  | some r1 =>
    cases hr2 : compile_and_run c host exprs m with
    | none =>
      rw [hr2] at h2
      exact Option.noConfusion h2
    | some r2 =>
      have := compile_and_run_unique c host exprs n m r1 r2 hr1 hr2
      rw [hr2, ← this] at h2
      rw [hr1] at h1
      exact Option.some.inj (h1.symm.trans h2)

/-! ## C4: the values of `and` and `or` -/

/-- C1 (defect): the top-level form `(let x 1)`, compiled and executed from scratch, starts at
depth 0 and ends without error at the end of its 8 bytes of code with depth 1; no run of it
ends with depth 0.  `compile_let` emits nothing that removes the slot it reserves, and its
guard against a `let` at the top level is commented out. -/
theorem C1_let_leaves_depth_one :
    observe (compile_and_run ex_compiler ex_host [prog_let_x_1] 10) = some (V_NULL, 1, 8) ∧
      (ex_compiler.compile_to_eof [prog_let_x_1]).output.map (fun c => c.dest.size) = some 8 ∧
      ∀ n o, observe (compile_and_run ex_compiler ex_host [prog_let_x_1] n) = some o →
        o.2.1 ≠ 0 := by
  have h1 : observe (compile_and_run ex_compiler ex_host [prog_let_x_1] 10)
      = some (V_NULL, 1, 8) := by decide
  refine ⟨h1, by decide, ?_⟩
  intro n o ho
  rw [observe_unique ex_compiler ex_host [prog_let_x_1] n 10 o _ ho h1]
  decide

/-- The depth is restored by the forms that reserve no slot: for every top-level form of the
side-effect-free fragment (number literals, `null`, `true`, `false` and the forms `and`, `or`,
`do` and `if` over them) whose code has at most 127 bytes, `compile_expr` succeeds on a module
with room, and executing the emitted code (the form's code, then `OP_POP`) from its first
byte, with the frame at any depth `d` that leaves one stack cell free, ends without error at
the end of the emitted code with the frame as it was, so at depth `d` again; the value of the
form is in the last-pop register and the stack below depth `d` is unchanged. -/
theorem pure_forms_restore_depth (c : compiler) (host : Host) (e : ast_node) (r : Effect)
    (hpe : pure_eval c.symtab e = some r) (hlen : r.len ≤ 127) (hcap : 0 < c.dest.cap)
    (hsz : c.dest.size + r.len + 1 ≤ 2147483648)
    (hk : c.dest.constants.length + r.len + 1 < 65536) :
    ∃ c1 l1, c.compile_expr e = CResult.ok () c1 l1 ∧
      c1.dest.size = c.dest.size + r.len + 1 ∧
      ∀ vm : VM, vm.code = c1.dest → vm.ip = c.dest.size →
        vm.frame.sp + vm.frame.bp < STACK_SIZE - 1 →
        ∃ n vm1, (∀ fuel, vm.execute host (n + fuel) = some (VMResult.ok () vm1)) ∧
          vm1.ip = c1.dest.size ∧ vm1.frame = vm.frame ∧ vm1.frame.sp = vm.frame.sp ∧
          vm1.lp = r.val ∧
          ∀ a, a < vm.frame.bp + vm.frame.sp → vm1.stack a = vm.stack a := by
  obtain ⟨c1, l1, hc1, hs1, hp1, hrun⟩ := pure_form_top c e r hpe hcap hsz
  refine ⟨c1, l1, hc1, hs1, ?_⟩
  intro vm hcode hip hroom
  have hk1 : c1.dest.constants.length < 65536 := by
    have := hp1.2.2.2.2.2
    omega
  obtain ⟨n, vm1, hn, hm⟩ := hrun host vm hcode hk1 hlen hip hroom
  obtain ⟨iA, cA, sA, bA, kA⟩ := hm.facts
  refine ⟨n, vm1, hn, iA, ?_, sA, hm.2.2.2.2.1, kA⟩
  rw [hm.2.2.1]
  exact (frame_sp_eta vm.frame).symm

/-- The top-level form `(if true 10 20)` on a fresh module restores the depth. -/
theorem pure_forms_restore_depth_if_true :
    ∃ c1 l1, ex_compiler.compile_expr prog_if_true = CResult.ok () c1 l1 ∧
      c1.dest.size = ex_compiler.dest.size + 13 + 1 ∧
      ∀ vm : VM, vm.code = c1.dest → vm.ip = ex_compiler.dest.size →
        vm.frame.sp + vm.frame.bp < STACK_SIZE - 1 →
        ∃ n vm1, (∀ fuel, vm.execute ex_host (n + fuel) = some (VMResult.ok () vm1)) ∧
          vm1.ip = c1.dest.size ∧ vm1.frame = vm.frame ∧ vm1.frame.sp = vm.frame.sp ∧
          vm1.lp = as_value_num bits_10 ∧
          ∀ a, a < vm.frame.bp + vm.frame.sp → vm1.stack a = vm.stack a :=
  pure_forms_restore_depth ex_compiler ex_host prog_if_true
    ⟨13, as_value_num bits_10, none⟩ (by decide) (by decide) (by decide) (by decide)
    (by decide)

/-! ## C21: `ip` advances by the width of the instruction -/

theorem VMResult_bind_eq_ok {α β : Type} {r : VMResult α} {f : α → VM → VMResult β} {b : β}
    {vm2 : VM} (h : r.bind f = VMResult.ok b vm2) :
    ∃ a vm1, r = VMResult.ok a vm1 ∧ f a vm1 = VMResult.ok b vm2 := by
  cases r with
  | ok a vm1 => exact ⟨a, vm1, rfl, h⟩
  | error e vm1 => exact absurd h (by simp [VMResult.bind])
  | undefined => exact absurd h (by simp [VMResult.bind])

theorem throwError_ne_ok {α : Type} (vm : VM) (s m : String) (a : α) (vm1 : VM) :
    (vm.throwError s m : VMResult α) ≠ VMResult.ok a vm1 := by
  unfold VM.throwError
  cases vm.code.locationOf vm.ip <;> simp

theorem push_ip {vm vm1 : VM} {v : Value} {u : Unit} (h : vm.push v = VMResult.ok u vm1) :
    vm1.ip = vm.ip := by
  unfold VM.push at h
  split_ifs at h with h1
  · exact absurd h (throwError_ne_ok _ _ _ _ _)
  · cases h
    rfl

theorem pop_ip {vm vm1 : VM} {v : Value} (h : vm.pop = VMResult.ok v vm1) :
    vm1.ip = vm.ip := by
  unfold VM.pop at h
  split_ifs at h with h1
  · exact absurd h (throwError_ne_ok _ _ _ _ _)
  · cases h
    rfl

theorem popTimes_ip {vm vm1 : VM} {n : Nat} {v : Value}
    (h : vm.popTimes n = VMResult.ok v vm1) : vm1.ip = vm.ip := by
  unfold VM.popTimes at h
  split_ifs at h with h1
  · exact absurd h (throwError_ne_ok _ _ _ _ _)
  · cases h
    rfl

theorem peek_ip {vm vm1 : VM} {i : Nat} {v : Value} (h : vm.peek i = VMResult.ok v vm1) :
    vm1 = vm := by
  unfold VM.peek at h
  split_ifs at h with h1
  · exact absurd h (throwError_ne_ok _ _ _ _ _)
  · cases h
    rfl

theorem local_ip {vm vm1 : VM} {i : Nat} {v : Value} (h : vm.local i = VMResult.ok v vm1) :
    vm1 = vm := by
  unfold VM.local at h
  simp only at h
  split_ifs at h with h1
  · exact absurd h (throwError_ne_ok _ _ _ _ _)
  · cases h
    rfl

theorem setLocal_ip {vm vm1 : VM} {i : Nat} {v : Value} {u : Unit}
    (h : vm.setLocal i v = VMResult.ok u vm1) : vm1.ip = vm.ip := by
  unfold VM.setLocal at h
  simp only at h
  split_ifs at h with h1
  · exact absurd h (throwError_ne_ok _ _ _ _ _)
  · cases h
    rfl

theorem getUpvalue_ip {vm vm1 : VM} {id : Nat} {p : Option Nat}
    (h : vm.getUpvalue id = VMResult.ok p vm1) : vm1 = vm := by
  unfold VM.getUpvalue at h
  split at h
  · exact absurd h (throwError_ne_ok _ _ _ _ _)
  · split at h
    · exact absurd h (by simp)
    · split_ifs at h with h1
      · exact absurd h (throwError_ne_ok _ _ _ _ _)
      · split at h
        · exact absurd h (by simp)
        · cases h
          rfl

/-- The loop of `OP_CLOSURE` does not move `ip`. -/
theorem closureLoop_ip (stub : FuncStub) (func : Nat) :
    ∀ (k i : Nat) (vm vm1 : VM) (u : Unit),
      VM.closureLoop stub func k i vm = VMResult.ok u vm1 → vm1.ip = vm.ip := by
  intro k
  induction k with
  | zero =>
    intro i vm vm1 u h
    simp only [VM.closureLoop] at h
    cases h
    rfl
  | succ k ih =>
    intro i vm vm1 u h
    simp only [VM.closureLoop] at h
    split at h
    · exact absurd h (by simp)
    · rename_i up hup
      obtain ⟨p, vmB, hr, hrest⟩ := VMResult_bind_eq_ok h
      have hB : vmB.ip = vm.ip := by
        split_ifs at hr with hd
        · cases hr
          rfl
        · rw [getUpvalue_ip hr]
      split at hrest
      · rw [ih _ _ _ _ hrest]
        exact hB
      · exact absurd hrest (by simp)

/-- What the cases of the switch that never jump leave in `ip`: the address of the last operand
byte, so that the `++ip` after the switch ends on the next instruction. -/
theorem step_POP_ip {vm vmA : VM} {j : Option Nat} (h : vm.step_POP = VMResult.ok j vmA) :
    j = none ∧ vmA.ip = vm.ip := by
  obtain ⟨v, vm1, h1, h2⟩ := VMResult_bind_eq_ok h
  cases h2
  exact ⟨rfl, (pop_ip h1 : vm1.ip = vm.ip)⟩

theorem step_COPY_ip {vm vmA : VM} {j : Option Nat} (h : vm.step_COPY = VMResult.ok j vmA) :
    j = none ∧ vmA.ip = u32 (vm.ip + 1) := by
  obtain ⟨v, vm1, h1, h2⟩ := VMResult_bind_eq_ok h
  obtain ⟨u, vm2, h3, h4⟩ := VMResult_bind_eq_ok h2
  cases h4
  refine ⟨rfl, ?_⟩
  show u32 (vm2.ip + 1) = _
  rw [push_ip h3, peek_ip h1]

theorem step_LOCAL_ip {vm vmA : VM} {j : Option Nat} (h : vm.step_LOCAL = VMResult.ok j vmA) :
    j = none ∧ vmA.ip = u32 (vm.ip + 1) := by
  obtain ⟨v, vm1, h1, h2⟩ := VMResult_bind_eq_ok h
  obtain ⟨u, vm2, h3, h4⟩ := VMResult_bind_eq_ok h2
  cases h4
  refine ⟨rfl, ?_⟩
  show u32 (vm2.ip + 1) = _
  rw [push_ip h3, local_ip h1]

theorem step_SET_LOCAL_ip {vm vmA : VM} {j : Option Nat}
    (h : vm.step_SET_LOCAL = VMResult.ok j vmA) : j = none ∧ vmA.ip = u32 (vm.ip + 1) := by
  obtain ⟨v, vm1, h1, h2⟩ := VMResult_bind_eq_ok h
  obtain ⟨u, vm2, h3, h4⟩ := VMResult_bind_eq_ok h2
  cases h4
  refine ⟨rfl, ?_⟩
  show u32 (vm2.ip + 1) = _
  rw [setLocal_ip h3, pop_ip h1]

theorem step_UPVALUE_ip {vm vmA : VM} {j : Option Nat}
    (h : vm.step_UPVALUE = VMResult.ok j vmA) : j = none ∧ vmA.ip = u32 (vm.ip + 1) := by
  unfold VM.step_UPVALUE at h
  simp only at h
  split at h
  · exact absurd h (by simp)
  · split at h
    · exact absurd h (by simp)
    · obtain ⟨u, vm1, h1, h2⟩ := VMResult_bind_eq_ok h
      cases h2
      refine ⟨rfl, ?_⟩
      show u32 (vm1.ip + 1) = _
      rw [push_ip h1]

theorem writeVal_ip {vm vm1 : VM} {p : ValPtr} {v : Value} (h : vm.writeVal p v = some vm1) :
    vm1.ip = vm.ip := by
  unfold VM.writeVal at h
  split at h
  · cases h
    rfl
  · split_ifs at h with h1
    cases h
    rfl

theorem step_SET_UPVALUE_ip {vm vmA : VM} {j : Option Nat}
    (h : vm.step_SET_UPVALUE = VMResult.ok j vmA) : j = none ∧ vmA.ip = u32 (vm.ip + 1) := by
  unfold VM.step_SET_UPVALUE at h
  simp only at h
  split at h
  · exact absurd h (by simp)
  · obtain ⟨v, vm1, h1, h2⟩ := VMResult_bind_eq_ok h
    split at h2
    · exact absurd h2 (by simp)
    · rename_i vm2 hw
      cases h2
      refine ⟨rfl, ?_⟩
      show u32 (vm2.ip + 1) = _
      rw [writeVal_ip hw, pop_ip h1]

theorem step_CLOSURE_ip {vm vmA : VM} {j : Option Nat}
    (h : vm.step_CLOSURE = VMResult.ok j vmA) : j = none ∧ vmA.ip = u32 (vm.ip + 2) := by
  unfold VM.step_CLOSURE at h
  simp only at h
  split at h
  · exact absurd h (by simp)
  · obtain ⟨u, vm1, h1, h2⟩ := VMResult_bind_eq_ok h
    obtain ⟨u2, vm2, h3, h4⟩ := VMResult_bind_eq_ok h2
    cases h4
    refine ⟨rfl, ?_⟩
    show u32 (vm2.ip + 2) = _
    rw [push_ip h3, closureLoop_ip _ _ _ _ _ _ _ h1]

theorem step_CLOSE_ip {vm vmA : VM} {j : Option Nat}
    (h : vm.step_CLOSE = VMResult.ok j vmA) : j = none ∧ vmA.ip = u32 (vm.ip + 1) := by
  unfold VM.step_CLOSE at h
  simp only at h
  split at h
  · exact absurd h (by simp)
  · cases h
    exact ⟨rfl, rfl⟩

theorem step_GLOBAL_ip {vm vmA : VM} {j : Option Nat}
    (h : vm.step_GLOBAL = VMResult.ok j vmA) : j = none ∧ vmA.ip = vm.ip := by
  obtain ⟨v, vm1, h1, h2⟩ := VMResult_bind_eq_ok h
  split_ifs at h2 with hs
  · exact absurd h2 (throwError_ne_ok _ _ _ _ _)
  · split at h2
    · exact absurd h2 (by simp)
    · obtain ⟨u, vm2, h3, h4⟩ := VMResult_bind_eq_ok h2
      cases h4
      exact ⟨rfl, (push_ip h3).trans (pop_ip h1)⟩

theorem step_SET_GLOBAL_ip {vm vmA : VM} {j : Option Nat}
    (h : vm.step_SET_GLOBAL = VMResult.ok j vmA) : j = none ∧ vmA.ip = vm.ip := by
  obtain ⟨v, vm1, h1, h2⟩ := VMResult_bind_eq_ok h
  obtain ⟨v2, vm2, h3, h4⟩ := VMResult_bind_eq_ok h2
  split at h4
  · exact absurd h4 (by simp)
  · cases h4
    exact ⟨rfl, (pop_ip h3).trans (pop_ip h1)⟩

theorem step_CONST_ip {vm vmA : VM} {j : Option Nat}
    (h : vm.step_CONST = VMResult.ok j vmA) : j = none ∧ vmA.ip = u32 (vm.ip + 2) := by
  unfold VM.step_CONST at h
  simp only at h
  split_ifs at h with h1
  · exact absurd h (throwError_ne_ok _ _ _ _ _)
  · split at h
    · exact absurd h (by simp)
    · obtain ⟨u, vm1, h2, h3⟩ := VMResult_bind_eq_ok h
      cases h3
      refine ⟨rfl, ?_⟩
      show u32 (vm1.ip + 2) = _
      rw [push_ip h2]

theorem step_push_ip {vm vmA : VM} {v : Value} {j : Option Nat}
    (h : vm.step_push v = VMResult.ok j vmA) : j = none ∧ vmA.ip = vm.ip := by
  obtain ⟨u, vm1, h1, h2⟩ := VMResult_bind_eq_ok h
  cases h2
  exact ⟨rfl, push_ip h1⟩

/-- Case `OP_CJUMP`: no jump on a truthy value, with `ip` moved by 2; a jump otherwise. -/
theorem step_CJUMP_ip {vm vmA : VM} {j : Option Nat}
    (h : vm.step_CJUMP = VMResult.ok j vmA) :
    (j = none ∧ vmA.ip = u32 (vm.ip + 2)) ∨
      (∃ addr v vm1, j = some addr ∧ vm.pop = VMResult.ok v vm1 ∧ isTruthy v = false) := by
  obtain ⟨v, vm1, h1, h2⟩ := VMResult_bind_eq_ok h
  split_ifs at h2 with ht
  · simp only [VMResult.ok.injEq] at h2
    exact Or.inr ⟨_, v, vm1, h2.1.symm, h1, by simpa using ht⟩
  · simp only [VMResult.ok.injEq] at h2
    refine Or.inl ⟨h2.1.symm, ?_⟩
    rw [← h2.2]
    show u32 (vm1.ip + 2) = _
    rw [pop_ip h1]

/-- Case `OP_CALL`: no jump on a foreign function, with `ip` moved by 1, when the host function
leaves `ip` alone; a jump on a closure. -/
theorem step_CALL_ip {host : Host} {vm vmA : VM} {j : Option Nat}
    (hhost : ∀ f n a (s : VM) v (s1 : VM), host f n a s = VMResult.ok v s1 → s1.ip = s.ip)
    (h : vm.step_CALL host = VMResult.ok j vmA) :
    (j = none ∧ vmA.ip = u32 (vm.ip + 1)) ∨
      (∃ addr v vm1, j = some addr ∧
        vm.peek (vm.code.readByte (u32 (vm.ip + 1))) = VMResult.ok v vm1 ∧ isFunc v = true) := by
  unfold VM.step_CALL at h
  simp only at h
  obtain ⟨v1, vm1, h1, h2⟩ := VMResult_bind_eq_ok h
  have e1 := peek_ip h1
  split_ifs at h2 with hf hg
  · split at h2
    · exact absurd h2 (by simp)
    · split_ifs at h2 with ha hb
      · exact absurd h2 (throwError_ne_ok _ _ _ _ _)
      · exact absurd h2 (throwError_ne_ok _ _ _ _ _)
      · simp only [VMResult.ok.injEq] at h2
        exact Or.inr ⟨_, v1, vm1, h2.1.symm, h1, hf⟩
  · split at h2
    · exact absurd h2 (by simp)
    · rename_i f hvf
      obtain ⟨v2, vm2, h3, h4⟩ := VMResult_bind_eq_ok h2
      obtain ⟨v3, vm3, h5, h6⟩ := VMResult_bind_eq_ok h4
      obtain ⟨u, vm4, h7, h8⟩ := VMResult_bind_eq_ok h6
      cases h8
      have e2 : vm2.ip = vm1.ip := by
        split_ifs at h3 with ha hb
        · cases h3
          rfl
        · cases h3
          rfl
        · exact hhost _ _ _ _ _ _ h3
      refine Or.inl ⟨rfl, ?_⟩
      show u32 (vm4.ip + 1) = _
      rw [push_ip h7, popTimes_ip h5, e2, e1]
  · exact absurd h2 (throwError_ne_ok _ _ _ _ _)

theorem step_switch_NOP (host : Host) (vm : VM) :
    vm.step_switch host OP_NOP = VMResult.ok none vm := by
  simp [VM.step_switch, OP_CALL, OP_NOP, OP_POP, OP_COPY, OP_LOCAL, OP_SET_LOCAL, OP_UPVALUE,
    OP_SET_UPVALUE, OP_CLOSURE, OP_CLOSE, OP_GLOBAL, OP_SET_GLOBAL, OP_CONST, OP_NULL, OP_FALSE,
    OP_TRUE, OP_JUMP, OP_CJUMP, OP_RETURN]

theorem step_switch_COPY (host : Host) (vm : VM) :
    vm.step_switch host OP_COPY = vm.step_COPY := by
  simp [VM.step_switch, OP_CALL, OP_NOP, OP_POP, OP_COPY, OP_LOCAL, OP_SET_LOCAL, OP_UPVALUE,
    OP_SET_UPVALUE, OP_CLOSURE, OP_CLOSE, OP_GLOBAL, OP_SET_GLOBAL, OP_CONST, OP_NULL, OP_FALSE,
    OP_TRUE, OP_JUMP, OP_CJUMP, OP_RETURN]

theorem step_switch_LOCAL (host : Host) (vm : VM) :
    vm.step_switch host OP_LOCAL = vm.step_LOCAL := by
  simp [VM.step_switch, OP_CALL, OP_NOP, OP_POP, OP_COPY, OP_LOCAL, OP_SET_LOCAL, OP_UPVALUE,
    OP_SET_UPVALUE, OP_CLOSURE, OP_CLOSE, OP_GLOBAL, OP_SET_GLOBAL, OP_CONST, OP_NULL, OP_FALSE,
    OP_TRUE, OP_JUMP, OP_CJUMP, OP_RETURN]

theorem step_switch_SET_LOCAL (host : Host) (vm : VM) :
    vm.step_switch host OP_SET_LOCAL = vm.step_SET_LOCAL := by
  simp [VM.step_switch, OP_CALL, OP_NOP, OP_POP, OP_COPY, OP_LOCAL, OP_SET_LOCAL, OP_UPVALUE,
    OP_SET_UPVALUE, OP_CLOSURE, OP_CLOSE, OP_GLOBAL, OP_SET_GLOBAL, OP_CONST, OP_NULL, OP_FALSE,
    OP_TRUE, OP_JUMP, OP_CJUMP, OP_RETURN]

theorem step_switch_CLOSE (host : Host) (vm : VM) :
    vm.step_switch host OP_CLOSE = vm.step_CLOSE := by
  simp [VM.step_switch, OP_CALL, OP_NOP, OP_POP, OP_COPY, OP_LOCAL, OP_SET_LOCAL, OP_UPVALUE,
    OP_SET_UPVALUE, OP_CLOSURE, OP_CLOSE, OP_GLOBAL, OP_SET_GLOBAL, OP_CONST, OP_NULL, OP_FALSE,
    OP_TRUE, OP_JUMP, OP_CJUMP, OP_RETURN]

theorem step_switch_SET_GLOBAL (host : Host) (vm : VM) :
    vm.step_switch host OP_SET_GLOBAL = vm.step_SET_GLOBAL := by
  simp [VM.step_switch, OP_CALL, OP_NOP, OP_POP, OP_COPY, OP_LOCAL, OP_SET_LOCAL, OP_UPVALUE,
    OP_SET_UPVALUE, OP_CLOSURE, OP_CLOSE, OP_GLOBAL, OP_SET_GLOBAL, OP_CONST, OP_NULL, OP_FALSE,
    OP_TRUE, OP_JUMP, OP_CJUMP, OP_RETURN]

/-- C21: a step of `VM::step` whose case of the switch ends without raising and without setting
`jump` leaves `ip` at `ip + instr_width(opcode)`, in 32-bit arithmetic, for every opcode the
switch handles, given that host functions leave `ip` alone.  A case that sets `jump` ends at the
jump address, and only four opcodes do so: `OP_JUMP`, `OP_CJUMP` on a value that is not truthy,
`OP_CALL` on a closure, and `OP_RETURN`. -/
theorem C21_ip_advances_by_width (host : Host) (vm vmA : VM) (j : Option Nat)
    (hhost : ∀ f n a (s : VM) v (s1 : VM), host f n a s = VMResult.ok v s1 → s1.ip = s.ip)
    (hsw : vm.step_switch host (vm.code.readByte vm.ip) = VMResult.ok j vmA) :
    (j = none →
      ∃ vm1, vm.step host = VMResult.ok () vm1 ∧
        vm1.ip = u32 (vm.ip + instr_width (vm.code.readByte vm.ip))) ∧
    (∀ addr, j = some addr →
      (∃ vm1, vm.step host = VMResult.ok () vm1 ∧ vm1.ip = addr) ∧
      (vm.code.readByte vm.ip = OP_JUMP ∨
        (vm.code.readByte vm.ip = OP_CJUMP ∧
          ∃ v vm1, vm.pop = VMResult.ok v vm1 ∧ isTruthy v = false) ∨
        (vm.code.readByte vm.ip = OP_CALL ∧
          ∃ v vm1, vm.peek (vm.code.readByte (u32 (vm.ip + 1))) = VMResult.ok v vm1 ∧
            isFunc v = true) ∨
        vm.code.readByte vm.ip = OP_RETURN)) := by
  have hnone : j = none →
      vm.step host = VMResult.ok () { vmA with ip := u32 (vmA.ip + 1) } := by
    intro hj
    unfold VM.step
    rw [hsw, hj]
    rfl
  have hsome : ∀ addr, j = some addr →
      vm.step host = VMResult.ok () { vmA with ip := addr } := by
    intro addr hj
    unfold VM.step
    rw [hsw, hj]
    rfl
  -- what each case leaves
  have key : (j = none ∧ u32 (vmA.ip + 1)
        = u32 (vm.ip + instr_width (vm.code.readByte vm.ip))) ∨
      (∃ addr, j = some addr ∧
        (vm.code.readByte vm.ip = OP_JUMP ∨
          (vm.code.readByte vm.ip = OP_CJUMP ∧
            ∃ v vm1, vm.pop = VMResult.ok v vm1 ∧ isTruthy v = false) ∨
          (vm.code.readByte vm.ip = OP_CALL ∧
            ∃ v vm1, vm.peek (vm.code.readByte (u32 (vm.ip + 1))) = VMResult.ok v vm1 ∧
              isFunc v = true) ∨
          vm.code.readByte vm.ip = OP_RETURN)) := by
    have hadd : ∀ a b : Nat, u32 (u32 (a + b) + 1) = u32 (a + (b + 1)) := by
      intro a b
      unfold u32
      omega
    generalize vm.code.readByte vm.ip = instr at hsw ⊢
    by_cases h0 : instr = OP_NOP
    · subst h0
      rw [step_switch_NOP] at hsw
      cases hsw
      exact Or.inl ⟨rfl, rfl⟩
    by_cases h1 : instr = OP_POP
    · subst h1
      rw [step_switch_POP] at hsw
      obtain ⟨a, b⟩ := step_POP_ip hsw
      exact Or.inl ⟨a, by rw [b]; rfl⟩
    by_cases h2 : instr = OP_COPY
    · subst h2
      rw [step_switch_COPY] at hsw
      obtain ⟨a, b⟩ := step_COPY_ip hsw
      exact Or.inl ⟨a, by rw [b, hadd]; rfl⟩
    by_cases h3 : instr = OP_LOCAL
    · subst h3
      rw [step_switch_LOCAL] at hsw
      obtain ⟨a, b⟩ := step_LOCAL_ip hsw
      exact Or.inl ⟨a, by rw [b, hadd]; rfl⟩
    by_cases h4 : instr = OP_SET_LOCAL
    · subst h4
      rw [step_switch_SET_LOCAL] at hsw
      obtain ⟨a, b⟩ := step_SET_LOCAL_ip hsw
      exact Or.inl ⟨a, by rw [b, hadd]; rfl⟩
    by_cases h5 : instr = OP_UPVALUE
    · subst h5
      rw [step_switch_UPVALUE] at hsw
      obtain ⟨a, b⟩ := step_UPVALUE_ip hsw
      exact Or.inl ⟨a, by rw [b, hadd]; rfl⟩
    by_cases h6 : instr = OP_SET_UPVALUE
    · subst h6
      rw [step_switch_SET_UPVALUE] at hsw
      obtain ⟨a, b⟩ := step_SET_UPVALUE_ip hsw
      exact Or.inl ⟨a, by rw [b, hadd]; rfl⟩
    by_cases h7 : instr = OP_CLOSURE
    · subst h7
      rw [step_switch_CLOSURE] at hsw
      obtain ⟨a, b⟩ := step_CLOSURE_ip hsw
      exact Or.inl ⟨a, by rw [b, hadd]; rfl⟩
    by_cases h8 : instr = OP_CLOSE
    · subst h8
      rw [step_switch_CLOSE] at hsw
      obtain ⟨a, b⟩ := step_CLOSE_ip hsw
      exact Or.inl ⟨a, by rw [b, hadd]; rfl⟩
    by_cases h9 : instr = OP_GLOBAL
    · subst h9
      rw [step_switch_GLOBAL] at hsw
      obtain ⟨a, b⟩ := step_GLOBAL_ip hsw
      exact Or.inl ⟨a, by rw [b]; rfl⟩
    by_cases h10 : instr = OP_SET_GLOBAL
    · subst h10
      rw [step_switch_SET_GLOBAL] at hsw
      obtain ⟨a, b⟩ := step_SET_GLOBAL_ip hsw
      exact Or.inl ⟨a, by rw [b]; rfl⟩
    by_cases h11 : instr = OP_CONST
    · subst h11
      rw [step_switch_CONST] at hsw
      obtain ⟨a, b⟩ := step_CONST_ip hsw
      exact Or.inl ⟨a, by rw [b, hadd]; rfl⟩
    by_cases h12 : instr = OP_NULL
    · subst h12
      rw [step_switch_NULL] at hsw
      obtain ⟨a, b⟩ := step_push_ip hsw
      exact Or.inl ⟨a, by rw [b]; rfl⟩
    by_cases h13 : instr = OP_FALSE
    · subst h13
      rw [step_switch_FALSE] at hsw
      obtain ⟨a, b⟩ := step_push_ip hsw
      exact Or.inl ⟨a, by rw [b]; rfl⟩
    by_cases h14 : instr = OP_TRUE
    · subst h14
      rw [step_switch_TRUE] at hsw
      obtain ⟨a, b⟩ := step_push_ip hsw
      exact Or.inl ⟨a, by rw [b]; rfl⟩
    by_cases h15 : instr = OP_JUMP
    · subst h15
      rw [step_switch_JUMP] at hsw
      unfold VM.step_JUMP at hsw
      simp only [VMResult.ok.injEq] at hsw
      exact Or.inr ⟨_, hsw.1.symm, Or.inl rfl⟩
    by_cases h16 : instr = OP_CJUMP
    · subst h16
      rw [step_switch_CJUMP] at hsw
      rcases step_CJUMP_ip hsw with ⟨a, b⟩ | ⟨addr, v, vm1, a, b, c⟩
      · exact Or.inl ⟨a, by rw [b, hadd]; rfl⟩
      · exact Or.inr ⟨addr, a, Or.inr (Or.inl ⟨rfl, v, vm1, b, c⟩)⟩
    by_cases h17 : instr = OP_CALL
    · subst h17
      rw [step_switch_CALL] at hsw
      rcases step_CALL_ip hhost hsw with ⟨a, b⟩ | ⟨addr, v, vm1, a, b, c⟩
      · exact Or.inl ⟨a, by rw [b, hadd]; rfl⟩
      · exact Or.inr ⟨addr, a, Or.inr (Or.inr (Or.inl ⟨rfl, v, vm1, b, c⟩))⟩
    by_cases h18 : instr = OP_RETURN
    · subst h18
      rw [step_switch_RETURN] at hsw
      unfold VM.step_RETURN at hsw
      split at hsw
      · exact absurd hsw (throwError_ne_ok _ _ _ _ _)
      · obtain ⟨v1, vm1, e1, e2⟩ := VMResult_bind_eq_ok hsw
        simp only at e2
        split at e2
        · exact absurd e2 (by simp)
        · split at e2
          · exact absurd e2 (by simp)
          · obtain ⟨v2, vm2, e3, e4⟩ := VMResult_bind_eq_ok e2
            obtain ⟨u, vm3, e5, e6⟩ := VMResult_bind_eq_ok e4
            simp only [VMResult.ok.injEq] at e6
            exact Or.inr ⟨_, e6.1.symm, Or.inr (Or.inr (Or.inr rfl))⟩
    rw [VM.step_switch, if_neg h0, if_neg h1, if_neg h2, if_neg h3, if_neg h4, if_neg h5, if_neg h6, if_neg h7, if_neg h8, if_neg h9, if_neg h10, if_neg h11, if_neg h12, if_neg h13, if_neg h14, if_neg h15, if_neg h16, if_neg h17, if_neg h18] at hsw
    exact absurd hsw (throwError_ne_ok _ _ _ _ _)
  constructor
  · intro hj
    rcases key with ⟨_, b⟩ | ⟨addr, a, _⟩
    · exact ⟨_, hnone hj, b⟩
    · rw [hj] at a
      exact absurd a (by simp)
  · intro addr hj
    rcases key with ⟨a, _⟩ | ⟨addr1, a, b⟩
    · rw [hj] at a
      exact absurd a (by simp)
    · exact ⟨⟨_, hsome addr hj, rfl⟩, b⟩

theorem C21_ip_advances_by_width_witness :
    (∃ vm1, ex_vm_cjump_num.step ex_host = VMResult.ok () vm1 ∧
      vm1.ip = u32 (ex_vm_cjump_num.ip + instr_width OP_CJUMP)) ∧
    (∃ vm1, ex_vm_foreign_nullary.step ex_host_seven = VMResult.ok () vm1 ∧
      vm1.ip = u32 (ex_vm_foreign_nullary.ip + instr_width OP_CALL)) :=
  ⟨(C21_ip_advances_by_width ex_host ex_vm_cjump_num
      _ none (fun _ _ _ _ _ _ h => absurd h (by simp [ex_host])) rfl).1 rfl,
   (C21_ip_advances_by_width ex_host_seven ex_vm_foreign_nullary
      _ none
      (fun _ _ _ _ _ _ h => by
        simp only [ex_host_seven, VMResult.ok.injEq] at h
        rw [h.2]) rfl).1 rfl⟩

/-! ## C26: shorts -/

/-- C26: on a module of size `a` with room for two more bytes, `writeShort(s)` of a 16-bit `s`
appends the byte `s & 0xff` and then the byte `s >> 8`, increases the size by 2, keeps the bytes
below `a`, and `readShort(a)` then returns `s`; and for `addr + 1 < size`, `patchShort(addr, s)`
makes `readShort(addr)` return `s`, keeps the size and keeps every byte other than those at
`addr` and `addr + 1`. -/
theorem C26_short_round_trip (b : Bytecode) (s : Nat) (hs : s < 65536) :
    (0 < b.cap → b.size + 2 ≤ 2147483648 →
      ∃ b2, b.writeShort s = some b2 ∧ b2.size = b.size + 2 ∧
        b2.readByte b.size = s &&& 0xff ∧ b2.readByte (b.size + 1) = s >>> 8 ∧
        (∀ a, a < b.size → b2.data a = b.data a) ∧ b2.readShort b.size = s) ∧
    (∀ addr, addr + 1 < b.size → b.size ≤ 4294967296 →
      (b.patchShort addr s).readShort addr = s ∧ (b.patchShort addr s).size = b.size ∧
      ∀ a, a ≠ addr → a ≠ addr + 1 → (b.patchShort addr s).data a = b.data a) := by
  have hlo : u8 (u8 (s &&& 255)) = s &&& 255 := by
    rw [u8_u8, and_255]
    exact Nat.mod_mod _ _
  have hhi : u8 (u8 (s >>> 8)) = s >>> 8 := by
    rw [u8_u8, Nat.shiftRight_eq_div_pow]
    apply Nat.mod_eq_of_lt
    have : s / 2 ^ 8 = s / 256 := rfl
    omega
  constructor
  · intro hcap hsz
    obtain ⟨b2, hw, hsz2, hd, _, _⟩ := writeShort_ok b s hcap hsz
    have hu : u32 (b.size + 1) = b.size + 1 := u32_of_lt (by omega)
    have hne : b.size ≠ b.size + 1 := by omega
    have h0 : b2.data b.size = u8 (u8 (s &&& 255)) := by
      rw [hd]
      simp only [hne, if_false, if_true]
    have h1 : b2.data (b.size + 1) = u8 (u8 (s >>> 8)) := by
      rw [hd]
      simp only [if_true]
    refine ⟨b2, hw, hsz2, ?_, ?_, ?_, ?_⟩
    · show u8 (b2.data b.size) = s &&& 255
      rw [h0, u8_u8, hlo]
    · show u8 (b2.data (b.size + 1)) = s >>> 8
      rw [h1, u8_u8, hhi]
    · intro a ha
      have e1 : a ≠ b.size + 1 := by omega
      have e2 : a ≠ b.size := by omega
      rw [hd]
      simp only [e1, e2, if_false]
    · show u16 ((u8 (b2.data (u32 (b.size + 1))) <<< 8) ||| u8 (b2.data b.size)) = s
      rw [hu, h0, h1]
      have e := short_of_bytes s hs
      simp only [u8_u8] at e ⊢
      exact e
  · intro addr haddr hsz
    have hu : u32 (addr + 1) = addr + 1 := u32_of_lt (by omega)
    have hne : addr ≠ addr + 1 := by omega
    refine ⟨?_, rfl, ?_⟩
    · show u16 ((u8 ((b.patchShort addr s).data (u32 (addr + 1))) <<< 8)
        ||| u8 ((b.patchShort addr s).data addr)) = s
      have h1 : (b.patchShort addr s).data (u32 (addr + 1)) = u8 (s >>> 8) := by
        simp only [Bytecode.patchShort, if_true]
      have h0 : (b.patchShort addr s).data addr = u8 (s &&& 255) := by
        simp only [Bytecode.patchShort, hu, hne, if_false, if_true]
      rw [h1, h0]
      exact short_of_bytes s hs
    · intro a ha1 ha2
      simp only [Bytecode.patchShort, hu, ha1, ha2, if_false]

theorem C26_short_round_trip_witness :
    (∃ b2, Bytecode.new.writeShort 0x1234 = some b2 ∧ b2.size = Bytecode.new.size + 2 ∧
        b2.readByte Bytecode.new.size = 0x1234 &&& 0xff ∧
        b2.readByte (Bytecode.new.size + 1) = 0x1234 >>> 8 ∧
        (∀ a, a < Bytecode.new.size → b2.data a = Bytecode.new.data a) ∧
        b2.readShort Bytecode.new.size = 0x1234) ∧
    ((ex_code [OP_JUMP, 0, 0]).patchShort 1 0x1234).readShort 1 = 0x1234 :=
  ⟨(C26_short_round_trip Bytecode.new 0x1234 (by decide)).1 (by decide) (by decide),
   ((C26_short_round_trip (ex_code [OP_JUMP, 0, 0]) 0x1234 (by decide)).2 1 (by decide)
      (by decide)).1⟩

/-! ## C27: the constant pool -/

/-- Below the 16-bit limit: on a module that holds `k` constants, with `k + 1` below `2^16`,
`addConstant(v)` returns the id `k`; afterwards `getConstant(k)` is `v`, `numConstants()` is
`k + 1`, every constant below `k` is unchanged, and adding `v` once more returns another
id. -/
theorem addConstant_below_2_16 (b : Bytecode) (v : Value)
    (hk : b.constants.length + 1 < 65536) :
    (b.addConstant v).2 = b.constants.length ∧
    (b.addConstant v).2 = b.numConstants ∧
    (b.addConstant v).1.getConstant (b.addConstant v).2 = some v ∧
    (b.addConstant v).1.numConstants = b.constants.length + 1 ∧
    (∀ j, j < b.constants.length → (b.addConstant v).1.getConstant j = b.getConstant j) ∧
    ((b.addConstant v).1.addConstant v).2 ≠ (b.addConstant v).2 := by
  have hid : (b.addConstant v).2 = b.constants.length := by
    simp only [Bytecode.addConstant, List.length_append, List.length_singleton,
      Nat.add_sub_cancel]
    exact u16_of_lt (by omega)
  refine ⟨hid, ?_, ?_, ?_, ?_, ?_⟩
  · rw [hid]
    exact (u16_of_lt (by omega)).symm
  · rw [hid]
    simp [Bytecode.addConstant, Bytecode.getConstant]
  · simp only [Bytecode.addConstant, Bytecode.numConstants, List.length_append,
      List.length_singleton]
    exact u16_of_lt hk
  · intro j hj
    simp only [Bytecode.addConstant, Bytecode.getConstant, List.get?_eq_getElem?]
    exact List.getElem?_append_left hj
  · rw [hid]
    simp only [Bytecode.addConstant, List.length_append, List.length_singleton,
      Nat.add_sub_cancel]
    rw [u16_of_lt hk]
    omega

/-- Two constants added to a fresh module get the ids 0 and 1. -/
theorem addConstant_fresh_module :
    (Bytecode.new.addConstant V_TRUE).2 = 0 ∧
    ((Bytecode.new.addConstant V_TRUE).1.addConstant V_TRUE).2 = 1 ∧
    ((Bytecode.new.addConstant V_TRUE).1.addConstant V_TRUE).1.getConstant 1 = some V_TRUE :=
  ⟨(addConstant_below_2_16 Bytecode.new V_TRUE (by decide)).1,
   (addConstant_below_2_16 (Bytecode.new.addConstant V_TRUE).1 V_TRUE (by decide)).1,
   (addConstant_below_2_16 (Bytecode.new.addConstant V_TRUE).1 V_TRUE (by decide)).2.2.1⟩

theorem ex_code_65535_length : ex_code_65535.constants.length = 65535 := by
  show (List.replicate 65535 V_NULL).length = 65535
  rw [List.length_replicate]

theorem ex_code_65536_length : ex_code_65536.constants.length = 65536 := by
  show (as_value_num bits_7 :: List.replicate 65535 V_NULL).length = 65536
  rw [List.length_cons, List.length_replicate]

/-- The id that `addConstant` returns and the count that `numConstants()` returns afterwards
are the 16-bit truncations of the number of constants before and after. -/
theorem addConstant_mod (b : Bytecode) (v : Value) :
    (b.addConstant v).2 = b.constants.length % 65536 ∧
    (b.addConstant v).1.numConstants = (b.constants.length + 1) % 65536 := by
  simp only [Bytecode.addConstant, Bytecode.numConstants, List.length_append,
    List.length_singleton, Nat.add_sub_cancel, u16, and_self]

/-- A step on `OP_CONST` in a module whose `numConstants()` is 0 raises, whatever the id. -/
theorem step_CONST_none (host : Host) (vm : VM) (loc : SourceLoc)
    (hop : vm.code.readByte vm.ip = OP_CONST) (hn : vm.code.numConstants = 0)
    (hloc : vm.code.locationOf vm.ip = Ptr.ref loc) :
    vm.step host
      = VMResult.error ⟨"runtime", "Attempt to access nonexistent constant.", loc⟩ vm := by
  simp only [VM.step, hop, step_switch_CONST, VM.step_CONST, hn, ge_iff_le, Nat.zero_le,
    if_true, VM.throwError, hloc, VMResult.bind]

/-- C27 (defect): the id returned by `addConstant` and the count returned by `numConstants()`
are truncated to 16 bits without a check.  On a module with 65535 constants `addConstant`
returns 65535 and `numConstants()` is 0 afterwards, not 65536.  On a module with 65536
constants `addConstant(true)` returns the id 0, and `getConstant` of that id is the first
constant of the module, the number 7, not `true`.  A machine whose module holds 65536
constants raises "Attempt to access nonexistent constant." on `OP_CONST 0`, although constant
0 exists.  On a module with `k` constants, `k + 1` below `2^16`, `addConstant` returns the id
`k` and behaves as a constant pool without de-duplication. -/
theorem C27_addConstant_wraps_at_2_16 :
    (∀ (b : Bytecode) (v : Value),
      (b.addConstant v).2 = b.constants.length % 65536 ∧
      (b.addConstant v).1.numConstants = (b.constants.length + 1) % 65536) ∧
    ex_code_65535.constants.length = 65535 ∧
    (ex_code_65535.addConstant V_TRUE).2 = 65535 ∧
    (ex_code_65535.addConstant V_TRUE).1.numConstants = 0 ∧
    ex_code_65536.constants.length = 65536 ∧
    (ex_code_65536.addConstant V_TRUE).2 = 0 ∧
    (ex_code_65536.addConstant V_TRUE).1.getConstant (ex_code_65536.addConstant V_TRUE).2
      = some (as_value_num bits_7) ∧
    (ex_code_65536.addConstant V_TRUE).1.getConstant (ex_code_65536.addConstant V_TRUE).2
      ≠ some V_TRUE ∧
    (ex_code_65536.addConstant V_TRUE).1.numConstants = 1 ∧
    ex_vm_const_65536.code.constants.length = 65536 ∧
    ex_vm_const_65536.code.getConstant 0 = some (as_value_num bits_7) ∧
    ex_vm_const_65536.step ex_host
      = VMResult.error ⟨"runtime", "Attempt to access nonexistent constant.", ex_loc⟩
          ex_vm_const_65536 ∧
    (∀ (b : Bytecode) (v : Value), b.constants.length + 1 < 65536 →
      (b.addConstant v).2 = b.constants.length ∧
      (b.addConstant v).1.getConstant (b.addConstant v).2 = some v ∧
      (b.addConstant v).1.numConstants = b.constants.length + 1 ∧
      (∀ j, j < b.constants.length → (b.addConstant v).1.getConstant j = b.getConstant j) ∧
      ((b.addConstant v).1.addConstant v).2 ≠ (b.addConstant v).2) := by
  have hid : (ex_code_65536.addConstant V_TRUE).2 = 0 := by
    rw [(addConstant_mod _ _).1, ex_code_65536_length]
  have hget : (ex_code_65536.addConstant V_TRUE).1.getConstant 0
      = some (as_value_num bits_7) := rfl
  have hn : ex_vm_const_65536.code.numConstants = 0 := by
    show u16 ex_code_65536.constants.length = 0
    rw [ex_code_65536_length]
    rfl
  refine ⟨addConstant_mod, ex_code_65535_length,
    by rw [(addConstant_mod _ _).1, ex_code_65535_length],
    by rw [(addConstant_mod _ _).2, ex_code_65535_length], ex_code_65536_length, hid, ?_, ?_,
    by rw [(addConstant_mod _ _).2, ex_code_65536_length], ex_code_65536_length, rfl,
    step_CONST_none ex_host ex_vm_const_65536 ex_loc (by decide) hn rfl, ?_⟩
  · rw [hid]
    exact hget
  · rw [hid, hget]
    decide
  · intro b v hk
    have h := addConstant_below_2_16 b v hk
    exact ⟨h.1, h.2.2.1, h.2.2.2.1, h.2.2.2.2.1, h.2.2.2.2.2⟩

/-! ## C28: the source map -/

/-- C28 (defect): two calls of `setLoc` on a fresh module, before any byte is written, stamp the
first entry with the upper bound 0, which is also the mark of the open-ended entry; the byte
written afterwards at address 0 is then attributed to the first location, not to the one that was
set last. -/
theorem C28_second_setLoc_at_zero_is_lost :
    ∃ b, ((Bytecode.new.setLoc ex_loc_a).setLoc ex_loc_b).writeByte OP_NULL = some b ∧
      b.size = 1 ∧ b.locs = [⟨0, ex_loc_a⟩, ⟨0, ex_loc_b⟩] ∧
      b.locationOf 0 = Ptr.ref ex_loc_a ∧ ex_loc_a ≠ ex_loc_b :=
  ⟨_, rfl, rfl, rfl, rfl, by decide⟩

/-! ## C29: `ensureCapacity` -/

/-- Once the capacity has wrapped to zero, the doubling loop never ends. -/
theorem ensureCapacity_loop_zero (newCap : Nat) (h : 0 < newCap) :
    ∀ fuel, ensureCapacity_loop newCap fuel 0 = none := by
  intro fuel
  induction fuel with
  | zero => rfl
  | succ k ih =>
    rw [ensureCapacity_loop, if_pos h]
    exact ih

/-- C29 (defect): a request for `2^31 + 1` bytes on a module whose capacity is `2^31` doubles the
32-bit capacity to zero, after which the loop `while (cap < newCap) cap *= 2` never ends, for any
number of rounds; so `ensureCapacity` and the `writeByte` that calls it on a full buffer of
`2^31` bytes do not return. -/
theorem C29_ensureCapacity_loops_above_2_31 :
    (∀ fuel, ensureCapacity_loop 2147483649 fuel ex_code_full.cap = none) ∧
    ex_code_full.ensureCapacity 2147483649 = none ∧
    ex_code_full.writeByte OP_NULL = none := by
  have hloop : ∀ fuel, ensureCapacity_loop 2147483649 fuel ex_code_full.cap = none := by
    intro fuel
    cases fuel with
    | zero => rfl
    | succ k =>
      rw [ensureCapacity_loop, if_pos (by decide)]
      exact ensureCapacity_loop_zero 2147483649 (by decide) k
  refine ⟨hloop, ?_, ?_⟩
  · unfold Bytecode.ensureCapacity
    rw [if_neg (by decide), hloop 34]
    rfl
  · have h : ex_code_full.ensureCapacity (u32 (ex_code_full.size + 1)) = none := by
      unfold Bytecode.ensureCapacity
      rw [if_neg (by decide)]
      have e : u32 (ex_code_full.size + 1) = 2147483649 := by decide
      rw [e, hloop 34]
      rfl
    unfold Bytecode.writeByte
    rw [h]

/-! ## C30: `SymbolTable::intern` -/

/-- C30 (defect): `intern` appends a new symbol on every call, whether or not the name is in the
table: it returns the number of symbols held as the id and the table grows by one.  Interning
`x` twice in the empty table returns the ids 0 and 1 and leaves two symbols. -/
theorem C30_intern_appends_on_every_call :
    (∀ (t : SymbolTable) (name : String),
      (t.intern name).2 = ⟨u32 t.byId.length, name⟩ ∧
      (t.intern name).1.byId.length = t.byId.length + 1) ∧
    (SymbolTable.new.intern "x").2.id = 0 ∧
    ((SymbolTable.new.intern "x").1.intern "x").2.id = 1 ∧
    ((SymbolTable.new.intern "x").1.intern "x").1.byId.length = 2 ∧
    (SymbolTable.new.intern "x").1.isInternal "x" = true := by
  refine ⟨?_, by decide, by decide, by decide, by decide⟩
  intro t name
  constructor
  · simp [SymbolTable.intern, List.getD]
  · simp [SymbolTable.intern]

/-! ## C22: `compile_call` -/

theorem CResult_bind_eq_ok {α β : Type} {r : CResult α}
    {f : α → compiler → local_table → CResult β} {b : β} {c2 : compiler} {l2 : local_table}
    (h : r.bind f = CResult.ok b c2 l2) :
    ∃ a c1 l1, r = CResult.ok a c1 l1 ∧ f a c1 l1 = CResult.ok b c2 l2 := by
  cases r with
  | ok a c1 l1 => exact ⟨a, c1, l1, rfl, h⟩
  | error e c1 l1 => exact absurd h (by simp [CResult.bind])
  | undefined => exact absurd h (by simp [CResult.bind])
  | diverges => exact absurd h (by simp [CResult.bind])

theorem compile_each_len (list : List ast_node) : (compile_each list).length = list.length := by
  induction list with
  | nil => simp [compile_each]
  | cons x xs ih => simp [compile_each, ih]

/-- The loop of `compile_call` compiles the elements in order and counts them on 32 bits. -/
theorem compile_call_loop_spec :
    ∀ (subs : List Sub) (c : compiler) (l : local_table) (n : Nat) (c1 : compiler)
      (l1 : local_table), spec_compile_in_order subs c l = CResult.ok () c1 l1 →
      n < 4294967296 →
      compile_call_loop subs c l n = CResult.ok (u32 (n + subs.length)) c1 l1 := by
  intro subs
  induction subs with
  | nil =>
    intro c l n c1 l1 h hn
    simp only [spec_compile_in_order, CResult.ok.injEq, true_and] at h
    simp only [compile_call_loop, List.length_nil, Nat.add_zero, u32_of_lt hn, h.1, h.2]
  | cons s rest ih =>
    intro c l n c1 l1 h hn
    simp only [spec_compile_in_order] at h
    obtain ⟨u, cA, lA, hs, hrest⟩ := CResult_bind_eq_ok h
    simp only [compile_call_loop, hs, CResult_bind_ok]
    rw [ih cA lA (u32 (n + 1)) c1 l1 hrest (Nat.mod_lt _ (by decide))]
    have e : u32 (u32 (n + 1) + rest.length) = u32 (n + (rest.length + 1)) := by
      unfold u32
      omega
    rw [e, List.length_cons]

/-- C22: when the code of the head and of each argument of a list of `k + 1` elements has been
emitted in order, `compile_call` with `k ≤ 255` appends `OP_CALL` and the byte `k` and sets the
compile-time `sp` to its value on entry plus one, on 8 bits; with `k > 255` it reports the error
"Function call with more than 255 arguments." at the last element and emits no `OP_CALL`. -/
theorem C22_compile_call (c : compiler) (l : local_table) (list : List ast_node) (k : Nat)
    (c1 : compiler) (l1 : local_table) (hlen : list.length = k + 1)
    (hsubs : spec_compile_in_order (compile_each list) c l = CResult.ok () c1 l1) :
    (k ≤ 255 → 0 < c1.dest.cap → c1.dest.size + 2 ≤ 2147483648 →
      ∃ c2, c.compile_call (compile_each list) l list
          = CResult.ok () c2 { l1 with sp := u8 (l.sp + 1) } ∧
        c2.dest.size = c1.dest.size + 2 ∧ c2.dest.data c1.dest.size = OP_CALL ∧
        c2.dest.data (c1.dest.size + 1) = k ∧
        (∀ a, a < c1.dest.size → c2.dest.data a = c1.dest.data a) ∧
        c2.dest.constants = c1.dest.constants) ∧
    (255 < k → k < 4294967296 →
      ∃ x, list.getLast? = some x ∧
        c.compile_call (compile_each list) l list
          = CResult.error ⟨"compiler", "Function call with more than 255 arguments.", x.loc⟩
              c1 l1) := by
  have hloop : ∀ hk : k < 4294967296,
      compile_call_loop (compile_each list) c l 4294967295 = CResult.ok k c1 l1 := by
    intro hk
    rw [compile_call_loop_spec _ c l 4294967295 c1 l1 hsubs (by decide), compile_each_len, hlen]
    have e : u32 (4294967295 + (k + 1)) = k := by
      unfold u32
      omega
    rw [e]
  constructor
  · intro hk hcap hsz
    obtain ⟨c2, hw2, hs2, hd2, hp2, _, hk2⟩ := write_byte_ok c1 l1 OP_CALL hcap (by omega)
    obtain ⟨c3, hw3, hs3, hd3, hp3, _, hk3⟩ :=
      write_byte_ok c2 l1 (u8 k) hp2.2.1 (by omega)
    have hnot : ¬ k > 255 := by omega
    refine ⟨c3, ?_, by omega, ?_, ?_, ?_, hk3.trans hk2⟩
    · simp only [compiler.compile_call, hloop (by omega), CResult_bind_ok, hnot, if_false, hw2,
        hw3]
    · rw [hp3.2.2.2.1 _ (by omega), hd2]
      rfl
    · rw [← hs2, hd3, u8_u8]
      exact u8_of_lt (by omega)
    · intro a ha
      rw [hp3.2.2.2.1 a (by omega), hp2.2.2.2.1 a ha]
  · intro hk hk32
    cases hl : list.getLast? with
    | none =>
      rw [List.getLast?_eq_none_iff] at hl
      rw [hl] at hlen
      simp at hlen
    | some x =>
      refine ⟨x, rfl, ?_⟩
      simp only [compiler.compile_call, hloop hk32, CResult_bind_ok, hk, if_true, hl,
        compiler.error, CResult.bind]

/-- The code of `n` times the atom `true`, in order. -/
theorem compile_in_order_trues (n : Nat) :
    ∀ (c : compiler) (l : local_table), c.symtab = ex_symtab → 0 < c.dest.cap →
      c.dest.size + n ≤ 2147483648 →
      ∃ c1, spec_compile_in_order (compile_each (List.replicate n s_true)) c l
        = CResult.ok () c1 l ∧ c1.dest.size = c.dest.size + n := by
  induction n with
  | zero =>
    intro c l _ _ _
    exact ⟨c, rfl, rfl⟩
  | succ n ih =>
    intro c l hsym hcap hsz
    obtain ⟨c1, hw, hs1, _, hp1, _, _⟩ := write_byte_ok c l OP_TRUE hcap (by omega)
    obtain ⟨c2, h2, hs2⟩ := ih c1 l (hp1.1.trans hsym) hp1.2.1 (by omega)
    refine ⟨c2, ?_, by omega⟩
    have e : compile_subexpr s_true c l = c.write_byte l OP_TRUE := by
      simp only [s_true, ex_sym, compile_subexpr, compiler.compile_atom, hsym]
      rfl
    simp only [List.replicate_succ, compile_each, spec_compile_in_order, e, hw, CResult_bind_ok]
    exact h2

theorem C22_compile_call_witness :
    (∃ c1 l1 c2,
        spec_compile_in_order (compile_each [s_x, s_true]) ex_compiler
          (local_table.new none none) = CResult.ok () c1 l1 ∧ c1.dest.size = 5 ∧
        ex_compiler.compile_call (compile_each [s_x, s_true]) (local_table.new none none)
          [s_x, s_true] = CResult.ok () c2 { l1 with sp := 1 } ∧
        c2.dest.size = 7 ∧ c2.dest.data 5 = OP_CALL ∧ c2.dest.data 6 = 1) ∧
    (∃ c1 l1, ex_compiler.compile_call (compile_each (List.replicate 257 s_true))
          (local_table.new none none) (List.replicate 257 s_true)
        = CResult.error ⟨"compiler", "Function call with more than 255 arguments.", ex_loc⟩
            c1 l1 ∧ c1.dest.size = 257) := by
  constructor
  · have h : ∃ c1 l1, spec_compile_in_order (compile_each [s_x, s_true]) ex_compiler
        (local_table.new none none) = CResult.ok () c1 l1 ∧ 0 < c1.dest.cap ∧
        c1.dest.size = 5 := ⟨_, _, rfl, by decide, by decide⟩
    obtain ⟨c1, l1, h1, hcap, hsz⟩ := h
    obtain ⟨c2, h2, hs, h4, h5, _, _⟩ :=
      (C22_compile_call ex_compiler (local_table.new none none) [s_x, s_true] 1 c1 l1 rfl h1).1
        (by decide) hcap (by omega)
    rw [hsz] at hs h4 h5
    exact ⟨c1, l1, c2, h1, hsz, h2, hs, h4, h5⟩
  · obtain ⟨c1, h1, hs1⟩ := compile_in_order_trues 257 ex_compiler (local_table.new none none)
      rfl (by decide) (by decide)
    obtain ⟨x, hx, h⟩ :=
      (C22_compile_call ex_compiler (local_table.new none none) (List.replicate 257 s_true) 256
        c1 _ (List.length_replicate 257 s_true) h1).2 (by decide) (by decide)
    have hxe : x = s_true := by
      rw [List.getLast?_replicate, if_neg (by decide)] at hx
      exact (Option.some.inj hx).symm
    subst hxe
    exact ⟨c1, _, h, hs1⟩

/-! ## C23: reserved names without an emitter -/

/-- C23 (defect): a list whose head is one of the reserved names `defmacro`, `defn`, `dot`,
`dollar-fn`, `import`, `fn`, `letfn`, `quasiquote`, `quote`, `unquote`, `unquote-splicing`,
`set!`, `with` is handed to `compile_call`, like any other call; so `(quote)` compiles without
error to a lookup of the global `quote` and `OP_CALL 0`.  The empty list is reported as an error
with nothing emitted. -/
theorem C23_reserved_heads_compile_as_calls :
    (∀ (i : Fin 13) (dest : Bytecode) (heap : Heap) (l : local_table) (subs : List Sub)
        (args : List ast_node) (loc : SourceLoc),
      (reserved_unimplemented.get? i).isSome = true ∧
      ex_symtab_reserved.index i = (reserved_unimplemented.get? i).map (fun n => ⟨i, n⟩) ∧
      compiler.compile_list subs ⟨dest, ex_symtab_reserved, heap⟩ l (ex_sym i :: args) loc
        = compiler.compile_call subs ⟨dest, ex_symtab_reserved, heap⟩ l (ex_sym i :: args)) ∧
    (ex_compiler_reserved.compile_expr prog_quote).output.map (fun c => c.dest.dump 7)
      = some (7, [OP_CONST, 0, 0, OP_GLOBAL, OP_CALL, 0, OP_POP]) ∧
    (∀ (c : compiler) (l : local_table) (subs : List Sub) (loc : SourceLoc),
      c.compile_list subs l [] loc
        = CResult.error ⟨"compiler", "Encountered empty list.", loc⟩ c l) := by
  refine ⟨?_, by decide, fun _ _ _ _ => rfl⟩
  intro i dest heap l subs args loc
  fin_cases i <;> exact ⟨rfl, rfl, rfl⟩

/-! ## C24: `compile_def` -/

/-- C24: `compile_def` reports "Wrong number of arguments to def." when the list does not have
3 elements and "First argument to def must be a symbol." when the second element is not a
symbol, in both cases with nothing emitted; on `(def name value)` with a symbol `name` it
registers the symbol value of `name` as a constant, emits `OP_CONST` with the id of that
constant, then the code of `value`, then `OP_SET_GLOBAL` and `OP_NULL`, and reports no error of
its own. -/
theorem C24_compile_def (c : compiler) (l : local_table) (list : List ast_node)
    (loc : SourceLoc) :
    (list.length ≠ 3 →
      c.compile_def (compile_each list) l list loc
        = CResult.error ⟨"compiler", "Wrong number of arguments to def.", loc⟩ c l) ∧
    (∀ head name value, list = [head, name, value] → name.is_symbol = false →
      c.compile_def (compile_each list) l list loc
        = CResult.error ⟨"compiler", "First argument to def must be a symbol.", loc⟩ c l) ∧
    (∀ head sym nloc value,
      list = [head, ast_node.ak_atom (ast_atom.at_symbol sym) nloc, value] →
      0 < c.dest.cap → c.dest.size + 3 ≤ 2147483648 → c.dest.constants.length < 65536 →
      ∃ c2, (c.sym_const sym).1.constant l (c.sym_const sym).2 = CResult.ok () c2 l ∧
        c2.symtab = c.symtab ∧ 0 < c2.dest.cap ∧
        c2.dest.size = c.dest.size + 3 ∧ c2.dest.readByte c.dest.size = OP_CONST ∧
        c2.dest.readShort (c.dest.size + 1) = c.dest.constants.length ∧
        c2.dest.getConstant c.dest.constants.length = some (as_sym_value sym) ∧
        (∀ a, a < c.dest.size → c2.dest.data a = c.dest.data a) ∧
        ∀ c3 l3, compile_subexpr value c2 l.inc_sp = CResult.ok () c3 l3 →
          0 < c3.dest.cap → c3.dest.size + 2 ≤ 2147483648 →
          ∃ c5, c.compile_def (compile_each list) l list loc = CResult.ok () c5 l3 ∧
            c5.dest.size = c3.dest.size + 2 ∧
            c5.dest.data c3.dest.size = OP_SET_GLOBAL ∧
            c5.dest.data (c3.dest.size + 1) = OP_NULL ∧
            ∀ a, a < c3.dest.size → c5.dest.data a = c3.dest.data a) := by
  refine ⟨?_, ?_, ?_⟩
  · intro hlen
    simp only [compiler.compile_def, hlen, ne_eq, not_false_eq_true, if_true, compiler.error]
  · intro head name value hlist hsym
    subst hlist
    simp [compiler.compile_def, compile_each, hsym, compiler.error]
  · intro head sym nloc value hlist hcap hsz hk
    subst hlist
    have hsz0 : ({ c with dest := { c.dest with
        constants := c.dest.constants ++ [as_sym_value sym] } } : compiler).dest.size + 1
          ≤ 2147483648 := by
      show c.dest.size + 1 ≤ 2147483648
      omega
    obtain ⟨c1, hw1, hs1, hd1, hp1, _, hk1⟩ := write_byte_ok
      { c with dest := { c.dest with constants := c.dest.constants ++ [as_sym_value sym] } } l
      OP_CONST hcap hsz0
    have hs1 : c1.dest.size = c.dest.size + 1 := hs1
    have hd1 : c1.dest.data c.dest.size = u8 OP_CONST := hd1
    have hk1 : c1.dest.constants = c.dest.constants ++ [as_sym_value sym] := hk1
    obtain ⟨c2, hw2, hs2, hd2, hd3, hp2, _, hk2⟩ := write_short_gen c1 l
      (u16 ((c.dest.constants ++ [as_sym_value sym]).length - 1)) hp1.2.1 (by omega)
    have hid : u16 (u16 ((c.dest.constants ++ [as_sym_value sym]).length - 1))
        = c.dest.constants.length := by
      simp only [List.length_append, List.length_singleton, Nat.add_sub_cancel]
      rw [u16_of_lt hk, u16_of_lt hk]
    have hconst : (c.sym_const sym).1.constant l (c.sym_const sym).2 = CResult.ok () c2 l := by
      simp only [compiler.sym_const, Bytecode.addConstant, compiler.constant, hw1,
        CResult_bind_ok, hw2]
    have hkept : ∀ a, a < c.dest.size → c2.dest.data a = c.dest.data a := by
      intro a ha
      rw [hp2.2.2.2.1 a (by omega)]
      exact hp1.2.2.2.1 a ha
    refine ⟨c2, hconst, hp2.1.trans hp1.1, hp2.2.1, by omega, ?_, ?_, ?_, hkept, ?_⟩
    · show u8 (c2.dest.data c.dest.size) = OP_CONST
      rw [hp2.2.2.2.1 _ (by omega), hd1]
      rfl
    · apply readShort_of_bytes _ _ _ hk (by omega)
      · rw [← hs1, hd2, hid]
      · rw [← hs1, hd3, hid]
    · show c2.dest.constants.get? c.dest.constants.length = some (as_sym_value sym)
      rw [hk2, hk1, List.get?_eq_getElem?, List.getElem?_append_right (Nat.le_refl _)]
      simp
    · intro c3 l3 hv hcap3 hsz3
      obtain ⟨c4, hw4, hs4, hd4, hp4, _, _⟩ := write_byte_ok c3 l3 OP_SET_GLOBAL hcap3 (by omega)
      obtain ⟨c5, hw5, hs5, hd5, hp5, _, _⟩ := write_byte_ok c4 l3 OP_NULL hp4.2.1 (by omega)
      refine ⟨c5, ?_, by omega, ?_, ?_, ?_⟩
      · have hc : (c.sym_const sym).1.constant l (c.sym_const sym).2
            = CResult.ok () c2 l := hconst
        simp only [compiler.sym_const] at hc
        simp only [compiler.compile_def, compile_each, List.length_cons, List.length_nil,
          ne_eq, not_true_eq_false, if_false, List.get?, ast_node.is_symbol, Bool.not_true,
          Bool.false_eq_true, ast_node.sym, compiler.sym_const, hc, CResult_bind_ok, hv, hw4,
          hw5]
      · rw [hp5.2.2.2.1 _ (by omega), hd4]
        rfl
      · rw [← hs4, hd5]
        rfl
      · intro a ha
        rw [hp5.2.2.2.1 a (by omega), hp4.2.2.2.1 a ha]

theorem C24_compile_def_witness :
    ex_compiler.compile_def (compile_each [s_def, s_x]) (local_table.new none none)
        [s_def, s_x] ex_loc
      = CResult.error ⟨"compiler", "Wrong number of arguments to def.", ex_loc⟩ ex_compiler
          (local_table.new none none) ∧
    ex_compiler.compile_def (compile_each [s_def, ex_num bits_1, ex_num bits_3])
        (local_table.new none none) [s_def, ex_num bits_1, ex_num bits_3] ex_loc
      = CResult.error ⟨"compiler", "First argument to def must be a symbol.", ex_loc⟩
          ex_compiler (local_table.new none none) ∧
    (∃ c2 c3 l3 c5,
      (ex_compiler.sym_const 9).1.constant (local_table.new none none)
          (ex_compiler.sym_const 9).2 = CResult.ok () c2 (local_table.new none none) ∧
      c2.dest.readByte 0 = OP_CONST ∧ c2.dest.readShort 1 = 0 ∧
      c2.dest.getConstant 0 = some (as_sym_value 9) ∧
      compile_subexpr (ex_num bits_3) c2 (local_table.new none none).inc_sp
        = CResult.ok () c3 l3 ∧ c3.dest.size = 6 ∧
      ex_compiler.compile_def (compile_each prog_def_x_3_list) (local_table.new none none)
        prog_def_x_3_list ex_loc = CResult.ok () c5 l3 ∧ c5.dest.size = 8 ∧
      c5.dest.data 6 = OP_SET_GLOBAL ∧ c5.dest.data 7 = OP_NULL) := by
  refine ⟨(C24_compile_def ex_compiler (local_table.new none none) [s_def, s_x] ex_loc).1
      (by decide),
    (C24_compile_def ex_compiler (local_table.new none none) _ ex_loc).2.1 _ _ _ rfl rfl, ?_⟩
  obtain ⟨c2, h1, hsym2, hcap2, hs2, h2, h3, h4, _, hrest⟩ :=
    (C24_compile_def ex_compiler (local_table.new none none) prog_def_x_3_list ex_loc).2.2
      s_def 9 ex_loc (ex_num bits_3) rfl (by decide) (by decide) (by decide)
  have hs2 : c2.dest.size = 3 := hs2
  obtain ⟨c3, l3, hv, hs3, hp3, _⟩ := SubOK_number ex_symtab bits_3 ex_loc c2
    (local_table.new none none).inc_sp hsym2 hcap2 (by rw [hs2]; decide)
  have hs3 : c3.dest.size = 6 := by
    have e : c3.dest.size = c2.dest.size + 3 := hs3
    rw [e, hs2]
  obtain ⟨c5, h5, hs5, h6, h7, _⟩ := hrest c3 l3 hv hp3.2.1 (by rw [hs3]; decide)
  rw [hs3] at hs5 h6 h7
  exact ⟨c2, c3, l3, c5, h1, h2, h3, h4, hv, hs3, h5, hs5, h6, h7⟩

/-! ## C25: `let` -/

/-- A step on `OP_SET_LOCAL i` with the slot `i` below the top value: the top value is popped
and stored in the slot. -/
theorem step_SET_LOCAL_ok (host : Host) (vm : VM) (i : Nat)
    (hop : vm.code.readByte vm.ip = OP_SET_LOCAL)
    (hi : vm.code.readByte (u32 (vm.ip + 1)) = i) (hsp : i + 1 < vm.frame.sp)
    (hpos : i + vm.frame.bp < 65536) (hip : vm.ip + 2 < 4294967296) :
    vm.step host = VMResult.ok ()
      { vm with
        stack := fun a =>
          if a = i + vm.frame.bp then vm.stack (vm.frame.bp + (vm.frame.sp - 1))
          else vm.stack a,
        frame := { vm.frame with sp := vm.frame.sp - 1 },
        ip := vm.ip + 2 } := by
  have hi1 : (vm.afterPop vm.ip).code.readByte (u32 ((vm.afterPop vm.ip).ip + 1)) = i := hi
  have hnle : ¬ (vm.afterPop vm.ip).frame.sp ≤ i := by
    show ¬ vm.frame.sp - 1 ≤ i
    omega
  have hbp : (vm.afterPop vm.ip).frame.bp = vm.frame.bp := rfl
  have h1 : u32 (u32 (vm.ip + 1) + 1) = vm.ip + 2 := by
    unfold u32
    omega
  simp only [VM.step, hop, step_switch_SET_LOCAL, VM.step_SET_LOCAL, pop_ok vm (by omega),
    VMResult.bind_ok, hi1, VM.setLocal, hnle, if_false, hbp, u16_of_lt hpos]
  simp only [VM.afterPop, h1]

/-- The run of the code of one pair of a `let` from a frame of depth `d`: `OP_NULL` at `A`,
the code of the value, which runs from the machine after that push to the address `B` with
one more value `v` on the frame, then `OP_SET_LOCAL d` and `OP_NULL` at `B`. -/
theorem let_pair_run (host : Host) (vm : VM) (A B d : Nat) (v : Value)
    (hip : vm.ip = A) (hd : vm.frame.sp = d)
    (hA : A < vm.code.size) (hA32 : A + 1 < 4294967296)
    (hsize : B + 3 ≤ vm.code.size) (h32 : B + 3 < 4294967296)
    (hroom : d + vm.frame.bp + 1 < STACK_SIZE - 1)
    (h0 : vm.code.readByte A = OP_NULL)
    (h1 : vm.code.readByte B = OP_SET_LOCAL)
    (h2 : vm.code.readByte (B + 1) = d)
    (h3 : vm.code.readByte (B + 2) = OP_NULL)
    (hval : ∃ vmB, Runs host (vm.afterPush V_NULL (A + 1)) vmB ∧ vmB.ip = B ∧
      vmB.code = vm.code ∧ vmB.frame.bp = vm.frame.bp ∧ vmB.frame.sp = d + 2 ∧
      vmB.stack (vm.frame.bp + d + 1) = v) :
    ∃ vm1, Runs host vm vm1 ∧ vm1.ip = B + 3 ∧ vm1.code = vm.code ∧
      vm1.frame.bp = vm.frame.bp ∧ vm1.frame.sp = d + 2 ∧
      vm1.stack (vm.frame.bp + d) = v ∧ vm1.stack (vm.frame.bp + d + 1) = V_NULL ∧
      vm1.local d = VMResult.ok v vm1 := by
  have h16 : STACK_SIZE = 16384 := rfl
  -- the reserved null
  have hstepA : vm.step host = VMResult.ok () (vm.afterPush V_NULL (A + 1)) := by
    have := step_singleton host vm OP_NULL V_NULL (step_switch_NULL host vm)
      (by rw [hip]; exact h0) (by omega) (by omega)
    rw [hip] at this
    exact this
  have hrA : Runs host vm (vm.afterPush V_NULL (A + 1)) := Runs.step (by omega) hstepA
  -- the value
  obtain ⟨vmB, hrB, iB, cB, bB, sB, hvB⟩ := hval
  -- the assignment
  have hopB : vmB.code.readByte vmB.ip = OP_SET_LOCAL := by
    rw [cB, iB]
    exact h1
  have hiB : vmB.code.readByte (u32 (vmB.ip + 1)) = d := by
    rw [cB, iB, u32_of_lt (by omega)]
    exact h2
  have hstepB := step_SET_LOCAL_ok host vmB d hopB hiB (by rw [sB]; omega)
    (by rw [bB]; omega) (by rw [iB]; omega)
  have hinB : vmB.ip < vmB.code.size := by
    rw [cB, iB]
    omega
  obtain ⟨vmC, hstepC, iC, cC, fC, kC⟩ : ∃ vmC : VM, vmB.step host = VMResult.ok () vmC ∧
      vmC.ip = vmB.ip + 2 ∧ vmC.code = vmB.code ∧
      vmC.frame = { vmB.frame with sp := vmB.frame.sp - 1 } ∧
      vmC.stack = (fun a =>
        if a = d + vmB.frame.bp then vmB.stack (vmB.frame.bp + (vmB.frame.sp - 1))
        else vmB.stack a) := ⟨_, hstepB, rfl, rfl, rfl, rfl⟩
  have sC : vmC.frame.sp = d + 1 := by
    rw [fC]
    show vmB.frame.sp - 1 = d + 1
    rw [sB]
    rfl
  have bC : vmC.frame.bp = vm.frame.bp := by
    rw [fC]
    exact bB
  have htop : vmB.stack (vmB.frame.bp + (vmB.frame.sp - 1)) = v := by
    rw [bB, sB]
    exact hvB
  rw [iB] at iC
  rw [htop, bB] at kC
  -- the value of the form
  obtain ⟨vmD, ⟨hrD, hmD⟩, hvD⟩ := run_push host vmC OP_NULL V_NULL
    (step_switch_NULL host vmC) (by rw [cC, cB, iC]; exact h3) (by rw [sC, bC]; omega)
    (by rw [cC, cB, iC]; omega) (by rw [iC]; omega)
  obtain ⟨iD, cD, sD, bD, kD⟩ := hmD.facts
  rw [iC] at iD
  rw [sC] at sD
  rw [bC, sC] at hvD kD
  rw [bC] at bD
  have hslot : vmD.stack (vm.frame.bp + d) = v := by
    rw [kD _ (by omega), kC]
    have : vm.frame.bp + d = d + vm.frame.bp := Nat.add_comm _ _
    simp only [this, if_true]
  refine ⟨vmD, Runs_trans hrA (Runs_trans hrB (Runs_trans (Runs.step hinB hstepC) hrD)),
    by rw [iD], by rw [cD, cC, cB], bD, sD, hslot, ?_, ?_⟩
  · rw [← Nat.add_assoc] at hvD
    exact hvD
  · have hpos : u16 (d + vmD.frame.bp) = vm.frame.bp + d := by
      rw [bD, u16_of_lt (by omega), Nat.add_comm]
    have hnle : ¬ vmD.frame.sp ≤ d := by
      rw [sD]
      omega
    simp only [VM.local, hpos, hnle, if_false, hslot]

/-- A step on `OP_LOCAL i` with the slot `i` in the frame: the value of the slot is pushed. -/
theorem step_LOCAL_ok (host : Host) (vm : VM) (i : Nat)
    (hop : vm.code.readByte vm.ip = OP_LOCAL)
    (hi : vm.code.readByte (u32 (vm.ip + 1)) = i) (hsp : i < vm.frame.sp)
    (hroom : vm.frame.sp + vm.frame.bp < STACK_SIZE - 1) (hip : vm.ip + 2 < 4294967296) :
    vm.step host = VMResult.ok () (vm.afterPush (vm.stack (i + vm.frame.bp)) (vm.ip + 2)) := by
  have h16 : STACK_SIZE = 16384 := rfl
  have hnle : ¬ vm.frame.sp ≤ i := by omega
  have h1 : u32 (u32 (vm.ip + 1) + 1) = vm.ip + 2 := by
    unfold u32
    omega
  simp only [VM.step, hop, step_switch_LOCAL, VM.step_LOCAL, hi, VM.local, hnle, if_false,
    u16_of_lt (by omega : i + vm.frame.bp < 65536), VMResult.bind_ok,
    push_ok vm _ hroom]
  simp only [VM.afterPush, h1]

/-- A successful `write_byte` leaves the scope as it is. -/
theorem write_byte_scope {c c1 : compiler} {l l1 : local_table} {x : Nat}
    (h : c.write_byte l x = CResult.ok () c1 l1) : l1 = l := by
  unfold compiler.write_byte at h
  split at h
  · exact CResult.noConfusion h
  · simp only [CResult.ok.injEq, true_and] at h
    exact h.2.symm

/-- A successful `write_short` leaves the scope as it is. -/
theorem write_short_scope {c c1 : compiler} {l l1 : local_table} {x : Nat}
    (h : c.write_short l x = CResult.ok () c1 l1) : l1 = l := by
  unfold compiler.write_short at h
  split at h
  · exact CResult.noConfusion h
  · simp only [CResult.ok.injEq, true_and] at h
    exact h.2.symm

/-- The scope after the compilation of a number literal: the scope before, with `sp`
incremented. -/
theorem compile_number_scope {c c2 : compiler} {l l2 : local_table} {num : Nat}
    {loc : SourceLoc}
    (h : compile_subexpr (ast_node.ak_atom (ast_atom.at_number num) loc) c l
      = CResult.ok () c2 l2) : l2 = l.inc_sp := by
  simp only [compile_subexpr, compiler.compile_atom, compiler.num_const, Bytecode.addConstant,
    compiler.constant] at h
  obtain ⟨_, c1, l1, h1, h2⟩ := CResult_bind_eq_ok h
  obtain ⟨_, cA, lA, hA, hB⟩ := CResult_bind_eq_ok h1
  have eA := write_byte_scope hA
  have eB := write_short_scope hB
  simp only [CResult.ok.injEq, true_and] at h2
  rw [← h2.2, eB, eA]

/-- The compilation of a symbol that the scope binds to a slot: `OP_LOCAL slot`. -/
theorem compile_local_ok (c : compiler) (l : local_table) (sym : Nat) (loc : SourceLoc)
    (s : Symbol) (r : Nat) (hidx : c.symtab.index sym = some s) (h1 : s.name ≠ "null")
    (h2 : s.name ≠ "true") (h3 : s.name ≠ "false") (hget : l.vars.get sym = some r)
    (hcap : 0 < c.dest.cap) (hsz : c.dest.size + 2 ≤ 2147483648) :
    ∃ c2, compile_subexpr (ast_node.ak_atom (ast_atom.at_symbol sym) loc) c l
        = CResult.ok () c2 l.inc_sp ∧
      c2.dest.size = c.dest.size + 2 ∧ c2.dest.data c.dest.size = OP_LOCAL ∧
      c2.dest.data (c.dest.size + 1) = u8 r ∧ Pres c c2 ∧
      c2.dest.constants = c.dest.constants := by
  obtain ⟨c1, hw1, hs1, hd1, hp1, _, hk1⟩ := write_byte_ok c l OP_LOCAL hcap (by omega)
  obtain ⟨c2, hw2, hs2, hd2, hp2, _, hk2⟩ := write_byte_ok c1 l r hp1.2.1 (by omega)
  refine ⟨c2, ?_, by omega, ?_, ?_, Pres_trans hp1 hp2, hk2.trans hk1⟩
  · simp only [compile_subexpr, compiler.compile_atom, hidx, h1, h2, h3, if_false,
      compiler.compile_var, compiler.find_local, find_local_loop, hget, gt_iff_lt,
      Nat.lt_irrefl, CResult_bind_ok, Bool.false_eq_true, hw1, hw2]
  · rw [hp2.2.2.2.1 _ (by omega), hd1]
    rfl
  · rw [← hs1, hd2]

/-- C25 (refuted witness): `(let x 1 y 2 (do x))` has six elements, so `compile_let` reports
"Wrong number of arguments to let." before it emits anything; the form does not compile and there
is no module to run. -/
theorem C25_let_with_body_is_rejected :
    ex_compiler.compile_expr prog_let_x_1_y_2_do_x
      = CResult.error ⟨"compiler", "Wrong number of arguments to let.", ex_loc⟩ ex_compiler
          (local_table.new none none) ∧
    ∀ (host : Host) (fuel : Nat),
      compile_and_run ex_compiler host [prog_let_x_1_y_2_do_x] fuel = none := by
  have h : ex_compiler.compile_expr prog_let_x_1_y_2_do_x
      = CResult.error ⟨"compiler", "Wrong number of arguments to let.", ex_loc⟩ ex_compiler
          (local_table.new none none) := rfl
  refine ⟨h, fun host fuel => ?_⟩
  simp only [compile_and_run, compiler.compile_to_eof, h]

/-- C25 (amended): `compile_let` reports "Wrong number of arguments to let." on a list with an
even number of elements, emits nothing for a `let` without pairs, and reports "Names in let must
be symbols." at a name that is not a symbol.  For a pair of a symbol and a value, on a module
with room, it emits `OP_NULL` and compiles the value in the scope that binds the name to the
slot `sp`, the compile-time `sp` before the pair; whenever that compilation succeeds and leaves
room, it emits `OP_SET_LOCAL sp` and `OP_NULL` after the code of the value and goes on with the
remaining pairs.  At run time, on a machine that holds the emitted `OP_NULL`, `OP_SET_LOCAL sp`
and `OP_NULL`, with two free stack cells and the frame depth at the start of the pair's code
equal to that `sp`: when the run of the value's code, from the machine after the reserved null
was pushed, ends at the end of that code with one more value `v` on the frame, the run of the
pair's code leaves `v` in the frame position `sp`, where the reserved null was pushed, so
`local(sp)` reads `v`. -/
theorem C25_let_pairs (c : compiler) (l : local_table) (head : ast_node) (loc : SourceLoc) :
    (∀ list : List ast_node, list.length &&& 1 ≠ 1 →
      c.compile_let (compile_each list) l list loc
        = CResult.error ⟨"compiler", "Wrong number of arguments to let.", loc⟩ c l) ∧
    c.compile_let (compile_each [head]) l [head] loc = CResult.ok () c l ∧
    (∀ name value rest, (head :: name :: value :: rest).length &&& 1 = 1 →
      name.is_symbol = false →
      c.compile_let (compile_each (head :: name :: value :: rest)) l
          (head :: name :: value :: rest) loc
        = CResult.error ⟨"compiler", "Names in let must be symbols.", name.loc⟩ c l) ∧
    (∀ sym nloc value rest,
      (head :: ast_node.ak_atom (ast_atom.at_symbol sym) nloc :: value :: rest).length &&& 1
        = 1 →
      0 < c.dest.cap → c.dest.size + 1 ≤ 2147483648 → l.sp < 256 →
      ∃ c1 : compiler,
        c.write_byte l.inc_sp OP_NULL = CResult.ok () c1 l.inc_sp ∧
        c1.dest.size = c.dest.size + 1 ∧ c1.dest.data c.dest.size = OP_NULL ∧
        (∀ a, a < c.dest.size → c1.dest.data a = c.dest.data a) ∧
        c1.dest.constants = c.dest.constants ∧ c1.symtab = c.symtab ∧ 0 < c1.dest.cap ∧
        ∀ (c2 : compiler) (l2 : local_table),
          compile_subexpr value c1 { l.inc_sp with vars := l.inc_sp.vars.insert sym l.sp }
            = CResult.ok () c2 l2 →
          0 < c2.dest.cap → c2.dest.size + 3 ≤ 2147483648 →
          ∃ c5 : compiler,
            (c2.write_byte l2 OP_SET_LOCAL).bind (fun _ c3 l3 =>
              (c3.write_byte l3 l.sp).bind fun _ c4 l4 => c4.write_byte l4 OP_NULL)
              = CResult.ok () c5 l2 ∧
            c5.dest.size = c2.dest.size + 3 ∧
            c5.dest.data c2.dest.size = OP_SET_LOCAL ∧
            c5.dest.data (c2.dest.size + 1) = l.sp ∧
            c5.dest.data (c2.dest.size + 2) = OP_NULL ∧
            (∀ a, a < c2.dest.size → c5.dest.data a = c2.dest.data a) ∧
            c5.dest.constants = c2.dest.constants ∧ c5.symtab = c2.symtab ∧
            0 < c5.dest.cap ∧
            c.compile_let
                (compile_each (head :: ast_node.ak_atom (ast_atom.at_symbol sym) nloc :: value
                  :: rest)) l
                (head :: ast_node.ak_atom (ast_atom.at_symbol sym) nloc :: value :: rest) loc
              = c5.compile_let (compile_each (head :: rest)) l2 (head :: rest) loc ∧
            ∀ (host : Host) (vm : VM) (v : Value),
              vm.code.data c.dest.size = c1.dest.data c.dest.size →
              (∀ x, c2.dest.size ≤ x → x < c5.dest.size →
                vm.code.data x = c5.dest.data x) →
              c.dest.size < vm.code.size → c5.dest.size ≤ vm.code.size →
              vm.ip = c.dest.size → vm.frame.sp = l.sp →
              vm.frame.sp + vm.frame.bp + 1 < STACK_SIZE - 1 →
              (∃ vmB, Runs host (vm.afterPush V_NULL c1.dest.size) vmB ∧
                vmB.ip = c2.dest.size ∧ vmB.code = vm.code ∧
                vmB.frame.bp = vm.frame.bp ∧ vmB.frame.sp = l.sp + 2 ∧
                vmB.stack (vm.frame.bp + l.sp + 1) = v) →
              ∃ vm1, Runs host vm vm1 ∧ vm1.ip = c5.dest.size ∧ vm1.code = vm.code ∧
                vm1.frame.bp = vm.frame.bp ∧ vm1.frame.sp = l.sp + 2 ∧
                vm1.stack (vm.frame.bp + l.sp) = v ∧
                vm1.stack (vm.frame.bp + l.sp + 1) = V_NULL ∧
                vm1.local l.sp = VMResult.ok v vm1) := by
  refine ⟨?_, ?_, ?_, ?_⟩
  · intro list hlen
    simp only [compiler.compile_let, hlen, ne_eq, not_false_eq_true, if_true, compiler.error]
  · simp [compiler.compile_let, compile_each, compile_let_loop]
  · intro name value rest hodd hsym
    have hodd1 : ¬ ((head :: name :: value :: rest).length &&& 1 ≠ 1) := by
      rw [hodd]
      simp
    simp only [compiler.compile_let, hodd1, if_false, compile_each, List.zip_cons_cons,
      List.drop_succ_cons, List.drop_zero, compile_let_loop, hsym, Bool.not_false, if_true,
      compiler.error]
  · intro sym nloc value rest hodd hcap hsz hsp
    have hodd1 : ¬ ((head :: ast_node.ak_atom (ast_atom.at_symbol sym) nloc :: value
        :: rest).length &&& 1 ≠ 1) := by
      rw [hodd]
      simp
    have hodd2 : ¬ ((head :: rest).length &&& 1 ≠ 1) := by
      simp only [List.length_cons, Nat.and_one_is_mod] at hodd ⊢
      omega
    obtain ⟨c1, hw1, hs1, hd1, hp1, _, hk1⟩ := write_byte_ok c l.inc_sp OP_NULL hcap hsz
    have hd1n : c1.dest.data c.dest.size = OP_NULL := by
      rw [hd1]
      rfl
    refine ⟨c1, hw1, hs1, hd1n, hp1.2.2.2.1, hk1, hp1.1, hp1.2.1, ?_⟩
    intro c2 l2 hv hcap2 hsz2
    obtain ⟨c3, hw3, hs3, hd3, hp3, _, hk3⟩ := write_byte_ok c2 l2 OP_SET_LOCAL hcap2
      (by omega)
    obtain ⟨c4, hw4, hs4, hd4, hp4, _, hk4⟩ := write_byte_ok c3 l2 l.sp hp3.2.1 (by omega)
    obtain ⟨c5, hw5, hs5, hd5, hp5, _, hk5⟩ := write_byte_ok c4 l2 OP_NULL hp4.2.1 (by omega)
    have hp25 : Pres c2 c5 := Pres_trans hp3 (Pres_trans hp4 hp5)
    have hb1 : c5.dest.data c2.dest.size = OP_SET_LOCAL := by
      rw [hp5.2.2.2.1 _ (by omega), hp4.2.2.2.1 _ (by omega), hd3]
      rfl
    have hb2 : c5.dest.data (c2.dest.size + 1) = l.sp := by
      rw [hp5.2.2.2.1 _ (by omega), ← hs3, hd4]
      exact u8_of_lt hsp
    have hb3 : c5.dest.data (c2.dest.size + 2) = OP_NULL := by
      have e : c2.dest.size + 2 = c4.dest.size := by omega
      rw [e, hd5]
      rfl
    have hsz5 : c5.dest.size = c2.dest.size + 3 := by omega
    have hchain : (c2.write_byte l2 OP_SET_LOCAL).bind (fun _ c3 l3 =>
        (c3.write_byte l3 l.sp).bind fun _ c4 l4 => c4.write_byte l4 OP_NULL)
        = CResult.ok () c5 l2 := by
      simp only [hw3, CResult_bind_ok, hw4, hw5]
    refine ⟨c5, hchain, hsz5, hb1, hb2, hb3, hp25.2.2.2.1, by rw [hk5, hk4, hk3], hp25.1,
      hp25.2.1, ?_, ?_⟩
    · simp only [compiler.compile_let, hodd1, hodd2, if_false, compile_each, List.zip_cons_cons,
        List.drop_succ_cons, List.drop_zero, compile_let_loop, ast_node.is_symbol,
        Bool.not_true, Bool.false_eq_true, ast_node.sym, hw1, CResult_bind_ok, hv, hw3, hw4,
        hw5]
      rfl
    · intro host vm v hnull hcode hin hsize hip hd hroom hval
      have h0 : vm.code.readByte c.dest.size = OP_NULL := by
        unfold Bytecode.readByte
        rw [hnull, hd1n]
        rfl
      have h1 : vm.code.readByte c2.dest.size = OP_SET_LOCAL := by
        unfold Bytecode.readByte
        rw [hcode _ (Nat.le_refl _) (by omega), hb1]
        rfl
      have h2 : vm.code.readByte (c2.dest.size + 1) = l.sp := by
        unfold Bytecode.readByte
        rw [hcode _ (by omega) (by omega), hb2]
        exact u8_of_lt hsp
      have h3 : vm.code.readByte (c2.dest.size + 2) = OP_NULL := by
        unfold Bytecode.readByte
        rw [hcode _ (by omega) (by omega), hb3]
        rfl
      have hroom1 : l.sp + vm.frame.bp + 1 < STACK_SIZE - 1 := by
        rw [← hd]
        exact hroom
      rw [hs1] at hval
      obtain ⟨vm1, hr, hi, hc, hbp, hsp1, hslot, hnull1, hlocal⟩ :=
        let_pair_run host vm c.dest.size c2.dest.size l.sp v hip hd hin (by omega)
          (by omega) (by omega) hroom1 h0 h1 h2 h3 hval
      exact ⟨vm1, hr, by rw [hi, hsz5], hc, hbp, hsp1, hslot, hnull1, hlocal⟩

/-- C25, example: `(let x)` and `(let 1 2)` are rejected; `(let x 1 y x)` compiles to the 13
bytes `OP_NULL`, `OP_CONST 0`, `OP_SET_LOCAL 0`, `OP_NULL`, `OP_NULL`, `OP_LOCAL 0`,
`OP_SET_LOCAL 2`, `OP_NULL`, and their run from an empty frame leaves the number 1 in the slot
2 of `y`. -/
theorem C25_let_pairs_witness :
    ex_compiler.compile_let (compile_each [s_let, s_x]) (local_table.new none none)
        [s_let, s_x] ex_loc
      = CResult.error ⟨"compiler", "Wrong number of arguments to let.", ex_loc⟩ ex_compiler
          (local_table.new none none) ∧
    ex_compiler.compile_let (compile_each [s_let, ex_num bits_1, ex_num bits_2])
        (local_table.new none none) [s_let, ex_num bits_1, ex_num bits_2] ex_loc
      = CResult.error ⟨"compiler", "Names in let must be symbols.", ex_loc⟩ ex_compiler
          (local_table.new none none) ∧
    (∃ (c5 : compiler) (l2 : local_table),
      ex_compiler.compile_let (compile_each [s_let, s_x, ex_num bits_1, ex_sym 10, s_x])
        (local_table.new none none) [s_let, s_x, ex_num bits_1, ex_sym 10, s_x] ex_loc
          = CResult.ok () c5 l2 ∧
      c5.dest.size = 13 ∧ c5.dest.data 0 = OP_NULL ∧ c5.dest.data 1 = OP_CONST ∧
      c5.dest.data 4 = OP_SET_LOCAL ∧ c5.dest.data 5 = 0 ∧ c5.dest.data 6 = OP_NULL ∧
      c5.dest.data 7 = OP_NULL ∧ c5.dest.data 8 = OP_LOCAL ∧ c5.dest.data 9 = 0 ∧
      c5.dest.data 10 = OP_SET_LOCAL ∧ c5.dest.data 11 = 2 ∧ c5.dest.data 12 = OP_NULL ∧
      ∀ (host : Host) (vm : VM), Loaded vm.code c5.dest 0 c5.dest.size → vm.ip = 0 →
        vm.frame.sp = 0 → vm.frame.bp + 4 < STACK_SIZE - 1 →
        ∃ vm1, Runs host vm vm1 ∧ vm1.ip = 13 ∧ vm1.frame.sp = 4 ∧
          vm1.stack (vm.frame.bp + 2) = as_value_num bits_1 ∧
          vm1.local 2 = VMResult.ok (as_value_num bits_1) vm1) := by
  have h16 : STACK_SIZE = 16384 := rfl
  refine ⟨(C25_let_pairs ex_compiler (local_table.new none none) s_let ex_loc).1
      [s_let, s_x] (by decide),
    (C25_let_pairs ex_compiler (local_table.new none none) s_let ex_loc).2.2.1
      (ex_num bits_1) (ex_num bits_2) [] (by decide) rfl, ?_⟩
  -- the first pair: `x 1`
  obtain ⟨c1, _, hs1, hd1, _, hk1, hsym1, hcap1, hrest1⟩ :=
    (C25_let_pairs ex_compiler (local_table.new none none) s_let ex_loc).2.2.2
      9 ex_loc (ex_num bits_1) [ex_sym 10, s_x] (by decide) (by decide) (by decide)
      (by decide)
  have hs1 : c1.dest.size = 1 := hs1
  have hd1 : c1.dest.data 0 = OP_NULL := hd1
  obtain ⟨c2, l2, hv2, hs2, hp2, hrun2⟩ := SubOK_number ex_symtab bits_1 ex_loc c1
    ex_let_scope_1 hsym1 hcap1 (by rw [hs1]; decide)
  have hs2 : c2.dest.size = 4 := by
    have e : c2.dest.size = c1.dest.size + 3 := hs2
    rw [e, hs1]
  have el2 : l2 = ex_let_scope_1.inc_sp := compile_number_scope hv2
  subst el2
  obtain ⟨c2x, l2x, hv2x, _, _, hconst, _, _, _⟩ := compile_number_facts c1 ex_let_scope_1
    bits_1 ex_loc hcap1 (by rw [hs1]; decide)
  have ec2 : c2x = c2 := by
    have e := hv2x.symm.trans hv2
    simp only [CResult.ok.injEq, true_and] at e
    exact e.1
  rw [ec2, hs1] at hconst
  obtain ⟨c5, _, hs5, hb4, hb5, hb6, hkeep5, hk5, hsym5, hcap5, hlet1, hpair1⟩ :=
    hrest1 c2 ex_let_scope_1.inc_sp hv2 hp2.2.1 (by rw [hs2]; decide)
  rw [hs2] at hs5 hb4 hb5 hb6 hkeep5
  have hs5 : c5.dest.size = 7 := hs5
  have hb5 : c5.dest.data 5 = 0 := hb5
  -- the second pair: `y x`
  obtain ⟨c6, _, hs6, hd6, hkeep6, hk6, hsym6, hcap6, hrest2⟩ :=
    (C25_let_pairs c5 ex_let_scope_1.inc_sp s_let ex_loc).2.2.2
      10 ex_loc s_x [] (by decide) hcap5 (by rw [hs5]; decide) (by decide)
  rw [hs5] at hs6 hd6 hkeep6
  have hs6 : c6.dest.size = 8 := hs6
  have hidx : c6.symtab.index 9 = some ⟨9, "x"⟩ := by
    rw [hsym6, hsym5, hp2.1, hsym1]
    rfl
  obtain ⟨c7, hv7, hs7, hd8, hd9, hp7, hk7⟩ := compile_local_ok c6 ex_let_scope_2 9 ex_loc
    ⟨9, "x"⟩ 0 hidx (by decide) (by decide) (by decide) (by decide) hcap6
    (by rw [hs6]; decide)
  rw [hs6] at hs7 hd8 hd9
  have hs7 : c7.dest.size = 10 := hs7
  have hd9 : c7.dest.data 9 = 0 := hd9
  obtain ⟨c10, _, hs10, hb10, hb11, hb12, hkeep10, hk10, _, _, hlet2, hpair2⟩ :=
    hrest2 c7 ex_let_scope_2.inc_sp hv7 hp7.2.1 (by rw [hs7]; decide)
  rw [hs7] at hs10 hb10 hb11 hb12 hkeep10
  have hs10 : c10.dest.size = 13 := hs10
  have hb11 : c10.dest.data 11 = 2 := hb11
  have hfin : c10.compile_let (compile_each [s_let]) ex_let_scope_2.inc_sp [s_let] ex_loc
      = CResult.ok () c10 ex_let_scope_2.inc_sp :=
    (C25_let_pairs c10 ex_let_scope_2.inc_sp s_let ex_loc).2.1
  -- the bytes that later steps keep
  have keep8 : ∀ a, a < 8 → c10.dest.data a = c6.dest.data a := by
    intro a ha
    rw [hkeep10 a (by omega), hp7.2.2.2.1 a (by rw [hs6]; exact ha)]
  have keep7 : ∀ a, a < 7 → c10.dest.data a = c5.dest.data a := by
    intro a ha
    rw [keep8 a (by omega), hkeep6 a ha]
  have keep4 : ∀ a, a < 4 → c10.dest.data a = c2.dest.data a := by
    intro a ha
    rw [keep7 a (by omega), hkeep5 a ha]
  have hc20 : c2.dest.data 0 = c1.dest.data 0 := hp2.2.2.2.1 0 (by rw [hs1]; decide)
  have hk : c10.dest.constants = c2.dest.constants := by
    rw [hk10, hk7, hk6, hk5]
  refine ⟨c10, ex_let_scope_2.inc_sp, hlet1.trans (hlet2.trans hfin), hs10,
    by rw [keep4 0 (by decide), hc20, hd1], by rw [keep4 1 (by decide), hconst],
    by rw [keep7 4 (by decide), hb4], by rw [keep7 5 (by decide), hb5],
    by rw [keep7 6 (by decide), hb6], by rw [keep8 7 (by decide), hd6],
    by rw [hkeep10 8 (by decide), hd8], by rw [hkeep10 9 (by decide), hd9], hb10, hb11, hb12,
    ?_⟩
  intro host vm hload hip hd hroom
  rw [hs10] at hload
  have hsize : 13 ≤ vm.code.size := hload.2.2.2
  -- the run of the first pair
  have hval1 : ∃ vmB, Runs host (vm.afterPush V_NULL c1.dest.size) vmB ∧
      vmB.ip = c2.dest.size ∧ vmB.code = vm.code ∧ vmB.frame.bp = vm.frame.bp ∧
      vmB.frame.sp = (local_table.new none none).sp + 2 ∧
      vmB.stack (vm.frame.bp + (local_table.new none none).sp + 1) = as_value_num bits_1 := by
    have hl : Loaded (vm.afterPush V_NULL c1.dest.size).code c2.dest c1.dest.size
        c2.dest.size := by
      refine ⟨fun x _ hx => ?_, ?_, hload.2.2.1, by rw [hs2]; exact Nat.le_trans (by decide) hsize⟩
      · rw [hs2] at hx
        exact (hload.1 x (Nat.zero_le _) (by omega)).trans (keep4 x hx)
      · rw [← hk]
        exact hload.2.1
    obtain ⟨vmB, hr, hm, hst⟩ := hrun2 host (vm.afterPush V_NULL c1.dest.size) hl (by decide)
      rfl (by
        show vm.frame.sp + 1 + vm.frame.bp < STACK_SIZE - 1
        omega)
    obtain ⟨iB, cB, sB, bB, _⟩ := hm.facts
    refine ⟨vmB, hr, iB, cB, bB, ?_, ?_⟩
    · rw [sB]
      show vm.frame.sp + 1 + 1 = 0 + 2
      omega
    · have e : vm.frame.bp + (local_table.new none none).sp + 1
          = (vm.afterPush V_NULL c1.dest.size).frame.bp
            + (vm.afterPush V_NULL c1.dest.size).frame.sp := by
        show vm.frame.bp + 0 + 1 = vm.frame.bp + (vm.frame.sp + 1)
        omega
      rw [e]
      exact hst
  obtain ⟨vmX, hrX, iX, cX, bX, sX, hslotX, _, _⟩ := hpair1 host vm (as_value_num bits_1)
    ((hload.1 0 (Nat.le_refl _) (by decide)).trans ((keep4 0 (by decide)).trans hc20))
    (fun x _ hx => (hload.1 x (Nat.zero_le _) (by rw [hs5] at hx; omega)).trans
      (keep7 x (by rw [hs5] at hx; exact hx)))
    (Nat.lt_of_lt_of_le (by decide) hsize) (by rw [hs5]; exact Nat.le_trans (by decide) hsize)
    hip hd (by rw [hd]; omega) hval1
  rw [hs5] at iX
  have sX : vmX.frame.sp = 2 := sX
  have hslotX : vmX.stack vm.frame.bp = as_value_num bits_1 := hslotX
  -- the run of the second pair
  have hcode8 : vm.code.data 8 = OP_LOCAL := by
    rw [hload.1 8 (Nat.zero_le _) (by decide), hkeep10 8 (by decide), hd8]
  have hcode9 : vm.code.data 9 = 0 := by
    rw [hload.1 9 (Nat.zero_le _) (by decide), hkeep10 9 (by decide), hd9]
  have hval2 : ∃ vmB, Runs host (vmX.afterPush V_NULL c6.dest.size) vmB ∧
      vmB.ip = c7.dest.size ∧ vmB.code = vmX.code ∧ vmB.frame.bp = vmX.frame.bp ∧
      vmB.frame.sp = ex_let_scope_1.inc_sp.sp + 2 ∧
      vmB.stack (vmX.frame.bp + ex_let_scope_1.inc_sp.sp + 1) = as_value_num bits_1 := by
    have hstep := step_LOCAL_ok host (vmX.afterPush V_NULL c6.dest.size) 0
      (by
        show u8 (vmX.code.data c6.dest.size) = OP_LOCAL
        rw [cX, hs6, hcode8]
        rfl)
      (by
        show u8 (vmX.code.data (u32 (c6.dest.size + 1))) = 0
        rw [cX, hs6]
        exact congrArg u8 hcode9)
      (by
        show 0 < vmX.frame.sp + 1
        omega)
      (by
        show vmX.frame.sp + 1 + vmX.frame.bp < STACK_SIZE - 1
        rw [sX, bX]
        omega)
      (by
        show c6.dest.size + 2 < 4294967296
        rw [hs6]
        decide)
    refine ⟨_, Runs.step (by
        show c6.dest.size < vmX.code.size
        rw [cX, hs6]
        omega) hstep, ?_, rfl, rfl, ?_, ?_⟩
    · show c6.dest.size + 2 = c7.dest.size
      rw [hs6, hs7]
    · show vmX.frame.sp + 1 + 1 = 2 + 2
      rw [sX]
    · show (if vmX.frame.bp + 2 + 1 = vmX.frame.bp + (vmX.frame.sp + 1) then
          (if 0 + vmX.frame.bp = vmX.frame.bp + vmX.frame.sp then V_NULL
            else vmX.stack (0 + vmX.frame.bp))
          else (if vmX.frame.bp + 2 + 1 = vmX.frame.bp + vmX.frame.sp then V_NULL
            else vmX.stack (vmX.frame.bp + 2 + 1))) = as_value_num bits_1
      rw [sX, if_pos rfl, if_neg (by omega), Nat.zero_add, bX]
      exact hslotX
  obtain ⟨vmY, hrY, iY, _, bY, sY, hslotY, _, hlocalY⟩ := hpair2 host vmX
    (as_value_num bits_1)
    (by
      rw [cX, hs5, hload.1 7 (Nat.zero_le _) (by decide), keep8 7 (by decide)])
    (fun x _ hx => by
      rw [cX]
      exact hload.1 x (Nat.zero_le _) (by rw [hs10] at hx; exact hx))
    (by rw [cX, hs5]; omega) (by rw [cX, hs10]; exact hsize) (by rw [iX, hs5]) sX
    (by rw [sX, bX]; omega) hval2
  refine ⟨vmY, Runs_trans hrX hrY, by rw [iY, hs10], sY, ?_, hlocalY⟩
  rw [← bX]
  exact hslotY

/-! ## C2, C3: jumps of 128 bytes and more -/

/-- A step on `OP_CJUMP` with null or false on top and an operand byte from 128 on: the byte
is read as a negative number, so the jump goes backwards by `256 - off`, modulo `2^32`. -/
theorem step_CJUMP_falsy_back (host : Host) (vm : VM) (off : Nat)
    (hop : vm.code.readByte vm.ip = OP_CJUMP) (hsp : 0 < vm.frame.sp)
    (hv : v_truthy (vm.stack (vm.frame.bp + (vm.frame.sp - 1))) = false)
    (hoff : vm.code.readByte (u32 (vm.ip + 1)) = off) (hge : 128 ≤ off) :
    vm.step host
      = VMResult.ok () (vm.afterPop (u32 (vm.ip + 3 + (4294967296 + off - 256)))) := by
  have hoff1 : (vm.afterPop vm.ip).code.readByte (u32 ((vm.afterPop vm.ip).ip + 1)) = off := hoff
  have hlt : ¬ off < 128 := by omega
  simp only [VM.step, hop, step_switch_CJUMP, VM.step_CJUMP, pop_ok vm hsp, VMResult.bind_ok,
    isTruthy, hv, Bool.not_false, if_true, VM.jumpTarget, hoff1, i8_as_u32, hlt, if_false]
  simp only [VM.afterPop]

/-- The run of a fresh machine on code that starts with `OP_FALSE`, `OP_CJUMP` and the operand
byte 128: the jump leaves the code, at `ip = 2^32 - 124`, and `execute` returns with an empty
frame and the last-pop register untouched. -/
theorem misjump_observe (host : Host) (c0 c1 : compiler) (l1 : local_table) (e : ast_node)
    (hc : c0.compile_expr e = CResult.ok () c1 l1)
    (h0 : c1.dest.data 0 = OP_FALSE) (h1 : c1.dest.data 1 = OP_CJUMP)
    (h2 : c1.dest.data 2 = 128) (hsz : 2 ≤ c1.dest.size)
    (hmax : c1.dest.size ≤ 2147483648) :
    ∃ n, ∀ fuel,
      observe (compile_and_run c0 host [e] (n + fuel)) = some (V_NULL, 0, 4294967172) := by
  have hrun1 : ∀ k, compile_and_run c0 host [e] k
      = (VM.new c1.dest c1.heap).execute host k := by
    intro k
    simp only [compile_and_run, compiler.compile_to_eof, hc]
  -- the first step
  have hb0 : (VM.new c1.dest c1.heap).code.readByte (VM.new c1.dest c1.heap).ip = OP_FALSE := by
    show u8 (c1.dest.data 0) = OP_FALSE
    rw [h0]
    rfl
  have hs1 := step_singleton host (VM.new c1.dest c1.heap) OP_FALSE V_FALSE
    (step_switch_FALSE host _) hb0 (by show 0 + 0 < STACK_SIZE - 1; decide)
    (by show 0 + 1 < 4294967296; decide)
  have hip0 : (VM.new c1.dest c1.heap).ip < (VM.new c1.dest c1.heap).code.size := by
    show 0 < c1.dest.size
    omega
  -- the second step
  have hb1 : ((VM.new c1.dest c1.heap).afterPush V_FALSE
      ((VM.new c1.dest c1.heap).ip + 1)).code.readByte
        ((VM.new c1.dest c1.heap).afterPush V_FALSE ((VM.new c1.dest c1.heap).ip + 1)).ip
      = OP_CJUMP := by
    show u8 (c1.dest.data (0 + 1)) = OP_CJUMP
    rw [h1]
    rfl
  have hb2 : ((VM.new c1.dest c1.heap).afterPush V_FALSE
      ((VM.new c1.dest c1.heap).ip + 1)).code.readByte
        (u32 (((VM.new c1.dest c1.heap).afterPush V_FALSE
          ((VM.new c1.dest c1.heap).ip + 1)).ip + 1)) = 128 := by
    show u8 (c1.dest.data (u32 (0 + 1 + 1))) = 128
    rw [show u32 (0 + 1 + 1) = 2 from rfl, h2]
    rfl
  have hs2 := step_CJUMP_falsy_back host
    ((VM.new c1.dest c1.heap).afterPush V_FALSE ((VM.new c1.dest c1.heap).ip + 1)) 128 hb1
    (by show 0 < 0 + 1; decide) rfl hb2 (Nat.le_refl _)
  have hip1 : ((VM.new c1.dest c1.heap).afterPush V_FALSE
      ((VM.new c1.dest c1.heap).ip + 1)).ip
      < ((VM.new c1.dest c1.heap).afterPush V_FALSE
        ((VM.new c1.dest c1.heap).ip + 1)).code.size := by
    show 0 + 1 < c1.dest.size
    omega
  have hruns := Runs_trans (Runs.step hip0 hs1) (Runs.step hip1 hs2)
  obtain ⟨n, hn⟩ := hruns.execute_eq (by
    show ¬ u32 (0 + 1 + 3 + (4294967296 + 128 - 256)) < c1.dest.size
    rw [show u32 (0 + 1 + 3 + (4294967296 + 128 - 256)) = 4294967172 by norm_num [u32]]
    omega)
  refine ⟨n, fun fuel => ?_⟩
  rw [hrun1, hn fuel]
  show some (_, _, u32 (0 + 1 + 3 + (4294967296 + 128 - 256))) = _
  rw [show u32 (0 + 1 + 3 + (4294967296 + 128 - 256)) = 4294967172 by norm_num [u32]]
  rfl

/-- The symbol atom `false` compiles to the byte `OP_FALSE`. -/
theorem compile_false_byte (c : compiler) (l : local_table) (c1 : compiler) (l1 : local_table)
    (hsym : c.symtab = ex_symtab) (hcap : 0 < c.dest.cap)
    (hsz : c.dest.size + 1 ≤ 2147483648)
    (h : compile_subexpr s_false c l = CResult.ok () c1 l1) :
    c1.dest.data c.dest.size = OP_FALSE ∧ c1.dest.size = c.dest.size + 1 ∧ Pres c c1 ∧
      l1 = l := by
  obtain ⟨c2, hw, hs, hd, hp, _, _⟩ := write_byte_ok c l OP_FALSE hcap hsz
  have e : compile_subexpr s_false c l = c.write_byte l OP_FALSE := by
    simp only [s_false, ex_sym, compile_subexpr, compiler.compile_atom, hsym]
    rfl
  rw [e, hw] at h
  simp only [CResult.ok.injEq, true_and] at h
  rw [← h.1, ← h.2]
  exact ⟨hd, hs, hp, rfl⟩

/-! ## C3: `and` with a jump of 128 bytes -/

/-- C3 (defect): `(and false true ... true)` with 31 times `true` compiles to 134 bytes in which
the `OP_CJUMP` after the first argument carries the distance 128 to the final `OP_FALSE` at
address 132.  The machine reads the operand byte as a signed 8-bit number, jumps backwards out
of the code and `execute` returns with an empty frame: neither `false` nor `true` is pushed, and
the `OP_POP` of the top-level form is never reached, so the last-pop register holds its initial
null. -/
theorem C3_and_long_jump_misses :
    (∃ c1 l1, ex_compiler.compile_expr prog_and_long = CResult.ok () c1 l1 ∧
      c1.dest.size = 134 ∧ c1.dest.data 0 = OP_FALSE ∧ c1.dest.data 1 = OP_CJUMP ∧
      c1.dest.data 2 = 128 ∧ c1.dest.data 132 = OP_FALSE) ∧
    ∃ n, ∀ fuel,
      observe (compile_and_run ex_compiler ex_host [prog_and_long] (n + fuel))
        = some (V_NULL, 0, 4294967172) := by
  have hmain : ∃ c1 l1, ex_compiler.compile_expr prog_and_long = CResult.ok () c1 l1 ∧
      c1.dest.size = 134 ∧ c1.dest.data 0 = OP_FALSE ∧ c1.dest.data 1 = OP_CJUMP ∧
      c1.dest.data 2 = 128 ∧ c1.dest.data 132 = OP_FALSE := by
    -- the first argument and its placeholder
    obtain ⟨cA, hwA, hsA, hdA, hpA, _, _⟩ := write_byte_ok ex_compiler
      (local_table.new none none) OP_FALSE (by decide) (by decide)
    have hsA : cA.dest.size = 1 := hsA
    have hdA : cA.dest.data 0 = u8 OP_FALSE := hdA
    obtain ⟨cB, hwB, hsB, hdB, hpB, _, _⟩ := write_byte_ok cA (local_table.new none none)
      OP_CJUMP hpA.2.1 (by omega)
    obtain ⟨cC, hwC, hsC, _, _, hpC, _, _⟩ := write_short_ok cB (local_table.new none none) 0
      (by decide) hpB.2.1 (by omega)
    have hsC4 : cC.dest.size = 4 := by omega
    have hpAC : Pres ex_compiler cC := Pres_trans hpA (Pres_trans hpB hpC)
    -- the remaining arguments and the tail
    have hsubs : SubsOK ex_symtab (compile_each (List.replicate 31 s_true))
        (List.replicate 31 ⟨1, V_TRUE, none⟩) :=
      pure_each_ok ex_symtab _ _ (by decide)
    have hlen : and_loop_len (List.replicate 31 ⟨1, V_TRUE, none⟩) = 124 := by decide
    obtain ⟨cD, lD, heD, hsD, _, hcapD, _, _, hkept, hpatch, hlast, _⟩ :=
      and_tail_ok ex_symtab hsubs cC (local_table.new none none).dec_sp [4] hpAC.1 hpAC.2.1
        (by rw [hlen, hsC4]; decide)
        ⟨List.pairwise_singleton _ _, fun u hu => by
          rw [List.mem_singleton] at hu
          rw [hu, hsC4]
          decide⟩
    rw [hlen, hsC4] at hsD
    have hsD : cD.dest.size = 133 := hsD
    obtain ⟨cE, hwE, hsE, _, hpE, _, _⟩ := write_byte_ok cD lD OP_POP hcapD (by omega)
    have hnot : ∀ x, x < 2 → ∀ u, u ∈ [4] → x ≠ u - 2 ∧ x ≠ u - 1 := by
      intro x hx u hu
      rw [List.mem_singleton] at hu
      rw [hu]
      omega
    refine ⟨cE, lD, ?_, by omega, ?_, ?_, ?_, ?_⟩
    · have e0 : compile_subexpr s_false ex_compiler (local_table.new none none)
          = ex_compiler.write_byte (local_table.new none none) OP_FALSE := rfl
      have e2 : cC.get_size = 4 := hsC4
      have e3 : compile_and_loop
          (compile_subexpr s_false :: compile_each (List.replicate 31 s_true)) ex_compiler
          (local_table.new none none) []
          = compile_and_loop (compile_each (List.replicate 31 s_true)) cC
              (local_table.new none none).dec_sp [4] := by
        rw [compile_and_loop, e0, hwA, CResult_bind_ok, hwB, CResult_bind_ok, hwC,
          CResult_bind_ok, e2]
      have e1 : ex_compiler.compile_expr prog_and_long
          = ((compile_and_loop
              (compile_subexpr s_false :: compile_each (List.replicate 31 s_true)) ex_compiler
              (local_table.new none none) []).bind fun patch_locs c1 l1 =>
              (c1.write_byte l1 OP_TRUE).bind fun _ c2 l2 =>
                (c2.write_byte l2 OP_JUMP).bind fun _ c3 l3 =>
                  (c3.write_short l3 1).bind fun _ c4 l4 =>
                    (compiler.write_byte (patch_jumps c4.get_size patch_locs c4) l4
                      OP_FALSE).bind fun _ c5 l5 => CResult.ok () c5 l5.inc_sp).bind
              fun _ c1 l1 => c1.write_byte l1 OP_POP := rfl
      rw [e1, e3, heD, CResult_bind_ok]
      exact hwE
    · rw [hpE.2.2.2.1 0 (by omega), hkept 0 (by omega) (hnot 0 (by omega)),
        hpC.2.2.2.1 0 (by omega), hpB.2.2.2.1 0 (by omega), hdA]
      rfl
    · rw [hpE.2.2.2.1 1 (by omega), hkept 1 (by omega) (hnot 1 (by omega)),
        hpC.2.2.2.1 1 (by omega), ← hsA, hdB]
      rfl
    · have := hpatch 4 (List.mem_singleton.mpr rfl) (by rw [hsD]; decide)
      rw [hsD] at this
      rw [hpE.2.2.2.1 2 (by omega)]
      exact this
    · rw [hsD] at hlast
      rw [hpE.2.2.2.1 132 (by omega)]
      exact hlast
  refine ⟨hmain, ?_⟩
  obtain ⟨c1, l1, hc, hs, h0, h1, h2, _⟩ := hmain
  exact misjump_observe ex_host ex_compiler c1 l1 prog_and_long hc h0 h1 h2 (by omega)
    (by omega)

/-! ## C2: `if` with a then-branch of 125 bytes -/

/-- C2 (defect): `(if false (and true ... true) 20)` with 30 times `true` compiles to 136 bytes
in which the `OP_CJUMP` carries the distance 128 to the code of the else-branch at address 132.
The machine reads the operand byte as a signed 8-bit number, jumps backwards out of the code
and `execute` returns with an empty frame: the code of neither branch is executed, and the
last-pop register holds its initial null, not the number 20. -/
theorem C2_if_long_jump_misses :
    (∃ c1 l1, ex_compiler.compile_expr prog_if_long = CResult.ok () c1 l1 ∧
      c1.dest.size = 136 ∧ c1.dest.data 0 = OP_FALSE ∧ c1.dest.data 1 = OP_CJUMP ∧
      c1.dest.data 2 = 128) ∧
    ∃ n, ∀ fuel,
      observe (compile_and_run ex_compiler ex_host [prog_if_long] (n + fuel))
        = some (V_NULL, 0, 4294967172) := by
  have hmain : ∃ c1 l1, ex_compiler.compile_expr prog_if_long = CResult.ok () c1 l1 ∧
      c1.dest.size = 136 ∧ c1.dest.data 0 = OP_FALSE ∧ c1.dest.data 1 = OP_CJUMP ∧
      c1.dest.data 2 = 128 := by
    have hc : SubOK ex_symtab (compile_subexpr s_false) ⟨1, V_FALSE, none⟩ :=
      pure_ok ex_symtab _ _ (by decide)
    have ht : SubOK ex_symtab
        (compile_subexpr (ex_list (s_and :: List.replicate 30 s_true)))
        ⟨125, V_TRUE, none⟩ := pure_ok ex_symtab _ _ (by decide)
    have he : SubOK ex_symtab (compile_subexpr (ex_num bits_20))
        ⟨3, as_value_num bits_20, none⟩ := pure_ok ex_symtab _ _ (by decide)
    obtain ⟨cA, lA, c9, l9, hsc, hsA, hif, hs9, hp9, hreg, _, hcj, hoff, _, _, _⟩ :=
      if_compile ex_symtab
        (compile_each [s_if, s_false, ex_list (s_and :: List.replicate 30 s_true),
          ex_num bits_20])
        [s_if, s_false, ex_list (s_and :: List.replicate 30 s_true), ex_num bits_20] ex_loc
        _ _ _ _ _ _ rfl rfl rfl rfl hc ht he ex_compiler (local_table.new none none) rfl
        (by decide) (by decide)
    have hsA : cA.dest.size = 1 := hsA
    have hs9 : c9.dest.size = 135 := hs9
    have hcj : c9.dest.data 1 = OP_CJUMP := hcj
    have hoff : c9.dest.data 2 = 128 := hoff (by decide)
    obtain ⟨hfA, _, _, _⟩ := compile_false_byte ex_compiler (local_table.new none none) cA lA
      rfl (by decide) (by decide) hsc
    have hfA : cA.dest.data 0 = OP_FALSE := hfA
    obtain ⟨cE, hwE, hsE, _, hpE, _, _⟩ := write_byte_ok c9 l9 OP_POP hp9.2.1 (by omega)
    refine ⟨cE, l9, ?_, by omega, ?_, ?_, ?_⟩
    · have e1 : compile_subexpr prog_if_long ex_compiler (local_table.new none none)
          = ex_compiler.compile_if
              (compile_each [s_if, s_false, ex_list (s_and :: List.replicate 30 s_true),
                ex_num bits_20])
              (local_table.new none none)
              [s_if, s_false, ex_list (s_and :: List.replicate 30 s_true), ex_num bits_20]
              ex_loc := rfl
      simp only [compiler.compile_expr, e1, hif, CResult_bind_ok]
      exact hwE
    · rw [hpE.2.2.2.1 0 (by omega), hreg 0 (Nat.zero_le _) (by omega)]
      exact hfA
    · rw [hpE.2.2.2.1 1 (by omega)]
      exact hcj
    · rw [hpE.2.2.2.1 2 (by omega)]
      exact hoff
  refine ⟨hmain, ?_⟩
  obtain ⟨c1, l1, hc, hs, h0, h1, h2⟩ := hmain
  exact misjump_observe ex_host ex_compiler c1 l1 prog_if_long hc h0 h1 h2 (by omega)
    (by omega)

/-! ## C5: `def` and the reference to the global -/

/-- The top-level form `(do x)` with `x` unbound in the scope, compiled after other forms: it
appends five bytes and one constant and keeps what the module holds. -/
theorem compile_do_x (c : compiler) (hsym : c.symtab = ex_symtab) (hcap : 0 < c.dest.cap)
    (hsz : c.dest.size + 5 ≤ 2147483648) :
    ∃ c2 l2, c.compile_expr prog_do_x = CResult.ok () c2 l2 ∧
      c2.dest.size = c.dest.size + 5 ∧
      (∀ a, a < c.dest.size → c2.dest.data a = c.dest.data a) ∧
      c.dest.constants <+: c2.dest.constants ∧
      c2.dest.constants.length = c.dest.constants.length + 1 ∧ c2.heap = c.heap := by
  obtain ⟨dest, symtab, heap⟩ := c
  simp only at hsym hcap hsz
  subst hsym
  obtain ⟨c1, hw1, hs1, _, hp1, hh1, hk1⟩ := write_byte_ok
    (⟨{ dest with constants := dest.constants ++ [as_sym_value 9] }, ex_symtab, heap⟩ : compiler)
    (local_table.new none none) OP_CONST hcap (by simpa using by omega)
  have hs1 : c1.dest.size = dest.size + 1 := hs1
  have hk1 : c1.dest.constants = dest.constants ++ [as_sym_value 9] := hk1
  have hh1 : c1.heap = heap := hh1
  obtain ⟨c2, hw2, hs2, _, _, hp2, hh2, hk2⟩ := write_short_gen c1 (local_table.new none none)
    (u16 ((dest.constants ++ [as_sym_value 9]).length - 1)) hp1.2.1 (by omega)
  obtain ⟨c3, hw3, hs3, _, hp3, hh3, hk3⟩ := write_byte_ok c2 (local_table.new none none)
    OP_GLOBAL hp2.2.1 (by omega)
  obtain ⟨c4, hw4, hs4, _, hp4, hh4, hk4⟩ := write_byte_ok c3 (local_table.new none none).inc_sp
    OP_POP hp3.2.1 (by omega)
  have hp14 : Pres c1 c4 := Pres_trans hp2 (Pres_trans hp3 hp4)
  have hk : c4.dest.constants = dest.constants ++ [as_sym_value 9] := by
    rw [hk4, hk3, hk2, hk1]
  have hs4t : c4.dest.size = dest.size + 5 := by omega
  refine ⟨c4, (local_table.new none none).inc_sp, ?_, hs4t, ?_, ?_, ?_, ?_⟩
  · have e1 : (⟨dest, ex_symtab, heap⟩ : compiler).compile_expr prog_do_x
        = ((((⟨{ dest with constants := dest.constants ++ [as_sym_value 9] }, ex_symtab,
              heap⟩ : compiler).write_byte (local_table.new none none) OP_CONST).bind
            fun _ c3 l3 =>
              (c3.write_short l3 (u16 ((dest.constants ++ [as_sym_value 9]).length - 1))).bind
                fun _ c4 l4 => c4.write_byte l4 OP_GLOBAL).bind
            fun _ c5 l5 => CResult.ok () c5 l5.inc_sp).bind
          fun _ c1 l1 => c1.write_byte l1 OP_POP := rfl
    rw [e1]
    simp only [hw1, CResult_bind_ok, hw2, hw3]
    exact hw4
  · intro a ha
    have ha1 : a < dest.size := ha
    rw [hp14.2.2.2.1 a (by omega)]
    exact hp1.2.2.2.1 a ha
  · rw [hk]
    exact List.prefix_append _ _
  · rw [hk, List.length_append, List.length_singleton]
  · rw [hh4, hh3, hh2, hh1]

/-- The run of the code of `(def x 3)`: the symbol and the number are pushed, and
`OP_SET_GLOBAL` then takes the number, which it pops first, for the name and dereferences it
as a string object. -/
theorem def_run_undefined (host : Host) (code : Bytecode) (heap : Heap) (sym : Nat)
    (hsize : 7 ≤ code.size) (hk : code.constants.length < 65536)
    (h0 : code.data 0 = OP_CONST) (h1 : code.data 1 = 0) (h2 : code.data 2 = 0)
    (h3 : code.data 3 = OP_CONST) (h4 : code.data 4 = 1) (h5 : code.data 5 = 0)
    (h6 : code.data 6 = OP_SET_GLOBAL)
    (hc0 : code.constants.get? 0 = some (as_sym_value sym))
    (hc1 : code.constants.get? 1 = some (as_value_num bits_3))
    (hheap : valueString heap (as_value_num bits_3) = none) :
    ∃ n, ∀ fuel, (VM.new code heap).execute host (n + fuel) = some VMResult.undefined := by
  have hrs0 : code.readShort 1 = 0 :=
    readShort_of_bytes code 1 0 (by decide) (by decide) (by rw [h1]; rfl) (by rw [h2]; rfl)
  have hrs1 : code.readShort 4 = 1 :=
    readShort_of_bytes code 4 1 (by decide) (by decide) (by rw [h4]; rfl) (by rw [h5]; rfl)
  have hstep0 := step_CONST_ok host (VM.new code heap) 0 (as_sym_value sym)
    (by show u8 (code.data 0) = OP_CONST; rw [h0]; rfl) hrs0 hk hc0
    (by show 0 + 0 < STACK_SIZE - 1; decide) (by show 0 + 3 < 4294967296; decide)
  obtain ⟨vmA, hA, iA, cA, fA, kA, hhA⟩ : ∃ vmA : VM,
      (VM.new code heap).step host = VMResult.ok () vmA ∧ vmA.ip = 3 ∧ vmA.code = code ∧
      vmA.frame = { CallFrame.new none 0 0 none 0 with sp := 1 } ∧
      vmA.stack 0 = as_sym_value sym ∧ vmA.heap = heap :=
    ⟨_, hstep0, rfl, rfl, rfl, rfl, rfl⟩
  have sA : vmA.frame.sp = 1 := by rw [fA]
  have bA : vmA.frame.bp = 0 := by rw [fA]; rfl
  have hstep1 := step_CONST_ok host vmA 1 (as_value_num bits_3)
    (by rw [cA, iA]; show u8 (code.data 3) = OP_CONST; rw [h3]; rfl)
    (by rw [cA, iA]; exact hrs1) (by rw [cA]; exact hk) (by rw [cA]; exact hc1)
    (by rw [sA, bA]; decide) (by rw [iA]; decide)
  obtain ⟨vmB, hB, iB, cB, sB, bB, kB, hhB⟩ : ∃ vmB : VM,
      vmA.step host = VMResult.ok () vmB ∧ vmB.ip = vmA.ip + 3 ∧ vmB.code = vmA.code ∧
      vmB.frame.sp = vmA.frame.sp + 1 ∧ vmB.frame.bp = vmA.frame.bp ∧
      vmB.stack (vmA.frame.bp + vmA.frame.sp) = as_value_num bits_3 ∧ vmB.heap = vmA.heap :=
    ⟨_, hstep1, rfl, rfl, rfl, rfl, by simp [VM.afterPush], rfl⟩
  rw [iA] at iB
  rw [sA] at sB
  rw [bA] at bB
  rw [bA, sA] at kB
  have hstep2 : vmB.step host = VMResult.undefined := by
    have hop : vmB.code.readByte vmB.ip = OP_SET_GLOBAL := by
      rw [cB, cA, iB]
      show u8 (code.data 6) = OP_SET_GLOBAL
      rw [h6]
      rfl
    have hpop1 := pop_ok vmB (by rw [sB]; decide)
    have htop : vmB.stack (vmB.frame.bp + (vmB.frame.sp - 1)) = as_value_num bits_3 := by
      rw [bB, sB]
      exact kB
    have hpop2 := pop_ok (vmB.afterPop vmB.ip) (by show 0 < vmB.frame.sp - 1; rw [sB]; decide)
    have hh : ((vmB.afterPop vmB.ip).afterPop (vmB.afterPop vmB.ip).ip).heap = heap := by
      show vmB.heap = heap
      rw [hhB, hhA]
    simp only [VM.step, hop, step_switch_SET_GLOBAL, VM.step_SET_GLOBAL, hpop1,
      VMResult.bind_ok, hpop2, htop, hh, hheap]
    rfl
  refine ⟨3, fun fuel => ?_⟩
  have e : 3 + fuel = (fuel + 1) + 1 + 1 := by omega
  rw [e, execute_step host _ vmA _ (by show 0 < code.size; omega) hA,
    execute_step host vmA vmB _ (by rw [cA, iA]; omega) hB]
  simp only [VM.execute, Bytecode.getSize, cB, cA, iB, show 3 + 3 < code.size by omega, if_true,
    hstep2]

/-- C5 (defect): the two top-level forms `(def x 3) (do x)` compile to 14 bytes, but executing
them never reaches the reference to `x`: `OP_SET_GLOBAL` pops the number 3 first and uses it as
the name, dereferencing it as a string object, which is undefined behaviour; nothing is bound
and the last-pop register is never written.  The reference alone, `(do x)`, raises
"OP_GET_GLOBAL operand is not a string.", because the compiler loads the name as a symbol
constant. -/
theorem C5_def_then_reference_is_undefined :
    (∃ c2 l2, ex_compiler.compile_to_eof [prog_def_x_3, prog_do_x] = CResult.ok () c2 l2 ∧
      c2.dest.size = 14) ∧
    (∃ n, ∀ fuel,
      compile_and_run ex_compiler ex_host [prog_def_x_3, prog_do_x] (n + fuel)
        = some VMResult.undefined) ∧
    ((compile_and_run ex_compiler_loc ex_host [prog_do_x] 10).bind
        fun r => r.thrown.map fun p => p.1.message)
      = some "OP_GET_GLOBAL operand is not a string." := by
  have hdef : ∃ c1 l1, ex_compiler.compile_expr prog_def_x_3 = CResult.ok () c1 l1 ∧
      c1.symtab = ex_symtab ∧ 0 < c1.dest.cap ∧ c1.dest.size = 9 ∧ c1.heap = [] ∧
      c1.dest.constants = [as_sym_value 9, as_value_num bits_3] ∧
      c1.dest.data 0 = OP_CONST ∧ c1.dest.data 1 = 0 ∧ c1.dest.data 2 = 0 ∧
      c1.dest.data 3 = OP_CONST ∧ c1.dest.data 4 = 1 ∧ c1.dest.data 5 = 0 ∧
      c1.dest.data 6 = OP_SET_GLOBAL :=
    ⟨_, _, rfl, rfl, by decide, by decide, rfl, rfl, by decide, by decide, by decide,
      by decide, by decide, by decide, by decide⟩
  obtain ⟨c1, l1, hc1, hsym1, hcap1, hs1, hh1, hk1, h0, h1, h2, h3, h4, h5, h6⟩ := hdef
  obtain ⟨c2, l2, hc2, hs2, hkept, hpre, hlen, hh2⟩ := compile_do_x c1 hsym1 hcap1
    (by rw [hs1]; decide)
  have hcomp : ex_compiler.compile_to_eof [prog_def_x_3, prog_do_x]
      = CResult.ok () c2 (local_table.new none none) := by
    simp only [compiler.compile_to_eof, hc1, hc2]
  refine ⟨⟨c2, _, hcomp, by rw [hs2, hs1]⟩, ?_, by decide⟩
  have hget : ∀ i v, [as_sym_value 9, as_value_num bits_3].get? i = some v →
      c2.dest.constants.get? i = some v := by
    intro i v hv
    rw [← hk1] at hv
    exact prefix_get hpre i v hv
  obtain ⟨n, hn⟩ := def_run_undefined ex_host c2.dest c2.heap 9 (by rw [hs2, hs1]; decide)
    (by rw [hlen, hk1]; decide)
    (by rw [hkept 0 (by rw [hs1]; decide)]; exact h0)
    (by rw [hkept 1 (by rw [hs1]; decide)]; exact h1)
    (by rw [hkept 2 (by rw [hs1]; decide)]; exact h2)
    (by rw [hkept 3 (by rw [hs1]; decide)]; exact h3)
    (by rw [hkept 4 (by rw [hs1]; decide)]; exact h4)
    (by rw [hkept 5 (by rw [hs1]; decide)]; exact h5)
    (by rw [hkept 6 (by rw [hs1]; decide)]; exact h6)
    (hget 0 _ rfl) (hget 1 _ rfl) (by rw [hh2, hh1]; rfl)
  refine ⟨n, fun fuel => ?_⟩
  simp only [compile_and_run, hcomp]
  exact hn fuel

/-! ## C31: symbol values -/

/-- The bits of a symbol value: the tag, and the id that `usym_id` reads back, for an id that
fits the 28 bits left after the shift on 32 bits. -/
theorem sym_value_bits (x : Nat) (hx : x < 268435456) :
    (16 * x ||| 12) &&& 0xf = 12 ∧ u32 (((16 * x ||| 12) &&& PTR_MASK) >>> 4) = x := by
  have hor : 16 * x ||| 12 = 16 * x + 12 :=
    (Nat.mul_add_lt_is_or (show 12 < 2 ^ 4 by decide) x).symm
  rw [hor]
  constructor
  · have h := Nat.and_pow_two_sub_one_eq_mod (16 * x + 12) 4
    have e : (2 : Nat) ^ 4 - 1 = 0xf := rfl
    rw [e] at h
    rw [h]
    have : (2 : Nat) ^ 4 = 16 := rfl
    omega
  · have h16 : ∀ n : Nat, n / 16 = n / 2 / 2 / 2 / 2 := by
      intro n
      omega
    have hdiv : ((16 * x + 12) &&& PTR_MASK) / 16 = (16 * x + 12) / 16 &&& PTR_MASK / 16 := by
      rw [h16 ((16 * x + 12) &&& PTR_MASK), Nat.and_div_two, Nat.and_div_two, Nat.and_div_two,
        Nat.and_div_two, ← h16 (16 * x + 12), ← h16 PTR_MASK]
    have e1 : PTR_MASK / 16 = 2 ^ 60 - 1 := by decide
    have e2 : (16 * x + 12) / 16 = x := by omega
    have e4 : (2 : Nat) ^ 4 = 16 := rfl
    rw [Nat.shiftRight_eq_div_pow, e4, hdiv, e1, e2, Nat.and_pow_two_sub_one_eq_mod]
    have e3 : (2 : Nat) ^ 60 = 1152921504606846976 := by norm_num
    unfold u32
    omega

/-- C31 (defect): `as_sym_value(id)` and `as_value(symbol{id, name})` shift the 32-bit id by 4
on 32 bits, so the four high bits of the id are lost: the value has the tag 12, but `usym_id`
reads back `id mod 2^28`.  The id `2^28` decodes to 0, the same value as the symbol 0. -/
theorem C31_sym_value_keeps_28_bits :
    (∀ id : Nat, (as_sym_value id).tag = TAG_SYM ∧
      (as_sym_value id).usym_id = id % 268435456) ∧
    (∀ s : Symbol, as_value_symbol s = as_sym_value s.id) ∧
    (as_sym_value 268435456).usym_id = 0 ∧ as_sym_value 268435456 = as_sym_value 0 := by
  refine ⟨?_, fun _ => rfl, by decide, by decide⟩
  intro id
  have hsh : u32 (id <<< 4) = 16 * (id % 268435456) := by
    rw [Nat.shiftLeft_eq]
    unfold u32
    have : (2 : Nat) ^ 4 = 16 := rfl
    omega
  have h := sym_value_bits (id % 268435456) (Nat.mod_lt _ (by decide))
  constructor
  · show (u32 (id <<< 4) ||| TAG_SYM) &&& 0xf = TAG_SYM
    rw [hsh]
    exact h.1
  · show u32 (((u32 (id <<< 4) ||| TAG_SYM) &&& PTR_MASK) >>> 4) = id % 268435456
    rw [hsh]
    exact h.2

/-! ## C32: `Bytecode::symbol` -/

/-- C32 (defect): `Bytecode::symbol` shifts the id by 8 bits, while the value encoding reads a
symbol id with a shift by 4; and every call of `symbol` or `symbolID` interns the name anew.
After one other symbol, `symbol("x")` returns a value with the tag 12 whose id under the value
encoding is 16, while `symbolID("x")` returns 1 on the same module and 2 on the module that
`symbol("x")` left. -/
theorem C32_symbol_shifts_by_eight :
    ((Bytecode.new.symbolID "a").1.symbol "x").2.tag = TAG_SYM ∧
    ((Bytecode.new.symbolID "a").1.symbol "x").2.usym_id = 16 ∧
    ((Bytecode.new.symbolID "a").1.symbolID "x").2 = 1 ∧
    (((Bytecode.new.symbolID "a").1.symbol "x").1.symbolID "x").2 = 2 ∧
    ((Bytecode.new.symbolID "a").1.symbol "x").2 ≠ as_sym_value 1 := by
  decide

/-! ## C33: `FuncStub::getUpvalue` -/

/-- The loop of `getUpvalue` finds nothing when the pair is not in the list. -/
theorem findUpvalue_not_mem (slot : Nat) (direct : Bool) :
    ∀ (us : List Upvalue) (i n : Nat), (⟨slot, direct⟩ : Upvalue) ∉ us →
      FuncStub.findUpvalue slot direct us i n = none := by
  intro us
  induction us with
  | nil =>
    intro i n _
    rfl
  | cons u rest ih =>
    intro i n hnot
    have hne : ¬ (u.slot = slot ∧ u.direct = direct) := by
      intro h
      apply hnot
      have : u = ⟨slot, direct⟩ := by
        cases u
        simp only [Upvalue.mk.injEq]
        exact h
      rw [this]
      exact List.mem_cons_self _ _
    have hrest : (⟨slot, direct⟩ : Upvalue) ∉ rest := fun h => hnot (List.mem_cons_of_mem _ h)
    simp only [FuncStub.findUpvalue, hne, if_false, ih (i + 1) n hrest, ite_self]

/-- What the loop of `getUpvalue` finds is an index of the pair, counted from `i`. -/
theorem findUpvalue_some (slot : Nat) (direct : Bool) :
    ∀ (us : List Upvalue) (i n j : Nat), FuncStub.findUpvalue slot direct us i n = some j →
      i ≤ j ∧ j < n ∧ us.get? (j - i) = some ⟨slot, direct⟩ := by
  intro us
  induction us with
  | nil =>
    intro i n j h
    simp [FuncStub.findUpvalue] at h
  | cons u rest ih =>
    intro i n j h
    simp only [FuncStub.findUpvalue] at h
    split_ifs at h with h1 h2
    · have e : i = j := Option.some.inj h
      subst e
      refine ⟨Nat.le_refl _, h1, ?_⟩
      rw [Nat.sub_self]
      cases u
      simp only at h2
      simp only [List.get?, h2.1, h2.2]
    · obtain ⟨a, b, c⟩ := ih (i + 1) n j h
      refine ⟨by omega, b, ?_⟩
      have e : j - i = (j - (i + 1)) + 1 := by omega
      rw [e]
      exact c

/-- The loop of `getUpvalue` finds the pair when it is in the part of the list below
`numUpvals`. -/
theorem findUpvalue_mem (slot : Nat) (direct : Bool) :
    ∀ (us : List Upvalue) (i n : Nat), (⟨slot, direct⟩ : Upvalue) ∈ us →
      i + us.length ≤ n → ∃ j, FuncStub.findUpvalue slot direct us i n = some j := by
  intro us
  induction us with
  | nil =>
    intro i n h _
    exact absurd h (List.not_mem_nil _)
  | cons u rest ih =>
    intro i n hmem hlen
    simp only [List.length_cons] at hlen
    have hi : i < n := by omega
    by_cases h2 : u.slot = slot ∧ u.direct = direct
    · exact ⟨i, by simp only [FuncStub.findUpvalue, hi, h2, and_self, if_true]⟩
    · have hrest : (⟨slot, direct⟩ : Upvalue) ∈ rest := by
        rcases List.mem_cons.mp hmem with h | h
        · exact absurd ⟨by rw [← h], by rw [← h]⟩ h2
        · exact h
      obtain ⟨j, hj⟩ := ih (i + 1) n hrest (by omega)
      exact ⟨j, by simp only [FuncStub.findUpvalue, hi, h2, if_true, if_false, hj]⟩

/-- The loop of `getUpvalue` on a list extended by a pair that it did not hold: the pair is
found at the end. -/
theorem findUpvalue_append (slot : Nat) (direct : Bool) :
    ∀ (us : List Upvalue) (i n : Nat), (⟨slot, direct⟩ : Upvalue) ∉ us →
      i + us.length < n →
      FuncStub.findUpvalue slot direct (us ++ [⟨slot, direct⟩]) i n = some (i + us.length) := by
  intro us
  induction us with
  | nil =>
    intro i n _ hlen
    simp only [List.length_nil, Nat.add_zero] at hlen
    simp only [List.nil_append, FuncStub.findUpvalue, hlen, and_self, if_true, List.length_nil,
      Nat.add_zero]
  | cons u rest ih =>
    intro i n hnot hlen
    simp only [List.length_cons] at hlen
    have hi : i < n := by omega
    have hne : ¬ (u.slot = slot ∧ u.direct = direct) := by
      intro h
      apply hnot
      have : u = ⟨slot, direct⟩ := by
        cases u
        simp only [Upvalue.mk.injEq]
        exact h
      rw [this]
      exact List.mem_cons_self _ _
    have hrest : (⟨slot, direct⟩ : Upvalue) ∉ rest := fun h => hnot (List.mem_cons_of_mem _ h)
    show FuncStub.findUpvalue slot direct (u :: (rest ++ [⟨slot, direct⟩])) i n = _
    simp only [FuncStub.findUpvalue, hi, hne, if_true, if_false,
      ih (i + 1) n hrest (by omega), List.length_cons]
    exact congrArg some (by omega)

/-- Below the 8-bit limit: on a stub whose `numUpvals` is the length of `upvals`, below 255,
`getUpvalue(slot, direct)` returns an id `i` with `upvals[i] = (slot, direct)` and keeps
`numUpvals` equal to the length of `upvals`; a second call with the same pair returns the same
id and changes nothing; a pair that is registered already leaves the stub as it is, and a pair
that is not is appended and gets the previous number of upvalues as its id. -/
theorem getUpvalue_idempotent_below_255 (s : FuncStub) (slot : Nat) (direct : Bool)
    (hinv : s.numUpvals = s.upvals.length) (hlt : s.upvals.length < 255) :
    (s.getUpvalue slot direct).2.upvals.get? (s.getUpvalue slot direct).1
      = some ⟨slot, direct⟩ ∧
    (s.getUpvalue slot direct).2.numUpvals = (s.getUpvalue slot direct).2.upvals.length ∧
    (s.getUpvalue slot direct).2.getUpvalue slot direct = s.getUpvalue slot direct ∧
    ((⟨slot, direct⟩ : Upvalue) ∈ s.upvals → (s.getUpvalue slot direct).2 = s) ∧
    ((⟨slot, direct⟩ : Upvalue) ∉ s.upvals →
      (s.getUpvalue slot direct).1 = s.numUpvals ∧
      (s.getUpvalue slot direct).2.upvals = s.upvals ++ [⟨slot, direct⟩] ∧
      (s.getUpvalue slot direct).2.numUpvals = s.numUpvals + 1) := by
  by_cases hmem : (⟨slot, direct⟩ : Upvalue) ∈ s.upvals
  · obtain ⟨j, hj⟩ := findUpvalue_mem slot direct s.upvals 0 s.numUpvals hmem (by omega)
    have hget : s.getUpvalue slot direct = (j, s) := by
      simp only [FuncStub.getUpvalue, hj]
    obtain ⟨_, _, hat⟩ := findUpvalue_some slot direct s.upvals 0 s.numUpvals j hj
    rw [hget]
    refine ⟨hat, hinv, hget, fun _ => rfl, fun h => absurd hmem h⟩
  · have hnone := findUpvalue_not_mem slot direct s.upvals 0 s.numUpvals hmem
    have hu8 : u8 (s.numUpvals + 1) = s.numUpvals + 1 := u8_of_lt (by omega)
    have hget : s.getUpvalue slot direct = (s.numUpvals,
        { s with upvals := s.upvals ++ [(⟨slot, direct⟩ : Upvalue)],
                 numUpvals := s.numUpvals + 1 }) := by
      simp only [FuncStub.getUpvalue, hnone, hu8]
    have hfind := findUpvalue_append slot direct s.upvals 0 (s.numUpvals + 1) hmem (by omega)
    rw [Nat.zero_add, ← hinv] at hfind
    rw [hget]
    refine ⟨?_, ?_, ?_, fun h => absurd h hmem, fun _ => ⟨rfl, rfl, rfl⟩⟩
    · show (s.upvals ++ [(⟨slot, direct⟩ : Upvalue)]).get? s.numUpvals = some ⟨slot, direct⟩
      rw [hinv, List.get?_eq_getElem?, List.getElem?_append_right (Nat.le_refl _)]
      simp
    · show s.numUpvals + 1 = (s.upvals ++ [(⟨slot, direct⟩ : Upvalue)]).length
      rw [List.length_append, List.length_singleton, hinv]
    · simp only [FuncStub.getUpvalue, hfind]

/-- Registrations on the stubs `ex_stub` and `ex_stub_capture`. -/
theorem getUpvalue_on_small_stubs :
    (ex_stub.getUpvalue 3 true).1 = 0 ∧
    (ex_stub.getUpvalue 3 true).2.upvals = [⟨3, true⟩] ∧
    (ex_stub.getUpvalue 3 true).2.numUpvals = 1 ∧
    (ex_stub.getUpvalue 3 true).2.getUpvalue 3 true = ex_stub.getUpvalue 3 true ∧
    (ex_stub_capture.getUpvalue 0 true).2 = ex_stub_capture :=
  ⟨((getUpvalue_idempotent_below_255 ex_stub 3 true rfl (by decide)).2.2.2.2 (by decide)).1,
   ((getUpvalue_idempotent_below_255 ex_stub 3 true rfl (by decide)).2.2.2.2 (by decide)).2.1,
   ((getUpvalue_idempotent_below_255 ex_stub 3 true rfl (by decide)).2.2.2.2 (by decide)).2.2,
   (getUpvalue_idempotent_below_255 ex_stub 3 true rfl (by decide)).2.2.1,
   (getUpvalue_idempotent_below_255 ex_stub_capture 0 true rfl (by decide)).2.2.2.1 (by decide)⟩

set_option maxRecDepth 100000 in
/-- The stub `ex_stub_255` is what 255 calls of `getUpvalue`, for the direct captures of the
positions 0 to 254, make of a stub without upvalues. -/
theorem ex_stub_255_reached :
    (List.range 255).foldl (fun s i => (s.getUpvalue i true).2)
        { ex_stub_255 with numUpvals := 0, upvals := [] } = ex_stub_255 := by
  decide

set_option maxRecDepth 100000 in
/-- The 256th and the 257th registration on `ex_stub_255`. -/
theorem ex_stub_255_getUpvalue :
    ex_stub_255.numUpvals = ex_stub_255.upvals.length ∧
    (⟨255, true⟩ : Upvalue) ∉ ex_stub_255.upvals ∧
    ex_stub_255.getUpvalue 255 true
      = (255, { ex_stub_255 with upvals := ex_stub_255.upvals ++ [⟨255, true⟩],
                                 numUpvals := 0 }) ∧
    (ex_stub_255.getUpvalue 255 true).2.upvals.length = 256 ∧
    (ex_stub_255.getUpvalue 255 true).2.getUpvalue 255 true
      = (0, { ex_stub_255 with upvals := ex_stub_255.upvals ++ [⟨255, true⟩, ⟨255, true⟩],
                               numUpvals := 1 }) ∧
    ((ex_stub_255.getUpvalue 255 true).2.getUpvalue 255 true).2.upvals.get? 0
      = some ⟨0, true⟩ := by
  decide

/-- C33 (defect): `numUpvals` is an 8-bit counter that `getUpvalue` increments without a
check.  The stub `ex_stub_255` is what 255 calls of `getUpvalue`, for the direct captures of
the positions 0 to 254, make of a stub without upvalues; its `numUpvals` is the length of
`upvals`.  The call for the new pair (255, direct) returns the id 255 and appends the pair,
and `numUpvals` wraps to 0 while `upvals` holds 256 pairs.  The second call with the same pair
finds nothing, because the lookup loop runs zero times: it returns the id 0, where `upvals`
holds the pair (0, direct), and appends the pair again, so `upvals` and `numUpvals` change.
On a stub with fewer than 255 upvalues, `numUpvals` of them, the registration is idempotent. -/
theorem C33_getUpvalue_wraps_at_255 :
    (List.range 255).foldl (fun s i => (s.getUpvalue i true).2)
        { ex_stub_255 with numUpvals := 0, upvals := [] } = ex_stub_255 ∧
    ex_stub_255.numUpvals = ex_stub_255.upvals.length ∧
    (⟨255, true⟩ : Upvalue) ∉ ex_stub_255.upvals ∧
    (ex_stub_255.getUpvalue 255 true).1 = 255 ∧
    (ex_stub_255.getUpvalue 255 true).2.upvals = ex_stub_255.upvals ++ [⟨255, true⟩] ∧
    (ex_stub_255.getUpvalue 255 true).2.upvals.length = 256 ∧
    (ex_stub_255.getUpvalue 255 true).2.numUpvals = 0 ∧
    ((ex_stub_255.getUpvalue 255 true).2.getUpvalue 255 true).1 = 0 ∧
    ((ex_stub_255.getUpvalue 255 true).2.getUpvalue 255 true).2.upvals.get? 0
      = some ⟨0, true⟩ ∧
    ((ex_stub_255.getUpvalue 255 true).2.getUpvalue 255 true).2.upvals
      = ex_stub_255.upvals ++ [⟨255, true⟩, ⟨255, true⟩] ∧
    ((ex_stub_255.getUpvalue 255 true).2.getUpvalue 255 true).2.numUpvals = 1 ∧
    (∀ (s : FuncStub) (slot : Nat) (direct : Bool), s.numUpvals = s.upvals.length →
      s.upvals.length < 255 →
      (s.getUpvalue slot direct).2.upvals.get? (s.getUpvalue slot direct).1
        = some ⟨slot, direct⟩ ∧
      (s.getUpvalue slot direct).2.numUpvals = (s.getUpvalue slot direct).2.upvals.length ∧
      (s.getUpvalue slot direct).2.getUpvalue slot direct = s.getUpvalue slot direct) := by
  obtain ⟨h1, h2, h3, h4, h5, h6⟩ := ex_stub_255_getUpvalue
  refine ⟨ex_stub_255_reached, h1, h2, ?_, ?_, h4, ?_, ?_, h6, ?_, ?_, ?_⟩
  · rw [h3]
  · rw [h3]
  · rw [h3]
  · rw [h5]
  · rw [h5]
  · rw [h5]
  · intro s slot direct hinv hlt
    have h := getUpvalue_idempotent_below_255 s slot direct hinv hlt
    exact ⟨h.1, h.2.1, h.2.2.1⟩

/-! ## C34: open upvalues and `sp` -/

/-- `openUpvalue` keeps every open upvalue of the frame below `sp`. -/
theorem openUpvalue_below (f : CallFrame) (slots : List UpvalueSlot) (pos : Nat) (ptr : ValPtr)
    (h : OpenBelowSp f) : OpenBelowSp (f.openUpvalue slots pos ptr).1 := by
  unfold CallFrame.openUpvalue
  split_ifs with h1
  · exact h
  · split
    · exact h
    · intro u hu
      rcases List.mem_cons.mp hu with e | e
      · rw [e]
        show pos < f.sp
        omega
      · exact h u e

/-- The entries that the `remove_if` of `close` keeps are below the new `sp`. -/
theorem closeFrom_below (stack : Nat → Value) (sp : Nat) :
    ∀ (us : List OpenUpvalue) (slots : List UpvalueSlot) (cells : List Value)
      (kept : List OpenUpvalue) (slots1 : List UpvalueSlot) (cells1 : List Value),
      closeFrom stack sp us slots cells = some (kept, slots1, cells1) →
      ∀ u, u ∈ kept → u.pos < sp := by
  intro us
  induction us with
  | nil =>
    intro slots cells kept slots1 cells1 h u hu
    simp only [closeFrom, Option.some.injEq, Prod.mk.injEq] at h
    rw [← h.1] at hu
    exact absurd hu (List.not_mem_nil _)
  | cons v rest ih =>
    intro slots cells kept slots1 cells1 h u hu
    simp only [closeFrom] at h
    split_ifs at h with h1
    · split at h
      · exact absurd h (by simp)
      · exact ih _ _ _ _ _ h u hu
    · split at h
      · exact absurd h (by simp)
      · rename_i k s1 c1 hk
        simp only [Option.some.injEq, Prod.mk.injEq] at h
        rw [← h.1] at hu
        rcases List.mem_cons.mp hu with e | e
        · rw [e]
          omega
        · exact ih _ _ _ _ _ hk u e

/-- `close` leaves every open upvalue of the frame below `sp`. -/
theorem close_below (f f1 : CallFrame) (stack : Nat → Value) (slots slots1 : List UpvalueSlot)
    (cells cells1 : List Value) (n : Nat)
    (h : f.close stack slots cells n = some (f1, slots1, cells1)) : OpenBelowSp f1 := by
  unfold CallFrame.close at h
  simp only at h
  split at h
  · exact absurd h (by simp)
  · rename_i kept s1 c1 hk
    simp only [Option.some.injEq, Prod.mk.injEq] at h
    rw [← h.1]
    exact closeFrom_below stack _ _ _ _ _ _ _ hk

/-- `closeAll` leaves no open upvalue. -/
theorem closeAll_below (f f1 : CallFrame) (stack : Nat → Value)
    (slots slots1 : List UpvalueSlot) (cells cells1 : List Value)
    (h : f.closeAll stack slots cells = some (f1, slots1, cells1)) : OpenBelowSp f1 := by
  unfold CallFrame.closeAll at h
  split at h
  · exact absurd h (by simp)
  · simp only [Option.some.injEq, Prod.mk.injEq] at h
    rw [← h.1]
    intro u hu
    exact absurd hu (List.not_mem_nil _)

/-- `push` keeps every open upvalue of the frame below `sp`. -/
theorem push_below (vm vm1 : VM) (v : Value) (u : Unit)
    (hpush : vm.push v = VMResult.ok u vm1) (h : OpenBelowSp vm.frame) :
    OpenBelowSp vm1.frame := by
  unfold VM.push at hpush
  split_ifs at hpush with h1
  · unfold VM.throwError at hpush
    split at hpush <;> exact absurd hpush (by simp)
  · simp only [VMResult.ok.injEq, true_and] at hpush
    rw [← hpush]
    intro w hw
    have h16 : STACK_SIZE = 16384 := rfl
    have hu : u16 (vm.frame.sp + 1) = vm.frame.sp + 1 := u16_of_lt (by omega)
    show w.pos < u16 (vm.frame.sp + 1)
    rw [hu]
    exact Nat.lt_succ_of_lt (h w hw)

/-- C34 (defect): the invariant holds in the initial state, but `pop` lowers `sp` without
closing upvalues.  From a frame that holds one value and no open upvalue, `OP_CLOSURE` opens an
upvalue at position 0 and two `OP_POP` empty the frame: the upvalue is still in the open list,
at position 0 with `sp = 0`.  `OP_SET_LOCAL` does the same: after it the frame has `sp = 1` and
an open upvalue at position 1. -/
theorem C34_pop_keeps_upvalue_open_above_sp :
    (∀ (code : Bytecode) (heap : Heap), OpenBelowSp (VM.new code heap).frame) ∧
    OpenBelowSp ex_vm_closure_pop.frame ∧
    (final_state (ex_vm_closure_pop.execute ex_host 3)).map
        (fun vm => (vm.frame.sp, vm.frame.openUpvals)) = some (0, [⟨0, 0⟩]) ∧
    (∀ vm, final_state (ex_vm_closure_pop.execute ex_host 3) = some vm →
      ¬ OpenBelowSp vm.frame) ∧
    OpenBelowSp ex_vm_closure_set_local.frame ∧
    (final_state (ex_vm_closure_set_local.execute ex_host 3)).map
        (fun vm => (vm.frame.sp, vm.frame.openUpvals)) = some (1, [⟨0, 1⟩]) ∧
    (∀ vm, final_state (ex_vm_closure_set_local.execute ex_host 3) = some vm →
      ¬ OpenBelowSp vm.frame) := by
  have h1 : (final_state (ex_vm_closure_pop.execute ex_host 3)).map
      (fun vm => (vm.frame.sp, vm.frame.openUpvals)) = some (0, [⟨0, 0⟩]) := by decide
  have h2 : (final_state (ex_vm_closure_set_local.execute ex_host 3)).map
      (fun vm => (vm.frame.sp, vm.frame.openUpvals)) = some (1, [⟨0, 1⟩]) := by decide
  refine ⟨?_, ?_, h1, ?_, ?_, h2, ?_⟩
  · intro code heap u hu
    exact absurd hu (List.not_mem_nil _)
  · intro u hu
    exact absurd hu (List.not_mem_nil _)
  · intro vm hvm hinv
    rw [hvm] at h1
    simp only [Option.map_some', Option.some.injEq, Prod.mk.injEq] at h1
    have := hinv ⟨0, 0⟩ (by rw [h1.2]; exact List.mem_singleton.mpr rfl)
    rw [h1.1] at this
    exact absurd this (by decide)
  · intro u hu
    exact absurd hu (List.not_mem_nil _)
  · intro vm hvm hinv
    rw [hvm] at h2
    simp only [Option.map_some', Option.some.injEq, Prod.mk.injEq] at h2
    have := hinv ⟨0, 1⟩ (by rw [h2.2]; exact List.mem_singleton.mpr rfl)
    rw [h2.1] at this
    exact absurd this (by decide)

/-! ## C35: the compile-time `sp` -/

/-- C35 (defect): `compile_atom` increments the compile-time `sp` for a number, whose code
pushes one value, but not for the symbols `null`, `true` and `false`, whose code pushes one value
as well: after `true` the scope has `sp = 0` while the frame has depth 1.  The forms inherit the
error: `(and true)` ends with the `sp` it started with, 0, while its code leaves one value; and
`compile_def` counts the name and the value and ends two above its `sp` on entry. -/
theorem C35_singleton_atoms_do_not_count :
    ((compile_subexpr (ex_num bits_3) ex_compiler (local_table.new none none)).scope_sp = some 1 ∧
      depth_after_run ex_host
        (compile_subexpr (ex_num bits_3) ex_compiler (local_table.new none none)) 1 = some 1) ∧
    ((compile_subexpr s_true ex_compiler (local_table.new none none)).scope_sp = some 0 ∧
      depth_after_run ex_host
        (compile_subexpr s_true ex_compiler (local_table.new none none)) 1 = some 1) ∧
    ((compile_subexpr s_false ex_compiler (local_table.new none none)).scope_sp = some 0 ∧
      depth_after_run ex_host
        (compile_subexpr s_false ex_compiler (local_table.new none none)) 1 = some 1) ∧
    ((compile_subexpr s_null ex_compiler (local_table.new none none)).scope_sp = some 0 ∧
      depth_after_run ex_host
        (compile_subexpr s_null ex_compiler (local_table.new none none)) 1 = some 1) ∧
    (∀ (dest : Bytecode) (heap : Heap) (l : local_table),
      compile_subexpr s_true ⟨dest, ex_symtab, heap⟩ l
        = compiler.write_byte ⟨dest, ex_symtab, heap⟩ l OP_TRUE) ∧
    ((compile_subexpr (ex_list [s_and, s_true]) ex_compiler
        (local_table.new none none)).scope_sp = some 0 ∧
      depth_after_run ex_host
        (compile_subexpr (ex_list [s_and, s_true]) ex_compiler (local_table.new none none)) 4
        = some 1) ∧
    (compile_subexpr prog_def_x_3 ex_compiler (local_table.new none none)).scope_sp = some 2 := by
  refine ⟨⟨by decide, by decide⟩, ⟨by decide, by decide⟩, ⟨by decide, by decide⟩,
    ⟨by decide, by decide⟩, fun _ _ _ => rfl, ⟨by decide, by decide⟩, by decide⟩

/-! ## C36: `find_local` -/

/-- The closed form `find_local_loop` of the loop of `find_local` agrees with its passes: a
result is the result of the first pass, and no result means that no number of passes ends the
loop. -/
theorem find_local_passes_spec (l : local_table) (name : Nat) :
    (∀ r, find_local_loop l name = some r →
      ∀ fuel, find_local_passes l name (fuel + 1) 0 = some r) ∧
    (find_local_loop l name = none →
      ∀ fuel levels, find_local_passes l name fuel levels = none) := by
  have hu : u32 (0 + 1) = 1 := rfl
  constructor
  · intro r h fuel
    unfold find_local_loop at h
    simp only [find_local_passes]
    cases hg : l.vars.get name with
    | some x =>
      rw [hg] at h
      exact h
    | none =>
      rw [hg] at h
      cases hc : l.cur_func <;> cases hp : l.parent <;>
        simp only [hc, hp, hu, Option.isSome, Option.isNone, if_true, if_false,
          Bool.false_eq_true] at h ⊢ <;>
        first
          | exact h
          | exact absurd h (by simp)
  · intro h fuel
    unfold find_local_loop at h
    induction fuel with
    | zero =>
      intro levels
      rfl
    | succ k ih =>
      intro levels
      simp only [find_local_passes]
      cases hg : l.vars.get name with
      | some x =>
        rw [hg] at h
        exact absurd h (by simp)
      | none =>
        rw [hg] at h
        cases hp : l.parent with
        | none =>
          simp only [hp, Option.isNone, if_true] at h
          exact absurd h (by simp)
        | some q =>
          simp only [Option.isNone, Bool.false_eq_true, if_false]
          exact ih _

/-- C36 (defect): in every scope created inside another scope, `find_local` does not terminate
for any symbol, whether or not an enclosing scope binds it: the new scope has no variables, the
loop never moves to the parent, and `l.parent == nullptr` stays false, so no number of passes
ends the loop.  Only a scope without parent ends the loop: with the result when it binds the
name, without result otherwise. -/
theorem C36_find_local_loops_in_nested_scope :
    (∀ (p : local_table) (func : Option Nat) (name fuel levels : Nat),
      find_local_passes (local_table.new (some p) func) name fuel levels = none) ∧
    (∀ (c : compiler) (p : local_table) (func : Option Nat) (name : Nat),
      find_local_loop (local_table.new (some p) func) name = none ∧
      (c.find_local (local_table.new (some p) func) name).output = none ∧
      (c.find_local (local_table.new (some p) func) name).scope_sp = none) ∧
    (∀ fuel, find_local_passes ex_scope_child_of_x 9 fuel 0 = none) ∧
    find_local_passes ex_scope_x 9 1 0 = some (some 4, 0) ∧
    (ex_compiler.find_local ex_scope_x 9).scope_sp = some 0 ∧
    find_local_passes (local_table.new none none) 9 1 0 = some (none, 0) := by
  have hloop : ∀ (p : local_table) (func : Option Nat) (name : Nat),
      find_local_loop (local_table.new (some p) func) name = none := by
    intro p func name
    rfl
  refine ⟨?_, ?_, ?_, by decide, by decide, by decide⟩
  · intro p func name fuel levels
    exact (find_local_passes_spec _ name).2 (hloop p func name) fuel levels
  · intro c p func name
    refine ⟨hloop p func name, ?_, ?_⟩
    · simp only [compiler.find_local, hloop p func name]
      rfl
    · simp only [compiler.find_local, hloop p func name]
      rfl
  · intro fuel
    exact (find_local_passes_spec ex_scope_child_of_x 9).2 rfl fuel 0

end fn
